import Mathlib

/-! OpenRCT2 text layout: a shallow embedding of `drawing/String.cpp`

Conventions of the embedding.

* A byte is a `Nat` (below 256 in every real buffer); a buffer is a `List Nat`.
  Memory past the modelled list reads as `0` and a write past it extends the list
  (the C buffers are larger than the strings they hold).
* A `const utf8 *` walking a string is the list of the bytes from the pointer on;
  advancing the pointer is `List.drop`.  A `utf8 *` into a buffer that is written
  to is an index into that buffer.
* A codepoint is a `Nat`; pixel coordinates and widths are `Int`.
* Loops are structural recursions on a fuel counter and return `none` when the
  fuel runs out.  The entry points pass enough fuel (proved below), so `none`
  then only stands for the one undefined behaviour that is modelled: a literal
  run that does not fit the 512 byte staging buffer of `ttf_process_glyph_run`.
-/

namespace OpenRCT2

/-! ## Format codes and UTF-8 helpers (localisation headers, not part of this excerpt) -/

/-- Modelled from the spec: numeric values of the format codes of
`localisation/FormatCodes.h`, which is not under src. The layout (codes up to 4 take one
argument byte, 5 to 16 none, 17 to 22 two, 23 and above four) is the one
`string_get_height_raw` and `ttf_process_format_code` spell out. -/
def FORMAT_MOVE_X : Nat := 1
/-- Modelled from the spec: see `FORMAT_MOVE_X`. -/
def FORMAT_ADJUST_PALETTE : Nat := 2
/-- Modelled from the spec: see `FORMAT_MOVE_X`. -/
def FORMAT_3 : Nat := 3
/-- Modelled from the spec: see `FORMAT_MOVE_X`. -/
def FORMAT_4 : Nat := 4
/-- Modelled from the spec: see `FORMAT_MOVE_X`. -/
def FORMAT_NEWLINE : Nat := 5
/-- Modelled from the spec: see `FORMAT_MOVE_X`. -/
def FORMAT_NEWLINE_SMALLER : Nat := 6
/-- Modelled from the spec: see `FORMAT_MOVE_X`. -/
def FORMAT_TINYFONT : Nat := 7
/-- Modelled from the spec: see `FORMAT_MOVE_X`. -/
def FORMAT_BIGFONT : Nat := 8
/-- Modelled from the spec: see `FORMAT_MOVE_X`. -/
def FORMAT_MEDIUMFONT : Nat := 9
/-- Modelled from the spec: see `FORMAT_MOVE_X`. -/
def FORMAT_SMALLFONT : Nat := 10
/-- Modelled from the spec: see `FORMAT_MOVE_X`. -/
def FORMAT_OUTLINE : Nat := 11
/-- Modelled from the spec: see `FORMAT_MOVE_X`. -/
def FORMAT_OUTLINE_OFF : Nat := 12
/-- Modelled from the spec: see `FORMAT_MOVE_X`. -/
def FORMAT_WINDOW_COLOUR_1 : Nat := 13
/-- Modelled from the spec: see `FORMAT_MOVE_X`. -/
def FORMAT_WINDOW_COLOUR_2 : Nat := 14
/-- Modelled from the spec: see `FORMAT_MOVE_X`. -/
def FORMAT_WINDOW_COLOUR_3 : Nat := 15
/-- Modelled from the spec: see `FORMAT_MOVE_X`. -/
def FORMAT_16 : Nat := 16
/-- Modelled from the spec: see `FORMAT_MOVE_X`. -/
def FORMAT_NEWLINE_X_Y : Nat := 17
/-- Modelled from the spec: see `FORMAT_MOVE_X`. -/
def FORMAT_INLINE_SPRITE : Nat := 23
/-- Modelled from the spec: first of the argument codes that `format_string` expands. -/
def FORMAT_ARGUMENT_CODE_START : Nat := 123
/-- Modelled from the spec: last of the argument codes that `format_string` expands. -/
def FORMAT_ARGUMENT_CODE_END : Nat := 141
/-- Modelled from the spec: first inline colour code. -/
def FORMAT_COLOUR_CODE_START : Nat := 142
/-- Modelled from the spec: last inline colour code. -/
def FORMAT_COLOUR_CODE_END : Nat := 155
/-- Modelled from the spec: the one format code outside the byte range. -/
def FORMAT_COMMA1DP16 : Nat := 20004

/-- Modelled from the spec: sprite base of the small font (`drawing/Font.h`, not under src). -/
def FONT_SPRITE_BASE_SMALL : Nat := 0
/-- Modelled from the spec: sprite base of the medium font. -/
def FONT_SPRITE_BASE_MEDIUM : Nat := 224
/-- Modelled from the spec: sprite base of the tiny font. -/
def FONT_SPRITE_BASE_TINY : Nat := 448
/-- Modelled from the spec: sprite base of the big font (the source writes the literal 672). -/
def FONT_SPRITE_BASE_BIG : Nat := 672

def TEXT_DRAW_FLAG_INSET : Nat := 1 <<< 0
def TEXT_DRAW_FLAG_OUTLINE : Nat := 1 <<< 1
def TEXT_DRAW_FLAG_DARK : Nat := 1 <<< 2
def TEXT_DRAW_FLAG_EXTRA_DARK : Nat := 1 <<< 3
def TEXT_DRAW_FLAG_Y_OFFSET_EFFECT : Nat := 1 <<< 29
def TEXT_DRAW_FLAG_TTF : Nat := 1 <<< 30
def TEXT_DRAW_FLAG_NO_DRAW : Nat := 1 <<< 31

/-- The byte `p[i]` of the memory a pointer `p` walks; `0` past the modelled bytes. -/
def byteAt (p : List Nat) (i : Nat) : Nat := p.getD i 0

/-- Modelled from the spec: `utf8_get_next` of `localisation/UTF8.cpp` (not under src): decodes
the codepoint at the pointer and returns it with the number of bytes it takes, which is
between 1 and 4. A byte that starts no sequence decodes to a space of one byte. -/
def utf8_get_next (char_ptr : List Nat) : Nat × Nat :=
  let c0 := byteAt char_ptr 0
  let c1 := byteAt char_ptr 1
  let c2 := byteAt char_ptr 2
  if c0 &&& 0x80 = 0 then (c0, 1)
  else if c0 &&& 0xE0 = 0xC0 then (((c0 &&& 0x1F) <<< 6) ||| (c1 &&& 0x3F), 2)
  else if c0 &&& 0xF0 = 0xE0 then
    (((c0 &&& 0x0F) <<< 12) ||| ((c1 &&& 0x3F) <<< 6) ||| (c2 &&& 0x3F), 3)
  else if c0 &&& 0xF8 = 0xF0 then
    (((c0 &&& 0x07) <<< 18) ||| ((c1 &&& 0x3F) <<< 12) ||| ((c1 &&& 0x3F) <<< 6)
      ||| (c2 &&& 0x3F), 4)
  else (32, 1)

/-- Modelled from the spec: `utf8_is_format_code` of `localisation/UTF8.cpp`: the reserved
codepoints, among them the terminator `0`. -/
def utf8_is_format_code (codepoint : Nat) : Bool :=
  if codepoint < 32 then true
  else if FORMAT_ARGUMENT_CODE_START ≤ codepoint ∧ codepoint ≤ FORMAT_ARGUMENT_CODE_END then true
  else if FORMAT_COLOUR_CODE_START ≤ codepoint ∧ codepoint ≤ FORMAT_COLOUR_CODE_END then true
  else if codepoint = FORMAT_COMMA1DP16 then true
  else false

/-- Modelled from the spec: `utf8_get_format_code_arg_length` of `localisation/UTF8.cpp`: the
declared number of raw argument bytes after a control code. -/
def utf8_get_format_code_arg_length (codepoint : Nat) : Nat :=
  if codepoint = FORMAT_MOVE_X ∨ codepoint = FORMAT_ADJUST_PALETTE ∨ codepoint = FORMAT_3
      ∨ codepoint = FORMAT_4 then 1
  else if codepoint = FORMAT_NEWLINE_X_Y then 2
  else if codepoint = FORMAT_INLINE_SPRITE then 4
  else 0

/-! ## Collaborators: sprite store, outline font provider, colour tables -/

/-- The part of a `rct_g1_element` the text code reads. -/
structure rct_g1_element where
  offset : List Nat
  width : Int

/-- The entries of `ColourMapA` the text code reads. -/
structure rct_colour_map where
  dark : Nat
  mid_dark : Nat
  mid_light : Nat
  light : Nat
  lighter : Nat
  colour_11 : Nat

/-- A rasterised run of the outline backend (`TTFSurface`): only its size is modelled. -/
structure TTFSurface where
  w : Int
  h : Int
  pitch : Int

/-- Everything `String.cpp` consumes from the rest of the program: tables and functions
of the sprite store, of the outline font provider and of the colour maps. -/
structure Env where
  font_sprite_get_codepoint_width : Nat → Nat → Int
  font_sprite_get_codepoint_sprite : Nat → Nat → Nat
  font_get_line_height : Nat → Int
  font_get_line_height_small : Nat → Int
  gfx_get_g1_element : Nat → Option rct_g1_element
  palette_to_g1_offset : Nat → Nat
  SPR_TEXT_PALETTE : Nat
  ColourMapA : Nat → rct_colour_map
  utf8_should_use_sprite_for_codepoint : Nat → Bool
  ttf_initialise : Bool
  ttf_font_loaded : Nat → Bool
  ttf_offset_x : Nat → Int
  ttf_offset_y : Nat → Int
  ttf_getwidth_cache_get_or_add : Nat → List Nat → Int
  ttf_surface_cache_get_or_add : Nat → List Nat → Option TTFSurface

/-- The process-wide render state. `gCurrentFontFlags` is the value the flags take once
promoted to the 32 bit `flags` field. -/
structure Globals where
  gCurrentFontSpriteBase : Nat
  gCurrentFontFlags : Nat
  gUseTrueTypeFont : Bool
  gCurrentWindowColours : List Nat
  text_palette : List Nat
  gLastDrawStringX : Int
  gLastDrawStringY : Int

/-- One call that reaches the destination surface. -/
inductive DrawOp where
  | glyph (sprite : Nat) (x y : Int) (palette : List Nat)
  | sprite (imageId : Nat) (x y : Int)
  | ttf (font : Nat) (text : List Nat) (drawX drawY width height : Int) (flags : Nat)
      (palette : List Nat)
  deriving DecidableEq, Repr

/-- The destination surface: its clip rectangle and the drawing calls made on it. -/
structure rct_drawpixelinfo where
  x : Int
  y : Int
  width : Int
  height : Int
  pitch : Int
  ops : List DrawOp
  deriving DecidableEq, Repr

structure text_draw_info where
  startX : Int
  startY : Int
  x : Int
  y : Int
  maxX : Int
  maxY : Int
  flags : Nat
  palette : List Nat
  font_sprite_base : Nat
  y_offset : List Int
  deriving DecidableEq, Repr

/-- The bytes of a C string: those before the first `0`. -/
def cstr (p : List Nat) : List Nat := p.takeWhile (fun b => b != 0)

/-- The store `p[i] = v`; a store past the modelled bytes extends them with zeros. -/
def poke (buf : List Nat) (i v : Nat) : List Nat :=
  if i < buf.length then buf.set i v
  else buf ++ List.replicate (i - buf.length) 0 ++ [v]

/-! ## Palette changes -/

/-- The four stores `palette_pointer[1..4] = byte i of v`. -/
def palette_store32 (palette : List Nat) (v : Nat) : List Nat :=
  (((palette.set 1 (v &&& 0xFF)).set 2 ((v >>> 8) &&& 0xFF)).set 3
    ((v >>> 16) &&& 0xFF)).set 4 ((v >>> 24) &&& 0xFF)

/-- The source's `colour_char`; the 32 bit entry of the text palette sprite is read and byte
swapped, which is a big-endian read of its four bytes. -/
def colour_char (env : Env) (colour : Nat) (current_font_flags : Nat) (palette : List Nat) :
    List Nat :=
  let colour32 :=
    match env.gfx_get_g1_element env.SPR_TEXT_PALETTE with
    | none => 0
    | some g1 =>
      let i := 4 * (colour &&& 0xFF)
      (byteAt g1.offset i <<< 24) ||| (byteAt g1.offset (i + 1) <<< 16)
        ||| (byteAt g1.offset (i + 2) <<< 8) ||| byteAt g1.offset (i + 3)
  let colour32 := if current_font_flags &&& 2 = 0 then colour32 &&& 0xFF0000FF else colour32
  palette_store32 palette colour32

/-- The source's `colour_char_window`. -/
def colour_char_window (env : Env) (colour : Nat) (current_font_flags : Nat)
    (palette : List Nat) : List Nat :=
  let colour := colour &&& 0x7F
  let eax := (env.ColourMapA colour).colour_11
  let eax := if current_font_flags &&& TEXT_DRAW_FLAG_OUTLINE ≠ 0 then eax ||| 0x0A0A00 else eax
  palette_store32 palette eax

/-! ## The glyph renderer -/

def ttf_draw_character_sprite (env : Env) (dpi : rct_drawpixelinfo) (codepoint : Nat)
    (info : text_draw_info) : rct_drawpixelinfo × text_draw_info :=
  let characterWidth := env.font_sprite_get_codepoint_width info.font_sprite_base codepoint
  let sprite := env.font_sprite_get_codepoint_sprite info.font_sprite_base codepoint
  if info.flags &&& TEXT_DRAW_FLAG_NO_DRAW = 0 then
    let x := info.x
    let y := info.y
    let (y, y_offset) :=
      if info.flags &&& TEXT_DRAW_FLAG_Y_OFFSET_EFFECT ≠ 0 then
        (y + info.y_offset.headD 0, info.y_offset.tail)
      else (y, info.y_offset)
    ({ dpi with ops := dpi.ops ++ [DrawOp.glyph sprite x y info.palette] },
      { info with y_offset := y_offset, x := info.x + characterWidth })
  else
    (dpi, { info with x := info.x + characterWidth })

/-- The loop of `ttf_draw_string_raw_sprite`: draws codepoint after codepoint up to the
first format code (the terminator is one). -/
def ttf_draw_string_raw_sprite_loop (env : Env) :
    Nat → rct_drawpixelinfo → List Nat → text_draw_info →
      Option (rct_drawpixelinfo × text_draw_info)
  | 0, _, _, _ => none
  | fuel + 1, dpi, ch, info =>
    let r := utf8_get_next ch
    if utf8_is_format_code r.1 then some (dpi, info)
    else
      let s := ttf_draw_character_sprite env dpi r.1 info
      ttf_draw_string_raw_sprite_loop env fuel s.1 (ch.drop r.2) s.2

def ttf_draw_string_raw_sprite (env : Env) (dpi : rct_drawpixelinfo) (text : List Nat)
    (info : text_draw_info) : Option (rct_drawpixelinfo × text_draw_info) :=
  ttf_draw_string_raw_sprite_loop env (text.length + 1) dpi text info

/-- The source's `ttf_draw_string_raw_ttf`. The two compositing passes are recorded as one
`DrawOp.ttf` with the clipped rectangle; the cursor advances by the width clipped on the
right only, as in the source. -/
def ttf_draw_string_raw_ttf (env : Env) (dpi : rct_drawpixelinfo) (text : List Nat)
    (info : text_draw_info) : Option (rct_drawpixelinfo × text_draw_info) :=
  if !env.ttf_initialise then some (dpi, info)
  else if !env.ttf_font_loaded info.font_sprite_base then
    ttf_draw_string_raw_sprite env dpi text info
  else if info.flags &&& TEXT_DRAW_FLAG_NO_DRAW ≠ 0 then
    let width := env.ttf_getwidth_cache_get_or_add info.font_sprite_base (cstr text)
    some (dpi, { info with x := info.x + width })
  else
    match env.ttf_surface_cache_get_or_add info.font_sprite_base (cstr text) with
    | none => some (dpi, info)
    | some surface =>
      let drawX := info.x + env.ttf_offset_x info.font_sprite_base
      let drawY := info.y + env.ttf_offset_y info.font_sprite_base
      let width := surface.w
      let height := surface.h
      let overflowX := (dpi.x + dpi.width) - (drawX + width)
      let overflowY := (dpi.y + dpi.height) - (drawY + height)
      let width := if overflowX < 0 then width + overflowX else width
      let height := if overflowY < 0 then height + overflowY else height
      some ({ dpi with ops := dpi.ops ++
                [DrawOp.ttf info.font_sprite_base (cstr text) drawX drawY width height
                  info.flags info.palette] },
            { info with x := info.x + width })

def ttf_draw_string_raw (env : Env) (dpi : rct_drawpixelinfo) (text : List Nat)
    (info : text_draw_info) : Option (rct_drawpixelinfo × text_draw_info) :=
  if info.flags &&& TEXT_DRAW_FLAG_TTF ≠ 0 then ttf_draw_string_raw_ttf env dpi text info
  else ttf_draw_string_raw_sprite env dpi text info

/-! ## The format-code interpreter -/

/-- The `switch` of `ttf_process_format_code` on the decoded `codepoint`, `nextCh` being
the pointer after the code. The 4 byte image id of an inline sprite is read as on the
little-endian targets. -/
def ttf_process_format_code_switch (env : Env) (g : Globals) (dpi : rct_drawpixelinfo)
    (codepoint : Nat) (nextCh : List Nat) (info : text_draw_info) :
    List Nat × rct_drawpixelinfo × text_draw_info :=
  if codepoint = FORMAT_MOVE_X then
    (nextCh.drop 1, dpi, { info with x := info.startX + (byteAt nextCh 0 % 256 : Nat) })
  else if codepoint = FORMAT_ADJUST_PALETTE then
    let eax := env.palette_to_g1_offset (byteAt nextCh 0 % 256)
    match env.gfx_get_g1_element eax with
    | none => (nextCh.drop 1, dpi, info)
    | some g1 =>
      let ebx := byteAt g1.offset 249 + 256
      let ebx := if info.flags &&& TEXT_DRAW_FLAG_OUTLINE = 0 then ebx &&& 0xFF else ebx
      let palette := (info.palette.set 1 (ebx &&& 0xFF)).set 2 ((ebx >>> 8) &&& 0xFF)
      let palette := (palette.set 3 (byteAt g1.offset 247)).set 4 (byteAt g1.offset 248)
      let palette := (palette.set 5 (byteAt g1.offset 250)).set 6 (byteAt g1.offset 251)
      (nextCh.drop 1, dpi, { info with palette := palette })
  else if codepoint = FORMAT_3 ∨ codepoint = FORMAT_4 then
    (nextCh.drop 1, dpi, info)
  else if codepoint = FORMAT_NEWLINE then
    let y := info.y + env.font_get_line_height info.font_sprite_base
    (nextCh, dpi, { info with x := info.startX, y := y })
  else if codepoint = FORMAT_NEWLINE_SMALLER then
    let y := info.y + env.font_get_line_height_small info.font_sprite_base
    (nextCh, dpi, { info with x := info.startX, y := y })
  else if codepoint = FORMAT_TINYFONT then
    (nextCh, dpi, { info with font_sprite_base := FONT_SPRITE_BASE_TINY })
  else if codepoint = FORMAT_SMALLFONT then
    (nextCh, dpi, { info with font_sprite_base := FONT_SPRITE_BASE_SMALL })
  else if codepoint = FORMAT_MEDIUMFONT then
    (nextCh, dpi, { info with font_sprite_base := FONT_SPRITE_BASE_MEDIUM })
  else if codepoint = FORMAT_BIGFONT then
    (nextCh, dpi, { info with font_sprite_base := 672 })
  else if codepoint = FORMAT_OUTLINE then
    (nextCh, dpi, { info with flags := info.flags ||| TEXT_DRAW_FLAG_OUTLINE })
  else if codepoint = FORMAT_OUTLINE_OFF then
    (nextCh, dpi, { info with flags := info.flags &&& (0xFFFFFFFF - TEXT_DRAW_FLAG_OUTLINE) })
  else if codepoint = FORMAT_WINDOW_COLOUR_1 then
    let palette := colour_char_window env (g.gCurrentWindowColours.getD 0 0)
      (info.flags % 65536) info.palette
    (nextCh, dpi, { info with palette := palette })
  else if codepoint = FORMAT_WINDOW_COLOUR_2 then
    let palette := colour_char_window env (g.gCurrentWindowColours.getD 1 0)
      (info.flags % 65536) info.palette
    (nextCh, dpi, { info with palette := palette })
  else if codepoint = FORMAT_WINDOW_COLOUR_3 then
    let palette := colour_char_window env (g.gCurrentWindowColours.getD 2 0)
      (info.flags % 65536) info.palette
    (nextCh, dpi, { info with palette := palette })
  else if codepoint = FORMAT_16 then
    (nextCh, dpi, info)
  else if codepoint = FORMAT_INLINE_SPRITE then
    let imageId := byteAt nextCh 0 % 256 + (byteAt nextCh 1 % 256) * 2 ^ 8
      + (byteAt nextCh 2 % 256) * 2 ^ 16 + (byteAt nextCh 3 % 256) * 2 ^ 24
    match env.gfx_get_g1_element (imageId &&& 0x7FFFF) with
    | none => (nextCh.drop 4, dpi, info)
    | some g1 =>
      let dpi :=
        if info.flags &&& TEXT_DRAW_FLAG_NO_DRAW = 0 then
          { dpi with ops := dpi.ops ++ [DrawOp.sprite imageId info.x info.y] }
        else dpi
      (nextCh.drop 4, dpi, { info with x := info.x + g1.width })
  else if FORMAT_COLOUR_CODE_START ≤ codepoint ∧ codepoint ≤ FORMAT_COLOUR_CODE_END then
    let palette := colour_char env ((codepoint - FORMAT_COLOUR_CODE_START) % 256)
      (info.flags % 65536) info.palette
    (nextCh, dpi, { info with palette := palette })
  else if codepoint ≤ 0x16 then
    (nextCh.drop 2, dpi, info)
  else
    (nextCh.drop 4, dpi, info)

/-- The source's `ttf_process_format_code`: returns the pointer after the code and the
argument bytes it consumed, with the changed context. -/
def ttf_process_format_code (env : Env) (g : Globals) (dpi : rct_drawpixelinfo)
    (text : List Nat) (info : text_draw_info) :
    List Nat × rct_drawpixelinfo × text_draw_info :=
  ttf_process_format_code_switch env g dpi (utf8_get_next text).1
    (text.drop (utf8_get_next text).2) info

/-- The scan of `ttf_process_glyph_run`: the number of bytes of the run that starts at
`ch` (after `len` bytes already taken) and the codepoint that ended it. -/
def ttf_process_glyph_run_scan (env : Env) (isTTF : Bool) :
    Nat → List Nat → Nat → Option (Nat × Nat)
  | 0, _, _ => none
  | fuel + 1, ch, len =>
    let r := utf8_get_next ch
    if utf8_is_format_code r.1 then some (len, r.1)
    else if isTTF && env.utf8_should_use_sprite_for_codepoint r.1 then some (len, r.1)
    else ttf_process_glyph_run_scan env isTTF fuel (ch.drop r.2) (len + r.2)

/-- The source's `ttf_process_glyph_run`. A run that ends at the terminator is rendered
from the text itself; any other run is first copied, with a terminator, into
`utf8 buffer[512]`: a run of more than 511 bytes does not fit and the model gives `none`. -/
def ttf_process_glyph_run (env : Env) (dpi : rct_drawpixelinfo) (text : List Nat)
    (info : text_draw_info) : Option (List Nat × rct_drawpixelinfo × text_draw_info) :=
  let isTTF := decide (info.flags &&& TEXT_DRAW_FLAG_TTF ≠ 0)
  match ttf_process_glyph_run_scan env isTTF (text.length + 1) text 0 with
  | none => none
  | some (length, codepoint) =>
    if codepoint = 0 then
      (ttf_draw_string_raw env dpi text info).map (fun s => (text.drop length, s.1, s.2))
    else if 511 < length then none
    else
      (ttf_draw_string_raw env dpi (text.take length ++ [0]) info).map
        (fun s => (text.drop length, s.1, s.2))

/-- The two stores that end every step of `ttf_process_string`. -/
def update_extents (info : text_draw_info) : text_draw_info :=
  { info with maxX := max info.maxX info.x, maxY := max info.maxY info.y }

def ttf_process_string_loop (env : Env) (g : Globals) (isTTF : Bool) :
    Nat → rct_drawpixelinfo → List Nat → text_draw_info →
      Option (rct_drawpixelinfo × text_draw_info)
  | 0, _, _, _ => none
  | fuel + 1, dpi, ch, info =>
    let r := utf8_get_next ch
    if r.1 = 0 then some (dpi, info)
    else if utf8_is_format_code r.1 then
      let s := ttf_process_format_code env g dpi ch info
      ttf_process_string_loop env g isTTF fuel s.2.1 s.1 (update_extents s.2.2)
    else if isTTF && env.utf8_should_use_sprite_for_codepoint r.1 then
      let s := ttf_draw_character_sprite env dpi r.1 info
      ttf_process_string_loop env g isTTF fuel s.1 (ch.drop r.2) (update_extents s.2)
    else
      match ttf_process_glyph_run env dpi ch info with
      | none => none
      | some s => ttf_process_string_loop env g isTTF fuel s.2.1 s.1 (update_extents s.2.2)

def ttf_process_string (env : Env) (g : Globals) (dpi : rct_drawpixelinfo) (text : List Nat)
    (info : text_draw_info) : Option (rct_drawpixelinfo × text_draw_info) :=
  ttf_process_string_loop env g (decide (info.flags &&& TEXT_DRAW_FLAG_TTF ≠ 0))
    (text.length + 1) dpi text info

/-- The contexts `ttf_process_string` passes through: the loop of
`ttf_process_string_loop`, giving the context as it stands after each processed element
(control code, single sprite glyph or glyph run) and the two stores that follow it. -/
def ttf_process_string_states (env : Env) (g : Globals) (isTTF : Bool) :
    Nat → rct_drawpixelinfo → List Nat → text_draw_info → Option (List text_draw_info)
  | 0, _, _, _ => none
  | fuel + 1, dpi, ch, info =>
    let r := utf8_get_next ch
    if r.1 = 0 then some []
    else if utf8_is_format_code r.1 then
      let s := ttf_process_format_code env g dpi ch info
      (ttf_process_string_states env g isTTF fuel s.2.1 s.1 (update_extents s.2.2)).map
        (fun l => update_extents s.2.2 :: l)
    else if isTTF && env.utf8_should_use_sprite_for_codepoint r.1 then
      let s := ttf_draw_character_sprite env dpi r.1 info
      (ttf_process_string_states env g isTTF fuel s.1 (ch.drop r.2) (update_extents s.2)).map
        (fun l => update_extents s.2 :: l)
    else
      match ttf_process_glyph_run env dpi ch info with
      | none => none
      | some s =>
        (ttf_process_string_states env g isTTF fuel s.2.1 s.1 (update_extents s.2.2)).map
          (fun l => update_extents s.2.2 :: l)

/-- The control codes `ttf_process_format_code` has a case for: the labels of its `switch`
and the inline colour codes its `default` branch tests for. -/
def is_recognised_format_code (codepoint : Nat) : Bool :=
  decide (codepoint = FORMAT_MOVE_X ∨ codepoint = FORMAT_ADJUST_PALETTE
    ∨ codepoint = FORMAT_3 ∨ codepoint = FORMAT_4
    ∨ codepoint = FORMAT_NEWLINE ∨ codepoint = FORMAT_NEWLINE_SMALLER
    ∨ codepoint = FORMAT_TINYFONT ∨ codepoint = FORMAT_SMALLFONT
    ∨ codepoint = FORMAT_MEDIUMFONT ∨ codepoint = FORMAT_BIGFONT
    ∨ codepoint = FORMAT_OUTLINE ∨ codepoint = FORMAT_OUTLINE_OFF
    ∨ codepoint = FORMAT_WINDOW_COLOUR_1 ∨ codepoint = FORMAT_WINDOW_COLOUR_2
    ∨ codepoint = FORMAT_WINDOW_COLOUR_3 ∨ codepoint = FORMAT_16
    ∨ codepoint = FORMAT_INLINE_SPRITE
    ∨ (FORMAT_COLOUR_CODE_START ≤ codepoint ∧ codepoint ≤ FORMAT_COLOUR_CODE_END))

/-- The null `dpi` that measuring passes; nothing is drawn on it. -/
def nullDpi : rct_drawpixelinfo := ⟨0, 0, 0, 0, 0, []⟩

/-- The context `ttf_get_string_width` sets up. The source leaves `palette` and `y_offset`
uninitialised; measuring never reads them. -/
def measure_info (g : Globals) : text_draw_info :=
  { startX := 0, startY := 0, x := 0, y := 0, maxX := 0, maxY := 0,
    flags := (g.gCurrentFontFlags ||| TEXT_DRAW_FLAG_NO_DRAW)
      ||| (if g.gUseTrueTypeFont then TEXT_DRAW_FLAG_TTF else 0),
    palette := [0, 0, 0, 0, 0, 0, 0, 0],
    font_sprite_base := g.gCurrentFontSpriteBase,
    y_offset := [] }

def ttf_get_string_width (env : Env) (g : Globals) (text : List Nat) : Option Int :=
  (ttf_process_string env g nullDpi text (measure_info g)).map (fun s => s.2.maxX)

def gfx_get_string_width (env : Env) (g : Globals) (buffer : List Nat) : Option Int :=
  ttf_get_string_width env g buffer

/-! ## Layout utilities -/

/-- The four stores `p[0] = '.'`, `p[1] = '.'`, `p[2] = '.'`, `p[3] = 0` at index `p`. -/
def poke_ellipsis (text : List Nat) (p : Nat) : List Nat :=
  poke (poke (poke (poke text p 46) (p + 1) 46) (p + 2) 46) (p + 3) 0

/-- The loop of `gfx_clip_string`; `ch` and `clipCh` are indices into `text`. -/
def gfx_clip_string_loop (env : Env) (g : Globals) (width : Int) :
    Nat → List Nat → Nat → Nat → Int → Option (List Nat × Int)
  | 0, _, _, _, _ => none
  | fuel + 1, text, ch, clipCh, clippedWidth =>
    let r := utf8_get_next (text.drop ch)
    let nextCh := ch + r.2
    if r.1 = 0 then (gfx_get_string_width env g text).map (fun w => (text, w))
    else if utf8_is_format_code r.1 then
      gfx_clip_string_loop env g width fuel text
        (nextCh + utf8_get_format_code_arg_length r.1) clipCh clippedWidth
    else
      let backup0 := byteAt text nextCh
      let backup1 := byteAt text (nextCh + 1)
      let backup2 := byteAt text (nextCh + 2)
      let backup3 := byteAt text (nextCh + 3)
      let text := poke_ellipsis text nextCh
      match gfx_get_string_width env g text with
      | none => none
      | some queryWidth =>
        if queryWidth < width then
          let text := poke (poke (poke (poke text nextCh backup0) (nextCh + 1) backup1)
            (nextCh + 2) backup2) (nextCh + 3) backup3
          gfx_clip_string_loop env g width fuel text nextCh nextCh queryWidth
        else
          some (poke_ellipsis text clipCh, clippedWidth)

/-- The source's `gfx_clip_string`: the buffer it leaves and the width it returns. -/
def gfx_clip_string (env : Env) (g : Globals) (text : List Nat) (width : Int) :
    Option (List Nat × Int) :=
  if width < 6 then some (poke text 0 0, 0)
  else
    match gfx_get_string_width env g text with
    | none => none
    | some clippedWidth =>
      if clippedWidth ≤ width then some (text, clippedWidth)
      else gfx_clip_string_loop env g width (text.length + 1) text 0 0 clippedWidth

/-- The loop of `get_string_end`: the offset one past the codepoint `0` that ends the
string, control code arguments being skipped. -/
def get_string_end_loop : Nat → List Nat → Nat → Option Nat
  | 0, _, _ => none
  | fuel + 1, ch, pos =>
    let r := utf8_get_next ch
    if r.1 = 0 then some (pos + r.2)
    else
      let n := r.2 + utf8_get_format_code_arg_length r.1
      get_string_end_loop fuel (ch.drop n) (pos + n)

/-- Modelled from the spec: `get_string_end` of `localisation/UTF8.cpp` (not under src): the
offset of the terminator of the string at `text`. -/
def get_string_end (text : List Nat) : Option Nat :=
  (get_string_end_loop (text.length + 1) text 0).map (fun e => e - 1)

/-- Modelled from the spec: `utf8_insert_codepoint(dst, 0)` of `localisation/UTF8.cpp` (not
under src): moves the string at index `dst`, terminator included, one byte up and stores
the one byte of codepoint `0` at `dst`; returns the buffer and the shift, `1`. -/
def utf8_insert_codepoint_zero (buf : List Nat) (dst : Nat) : Option (List Nat × Nat) :=
  (get_string_end (buf.drop dst)).map (fun e =>
    let moved := (List.range (e + 1)).map (fun i => byteAt buf (dst + i))
    (buf.take dst ++ [0] ++ moved ++ buf.drop (dst + e + 2), 1))

/-- The local variables of `gfx_wrap_string` with the buffer. -/
structure wrap_state where
  text : List Nat
  lineWidth : Int
  maxWidth : Int
  outNumLines : Int
  currentWord : Option Nat
  currentWidth : Int
  ch : Nat
  firstCh : Nat
  numCharactersOnLine : Nat
  deriving DecidableEq, Repr

/-- The three ways a line is ended share these stores. -/
def wrap_new_line (s : wrap_state) (text : List Nat) (ch : Nat) (w : Int) : wrap_state :=
  { s with text := text, maxWidth := max s.maxWidth w, outNumLines := s.outNumLines + 1,
           lineWidth := 0, currentWord := none, ch := ch, firstCh := ch,
           numCharactersOnLine := 0 }

/-- The second half of the body of the loop of `gfx_wrap_string`: the line up to and
with the codepoint at `ch` is measured, then the codepoint is taken on the line, or the
line is ended in front of it (no space on the line) or at the last space. -/
def gfx_wrap_string_place (env : Env) (g : Globals) (width : Int) (s : wrap_state)
    (nextCh : Nat) : Option wrap_state :=
  let saveCh := byteAt s.text nextCh
  let text := poke s.text nextCh 0
  match gfx_get_string_width env g (text.drop s.firstCh) with
  | none => none
  | some lineWidth =>
    let text := poke text nextCh saveCh
    let s := { s with text := text, lineWidth := lineWidth }
    if lineWidth ≤ width ∨ s.numCharactersOnLine = 0 then
      some { s with ch := nextCh, numCharactersOnLine := s.numCharactersOnLine + 1 }
    else
      match s.currentWord with
      | none =>
        (utf8_insert_codepoint_zero s.text s.ch).map (fun r =>
          wrap_new_line s r.1 (s.ch + r.2) s.lineWidth)
      | some currentWord =>
        some (wrap_new_line s (poke s.text currentWord 0) (currentWord + 1) s.currentWidth)

/-- One turn of the loop of `gfx_wrap_string`: `none` when a collaborator gives no
result, else the new state and whether the loop goes on. -/
def gfx_wrap_string_step (env : Env) (g : Globals) (width : Int) (s : wrap_state) :
    Option (wrap_state × Bool) :=
  let r := utf8_get_next (s.text.drop s.ch)
  let codepoint := r.1
  let nextCh := s.ch + r.2
  if codepoint = 0 then some (s, false)
  else if codepoint = 32 then
    (gfx_wrap_string_place env g width
      { s with currentWord := some s.ch, currentWidth := s.lineWidth,
               numCharactersOnLine := s.numCharactersOnLine + 1 } nextCh).map
      (fun s => (s, true))
  else if codepoint = FORMAT_NEWLINE then
    some (wrap_new_line s (poke s.text s.ch 0) (s.ch + 1) s.lineWidth, true)
  else if utf8_is_format_code codepoint then
    some ({ s with ch := nextCh + utf8_get_format_code_arg_length codepoint }, true)
  else
    (gfx_wrap_string_place env g width s nextCh).map (fun s => (s, true))

/-- The loop of `gfx_wrap_string`. -/
def gfx_wrap_string_loop (env : Env) (g : Globals) (width : Int) :
    Nat → wrap_state → Option wrap_state
  | 0, _ => none
  | fuel + 1, s =>
    match gfx_wrap_string_step env g width s with
    | none => none
    | some (s, false) => some s
    | some (s, true) => gfx_wrap_string_loop env g width fuel s

/-- Fuel that covers every run of the loop of `gfx_wrap_string` on a buffer of `n` bytes. -/
def wrap_fuel (n : Nat) : Nat := (n + 2) * (n + 2) + 1

/-- The result of `gfx_wrap_string`: the buffer it leaves, the returned width, and the values
stored in `*outNumLines` and `*outFontHeight`. -/
structure wrap_result where
  text : List Nat
  width : Int
  numLines : Int
  fontHeight : Nat
  deriving DecidableEq, Repr

def gfx_wrap_string (env : Env) (g : Globals) (text : List Nat) (width : Int) :
    Option wrap_result :=
  let s0 : wrap_state :=
    { text := text, lineWidth := 0, maxWidth := 0, outNumLines := 0, currentWord := none,
      currentWidth := 0, ch := 0, firstCh := 0, numCharactersOnLine := 0 }
  (gfx_wrap_string_loop env g width (wrap_fuel text.length) s0).map (fun s =>
    let maxWidth := max s.maxWidth s.lineWidth
    { text := s.text, width := if maxWidth = 0 then s.lineWidth else maxWidth,
      numLines := s.outNumLines, fontHeight := g.gCurrentFontSpriteBase })

/-- The lines a wrapped buffer holds: `n + 1` consecutive 0-terminated strings, read the
way `draw_string_centred_raw` walks them. -/
def wrapped_lines : Nat → List Nat → List (List Nat)
  | 0, buf => [cstr buf]
  | n + 1, buf => cstr buf :: wrapped_lines n (buf.drop ((cstr buf).length + 1))

/-! ## A concrete environment for evaluating the definitions -/

/-- A sprite font in which `W` is 10 pixels wide, a dot 2, a space 4 and any other
codepoint 6, whatever the font size; no sprite table, no outline font. -/
def demoEnv : Env :=
  { font_sprite_get_codepoint_width := fun _ c =>
      if c = 87 then 10 else if c = 46 then 2 else if c = 32 then 4 else 6,
    font_sprite_get_codepoint_sprite := fun base c => base + c,
    font_get_line_height := fun _ => 10,
    font_get_line_height_small := fun _ => 5,
    gfx_get_g1_element := fun _ => none,
    palette_to_g1_offset := fun _ => 0,
    SPR_TEXT_PALETTE := 0,
    ColourMapA := fun _ => ⟨0, 0, 0, 0, 0, 0⟩,
    utf8_should_use_sprite_for_codepoint := fun _ => false,
    ttf_initialise := false,
    ttf_font_loaded := fun _ => false,
    ttf_offset_x := fun _ => 0,
    ttf_offset_y := fun _ => 0,
    ttf_getwidth_cache_get_or_add := fun _ _ => 0,
    ttf_surface_cache_get_or_add := fun _ _ => none }

/-- Medium font, no flags, sprite backend. -/
def demoGlobals : Globals :=
  { gCurrentFontSpriteBase := FONT_SPRITE_BASE_MEDIUM, gCurrentFontFlags := 0,
    gUseTrueTypeFont := false, gCurrentWindowColours := [0, 0, 0],
    text_palette := [0, 0, 0, 0, 0, 0, 0, 0], gLastDrawStringX := 0, gLastDrawStringY := 0 }

/-! ## Well-formed formatted strings -/

/-- The number of argument bytes `ttf_process_format_code` steps over after the control
code `codepoint`: its `switch`, reduced to the advance of `nextCh`. -/
def ttf_format_code_arg_length (codepoint : Nat) : Nat :=
  if codepoint = FORMAT_MOVE_X then 1
  else if codepoint = FORMAT_ADJUST_PALETTE then 1
  else if codepoint = FORMAT_3 ∨ codepoint = FORMAT_4 then 1
  else if codepoint = FORMAT_NEWLINE then 0
  else if codepoint = FORMAT_NEWLINE_SMALLER then 0
  else if codepoint = FORMAT_TINYFONT then 0
  else if codepoint = FORMAT_SMALLFONT then 0
  else if codepoint = FORMAT_MEDIUMFONT then 0
  else if codepoint = FORMAT_BIGFONT then 0
  else if codepoint = FORMAT_OUTLINE then 0
  else if codepoint = FORMAT_OUTLINE_OFF then 0
  else if codepoint = FORMAT_WINDOW_COLOUR_1 then 0
  else if codepoint = FORMAT_WINDOW_COLOUR_2 then 0
  else if codepoint = FORMAT_WINDOW_COLOUR_3 then 0
  else if codepoint = FORMAT_16 then 0
  else if codepoint = FORMAT_INLINE_SPRITE then 4
  else if FORMAT_COLOUR_CODE_START ≤ codepoint ∧ codepoint ≤ FORMAT_COLOUR_CODE_END then 0
  else if codepoint ≤ 0x16 then 2
  else 4

/-- The bytes of one whole literal codepoint. -/
def is_literal_token (t : List Nat) : Bool :=
  (utf8_get_next t).2 == t.length && !utf8_is_format_code (utf8_get_next t).1

/-- The bytes of one control code other than the terminator, followed by exactly the
argument bytes the interpreter consumes after it. -/
def is_code_token (t : List Nat) : Bool :=
  utf8_is_format_code (utf8_get_next t).1 && (utf8_get_next t).1 != 0
    && t.length == (utf8_get_next t).2 + ttf_format_code_arg_length (utf8_get_next t).1

/-- One element of a well-formed formatted string. -/
def is_token (t : List Nat) : Bool := is_literal_token t || is_code_token t

/-- A token on which the layout scanners (`utf8_get_format_code_arg_length`) and the
interpreter agree about the number of argument bytes. -/
def is_synced_token (t : List Nat) : Bool :=
  is_literal_token t ||
    (is_code_token t &&
      utf8_get_format_code_arg_length (utf8_get_next t).1
        == ttf_format_code_arg_length (utf8_get_next t).1)

/-- The bits of the flags that select the backend and the measuring mode. -/
def mode_bits (flags : Nat) : Nat × Nat :=
  (flags &&& TEXT_DRAW_FLAG_TTF, flags &&& TEXT_DRAW_FLAG_NO_DRAW)

/-- Two contexts that differ at most in the cursor `x` and in the pointer `y_offset`: what
rendering a run of literal codepoints may change. -/
def cursor_frame (a b : text_draw_info) : Prop :=
  a.startX = b.startX ∧ a.startY = b.startY ∧ a.y = b.y ∧ a.maxX = b.maxX ∧ a.maxY = b.maxY
    ∧ a.flags = b.flags ∧ a.palette = b.palette ∧ a.font_sprite_base = b.font_sprite_base

/-- Whether a token goes on with the glyph run it is met in: a literal codepoint that is
not forced to the sprite font in true-type mode. -/
def in_run (env : Env) (isTTF : Bool) (t : List Nat) : Bool :=
  is_literal_token t && !(isTTF && env.utf8_should_use_sprite_for_codepoint (utf8_get_next t).1)

/-- The codepoint the first token of a list starts with; `0`, the terminator, for none. -/
def head_codepoint : List (List Nat) → Nat
  | [] => 0
  | t :: _ => (utf8_get_next t).1

/-- Whether the context selects the outline backend. -/
def is_ttf (info : text_draw_info) : Bool := decide (info.flags &&& TEXT_DRAW_FLAG_TTF ≠ 0)

/-- The codepoints a list of tokens starts its tokens with. -/
def codepoints (toks : List (List Nat)) : List Nat := toks.map (fun t => (utf8_get_next t).1)

/-- Codepoint after codepoint through `ttf_draw_character_sprite`. -/
def sprite_run (env : Env) (dpi : rct_drawpixelinfo) (info : text_draw_info)
    (cps : List Nat) : rct_drawpixelinfo × text_draw_info :=
  cps.foldl (fun s c => ttf_draw_character_sprite env s.1 c s.2) (dpi, info)

/-- The three dots of the ellipsis, as tokens. -/
def ellipsis_tokens : List (List Nat) := [[46], [46], [46]]

/-- The cut of a well-formed text after the tokens `p`, followed by the three dots,
measures less than `width`. -/
def cut_fits (env : Env) (g : Globals) (width : Int) (p : List (List Nat)) : Prop :=
  ∃ v, gfx_get_string_width env g (p.flatten ++ [46, 46, 46]) = some v ∧ v < width

/-- Every cut after a literal codepoint of `pre` fits. -/
def cuts_fit (env : Env) (g : Globals) (width : Int) (pre : List (List Nat)) : Prop :=
  ∀ p t r, pre = p ++ t :: r → is_literal_token t = true → cut_fits env g width (p ++ [t])

/-- What the loop of `gfx_clip_string` may leave for the well-formed text `toks` held in
the buffer `toks.flatten ++ 0 :: tail`, with the width it returns.

Either no cut after a literal codepoint reaches `width`: the buffer is as it was and the
width is the measured width of the text.  Or the cut after the literal token `t` is the
first that does not fit: the buffer holds the tokens `p` before the last cut that fitted
(`mid` are the control codes between that cut and `t`), three dots and a terminator; the
width is the one measured for that cut, and `cw` when no cut fitted (`p = c`, the cut the
loop started with). -/
def clip_post (env : Env) (g : Globals) (width : Int) (toks : List (List Nat))
    (tail : List Nat) (c : List (List Nat)) (cw : Int) (F : List Nat) (w : Int) : Prop :=
  (F = toks.flatten ++ 0 :: tail ∧ gfx_get_string_width env g toks.flatten = some w
    ∧ cuts_fit env g width toks)
  ∨ ∃ p mid t q junk v, toks = p ++ mid ++ t :: q
      ∧ (∀ u ∈ mid, is_literal_token u = false) ∧ is_literal_token t = true
      ∧ cuts_fit env g width (p ++ mid)
      ∧ gfx_get_string_width env g ((p ++ mid ++ [t]).flatten ++ [46, 46, 46]) = some v
      ∧ width ≤ v
      ∧ F = p.flatten ++ 46 :: 46 :: 46 :: 0 :: junk
      ∧ ((p = c ∧ w = cw)
          ∨ ((∃ p' t', p = p' ++ [t'] ∧ is_literal_token t' = true)
              ∧ gfx_get_string_width env g (p.flatten ++ [46, 46, 46]) = some w ∧ w < width))

/-- A plain printable ASCII character: a byte from 32 to 126 that is no control code. -/
def is_plain_ascii (b : Nat) : Bool :=
  decide (32 ≤ b) && decide (b < 127) && !utf8_is_format_code b

/-- The tokens of a string of plain ASCII characters: one byte each. -/
def ascii_tokens (s : List Nat) : List (List Nat) := s.map (fun b => [b])

/-- The sum of the sprite widths of codepoints in the font `font`. -/
def sprite_width (env : Env) (font : Nat) (cps : List Nat) : Int :=
  (cps.map (fun c => env.font_sprite_get_codepoint_width font c)).sum

/-- What a run of literal tokens adds to the cursor when it is measured. -/
def run_advance (env : Env) (info : text_draw_info) (lits : List (List Nat)) : Int :=
  if info.flags &&& TEXT_DRAW_FLAG_TTF ≠ 0 then
    if !env.ttf_initialise then 0
    else if !env.ttf_font_loaded info.font_sprite_base then
      sprite_width env info.font_sprite_base (codepoints lits)
    else env.ttf_getwidth_cache_get_or_add info.font_sprite_base (cstr lits.flatten)
  else sprite_width env info.font_sprite_base (codepoints lits)

/-- A token that is one plain ASCII character. -/
def is_plain_token (t : List Nat) : Bool :=
  match t with
  | [b] => is_plain_ascii b
  | _ => false

/-- Every glyph run of the well-formed string `toks` that ends in front of another token
(a control code, or a codepoint forced to the sprite font) has at most 511 bytes: it fits,
with its terminator, the staging buffer of `ttf_process_glyph_run`. -/
def runs_fit (env : Env) (isTTF : Bool) (toks : List (List Nat)) : Prop :=
  ∀ pre run t rest, toks = pre ++ run ++ t :: rest →
    (∀ v ∈ run, in_run env isTTF v = true) → in_run env isTTF t = false →
    run.flatten.length ≤ 511

/-! ## Word wrap of plain text: the lines behind the buffer -/

/-- A token of plain text: one whole literal codepoint without a zero byte, the space
being the byte 32. -/
def is_char_token (t : List Nat) : Bool :=
  is_literal_token t && t.all (fun b => b != 0)
    && ((utf8_get_next t).1 != 32 || t == [32])

/-- Whether a token is a space. -/
def is_space_token (t : List Nat) : Bool := (utf8_get_next t).1 == 32

/-- How the loop of `gfx_wrap_string` stands on a text of plain tokens: the lines it has
ended (each with whether it was ended at a space, which was then overwritten), the tokens
taken on the current line, the tokens still to come, and the bytes behind the
terminator. -/
structure wrap_view where
  lines : List (List (List Nat) × Bool)
  line : List (List Nat)
  rest : List (List Nat)
  tail : List Nat

/-- The bytes of the ended lines, each with its terminator. -/
def lines_bytes (lines : List (List (List Nat) × Bool)) : List Nat :=
  (lines.map (fun l => l.1.flatten ++ [0])).flatten

/-- The buffer a view stands for. -/
def view_text (v : wrap_view) : List Nat :=
  lines_bytes v.lines ++ (v.line.flatten ++ (v.rest.flatten ++ 0 :: v.tail))

/-- The tokens of the ended lines, with the spaces that were overwritten. -/
def lines_tokens (lines : List (List (List Nat) × Bool)) : List (List Nat) :=
  (lines.map (fun l => l.1 ++ (if l.2 then [[32]] else []))).flatten

/-- A line that respects the width: it is empty, or a single codepoint, or it measures at
most `width`. -/
def line_ok (env : Env) (g : Globals) (width : Int) (l : List (List Nat)) : Prop :=
  l = [] ∨ (∃ t, l = [t]) ∨ ∃ w, gfx_get_string_width env g l.flatten = some w ∧ w ≤ width

/-- What `currentWord` stands for: no space on the current line, or the last space of
the line, behind a part of the line that respects the width. -/
def word_inv (env : Env) (g : Globals) (width : Int) (base : Nat) (line : List (List Nat)) :
    Option Nat → Prop
  | none => ∀ t ∈ line, is_space_token t = false
  | some k => ∃ l1 l2, line = l1 ++ [32] :: l2 ∧ k = base + l1.flatten.length
      ∧ (∀ t ∈ l2, is_space_token t = false) ∧ line_ok env g width l1

/-- The state of the loop of `gfx_wrap_string` on the plain text `toks` agrees with the
view `v`. -/
def wrap_inv (env : Env) (g : Globals) (width : Int) (toks : List (List Nat))
    (s : wrap_state) (v : wrap_view) : Prop :=
  s.text = view_text v
  ∧ s.firstCh = (lines_bytes v.lines).length
  ∧ s.ch = (lines_bytes v.lines).length + v.line.flatten.length
  ∧ (s.numCharactersOnLine = 0 ↔ v.line = [])
  ∧ word_inv env g width (lines_bytes v.lines).length v.line s.currentWord
  ∧ line_ok env g width v.line
  ∧ (∀ l ∈ v.lines, line_ok env g width l.1)
  ∧ s.outNumLines = v.lines.length
  ∧ toks = lines_tokens v.lines ++ (v.line ++ v.rest)
  ∧ (∀ l ∈ v.lines, l.2 = false → l.1 ≠ [])

/-- A bound on the turns the loop still takes from a view. -/
def wrap_potential (v : wrap_view) : Nat :=
  (v.line ++ v.rest).flatten.length * ((v.line ++ v.rest).flatten.length + 1)
    + v.rest.flatten.length + 1

/-- What one turn of the loop of `gfx_wrap_string` does from a state that agrees with the
view `v`: without a result only when a line of more than 512 bytes is measured; going on,
with a new view that is nearer to the end; or stopping, at the end of the text. -/
def wrap_step_post (env : Env) (g : Globals) (width : Int) (toks : List (List Nat))
    (s : wrap_state) (v : wrap_view) : Option (wrap_state × Bool) → Prop
  | none => 512 < (v.line ++ v.rest).flatten.length
  | some (s1, true) => ∃ v1, wrap_inv env g width toks s1 v1
      ∧ wrap_potential v1 < wrap_potential v
      ∧ (v1.line ++ v1.rest).flatten.length ≤ (v.line ++ v.rest).flatten.length
  | some (s1, false) => s1 = s ∧ v.rest = []

/-- What the loop of `gfx_wrap_string` gives from a state that agrees with the view `v`. -/
def wrap_loop_post (env : Env) (g : Globals) (width : Int) (toks : List (List Nat))
    (v : wrap_view) : Option wrap_state → Prop
  | none => 512 < (v.line ++ v.rest).flatten.length
  | some s1 => ∃ v1, wrap_inv env g width toks s1 v1 ∧ v1.rest = []

/-! ## More concrete environments -/

/-- The demonstration font with one sprite in the store: image 5 is 16 pixels wide. -/
def spriteEnv : Env :=
  { demoEnv with
    gfx_get_g1_element := fun i => if i = 5 then some ⟨[], 16⟩ else none }

/-! ## Texts of several lines -/

/-- One of the two newline codes. -/
def is_newline_code (c : Nat) : Bool := c == FORMAT_NEWLINE || c == FORMAT_NEWLINE_SMALLER

/-- The tokens of the text made of the line `first` and of the further lines `more`, each
behind its newline code. -/
def lines_tokens_of (first : List (List Nat)) (more : List (Nat × List (List Nat))) :
    List (List Nat) :=
  first ++ (more.map (fun p => [p.1] :: p.2)).flatten

/-- The bytes of the text made of the line `first` and of the further lines `more`, each
behind its newline code. -/
def lines_text (first : List (List Nat)) (more : List (Nat × List (List Nat))) : List Nat :=
  (lines_tokens_of first more).flatten

/-- The width a line of literal codepoints that form one glyph run measures on its own: the
advance of the run, and `0` when that is negative or the line is empty. -/
def line_width (env : Env) (g : Globals) (l : List (List Nat)) : Int :=
  if l = [] then 0 else max 0 (run_advance env (measure_info g) l)

/-- A context that `ttf_get_string_width` has set up and the interpreter has taken to the
start of a line: the font and the flags are the current ones, the line starts at 0. -/
def measuring_context (g : Globals) (info : text_draw_info) : Prop :=
  info.startX = 0 ∧ info.x = 0 ∧ info.flags = (measure_info g).flags
    ∧ info.font_sprite_base = g.gCurrentFontSpriteBase ∧ 0 ≤ info.maxX

/-! ## The path shortener -/

/-- The stores of a copy: the bytes `bytes` written from index `dst` of the buffer on; a
store past the modelled bytes extends them with zeros. -/
def store_bytes (buf : List Nat) (dst : Nat) (bytes : List Nat) : List Nat :=
  (buf ++ List.replicate (dst - buf.length) 0).take dst ++ bytes
    ++ buf.drop (dst + bytes.length)

/-- Modelled from the spec: `safe_strcpy(destination, source, size)` of `util/Util.cpp` (not
under src), `destination` being the index `destination` of `buf`: nothing for `size = 0`,
else the string at `source`, cut to at most `size - 1` bytes, and a terminator. -/
def safe_strcpy (buf : List Nat) (destination : Nat) (source : List Nat) (size : Nat) :
    List Nat :=
  if size = 0 then buf else store_bytes buf destination ((cstr source).take (size - 1) ++ [0])

/-- The `do ... while` of `shorten_path`: from the index `begin + 1 = next` on, the index of
the first byte that is a path separator. It is only looked for when one is left; the scan
gives `none` when it runs out of the bytes it was given. -/
def shorten_path_scan (PATH_SEPARATOR : Nat) (path : List Nat) : Nat → Nat → Option Nat
  | 0, _ => none
  | fuel + 1, next =>
    if byteAt path next ≠ PATH_SEPARATOR ∧ byteAt path next ≠ 47 then
      shorten_path_scan PATH_SEPARATOR path fuel (next + 1)
    else some next

/-- One turn of the second loop of `shorten_path`, `begin + 1 = next`: the candidate that
starts at the next separator is written behind the three dots and measured; the turn gives
the buffer, the new `begin + 1` and whether the candidate fits. `bufferSize - 3` is
computed in `size_t`, taken as 64 bits wide: below 3 it wraps around. -/
def shorten_path_try (env : Env) (g : Globals) (PATH_SEPARATOR : Nat) (bufferSize : Nat)
    (path : List Nat) (availableWidth : Int) (next : Nat) (buffer : List Nat) :
    Option (List Nat × Nat × Bool) :=
  match shorten_path_scan PATH_SEPARATOR path (path.length + 1) next with
  | none => none
  | some begin =>
    let size := if 3 ≤ bufferSize then bufferSize - 3 else bufferSize + 2 ^ 64 - 3
    let buffer := safe_strcpy buffer 3 (path.drop begin) size
    match gfx_get_string_width env g buffer with
    | none => none
    | some w => some (buffer, begin + 1, decide (w ≤ availableWidth))

/-- The second loop of `shorten_path`, `x` turns being left: the function returns at the
first candidate that fits; behind the loop the whole path is copied. -/
def shorten_path_loop (env : Env) (g : Globals) (PATH_SEPARATOR : Nat) (bufferSize : Nat)
    (path : List Nat) (availableWidth : Int) : Nat → Nat → List Nat → Option (List Nat)
  | 0, _, buffer => some (safe_strcpy buffer 0 path bufferSize)
  | x + 1, next, buffer =>
    match shorten_path_try env g PATH_SEPARATOR bufferSize path availableWidth next buffer with
    | none => none
    | some (buffer, _, true) => some buffer
    | some (buffer, next, false) =>
      shorten_path_loop env g PATH_SEPARATOR bufferSize path availableWidth x next buffer

/-- The source's `shorten_path`; returns the buffer. `PATH_SEPARATOR` is the byte of the
platform's separator; the byte `/` (47) is one on every platform. -/
def shorten_path (env : Env) (g : Globals) (PATH_SEPARATOR : Nat) (buffer : List Nat)
    (bufferSize : Nat) (path : List Nat) (availableWidth : Int) : Option (List Nat) :=
  let length := (cstr path).length
  match gfx_get_string_width env g path with
  | none => none
  | some w =>
    if w ≤ availableWidth then some (safe_strcpy buffer 0 path bufferSize)
    else
      let path_separators := (List.range length).countP
        (fun x => decide (byteAt path x = PATH_SEPARATOR ∨ byteAt path x = 47))
      let buffer := safe_strcpy buffer 0 [46, 46, 46, 0] bufferSize
      shorten_path_loop env g PATH_SEPARATOR bufferSize path availableWidth path_separators 0
        buffer

/-- A token of a path: a token without a zero byte in which a separator byte only occurs
as a token of its own (as in every UTF-8 text). -/
def is_path_token (PATH_SEPARATOR : Nat) (t : List Nat) : Bool :=
  is_token t && t.all (fun b => b != 0)
    && (t.length == 1 || t.all (fun b => b != PATH_SEPARATOR && b != 47))

/-- A token that is a path separator. -/
def is_separator_token (PATH_SEPARATOR : Nat) (t : List Nat) : Bool :=
  t == [PATH_SEPARATOR] || t == [47]

/-- The ends of a path that the shortener may keep: the path from a separator on, the
leftmost separator first. -/
def path_suffixes (PATH_SEPARATOR : Nat) : List (List Nat) → List (List (List Nat))
  | [] => []
  | t :: rest =>
    if is_separator_token PATH_SEPARATOR t then
      (t :: rest) :: path_suffixes PATH_SEPARATOR rest
    else path_suffixes PATH_SEPARATOR rest

/-- Whether the three dots followed by the end `s` of a path measure at most `width`. -/
def candidate_fits (env : Env) (g : Globals) (width : Int) (s : List (List Nat)) : Bool :=
  match gfx_get_string_width env g (46 :: 46 :: 46 :: s.flatten) with
  | some w => decide (w ≤ width)
  | none => false

/-- What the path shortener is to leave, in the words of its description: the three dots
followed by the first of the candidate ends that fits, and `fallback` when none does. -/
def first_fitting (env : Env) (g : Globals) (width : Int) (fallback : List Nat)
    (cands : List (List (List Nat))) : List Nat :=
  match cands.find? (candidate_fits env g width) with
  | some s => 46 :: 46 :: 46 :: s.flatten
  | none => fallback

/-! ## Word wrap of well-formed text: the lines behind the buffer -/

/-- A token of a well-formed text for the word wrap: a whole literal codepoint, or a
control code followed by its argument bytes, the wrap scanner and the interpreter agreeing
on their number; the space and the newline code are single bytes (as in every UTF-8
text). -/
def is_wrap_token (t : List Nat) : Bool :=
  is_synced_token t && ((utf8_get_next t).1 != 32 || t == [32])
    && ((utf8_get_next t).1 != FORMAT_NEWLINE || t == [FORMAT_NEWLINE])

/-- How the loop of `gfx_wrap_string` stands on a well-formed text: the lines it has
ended, each with the token that was overwritten by its terminator (a space `[32]`, a
newline code `[5]`, or `none` when the terminator was inserted in front of a codepoint
that did not fit), the tokens taken on the current line, the tokens still to come, and the
bytes behind the terminator of the text. -/
structure wrap_trace where
  lines : List (List (List Nat) × Option (List Nat))
  line : List (List Nat)
  rest : List (List Nat)
  tail : List Nat

/-- The bytes of the ended lines in the buffer: each line and its terminator. -/
def trace_bytes (lines : List (List (List Nat) × Option (List Nat))) : List Nat :=
  (lines.map (fun l => l.1.flatten ++ [0])).flatten

/-- The buffer that belongs to a trace. -/
def trace_text (v : wrap_trace) : List Nat :=
  trace_bytes v.lines ++ (v.line.flatten ++ (v.rest.flatten ++ 0 :: v.tail))

/-- The tokens of the original text that the ended lines account for: the tokens of each
line and the token its terminator has overwritten. -/
def trace_tokens (lines : List (List (List Nat) × Option (List Nat))) : List (List Nat) :=
  (lines.map (fun l => l.1 ++ l.2.toList)).flatten

/-- What `currentWord` is for the current line `line`, which starts at index `base`: null
when the line holds no space, else the index of its last space. -/
def trace_word (base : Nat) (line : List (List Nat)) : Option Nat → Prop
  | none => ∀ t ∈ line, is_space_token t = false
  | some k => ∃ l1 l2, line = l1 ++ [32] :: l2 ∧ k = base + l1.flatten.length
      ∧ ∀ t ∈ l2, is_space_token t = false

/-- The loop invariant of `gfx_wrap_string` on the well-formed text `toks`: the state of
the loop agrees with the trace. -/
def trace_inv (toks : List (List Nat)) (s : wrap_state) (v : wrap_trace) : Prop :=
  s.text = trace_text v
    ∧ s.firstCh = (trace_bytes v.lines).length
    ∧ s.ch = (trace_bytes v.lines).length + v.line.flatten.length
    ∧ (s.numCharactersOnLine = 0 ↔ ∀ t ∈ v.line, is_literal_token t = false)
    ∧ trace_word (trace_bytes v.lines).length v.line s.currentWord
    ∧ s.outNumLines = v.lines.length
    ∧ toks = trace_tokens v.lines ++ (v.line ++ v.rest)
    ∧ (∀ l ∈ v.lines, (l.2 = none ∧ ∃ t ∈ l.1, is_literal_token t = true)
        ∨ l.2 = some [32] ∨ l.2 = some [FORMAT_NEWLINE])
    ∧ (∀ l ∈ v.lines, [FORMAT_NEWLINE] ∉ l.1)
    ∧ [FORMAT_NEWLINE] ∉ v.line

/-- The measure that decreases with every turn of the loop. -/
def trace_potential (v : wrap_trace) : Nat :=
  (v.line ++ v.rest).flatten.length * ((v.line ++ v.rest).flatten.length + 1)
    + v.rest.flatten.length + 1

/-- What one turn of the loop of `gfx_wrap_string` does from a state that agrees with the
trace `v`: without a result only when a line of more than 512 bytes is measured; going on,
with a new trace that is nearer to the end; or stopping, at the end of the text. -/
def trace_step_post (toks : List (List Nat)) (s : wrap_state) (v : wrap_trace) :
    Option (wrap_state × Bool) → Prop
  | none => 512 < (v.line ++ v.rest).flatten.length
  | some (s1, true) => ∃ v1, trace_inv toks s1 v1
      ∧ trace_potential v1 < trace_potential v
      ∧ (v1.line ++ v1.rest).flatten.length ≤ (v.line ++ v.rest).flatten.length
  | some (s1, false) => s1 = s ∧ v.rest = []

/-- What the loop of `gfx_wrap_string` gives from a state that agrees with the trace `v`. -/
def trace_loop_post (toks : List (List Nat)) (v : wrap_trace) : Option wrap_state → Prop
  | none => 512 < (v.line ++ v.rest).flatten.length
  | some s1 => ∃ v1, trace_inv toks s1 v1 ∧ v1.rest = []

/-- The lines a wrapped buffer holds, read the way
`gfx_draw_string_centred_wrapped_partial` walks them: `n + 1` strings, the next one starting
behind `get_string_end` of the one before. -/
def scanned_lines : Nat → List Nat → Option (List (List Nat))
  | 0, buf => (get_string_end buf).map (fun e => [buf.take e])
  | n + 1, buf =>
    (get_string_end buf).bind (fun e =>
      (scanned_lines n (buf.drop (e + 1))).map (fun ls => buf.take e :: ls))

/-- A sprite font in which each of the words `The`, `quick`, `brown` and `fox` measures 12
pixels and a space 4. -/
def foxEnv : Env :=
  { demoEnv with
    font_sprite_get_codepoint_width := fun _ c =>
      if c = 32 then 4
      else if c = 84 ∨ c = 104 ∨ c = 101 then 4
      else if c = 113 ∨ c = 117 ∨ c = 105 ∨ c = 111 ∨ c = 98 ∨ c = 110 then 2
      else if c = 99 ∨ c = 107 ∨ c = 114 ∨ c = 119 then 3
      else 5 }

/-! ## Compositing a surface of the outline backend -/

/-- What the main compositing pass of `ttf_draw_string_raw_ttf` takes from the palette
code (`blendColours`, `PALETTE_INDEX_0`), from the font descriptor (`hinting_threshold`)
and from the configuration (`enable_hinting`), none of which is under src. -/
structure ttf_hinting where
  blendColours : Nat → Nat → Nat
  PALETTE_INDEX_0 : Nat
  enable_hinting : Bool
  hinting_threshold : Int

/-- The store to `*dst` in the body of the main compositing loop of
`ttf_draw_string_raw_ttf`: the value stored for the source pixel `src`, the destination
pixel holding `dst`; `none` when nothing is stored. `colour` is `info->palette[1]`. -/
def ttf_composite_pixel (h : ttf_hinting) (flags : Nat) (colour : Nat) (src dst : Nat) :
    Option Nat :=
  let use_hinting := h.enable_hinting && decide (h.hinting_threshold > 0)
  if src ≠ 0 then
    if src > 180 ∨ use_hinting = false then some colour
    else if use_hinting = true ∧ (src : Int) > h.hinting_threshold then
      if flags &&& TEXT_DRAW_FLAG_OUTLINE ≠ 0 then
        some (h.blendColours colour h.PALETTE_INDEX_0)
      else some (h.blendColours colour dst)
    else none
  else none

/-- The store `*dst = v` of a value that was decided on, if one was. -/
def store_pixel (bits : List Nat) (dst : Nat) : Option Nat → List Nat
  | some v => poke bits dst v
  | none => bits

/-- The loop over `xx` of the main compositing pass, `n` pixels of the row being left;
`src` and `dst` are indices into the pixels of the surface and into the bits of the
destination. With the inset flag a covered pixel first stamps the pixel one row down and
one column to the right. Returns the two indices and the bits. -/
def ttf_composite_row (h : ttf_hinting) (flags : Nat) (palette pixels : List Nat)
    (width dstScanSkip : Nat) : Nat → Nat → Nat → List Nat → Nat × Nat × List Nat
  | 0, src, dst, bits => (src, dst, bits)
  | n + 1, src, dst, bits =>
    let bits :=
      if byteAt pixels src ≠ 0 ∧ flags &&& TEXT_DRAW_FLAG_INSET ≠ 0 then
        poke bits (dst + width + dstScanSkip + 1) (byteAt palette 3)
      else bits
    let bits := store_pixel bits dst
      (ttf_composite_pixel h flags (byteAt palette 1) (byteAt pixels src) (byteAt bits dst))
    ttf_composite_row h flags palette pixels width dstScanSkip n (src + 1) (dst + 1) bits

/-- The loop over `yy` of the main compositing pass, `m` rows being left: after each row
the two indices skip the rest of their scan lines. -/
def ttf_composite_rows (h : ttf_hinting) (flags : Nat) (palette pixels : List Nat)
    (width srcScanSkip dstScanSkip : Nat) : Nat → Nat → Nat → List Nat → List Nat
  | 0, _, _, bits => bits
  | m + 1, src, dst, bits =>
    let r := ttf_composite_row h flags palette pixels width dstScanSkip width src dst bits
    ttf_composite_rows h flags palette pixels width srcScanSkip dstScanSkip m
      (r.1 + srcScanSkip) (r.2.1 + dstScanSkip) r.2.2

/-- A hinting set-up for evaluating the compositing: blending gives the mean of the two
colours, hinting is enabled and the threshold of the font is 60. -/
def demoHinting : ttf_hinting :=
  { blendColours := fun a b => (a + b) / 2, PALETTE_INDEX_0 := 0, enable_hinting := true,
    hinting_threshold := 60 }

/-! ## The starting colour -/

/-- Modelled from the spec: the values of `TEXT_COLOUR_254` and `TEXT_COLOUR_255`, of the
two flags a colour may carry and of the font id `FONT_SPRITE_BASE_MEDIUM_EXTRA_DARK` (which
is -2, here as the 16 bit pattern `font_sprite_base` holds), all of headers that are not
under src. -/
def TEXT_COLOUR_254 : Nat := 254
/-- Modelled from the spec: see `TEXT_COLOUR_254`. -/
def TEXT_COLOUR_255 : Nat := 255
/-- Modelled from the spec: see `TEXT_COLOUR_254`. -/
def COLOUR_FLAG_OUTLINE : Nat := 1 <<< 5
/-- Modelled from the spec: see `TEXT_COLOUR_254`. -/
def COLOUR_FLAG_INSET : Nat := 1 <<< 6
/-- Modelled from the spec: see `TEXT_COLOUR_254`. -/
def FONT_SPRITE_BASE_MEDIUM_EXTRA_DARK : Nat := 0xFFFE

/-- The source's `ttf_process_initial_colour`. `colour` and the flags are the 32 bit
patterns of the `sint32` values; `font_sprite_base` is a 16 bit pattern, negative as
`sint16` from `0x8000` on. -/
def ttf_process_initial_colour (env : Env) (colour : Nat) (info : text_draw_info) :
    text_draw_info :=
  if colour ≠ TEXT_COLOUR_254 ∧ colour ≠ TEXT_COLOUR_255 then
    let flags := info.flags &&& (0xFFFFFFFF - (TEXT_DRAW_FLAG_INSET ||| TEXT_DRAW_FLAG_OUTLINE
      ||| TEXT_DRAW_FLAG_DARK ||| TEXT_DRAW_FLAG_EXTRA_DARK))
    let s :=
      if 0x8000 ≤ info.font_sprite_base then
        let flags := flags ||| TEXT_DRAW_FLAG_DARK
        let flags :=
          if info.font_sprite_base = FONT_SPRITE_BASE_MEDIUM_EXTRA_DARK then
            flags ||| TEXT_DRAW_FLAG_EXTRA_DARK
          else flags
        (flags, FONT_SPRITE_BASE_MEDIUM)
      else (flags, info.font_sprite_base)
    let flags := s.1
    let font_sprite_base := s.2
    let flags :=
      if colour &&& COLOUR_FLAG_OUTLINE ≠ 0 then flags ||| TEXT_DRAW_FLAG_OUTLINE else flags
    let colour := colour &&& (0xFFFFFFFF - COLOUR_FLAG_OUTLINE)
    if colour &&& COLOUR_FLAG_INSET = 0 then
      if flags &&& TEXT_DRAW_FLAG_INSET = 0 then
        { info with
          flags := flags, font_sprite_base := font_sprite_base,
          palette := colour_char_window env colour (flags % 65536) info.palette }
      else { info with flags := flags, font_sprite_base := font_sprite_base }
    else
      let flags := flags ||| TEXT_DRAW_FLAG_INSET
      let colour := colour &&& (0xFFFFFFFF - COLOUR_FLAG_INSET)
      let eax :=
        if flags &&& TEXT_DRAW_FLAG_DARK ≠ 0 then
          if flags &&& TEXT_DRAW_FLAG_EXTRA_DARK ≠ 0 then
            ((env.ColourMapA colour).mid_light <<< 16) ||| (env.ColourMapA colour).dark
          else ((env.ColourMapA colour).light <<< 16) ||| (env.ColourMapA colour).mid_dark
        else ((env.ColourMapA colour).lighter <<< 16) ||| (env.ColourMapA colour).mid_light
      { info with
        flags := flags, font_sprite_base := font_sprite_base,
        palette := palette_store32 info.palette eax }
  else info

/-- The flags `ttf_process_initial_colour` leaves: the four shading flags cleared and set
again from the font id and the colour. -/
def initial_colour_flags (colour : Nat) (info : text_draw_info) : Nat :=
  ((((info.flags &&& 0xFFFFFFF0)
    ||| (if 0x8000 ≤ info.font_sprite_base then TEXT_DRAW_FLAG_DARK else 0))
    ||| (if info.font_sprite_base = FONT_SPRITE_BASE_MEDIUM_EXTRA_DARK then
        TEXT_DRAW_FLAG_EXTRA_DARK else 0))
    ||| (if colour &&& COLOUR_FLAG_OUTLINE ≠ 0 then TEXT_DRAW_FLAG_OUTLINE else 0))
    ||| (if colour &&& COLOUR_FLAG_INSET ≠ 0 then TEXT_DRAW_FLAG_INSET else 0)

/-! ## Matching a file name against a pattern (`core/FileScanner.cpp`) -/

/-- Modelled from the spec: `toupper` of the C library in the "C" locale (not under src):
the letters `a` to `z` become `A` to `Z`, every other value stays. -/
def toupper (c : Nat) : Nat := if 97 ≤ c ∧ c ≤ 122 then c - 32 else c

/-- What a call of `MatchWildcard` comes to: it returns a value, or it reaches the loop
behind the scan, which never ends. -/
inductive match_outcome where
  | returns (b : Bool)
  | hangs
  deriving DecidableEq, Repr

/-- The loop of the case `'*'` of `MatchWildcard`:
`while (*fileName != 0) if (MatchWildcard(fileName++, pattern)) return true;` and
`return false` behind it; `call` is the recursive call on the pattern behind the stars. -/
def MatchWildcard_star (call : List Nat → Option match_outcome) :
    Nat → List Nat → Option match_outcome
  | 0, _ => none
  | n + 1, fileName =>
    if byteAt fileName 0 ≠ 0 then
      match call fileName with
      | none => none
      | some match_outcome.hangs => some match_outcome.hangs
      | some (match_outcome.returns true) => some (match_outcome.returns true)
      | some (match_outcome.returns false) => MatchWildcard_star call n (fileName.drop 1)
    else some (match_outcome.returns false)

/-- The source's `MatchWildcard`, with fuel for its loop and its recursion. The two strings
are the bytes at the two pointers. The loop behind the scan, `while (*pattern == '*')
++fileName;`, does not change what it tests: once entered it never ends. -/
def MatchWildcard_fuel : Nat → List Nat → List Nat → Option match_outcome
  | 0, _, _ => none
  | fuel + 1, fileName, pattern =>
    if byteAt fileName 0 ≠ 0 then
      if byteAt pattern 0 = 63 then
        if byteAt fileName 0 = 46 then some (match_outcome.returns false)
        else MatchWildcard_fuel fuel (fileName.drop 1) (pattern.drop 1)
      else if byteAt pattern 0 = 42 then
        let pattern := (pattern.drop 1).dropWhile (fun b => b == 42)
        if byteAt pattern 0 = 0 then some (match_outcome.returns false)
        else MatchWildcard_star (fun f => MatchWildcard_fuel fuel f pattern) fuel fileName
      else if toupper (byteAt fileName 0) ≠ toupper (byteAt pattern 0) then
        some (match_outcome.returns false)
      else MatchWildcard_fuel fuel (fileName.drop 1) (pattern.drop 1)
    else if byteAt pattern 0 = 42 then some match_outcome.hangs
    else some (match_outcome.returns (byteAt pattern 0 == 0))

/-- The source's `MatchWildcard` with fuel enough for every file name and pattern. -/
def MatchWildcard (fileName pattern : List Nat) : Option match_outcome :=
  MatchWildcard_fuel (fileName.length + pattern.length + 1) fileName pattern

/-- The wildcard semantics of the algorithm `MatchWildcard` is based on, in the words of
its description: `*` matches any sequence of characters, also the empty one, `?` matches
any single character other than `.`, every other character of the pattern matches the
same character, the case of ASCII letters being ignored, and the whole file name is to be
matched. The two strings are given without their terminators. -/
def wildcard_matches : List Nat → List Nat → Bool
  | [], fileName => fileName.isEmpty
  | p :: pattern, fileName =>
    if p = 42 then
      (List.range (fileName.length + 1)).any (fun k =>
        wildcard_matches pattern (fileName.drop k))
    else
      match fileName with
      | [] => false
      | c :: rest =>
        if p = 63 then c != 46 && wildcard_matches pattern rest
        else toupper c == toupper p && wildcard_matches pattern rest

/-- The value of `begin` in `shorten_path` behind the `do ... while` of turn `x` of the
second loop, no turn before having returned: the scan of turn `x` starts one byte behind
the place where the scan of the turn before stopped, the first one at index 0. -/
def shorten_path_begin (PATH_SEPARATOR : Nat) (path : List Nat) : Nat → Option Nat
  | 0 => shorten_path_scan PATH_SEPARATOR path (path.length + 1) 0
  | x + 1 =>
    (shorten_path_begin PATH_SEPARATOR path x).bind (fun begin =>
      shorten_path_scan PATH_SEPARATOR path (path.length + 1) (begin + 1))

/-- The indices of the separator bytes of a path, in front of its terminator, in rising
order. -/
def separator_indices (PATH_SEPARATOR : Nat) (path : List Nat) : List Nat :=
  (List.range (cstr path).length).filter
    (fun x => decide (byteAt path x = PATH_SEPARATOR ∨ byteAt path x = 47))

/-! ## The file scanner (`core/FileScanner.cpp`) -/

/-- The `do ... while` of `FileScannerBase::GetPatterns` on the bytes `s` of
`delimitedPatterns.c_str()`: `start` and `ch` are indices into them, `patterns` is the
vector filled so far. -/
def GetPatterns_loop (s : List Nat) : Nat → Nat → Nat → List (List Nat) → Option (List (List Nat))
  | 0, _, _, _ => none
  | fuel + 1, start, ch, patterns =>
    let c := byteAt s ch
    let length := ch - start
    let patterns :=
      if (c = 0 ∨ c = 59) ∧ 0 < length then patterns ++ [(s.drop start).take length]
      else patterns
    let start := if c = 0 ∨ c = 59 then ch + 1 else start
    if c ≠ 0 then GetPatterns_loop s fuel start (ch + 1) patterns else some patterns

/-- The source's `FileScannerBase::GetPatterns`: the patterns of a string of patterns
delimited by `;` (59). -/
def GetPatterns (delimitedPatterns : List Nat) : Option (List (List Nat)) :=
  GetPatterns_loop delimitedPatterns (delimitedPatterns.length + 1) 0 0 []

/-- The pieces of a string between its delimiters `sep`, in the words of the description
of `GetPatterns`: the string is split at every delimiter, so a string with `n` delimiters
has `n + 1` pieces, some of which may be empty. -/
def split_pieces (sep : Nat) : List Nat → List (List Nat)
  | [] => [[]]
  | b :: rest =>
    if b = sep then [] :: split_pieces sep rest
    else (b :: (split_pieces sep rest).headD []) :: (split_pieces sep rest).tail

/-- An entry of a directory, as `GetDirectoryChildren` gives it: a file with its name, size
and time of modification, or a directory with its name. The directory tree is finite: the
entry of a directory carries `Listing`, the entries `GetDirectoryChildren` gives for the
path of that directory. -/
inductive DirectoryChild where
  | DC_DIRECTORY (Name : List Nat) (Listing : List DirectoryChild)
  | DC_FILE (Name : List Nat) (Size : Nat) (LastModified : Nat)

/-- Modelled from the spec: a path is held as the list of the names from the root
directory on; `String::Set` and `Path::Append` (`core/String.hpp`, `core/Path.hpp`, not
under src) copy a path and add a name to it. -/
abbrev ScanPath := List (List Nat)

/-- The source's `FileScannerBase::DirectoryState`. -/
structure DirectoryState where
  Path : ScanPath
  Listing : List DirectoryChild
  Index : Int

/-- The source's `FileInfo`, the three fields `Next` fills. -/
structure FileInfo where
  Name : List Nat
  Size : Nat
  LastModified : Nat
  deriving DecidableEq, Repr

/-- The members of the source's `FileScannerBase`; the stack has its top at the head. -/
structure FileScannerBase where
  _rootPath : ScanPath
  _patterns : List (List Nat)
  _recurse : Bool
  _started : Bool
  _directoryStack : List DirectoryState
  _currentFileInfo : FileInfo
  _currentPath : ScanPath

/-- The source's `FileScannerBase::Reset`. -/
def FileScannerBase.Reset (s : FileScannerBase) : FileScannerBase :=
  { s with _started := false, _directoryStack := [], _currentPath := [] }

/-- The source's `FileScannerBase::PushState`; `Listing` is what `GetDirectoryChildren`
gives for `directory`. -/
def PushState (directory : ScanPath) (Listing : List DirectoryChild)
    (_directoryStack : List DirectoryState) : List DirectoryState :=
  { Path := directory, Listing := Listing, Index := -1 } :: _directoryStack

/-- The source's `FileScannerBase::PatternMatch`: the patterns are tried in their order;
a call of `MatchWildcard` that does not return keeps `PatternMatch` from returning. -/
def PatternMatch : List (List Nat) → List Nat → Option match_outcome
  | [], _ => some (match_outcome.returns false)
  | pattern :: rest, fileName =>
    match MatchWildcard fileName pattern with
    | none => none
    | some match_outcome.hangs => some match_outcome.hangs
    | some (match_outcome.returns true) => some (match_outcome.returns true)
    | some (match_outcome.returns false) => PatternMatch rest fileName

/-- How the `while` loop of `Next` is left: with a file found (the stack, the path and the
file information as they are then), with the stack empty, or not at all. -/
inductive loop_outcome where
  | found (stack : List DirectoryState) (path : ScanPath) (info : FileInfo)
  | finished
  | hangs

/-- The `while (_directoryStack.size() != 0)` loop of `FileScannerBase::Next`. An index
outside of the listing (below 0) gives no result. -/
def Next_loop (_patterns : List (List Nat)) (_recurse : Bool) :
    Nat → List DirectoryState → Option loop_outcome
  | 0, _ => none
  | _ + 1, [] => some loop_outcome.finished
  | fuel + 1, state :: below =>
    let state := { state with Index := state.Index + 1 }
    if state.Index ≥ (state.Listing.length : Int) then
      Next_loop _patterns _recurse fuel below
    else if state.Index < 0 then none
    else
      match state.Listing[state.Index.toNat]? with
      | none => none
      | some (DirectoryChild.DC_DIRECTORY Name Listing) =>
        if _recurse then
          Next_loop _patterns _recurse fuel
            (PushState (state.Path ++ [Name]) Listing (state :: below))
        else Next_loop _patterns _recurse fuel (state :: below)
      | some (DirectoryChild.DC_FILE Name Size LastModified) =>
        match PatternMatch _patterns Name with
        | none => none
        | some match_outcome.hangs => some loop_outcome.hangs
        | some (match_outcome.returns true) =>
          some (loop_outcome.found (state :: below) (state.Path ++ [Name])
            ⟨Name, Size, LastModified⟩)
        | some (match_outcome.returns false) =>
          Next_loop _patterns _recurse fuel (state :: below)

mutual
/-- The number of turns of the loop of `Next` an entry can take. -/
def child_size : DirectoryChild → Nat
  | DirectoryChild.DC_DIRECTORY _ Listing => listing_size Listing + 2
  | DirectoryChild.DC_FILE _ _ _ => 1
/-- The number of turns of the loop of `Next` the entries of a listing can take. -/
def listing_size : List DirectoryChild → Nat
  | [] => 0
  | child :: rest => child_size child + listing_size rest
end

/-- The number of turns of the loop of `Next` that a stack can still take. -/
def stack_size : List DirectoryState → Nat
  | [] => 0
  | state :: below =>
    listing_size (state.Listing.drop (state.Index + 1).toNat) + 1 + stack_size below

/-- What a call of `Next` comes to: it returns a value, leaving the scanner in a new
state, or it does not return. -/
inductive scan_outcome where
  | returns (found : Bool) (s : FileScannerBase)
  | hangs

/-- The source's `FileScannerBase::Next`; `root` is what `GetDirectoryChildren` gives for
`_rootPath`. The loop is given as many turns as the stack can take. -/
def FileScannerBase.Next (root : List DirectoryChild) (s : FileScannerBase) :
    Option scan_outcome :=
  let s :=
    if s._started = false then
      { s with _started := true,
               _directoryStack := PushState s._rootPath root s._directoryStack }
    else s
  match Next_loop s._patterns s._recurse (stack_size s._directoryStack + 1)
      s._directoryStack with
  | none => none
  | some loop_outcome.hangs => some scan_outcome.hangs
  | some loop_outcome.finished =>
    some (scan_outcome.returns false { s with _directoryStack := [] })
  | some (loop_outcome.found stack path info) =>
    some (scan_outcome.returns true
      { s with _directoryStack := stack, _currentPath := path, _currentFileInfo := info })

/-- What `n` calls of `Next`, one after the other, give: for each call the path it has
stored, or `none` when it has returned false; no result when one of the calls does not
return. -/
def Next_results (root : List DirectoryChild) : Nat → FileScannerBase →
    Option (List (Option ScanPath))
  | 0, _ => some []
  | n + 1, s =>
    match FileScannerBase.Next root s with
    | some (scan_outcome.returns found s1) =>
      (Next_results root n s1).map
        (fun l => (if found then some s1._currentPath else none) :: l)
    | _ => none

mutual
/-- The files of an entry in depth-first listing order, in the words of the description of
`Next`: a file is itself, a directory stands for the files of its listing when the scan
recurses and for nothing when it does not. Each file is given with the path of its
directory and its name. -/
def child_entries (recurse : Bool) (path : ScanPath) :
    DirectoryChild → List (ScanPath × List Nat)
  | DirectoryChild.DC_DIRECTORY Name Listing =>
    if recurse then listing_entries recurse (path ++ [Name]) Listing else []
  | DirectoryChild.DC_FILE Name _ _ => [(path, Name)]
/-- The files of a listing in depth-first listing order: the files of each entry, a
subdirectory's files standing in front of the later entries of its parent. -/
def listing_entries (recurse : Bool) (path : ScanPath) :
    List DirectoryChild → List (ScanPath × List Nat)
  | [] => []
  | child :: rest => child_entries recurse path child ++ listing_entries recurse path rest
end

/-- The files a stack of `Next` still stands for, in the order of the scan: for each state,
from the top down, the files of the entries behind its index. -/
def stack_entries (recurse : Bool) : List DirectoryState → List (ScanPath × List Nat)
  | [] => []
  | state :: below =>
    listing_entries recurse state.Path (state.Listing.drop (state.Index + 1).toNat)
      ++ stack_entries recurse below

/-- Whether `PatternMatch` returns true for a name. -/
def pattern_matches (patterns : List (List Nat)) (fileName : List Nat) : Bool :=
  PatternMatch patterns fileName == some (match_outcome.returns true)

/-- A small directory tree: the files `a.td6` and `b.txt`, the directory `sub` with the
file `c.td6`, and the file `d.td6`. -/
def demoTree : List DirectoryChild :=
  [DirectoryChild.DC_FILE [97, 46, 116, 100, 54] 1 0,
   DirectoryChild.DC_FILE [98, 46, 116, 120, 116] 2 0,
   DirectoryChild.DC_DIRECTORY [115, 117, 98] [DirectoryChild.DC_FILE [99, 46, 116, 100, 54] 3 0],
   DirectoryChild.DC_FILE [100, 46, 116, 100, 54] 4 0]

/-- A scanner as it is constructed for the patterns `patterns`: reset. -/
def demoScanner (patterns : List (List Nat)) (recurse : Bool) : FileScannerBase :=
  { _rootPath := [], _patterns := patterns, _recurse := recurse, _started := false,
    _directoryStack := [], _currentFileInfo := ⟨[], 0, 0⟩, _currentPath := [] }

/-- The name of an entry that is a file. -/
def file_name : DirectoryChild → Option (List Nat)
  | DirectoryChild.DC_DIRECTORY _ _ => none
  | DirectoryChild.DC_FILE Name _ _ => some Name

/-! ## The height of a formatted string -/

/-- The value of a byte held in a `char`: where plain `char` is signed the bytes from 128
on are negative. -/
def char_value (char_signed : Bool) (b : Nat) : Int :=
  if char_signed ∧ 128 ≤ b then (b : Int) - 256 else b

/-- The loop of `string_get_height_raw`; `ch` is the buffer from the pointer `ch` on. -/
def string_get_height_raw_loop (char_signed : Bool) : Nat → List Nat → Nat → Int → Option Int
  | 0, _, _, _ => none
  | fuel + 1, ch, fontBase, height =>
    if byteAt ch 0 = 0 then some height
    else
      let c := char_value char_signed (byteAt ch 0)
      let ch := ch.drop 1
      if c = FORMAT_NEWLINE then
        if fontBase = FONT_SPRITE_BASE_SMALL ∨ fontBase = FONT_SPRITE_BASE_MEDIUM then
          string_get_height_raw_loop char_signed fuel ch fontBase (height + 10)
        else if fontBase = FONT_SPRITE_BASE_TINY then
          string_get_height_raw_loop char_signed fuel ch fontBase (height + 6)
        else string_get_height_raw_loop char_signed fuel ch fontBase (height + 18)
      else if c = FORMAT_NEWLINE_SMALLER then
        if fontBase = FONT_SPRITE_BASE_SMALL ∨ fontBase = FONT_SPRITE_BASE_MEDIUM then
          string_get_height_raw_loop char_signed fuel ch fontBase (height + 5)
        else if fontBase = FONT_SPRITE_BASE_TINY then
          string_get_height_raw_loop char_signed fuel ch fontBase (height + 3)
        else string_get_height_raw_loop char_signed fuel ch fontBase (height + 9)
      else if c = FORMAT_TINYFONT then
        string_get_height_raw_loop char_signed fuel ch FONT_SPRITE_BASE_TINY height
      else if c = FORMAT_BIGFONT then
        string_get_height_raw_loop char_signed fuel ch FONT_SPRITE_BASE_BIG height
      else if c = FORMAT_MEDIUMFONT then
        string_get_height_raw_loop char_signed fuel ch FONT_SPRITE_BASE_MEDIUM height
      else if c = FORMAT_SMALLFONT then
        string_get_height_raw_loop char_signed fuel ch FONT_SPRITE_BASE_SMALL height
      else if c ≥ 32 then string_get_height_raw_loop char_signed fuel ch fontBase height
      else if c ≤ 4 then string_get_height_raw_loop char_signed fuel (ch.drop 1) fontBase height
      else if c ≤ 16 then string_get_height_raw_loop char_signed fuel ch fontBase height
      else if c ≤ 22 then string_get_height_raw_loop char_signed fuel (ch.drop 2) fontBase height
      else string_get_height_raw_loop char_signed fuel (ch.drop 4) fontBase height

/-- The source's `string_get_height_raw`. `char_signed` says whether plain `char` is signed
on the platform; `fontBase` is the current font as the 16 bit unsigned value it is copied
to. -/
def string_get_height_raw (char_signed : Bool) (g : Globals) (buffer : List Nat) :
    Option Int :=
  let fontBase := g.gCurrentFontSpriteBase
  let height : Int :=
    if fontBase ≤ FONT_SPRITE_BASE_MEDIUM then 10
    else if fontBase = FONT_SPRITE_BASE_TINY then 6
    else 0
  string_get_height_raw_loop char_signed (buffer.length + 1) buffer fontBase height

/-- An element of a formatted string as a sequence of bytes: a byte from 32 on (a
printable character or a byte of one), or a control code below 32 followed by as many
argument bytes as the interpreter steps over. -/
def is_height_token (t : List Nat) : Bool :=
  match t with
  | [] => false
  | c :: args =>
    c != 0 && (if c < 32 then args.length == ttf_format_code_arg_length c else args.isEmpty)

/-- The height a font starts with, in the words of the description: 10 for small and
medium, 6 for tiny, 0 for any other font. -/
def font_start_height (font : Nat) : Int :=
  if font = FONT_SPRITE_BASE_SMALL ∨ font = FONT_SPRITE_BASE_MEDIUM then 10
  else if font = FONT_SPRITE_BASE_TINY then 6
  else 0

/-- The height of a line of a font, in the words of the description: 10 for small and
medium, 6 for tiny, 18 otherwise. -/
def font_line_height (font : Nat) : Int :=
  if font = FONT_SPRITE_BASE_SMALL ∨ font = FONT_SPRITE_BASE_MEDIUM then 10
  else if font = FONT_SPRITE_BASE_TINY then 6
  else 18

/-- What the elements of a string add to its height, in the words of the description: a
newline code the line height of the font active at that point, a newline-smaller code half
of it, a font selector changes the font, anything else adds nothing. -/
def lines_height : Nat → List (List Nat) → Int
  | _, [] => 0
  | font, t :: rest =>
    if t = [FORMAT_NEWLINE] then font_line_height font + lines_height font rest
    else if t = [FORMAT_NEWLINE_SMALLER] then font_line_height font / 2 + lines_height font rest
    else if t = [FORMAT_TINYFONT] then lines_height FONT_SPRITE_BASE_TINY rest
    else if t = [FORMAT_BIGFONT] then lines_height FONT_SPRITE_BASE_BIG rest
    else if t = [FORMAT_MEDIUMFONT] then lines_height FONT_SPRITE_BASE_MEDIUM rest
    else if t = [FORMAT_SMALLFONT] then lines_height FONT_SPRITE_BASE_SMALL rest
    else lines_height font rest

/-! ## The width of a text of several lines -/

/-- The loop of `gfx_get_string_width_new_lined`; `ch` and `firstCh` are indices into
`text`. The byte at `nextCh` is set to 0 for the measurement and put back behind it, so the
text is the same in every turn. -/
def gfx_get_string_width_new_lined_loop (env : Env) (g : Globals) (text : List Nat) :
    Nat → Nat → Nat → Int → Option Int
  | 0, _, _, _ => none
  | fuel + 1, ch, firstCh, maxWidth =>
    let r := utf8_get_next (text.drop ch)
    let codepoint := r.1
    let nextCh := ch + r.2
    if codepoint = 0 then
      (gfx_get_string_width env g (text.drop firstCh)).map (fun w => max maxWidth w)
    else if codepoint = FORMAT_NEWLINE ∨ codepoint = FORMAT_NEWLINE_SMALLER then
      match gfx_get_string_width env g ((poke text nextCh 0).drop firstCh) with
      | none => none
      | some w =>
        gfx_get_string_width_new_lined_loop env g text fuel nextCh nextCh (max maxWidth w)
    else gfx_get_string_width_new_lined_loop env g text fuel nextCh firstCh maxWidth

/-- The source's `gfx_get_string_width_new_lined`; no width when one of its measurements
gives none. -/
def gfx_get_string_width_new_lined (env : Env) (g : Globals) (text : List Nat) : Option Int :=
  gfx_get_string_width_new_lined_loop env g text (text.length + 1) 0 0 0

/-- A token of a text of lines: a whole literal codepoint or one of the two newline
codes. -/
def is_line_token (t : List Nat) : Bool :=
  is_literal_token t || t == [FORMAT_NEWLINE] || t == [FORMAT_NEWLINE_SMALLER]

/-- Two measuring contexts that stand at the same place of a line in the same font, the
widest extent of the first being that of the second and at least `M`. -/
def measure_rel (M : Int) (a b : text_draw_info) : Prop :=
  a.startX = b.startX ∧ a.x = b.x ∧ a.flags = b.flags
    ∧ a.font_sprite_base = b.font_sprite_base ∧ a.maxX = max M b.maxX

/-- A list of tokens whose last token is a newline code. -/
def ends_with_newline (T : List (List Nat)) : Prop :=
  ∃ T1 c, T = T1 ++ [[c]] ∧ is_newline_code c = true

/-- What the conclusion of the comparison of two measurements says for the contexts `a` and
`b`, the tokens `T` in front of `R`. -/
def measure_rel_post (env : Env) (g : Globals) (dpi : rct_drawpixelinfo)
    (T R : List (List Nat)) (X X' : List Nat) (a b : text_draw_info) (M : Int) : Prop :=
  (ttf_process_string env g dpi (T.flatten ++ X') b = none →
      ttf_process_string env g dpi ((T ++ R).flatten ++ X) a = none)
    ∧ ∀ d rb, ttf_process_string env g dpi (T.flatten ++ X') b = some (d, rb) →
        d = dpi ∧ rb.startX = b.startX ∧ rb.flags = b.flags
          ∧ rb.font_sprite_base = b.font_sprite_base ∧ b.maxX ≤ rb.maxX
          ∧ ((T = [] ∧ b.x = b.startX) ∨ ends_with_newline T → rb.x = b.startX)
          ∧ ∃ ra, measure_rel M ra rb
              ∧ ttf_process_string env g dpi ((T ++ R).flatten ++ X) a
                  = ttf_process_string env g dpi (R.flatten ++ X) ra

/-! ## Drawing and the process-wide render state -/

/-- The context `ttf_draw_string` sets up for a text drawn at `x`, `y`: the font and the
flags are the current ones, the palette is a copy of the shared text palette. The source
stores `x` in `startY`, and leaves `maxX`, `maxY` and `y_offset` uninitialised; none of
them is written back. -/
def draw_info (g : Globals) (x y : Int) : text_draw_info :=
  { startX := x, startY := x, x := x, y := y, maxX := 0, maxY := 0,
    flags := g.gCurrentFontFlags ||| (if g.gUseTrueTypeFont then TEXT_DRAW_FLAG_TTF else 0),
    palette := g.text_palette,
    font_sprite_base := g.gCurrentFontSpriteBase,
    y_offset := [] }

/-! ## The word wrap comes to an end -/

/-- The state of the loop of `gfx_wrap_string` after `n` turns that all went on; `none`
when one of them gave no result or left the loop. -/
def gfx_wrap_string_turns (env : Env) (g : Globals) (width : Int) :
    Nat → wrap_state → Option wrap_state
  | 0, s => some s
  | n + 1, s =>
    match gfx_wrap_string_step env g width s with
    | some (s1, true) => gfx_wrap_string_turns env g width n s1
    | _ => none

/-- Every byte of the buffer from index `N` on is zero. -/
def zeros_from (text : List Nat) (N : Nat) : Prop := ∀ i, N ≤ i → byteAt text i = 0

/-- What holds of the indices of the loop of `gfx_wrap_string` in every turn, whatever the
bytes of the buffer: the scan stands at or behind the start of the line, the last word
boundary lies on the line in front of the scan, and the scan has left the start of the
line once a codepoint is on it. -/
def wrap_scan_inv (s : wrap_state) (N : Nat) : Prop :=
  zeros_from s.text N ∧ s.firstCh ≤ s.ch
    ∧ (∀ k, s.currentWord = some k → s.firstCh ≤ k ∧ k < s.ch)
    ∧ (s.numCharactersOnLine ≠ 0 → s.firstCh < s.ch)

/-- The measure that decreases with every turn of the loop of `gfx_wrap_string`: a new
line starts behind the start of the line before, and within a line the scan moves on. -/
def wrap_scan_potential (s : wrap_state) (N : Nat) : Nat :=
  (N - s.firstCh) * (N - s.firstCh + 1) + (N - s.ch) + 1

/-- The state `gfx_wrap_string` enters its loop with. -/
def wrap_start (text : List Nat) : wrap_state :=
  { text := text, lineWidth := 0, maxWidth := 0, outNumLines := 0, currentWord := none,
    currentWidth := 0, ch := 0, firstCh := 0, numCharactersOnLine := 0 }

/-! ## Environments with an outline font -/

/-- An outline font that is loaded for every font size and reports a width of 100 pixels
less one pixel for every byte of the run: the longer run is the narrower one. -/
def shrinkEnv : Env :=
  { demoEnv with
    ttf_initialise := true,
    ttf_font_loaded := fun _ => true,
    ttf_getwidth_cache_get_or_add := fun _ r => 100 - (r.length : Int) }

/-- An outline font that is loaded for every font size and reports 7 pixels for every byte
of a run; `W` is forced to the sprite font, in which it is 10 pixels wide. -/
def outlineEnv : Env :=
  { demoEnv with
    utf8_should_use_sprite_for_codepoint := fun c => c == 87,
    ttf_initialise := true,
    ttf_font_loaded := fun _ => true,
    ttf_getwidth_cache_get_or_add := fun _ r => 7 * (r.length : Int) }

/-- A sprite font in which `b` has the width -3 and every other codepoint 6. -/
def narrowEnv : Env :=
  { demoEnv with
    font_sprite_get_codepoint_width := fun _ c => if c = 98 then -3 else 6 }

/-- Medium font, no flags, true-type mode on. -/
def outlineGlobals : Globals := { demoGlobals with gUseTrueTypeFont := true }

/-! ## The interpreter as a function of the process-wide render state

The functions of `String.cpp` that a pass of `ttf_process_string` can reach, and the two
callers of the pass, written with the render state as an argument and as a part of the
result: every one of them hands on the state it has got from the call before, so a store to
a global in any of them shows in the state the caller gets back. What is not under src (the
decoder, the sprite store, the outline font provider, the drawing primitives) is taken from
`Env` as before. -/

/-- The source's `colour_char` with the render state. -/
def colour_char_st (env : Env) (colour : Nat) (current_font_flags : Nat) (palette : List Nat)
    (g : Globals) : List Nat × Globals :=
  let colour32 :=
    match env.gfx_get_g1_element env.SPR_TEXT_PALETTE with
    | none => 0
    | some g1 =>
      let i := 4 * (colour &&& 0xFF)
      (byteAt g1.offset i <<< 24) ||| (byteAt g1.offset (i + 1) <<< 16)
        ||| (byteAt g1.offset (i + 2) <<< 8) ||| byteAt g1.offset (i + 3)
  let colour32 := if current_font_flags &&& 2 = 0 then colour32 &&& 0xFF0000FF else colour32
  (palette_store32 palette colour32, g)

/-- The source's `colour_char_window` with the render state. -/
def colour_char_window_st (env : Env) (colour : Nat) (current_font_flags : Nat)
    (palette : List Nat) (g : Globals) : List Nat × Globals :=
  let colour := colour &&& 0x7F
  let eax := (env.ColourMapA colour).colour_11
  let eax := if current_font_flags &&& TEXT_DRAW_FLAG_OUTLINE ≠ 0 then eax ||| 0x0A0A00 else eax
  (palette_store32 palette eax, g)

/-- The source's `ttf_draw_character_sprite` with the render state. -/
def ttf_draw_character_sprite_st (env : Env) (dpi : rct_drawpixelinfo) (codepoint : Nat)
    (info : text_draw_info) (g : Globals) :
    (rct_drawpixelinfo × text_draw_info) × Globals :=
  let characterWidth := env.font_sprite_get_codepoint_width info.font_sprite_base codepoint
  let sprite := env.font_sprite_get_codepoint_sprite info.font_sprite_base codepoint
  if info.flags &&& TEXT_DRAW_FLAG_NO_DRAW = 0 then
    let x := info.x
    let y := info.y
    let (y, y_offset) :=
      if info.flags &&& TEXT_DRAW_FLAG_Y_OFFSET_EFFECT ≠ 0 then
        (y + info.y_offset.headD 0, info.y_offset.tail)
      else (y, info.y_offset)
    (({ dpi with ops := dpi.ops ++ [DrawOp.glyph sprite x y info.palette] },
      { info with y_offset := y_offset, x := info.x + characterWidth }), g)
  else
    ((dpi, { info with x := info.x + characterWidth }), g)

/-- The loop of `ttf_draw_string_raw_sprite` with the render state. -/
def ttf_draw_string_raw_sprite_loop_st (env : Env) :
    Nat → rct_drawpixelinfo → List Nat → text_draw_info → Globals →
      Option ((rct_drawpixelinfo × text_draw_info) × Globals)
  | 0, _, _, _, _ => none
  | fuel + 1, dpi, ch, info, g =>
    let r := utf8_get_next ch
    if utf8_is_format_code r.1 then some ((dpi, info), g)
    else
      let s := ttf_draw_character_sprite_st env dpi r.1 info g
      ttf_draw_string_raw_sprite_loop_st env fuel s.1.1 (ch.drop r.2) s.1.2 s.2

/-- The source's `ttf_draw_string_raw_sprite` with the render state. -/
def ttf_draw_string_raw_sprite_st (env : Env) (dpi : rct_drawpixelinfo) (text : List Nat)
    (info : text_draw_info) (g : Globals) :
    Option ((rct_drawpixelinfo × text_draw_info) × Globals) :=
  ttf_draw_string_raw_sprite_loop_st env (text.length + 1) dpi text info g

/-- The source's `ttf_draw_string_raw_ttf` with the render state. -/
def ttf_draw_string_raw_ttf_st (env : Env) (dpi : rct_drawpixelinfo) (text : List Nat)
    (info : text_draw_info) (g : Globals) :
    Option ((rct_drawpixelinfo × text_draw_info) × Globals) :=
  if !env.ttf_initialise then some ((dpi, info), g)
  else if !env.ttf_font_loaded info.font_sprite_base then
    ttf_draw_string_raw_sprite_st env dpi text info g
  else if info.flags &&& TEXT_DRAW_FLAG_NO_DRAW ≠ 0 then
    let width := env.ttf_getwidth_cache_get_or_add info.font_sprite_base (cstr text)
    some ((dpi, { info with x := info.x + width }), g)
  else
    match env.ttf_surface_cache_get_or_add info.font_sprite_base (cstr text) with
    | none => some ((dpi, info), g)
    | some surface =>
      let drawX := info.x + env.ttf_offset_x info.font_sprite_base
      let drawY := info.y + env.ttf_offset_y info.font_sprite_base
      let width := surface.w
      let height := surface.h
      let overflowX := (dpi.x + dpi.width) - (drawX + width)
      let overflowY := (dpi.y + dpi.height) - (drawY + height)
      let width := if overflowX < 0 then width + overflowX else width
      let height := if overflowY < 0 then height + overflowY else height
      some (({ dpi with ops := dpi.ops ++
                [DrawOp.ttf info.font_sprite_base (cstr text) drawX drawY width height
                  info.flags info.palette] },
            { info with x := info.x + width }), g)

/-- The source's `ttf_draw_string_raw` with the render state. -/
def ttf_draw_string_raw_st (env : Env) (dpi : rct_drawpixelinfo) (text : List Nat)
    (info : text_draw_info) (g : Globals) :
    Option ((rct_drawpixelinfo × text_draw_info) × Globals) :=
  if info.flags &&& TEXT_DRAW_FLAG_TTF ≠ 0 then ttf_draw_string_raw_ttf_st env dpi text info g
  else ttf_draw_string_raw_sprite_st env dpi text info g

/-- The `switch` of `ttf_process_format_code` with the render state: the window colour
codes read `gCurrentWindowColours` from it. -/
def ttf_process_format_code_switch_st (env : Env) (dpi : rct_drawpixelinfo)
    (codepoint : Nat) (nextCh : List Nat) (info : text_draw_info) (g : Globals) :
    (List Nat × rct_drawpixelinfo × text_draw_info) × Globals :=
  if codepoint = FORMAT_MOVE_X then
    ((nextCh.drop 1, dpi, { info with x := info.startX + (byteAt nextCh 0 % 256 : Nat) }), g)
  else if codepoint = FORMAT_ADJUST_PALETTE then
    let eax := env.palette_to_g1_offset (byteAt nextCh 0 % 256)
    match env.gfx_get_g1_element eax with
    | none => ((nextCh.drop 1, dpi, info), g)
    | some g1 =>
      let ebx := byteAt g1.offset 249 + 256
      let ebx := if info.flags &&& TEXT_DRAW_FLAG_OUTLINE = 0 then ebx &&& 0xFF else ebx
      let palette := (info.palette.set 1 (ebx &&& 0xFF)).set 2 ((ebx >>> 8) &&& 0xFF)
      let palette := (palette.set 3 (byteAt g1.offset 247)).set 4 (byteAt g1.offset 248)
      let palette := (palette.set 5 (byteAt g1.offset 250)).set 6 (byteAt g1.offset 251)
      ((nextCh.drop 1, dpi, { info with palette := palette }), g)
  else if codepoint = FORMAT_3 ∨ codepoint = FORMAT_4 then
    ((nextCh.drop 1, dpi, info), g)
  else if codepoint = FORMAT_NEWLINE then
    let y := info.y + env.font_get_line_height info.font_sprite_base
    ((nextCh, dpi, { info with x := info.startX, y := y }), g)
  else if codepoint = FORMAT_NEWLINE_SMALLER then
    let y := info.y + env.font_get_line_height_small info.font_sprite_base
    ((nextCh, dpi, { info with x := info.startX, y := y }), g)
  else if codepoint = FORMAT_TINYFONT then
    ((nextCh, dpi, { info with font_sprite_base := FONT_SPRITE_BASE_TINY }), g)
  else if codepoint = FORMAT_SMALLFONT then
    ((nextCh, dpi, { info with font_sprite_base := FONT_SPRITE_BASE_SMALL }), g)
  else if codepoint = FORMAT_MEDIUMFONT then
    ((nextCh, dpi, { info with font_sprite_base := FONT_SPRITE_BASE_MEDIUM }), g)
  else if codepoint = FORMAT_BIGFONT then
    ((nextCh, dpi, { info with font_sprite_base := 672 }), g)
  else if codepoint = FORMAT_OUTLINE then
    ((nextCh, dpi, { info with flags := info.flags ||| TEXT_DRAW_FLAG_OUTLINE }), g)
  else if codepoint = FORMAT_OUTLINE_OFF then
    ((nextCh, dpi,
      { info with flags := info.flags &&& (0xFFFFFFFF - TEXT_DRAW_FLAG_OUTLINE) }), g)
  else if codepoint = FORMAT_WINDOW_COLOUR_1 then
    let r := colour_char_window_st env (g.gCurrentWindowColours.getD 0 0)
      (info.flags % 65536) info.palette g
    ((nextCh, dpi, { info with palette := r.1 }), r.2)
  else if codepoint = FORMAT_WINDOW_COLOUR_2 then
    let r := colour_char_window_st env (g.gCurrentWindowColours.getD 1 0)
      (info.flags % 65536) info.palette g
    ((nextCh, dpi, { info with palette := r.1 }), r.2)
  else if codepoint = FORMAT_WINDOW_COLOUR_3 then
    let r := colour_char_window_st env (g.gCurrentWindowColours.getD 2 0)
      (info.flags % 65536) info.palette g
    ((nextCh, dpi, { info with palette := r.1 }), r.2)
  else if codepoint = FORMAT_16 then
    ((nextCh, dpi, info), g)
  else if codepoint = FORMAT_INLINE_SPRITE then
    let imageId := byteAt nextCh 0 % 256 + (byteAt nextCh 1 % 256) * 2 ^ 8
      + (byteAt nextCh 2 % 256) * 2 ^ 16 + (byteAt nextCh 3 % 256) * 2 ^ 24
    match env.gfx_get_g1_element (imageId &&& 0x7FFFF) with
    | none => ((nextCh.drop 4, dpi, info), g)
    | some g1 =>
      let dpi :=
        if info.flags &&& TEXT_DRAW_FLAG_NO_DRAW = 0 then
          { dpi with ops := dpi.ops ++ [DrawOp.sprite imageId info.x info.y] }
        else dpi
      ((nextCh.drop 4, dpi, { info with x := info.x + g1.width }), g)
  else if FORMAT_COLOUR_CODE_START ≤ codepoint ∧ codepoint ≤ FORMAT_COLOUR_CODE_END then
    let r := colour_char_st env ((codepoint - FORMAT_COLOUR_CODE_START) % 256)
      (info.flags % 65536) info.palette g
    ((nextCh, dpi, { info with palette := r.1 }), r.2)
  else if codepoint ≤ 0x16 then
    ((nextCh.drop 2, dpi, info), g)
  else
    ((nextCh.drop 4, dpi, info), g)

/-- The source's `ttf_process_format_code` with the render state. -/
def ttf_process_format_code_st (env : Env) (dpi : rct_drawpixelinfo) (text : List Nat)
    (info : text_draw_info) (g : Globals) :
    (List Nat × rct_drawpixelinfo × text_draw_info) × Globals :=
  ttf_process_format_code_switch_st env dpi (utf8_get_next text).1
    (text.drop (utf8_get_next text).2) info g

/-- The source's `ttf_process_glyph_run` with the render state. -/
def ttf_process_glyph_run_st (env : Env) (dpi : rct_drawpixelinfo) (text : List Nat)
    (info : text_draw_info) (g : Globals) :
    Option ((List Nat × rct_drawpixelinfo × text_draw_info) × Globals) :=
  let isTTF := decide (info.flags &&& TEXT_DRAW_FLAG_TTF ≠ 0)
  match ttf_process_glyph_run_scan env isTTF (text.length + 1) text 0 with
  | none => none
  | some (length, codepoint) =>
    if codepoint = 0 then
      (ttf_draw_string_raw_st env dpi text info g).map
        (fun s => ((text.drop length, s.1.1, s.1.2), s.2))
    else if 511 < length then none
    else
      (ttf_draw_string_raw_st env dpi (text.take length ++ [0]) info g).map
        (fun s => ((text.drop length, s.1.1, s.1.2), s.2))

/-- The loop of `ttf_process_string` with the render state. -/
def ttf_process_string_loop_st (env : Env) (isTTF : Bool) :
    Nat → rct_drawpixelinfo → List Nat → text_draw_info → Globals →
      Option ((rct_drawpixelinfo × text_draw_info) × Globals)
  | 0, _, _, _, _ => none
  | fuel + 1, dpi, ch, info, g =>
    let r := utf8_get_next ch
    if r.1 = 0 then some ((dpi, info), g)
    else if utf8_is_format_code r.1 then
      let s := ttf_process_format_code_st env dpi ch info g
      ttf_process_string_loop_st env isTTF fuel s.1.2.1 s.1.1 (update_extents s.1.2.2) s.2
    else if isTTF && env.utf8_should_use_sprite_for_codepoint r.1 then
      let s := ttf_draw_character_sprite_st env dpi r.1 info g
      ttf_process_string_loop_st env isTTF fuel s.1.1 (ch.drop r.2) (update_extents s.1.2) s.2
    else
      match ttf_process_glyph_run_st env dpi ch info g with
      | none => none
      | some s =>
        ttf_process_string_loop_st env isTTF fuel s.1.2.1 s.1.1 (update_extents s.1.2.2) s.2

/-- The source's `ttf_process_string` with the render state. -/
def ttf_process_string_st (env : Env) (dpi : rct_drawpixelinfo) (text : List Nat)
    (info : text_draw_info) (g : Globals) :
    Option ((rct_drawpixelinfo × text_draw_info) × Globals) :=
  ttf_process_string_loop_st env (decide (info.flags &&& TEXT_DRAW_FLAG_TTF ≠ 0))
    (text.length + 1) dpi text info g

/-- The source's `ttf_process_initial_colour` with the render state. -/
def ttf_process_initial_colour_st (env : Env) (colour : Nat) (info : text_draw_info)
    (g : Globals) : text_draw_info × Globals :=
  if colour ≠ TEXT_COLOUR_254 ∧ colour ≠ TEXT_COLOUR_255 then
    let flags := info.flags &&& (0xFFFFFFFF - (TEXT_DRAW_FLAG_INSET ||| TEXT_DRAW_FLAG_OUTLINE
      ||| TEXT_DRAW_FLAG_DARK ||| TEXT_DRAW_FLAG_EXTRA_DARK))
    let s :=
      if 0x8000 ≤ info.font_sprite_base then
        let flags := flags ||| TEXT_DRAW_FLAG_DARK
        let flags :=
          if info.font_sprite_base = FONT_SPRITE_BASE_MEDIUM_EXTRA_DARK then
            flags ||| TEXT_DRAW_FLAG_EXTRA_DARK
          else flags
        (flags, FONT_SPRITE_BASE_MEDIUM)
      else (flags, info.font_sprite_base)
    let flags := s.1
    let font_sprite_base := s.2
    let flags :=
      if colour &&& COLOUR_FLAG_OUTLINE ≠ 0 then flags ||| TEXT_DRAW_FLAG_OUTLINE else flags
    let colour := colour &&& (0xFFFFFFFF - COLOUR_FLAG_OUTLINE)
    if colour &&& COLOUR_FLAG_INSET = 0 then
      if flags &&& TEXT_DRAW_FLAG_INSET = 0 then
        let r := colour_char_window_st env colour (flags % 65536) info.palette g
        ({ info with flags := flags, font_sprite_base := font_sprite_base, palette := r.1 },
          r.2)
      else ({ info with flags := flags, font_sprite_base := font_sprite_base }, g)
    else
      let flags := flags ||| TEXT_DRAW_FLAG_INSET
      let colour := colour &&& (0xFFFFFFFF - COLOUR_FLAG_INSET)
      let eax :=
        if flags &&& TEXT_DRAW_FLAG_DARK ≠ 0 then
          if flags &&& TEXT_DRAW_FLAG_EXTRA_DARK ≠ 0 then
            ((env.ColourMapA colour).mid_light <<< 16) ||| (env.ColourMapA colour).dark
          else ((env.ColourMapA colour).light <<< 16) ||| (env.ColourMapA colour).mid_dark
        else ((env.ColourMapA colour).lighter <<< 16) ||| (env.ColourMapA colour).mid_light
      ({ info with
        flags := flags, font_sprite_base := font_sprite_base,
        palette := palette_store32 info.palette eax }, g)
  else (info, g)

/-- The source's `ttf_get_string_width` with the render state: the context is set up from
the current font, the current flags and the true-type switch, the pass is run on it, and
`info.maxX` is returned together with the render state the pass has left. -/
def ttf_get_string_width_st (env : Env) (text : List Nat) (g : Globals) :
    Option (Int × Globals) :=
  let info := measure_info g
  (ttf_process_string_st env nullDpi text info g).map (fun s => (s.1.2.maxX, s.2))

/-- The source's `gfx_get_string_width` with the render state. -/
def gfx_get_string_width_st (env : Env) (buffer : List Nat) (g : Globals) :
    Option (Int × Globals) :=
  ttf_get_string_width_st env buffer g

/-- The source's `ttf_draw_string` with the render state: the surface and the render state
it leaves; `text` is `none` for a null pointer. Behind the pass the palette, the font, the
flags and the cursor of the context are stored to the state the pass has left.
`gCurrentFontFlags` is declared as a 16 bit variable (`drawing/drawing.h`, not under src):
it takes the low 16 bits of the flags. -/
def ttf_draw_string (env : Env) (dpi : rct_drawpixelinfo) (text : Option (List Nat))
    (colour : Nat) (x y : Int) (g : Globals) : Option (rct_drawpixelinfo × Globals) :=
  match text with
  | none => some (dpi, g)
  | some text =>
    let info := draw_info g x y
    let c := ttf_process_initial_colour_st env colour info g
    match ttf_process_string_st env dpi text c.1 c.2 with
    | none => none
    | some s =>
      some (s.1.1, { s.2 with text_palette := s.1.2.palette,
                              gCurrentFontSpriteBase := s.1.2.font_sprite_base,
                              gCurrentFontFlags := s.1.2.flags % 65536,
                              gLastDrawStringX := s.1.2.x,
                              gLastDrawStringY := s.1.2.y })

/-! ## Word wrap of well-formed text: the width of the lines -/

/-- Every literal codepoint `t` of the line `l` is the first literal codepoint of the line,
or the line up to and with `t` measures at most `width`: the test
`lineWidth <= width || numCharactersOnLine == 0` under which `gfx_wrap_string` takes a
codepoint on the line. -/
def prefixes_fit (env : Env) (g : Globals) (width : Int) (l : List (List Nat)) : Prop :=
  ∀ a t c, l = a ++ t :: c → is_literal_token t = true →
    (∀ u ∈ a, is_literal_token u = false)
      ∨ ∃ w, gfx_get_string_width env g (a ++ [t]).flatten = some w ∧ w ≤ width

/-- The codepoints of the current line and of the lines that were ended have all been
taken on their line under that test. -/
def trace_fit (env : Env) (g : Globals) (width : Int) (v : wrap_trace) : Prop :=
  prefixes_fit env g width v.line ∧ ∀ l ∈ v.lines, prefixes_fit env g width l.1

/-- What one turn of the loop of `gfx_wrap_string` does from a state that agrees with the
trace `v`, the widths of the lines included. -/
def trace_step_fit_post (env : Env) (g : Globals) (width : Int) (toks : List (List Nat))
    (s : wrap_state) (v : wrap_trace) : Option (wrap_state × Bool) → Prop
  | none => 512 < (v.line ++ v.rest).flatten.length
  | some (s1, true) => ∃ v1, trace_inv toks s1 v1 ∧ trace_fit env g width v1
      ∧ trace_potential v1 < trace_potential v
      ∧ (v1.line ++ v1.rest).flatten.length ≤ (v.line ++ v.rest).flatten.length
  | some (s1, false) => s1 = s ∧ v.rest = []

/-- What the loop of `gfx_wrap_string` gives from a state that agrees with the trace `v`,
the widths of the lines included. -/
def trace_loop_fit_post (env : Env) (g : Globals) (width : Int) (toks : List (List Nat))
    (v : wrap_trace) : Option wrap_state → Prop
  | none => 512 < (v.line ++ v.rest).flatten.length
  | some s1 => ∃ v1, trace_inv toks s1 v1 ∧ trace_fit env g width v1 ∧ v1.rest = []

/-! # Lemmas -/


theorem utf8_get_next_nil : utf8_get_next [] = (0, 1) := by rfl

theorem utf8_get_next_pos (t : List Nat) : 1 ≤ (utf8_get_next t).2 := by
  unfold utf8_get_next
  simp only
  split_ifs <;> simp

theorem utf8_get_next_le (t : List Nat) : (utf8_get_next t).2 ≤ 4 := by
  unfold utf8_get_next
  simp only
  split_ifs <;> simp

theorem utf8_get_next_congr (t u : List Nat)
    (h0 : byteAt t 0 = byteAt u 0)
    (h1 : 2 ≤ (utf8_get_next t).2 → byteAt t 1 = byteAt u 1)
    (h2 : 3 ≤ (utf8_get_next t).2 → byteAt t 2 = byteAt u 2) :
    utf8_get_next u = utf8_get_next t := by
  unfold utf8_get_next at *
  simp only at *
  rw [← h0]
  split_ifs at h1 h2 ⊢
  · rfl
  · rw [h1 (by simp)]
  · rw [h1 (by simp), h2 (by simp)]
  · rw [h1 (by simp), h2 (by simp)]
  · rfl

theorem byteAt_append_left (t X : List Nat) (i : Nat) (h : i < t.length) :
    byteAt (t ++ X) i = byteAt t i := by
  unfold byteAt
  rw [List.getD_append _ _ _ _ h]

theorem utf8_get_next_append (t X : List Nat) (h : (utf8_get_next t).2 ≤ t.length) :
    utf8_get_next (t ++ X) = utf8_get_next t := by
  apply utf8_get_next_congr
  · exact (byteAt_append_left t X 0 (by have := utf8_get_next_pos t; omega)).symm
  · intro h1; exact (byteAt_append_left t X 1 (by omega)).symm
  · intro h2; exact (byteAt_append_left t X 2 (by omega)).symm

theorem utf8_get_next_ascii (b : Nat) (t : List Nat) (h : b < 128) :
    utf8_get_next (b :: t) = (b, 1) := by
  have : b &&& 0x80 = 0 := by
    interval_cases b <;> rfl
  simp [utf8_get_next, byteAt, this]


theorem is_format_code_zero : utf8_is_format_code 0 = true := by rfl

theorem utf8_get_next_of_head_zero (X : List Nat) (h : byteAt X 0 = 0) :
    utf8_get_next X = (0, 1) := by
  unfold utf8_get_next
  simp [h]

theorem ne_nil_of_codepoint_ne_zero (t : List Nat) (h : (utf8_get_next t).1 ≠ 0) : t ≠ [] := by
  rintro rfl
  simp [utf8_get_next_nil] at h

theorem drop_length_lt (t : List Nat) (k : Nat) (hk : 1 ≤ k) (ht : t ≠ []) :
    (t.drop k).length < t.length := by
  have : 0 < t.length := List.length_pos.mpr ht
  simp only [List.length_drop]
  omega

/-! ### The sprite loop -/

theorem sprite_loop_fuel (env : Env) :
    ∀ (f f' : Nat) (dpi : rct_drawpixelinfo) (ch : List Nat) (info : text_draw_info),
      ch.length < f → ch.length < f' →
      ttf_draw_string_raw_sprite_loop env f dpi ch info
        = ttf_draw_string_raw_sprite_loop env f' dpi ch info := by
  intro f
  induction f with
  | zero => intro f' dpi ch info h; omega
  | succ f ih =>
    intro f' dpi ch info h h'
    cases f' with
    | zero => omega
    | succ f' =>
      simp only [ttf_draw_string_raw_sprite_loop]
      split_ifs with hc
      · rfl
      · have hne : ch ≠ [] := by
          rintro rfl
          simp [utf8_get_next_nil, is_format_code_zero] at hc
        have := drop_length_lt ch (utf8_get_next ch).2 (utf8_get_next_pos ch) hne
        exact ih f' _ _ _ (by omega) (by omega)

theorem sprite_loop_isSome (env : Env) :
    ∀ (f : Nat) (dpi : rct_drawpixelinfo) (ch : List Nat) (info : text_draw_info),
      ch.length < f → (ttf_draw_string_raw_sprite_loop env f dpi ch info).isSome := by
  intro f
  induction f with
  | zero => intro dpi ch info h; omega
  | succ f ih =>
    intro dpi ch info h
    simp only [ttf_draw_string_raw_sprite_loop]
    split_ifs with hc
    · rfl
    · have hne : ch ≠ [] := by
        rintro rfl
        simp [utf8_get_next_nil, is_format_code_zero] at hc
      have := drop_length_lt ch (utf8_get_next ch).2 (utf8_get_next_pos ch) hne
      exact ih _ _ _ (by omega)

/-! ### Format codes -/

theorem ite_rel_step {p : Prop} [Decidable p] {α γ : Type} {A B : α} {a b : γ}
    (R : α → γ → Prop) (h1 : p → R A a) (h2 : ¬p → R B b) :
    R (if p then A else B) (if p then a else b) := by
  split_ifs with h
  · exact h1 h
  · exact h2 h

theorem ttf_process_format_code_switch_fst (env : Env) (g : Globals) (dpi : rct_drawpixelinfo)
    (c : Nat) (nextCh : List Nat) (info : text_draw_info) :
    (ttf_process_format_code_switch env g dpi c nextCh info).1
      = nextCh.drop (ttf_format_code_arg_length c) := by
  unfold ttf_process_format_code_switch ttf_format_code_arg_length
  repeat' first
    | rfl
    | refine ite_rel_step (fun (x : List Nat × rct_drawpixelinfo × text_draw_info) (y : Nat) =>
        x.1 = nextCh.drop y) (fun _ => ?_) (fun _ => ?_)
    | (dsimp only; generalize env.gfx_get_g1_element _ = o; cases o <;> rfl)

theorem ttf_process_format_code_fst (env : Env) (g : Globals) (dpi : rct_drawpixelinfo)
    (text : List Nat) (info : text_draw_info) :
    (ttf_process_format_code env g dpi text info).1
      = text.drop ((utf8_get_next text).2
          + ttf_format_code_arg_length (utf8_get_next text).1) := by
  unfold ttf_process_format_code
  rw [ttf_process_format_code_switch_fst, List.drop_drop]

theorem ttf_process_format_code_switch_snd (env : Env) (g : Globals) (dpi : rct_drawpixelinfo)
    (c : Nat) (args Y : List Nat) (info : text_draw_info)
    (hlen : args.length = ttf_format_code_arg_length c) :
    (ttf_process_format_code_switch env g dpi c (args ++ Y) info).2
      = (ttf_process_format_code_switch env g dpi c args info).2 := by
  have hb : ∀ i, i < ttf_format_code_arg_length c → byteAt (args ++ Y) i = byteAt args i :=
    fun i hi => byteAt_append_left args Y i (by omega)
  unfold ttf_process_format_code_switch
  repeat' first
    | rfl
    | refine ite_rel_step (fun (x y : List Nat × rct_drawpixelinfo × text_draw_info) =>
        x.2 = y.2) (fun hc => ?_) (fun _ => ?_)
    | (have h0 := hb 0 (by rw [hc]; decide)
       dsimp only
       rw [h0]
       generalize env.gfx_get_g1_element _ = o
       cases o <;> rfl)
    | (have h0 := hb 0 (by rw [hc]; decide)
       have h1 := hb 1 (by rw [hc]; decide)
       have h2 := hb 2 (by rw [hc]; decide)
       have h3 := hb 3 (by rw [hc]; decide)
       dsimp only
       rw [h0, h1, h2, h3]
       generalize env.gfx_get_g1_element _ = o
       cases o <;> rfl)
    | (have h0 := hb 0 (by rw [hc]; decide)
       dsimp only
       rw [h0])


/-! ### The scan of a glyph run -/

theorem glyph_run_scan_fuel (env : Env) (isTTF : Bool) :
    ∀ (f f' : Nat) (ch : List Nat) (len : Nat), ch.length < f → ch.length < f' →
      ttf_process_glyph_run_scan env isTTF f ch len
        = ttf_process_glyph_run_scan env isTTF f' ch len := by
  intro f
  induction f with
  | zero => intro f' ch len h; omega
  | succ f ih =>
    intro f' ch len h h'
    cases f' with
    | zero => omega
    | succ f' =>
      simp only [ttf_process_glyph_run_scan]
      split_ifs with hc hs
      · rfl
      · rfl
      · have hne : ch ≠ [] := by
          rintro rfl
          simp [utf8_get_next_nil, is_format_code_zero] at hc
        have := drop_length_lt ch (utf8_get_next ch).2 (utf8_get_next_pos ch) hne
        exact ih f' _ _ (by omega) (by omega)

theorem glyph_run_scan_some (env : Env) (isTTF : Bool) :
    ∀ (f : Nat) (ch : List Nat) (len : Nat), ch.length < f →
      ∃ L c, ttf_process_glyph_run_scan env isTTF f ch len = some (L, c) ∧ len ≤ L := by
  intro f
  induction f with
  | zero => intro ch len h; omega
  | succ f ih =>
    intro ch len h
    simp only [ttf_process_glyph_run_scan]
    split_ifs with hc hs
    · exact ⟨_, _, rfl, le_refl _⟩
    · exact ⟨_, _, rfl, le_refl _⟩
    · have hne : ch ≠ [] := by
        rintro rfl
        simp [utf8_get_next_nil, is_format_code_zero] at hc
      have := drop_length_lt ch (utf8_get_next ch).2 (utf8_get_next_pos ch) hne
      obtain ⟨L, c, h1, h2⟩ := ih (ch.drop (utf8_get_next ch).2) (len + (utf8_get_next ch).2)
        (by omega)
      exact ⟨L, c, h1, by omega⟩

/-- A run that starts at a literal codepoint the sprite font is not forced for takes at
least the bytes of that codepoint. -/
theorem glyph_run_scan_first (env : Env) (isTTF : Bool) (f : Nat) (ch : List Nat)
    (hf : ch.length < f)
    (hc : utf8_is_format_code (utf8_get_next ch).1 = false)
    (hs : (isTTF && env.utf8_should_use_sprite_for_codepoint (utf8_get_next ch).1) = false) :
    ∃ L c, ttf_process_glyph_run_scan env isTTF f ch 0 = some (L, c)
      ∧ (utf8_get_next ch).2 ≤ L := by
  cases f with
  | zero => omega
  | succ f =>
    have hne : ch ≠ [] := by
      rintro rfl
      simp [utf8_get_next_nil, is_format_code_zero] at hc
    have := drop_length_lt ch (utf8_get_next ch).2 (utf8_get_next_pos ch) hne
    obtain ⟨L, c, h1, h2⟩ := glyph_run_scan_some env isTTF f (ch.drop (utf8_get_next ch).2)
      (0 + (utf8_get_next ch).2) (by omega)
    refine ⟨L, c, ?_, by omega⟩
    simp only [ttf_process_glyph_run_scan, hc, hs]
    simpa using h1

/-! ### Flags are only changed in the outline bit -/

theorem or_outline_and_ttf (f : Nat) :
    (f ||| TEXT_DRAW_FLAG_OUTLINE) &&& TEXT_DRAW_FLAG_TTF = f &&& TEXT_DRAW_FLAG_TTF := by
  rw [Nat.and_comm, Nat.and_or_distrib_left, Nat.and_comm]
  have : TEXT_DRAW_FLAG_TTF &&& TEXT_DRAW_FLAG_OUTLINE = 0 := by decide
  rw [this, Nat.or_zero]

theorem and_not_outline_and_ttf (f : Nat) :
    (f &&& (0xFFFFFFFF - TEXT_DRAW_FLAG_OUTLINE)) &&& TEXT_DRAW_FLAG_TTF
      = f &&& TEXT_DRAW_FLAG_TTF := by
  rw [Nat.and_assoc]
  have : (0xFFFFFFFF - TEXT_DRAW_FLAG_OUTLINE) &&& TEXT_DRAW_FLAG_TTF = TEXT_DRAW_FLAG_TTF := by
    decide
  rw [this]

theorem or_outline_and_no_draw (f : Nat) :
    (f ||| TEXT_DRAW_FLAG_OUTLINE) &&& TEXT_DRAW_FLAG_NO_DRAW = f &&& TEXT_DRAW_FLAG_NO_DRAW := by
  rw [Nat.and_comm, Nat.and_or_distrib_left, Nat.and_comm]
  have : TEXT_DRAW_FLAG_NO_DRAW &&& TEXT_DRAW_FLAG_OUTLINE = 0 := by decide
  rw [this, Nat.or_zero]

theorem and_not_outline_and_no_draw (f : Nat) :
    (f &&& (0xFFFFFFFF - TEXT_DRAW_FLAG_OUTLINE)) &&& TEXT_DRAW_FLAG_NO_DRAW
      = f &&& TEXT_DRAW_FLAG_NO_DRAW := by
  rw [Nat.and_assoc]
  have : (0xFFFFFFFF - TEXT_DRAW_FLAG_OUTLINE) &&& TEXT_DRAW_FLAG_NO_DRAW
      = TEXT_DRAW_FLAG_NO_DRAW := by
    decide
  rw [this]

theorem ite_same_step {p : Prop} [Decidable p] {α : Type} {A B : α}
    (R : α → Prop) (h1 : p → R A) (h2 : ¬p → R B) :
    R (if p then A else B) := by
  split_ifs with h
  · exact h1 h
  · exact h2 h

theorem ttf_process_format_code_switch_mode (env : Env) (g : Globals) (dpi : rct_drawpixelinfo)
    (c : Nat) (nextCh : List Nat) (info : text_draw_info) :
    mode_bits (ttf_process_format_code_switch env g dpi c nextCh info).2.2.flags
      = mode_bits info.flags := by
  unfold ttf_process_format_code_switch
  repeat' first
    | rfl
    | refine ite_same_step (fun (x : List Nat × rct_drawpixelinfo × text_draw_info) =>
        mode_bits x.2.2.flags = mode_bits info.flags) (fun hc => ?_) (fun _ => ?_)
    | (dsimp only; generalize env.gfx_get_g1_element _ = o; cases o <;> rfl)
    | (simp only [mode_bits, or_outline_and_ttf, or_outline_and_no_draw,
        and_not_outline_and_ttf, and_not_outline_and_no_draw])


/-! ### What rendering literal codepoints leaves unchanged -/

theorem cursor_frame_refl (a : text_draw_info) : cursor_frame a a :=
  ⟨rfl, rfl, rfl, rfl, rfl, rfl, rfl, rfl⟩

theorem cursor_frame_trans {a b c : text_draw_info} (h1 : cursor_frame a b)
    (h2 : cursor_frame b c) : cursor_frame a c := by
  obtain ⟨a1, a2, a3, a4, a5, a6, a7, a8⟩ := h1
  obtain ⟨b1, b2, b3, b4, b5, b6, b7, b8⟩ := h2
  exact ⟨a1.trans b1, a2.trans b2, a3.trans b3, a4.trans b4, a5.trans b5, a6.trans b6,
    a7.trans b7, a8.trans b8⟩

theorem ttf_draw_character_sprite_frame (env : Env) (dpi : rct_drawpixelinfo) (c : Nat)
    (info : text_draw_info) :
    cursor_frame (ttf_draw_character_sprite env dpi c info).2 info := by
  unfold ttf_draw_character_sprite
  split_ifs <;> exact ⟨rfl, rfl, rfl, rfl, rfl, rfl, rfl, rfl⟩

theorem sprite_loop_frame (env : Env) :
    ∀ (f : Nat) (dpi : rct_drawpixelinfo) (ch : List Nat) (info : text_draw_info)
      (s : rct_drawpixelinfo × text_draw_info),
      ttf_draw_string_raw_sprite_loop env f dpi ch info = some s → cursor_frame s.2 info := by
  intro f
  induction f with
  | zero => intro dpi ch info s h; simp [ttf_draw_string_raw_sprite_loop] at h
  | succ f ih =>
    intro dpi ch info s h
    simp only [ttf_draw_string_raw_sprite_loop] at h
    split_ifs at h with hc
    · cases h
      exact cursor_frame_refl _
    · exact cursor_frame_trans (ih _ _ _ _ h) (ttf_draw_character_sprite_frame env dpi _ info)

theorem ttf_draw_string_raw_frame (env : Env) (dpi : rct_drawpixelinfo) (text : List Nat)
    (info : text_draw_info) (s : rct_drawpixelinfo × text_draw_info)
    (h : ttf_draw_string_raw env dpi text info = some s) : cursor_frame s.2 info := by
  unfold ttf_draw_string_raw ttf_draw_string_raw_ttf ttf_draw_string_raw_sprite at h
  split_ifs at h
  · cases h; exact cursor_frame_refl _
  · exact sprite_loop_frame env _ _ _ _ _ h
  · cases h; exact ⟨rfl, rfl, rfl, rfl, rfl, rfl, rfl, rfl⟩
  · split at h
    · cases h; exact cursor_frame_refl _
    · cases h; exact ⟨rfl, rfl, rfl, rfl, rfl, rfl, rfl, rfl⟩
  · exact sprite_loop_frame env _ _ _ _ _ h

theorem ttf_process_glyph_run_frame (env : Env) (dpi : rct_drawpixelinfo) (text : List Nat)
    (info : text_draw_info) (s : List Nat × rct_drawpixelinfo × text_draw_info)
    (h : ttf_process_glyph_run env dpi text info = some s) : cursor_frame s.2.2 info := by
  obtain ⟨L, c, h1, -⟩ := glyph_run_scan_some env
    (decide (info.flags &&& TEXT_DRAW_FLAG_TTF ≠ 0)) (text.length + 1) text 0 (by omega)
  unfold ttf_process_glyph_run at h
  simp only [h1] at h
  split_ifs at h
  · simp only [Option.map_eq_some'] at h
    obtain ⟨r, hr, rfl⟩ := h
    exact ttf_draw_string_raw_frame env _ _ _ _ hr
  · simp only [Option.map_eq_some'] at h
    obtain ⟨r, hr, rfl⟩ := h
    exact ttf_draw_string_raw_frame env _ _ _ _ hr

/-- The pointer a glyph run returns, when the run starts at a literal codepoint that is
not forced to the sprite font: it is past that codepoint. -/
theorem ttf_process_glyph_run_length (env : Env) (dpi : rct_drawpixelinfo) (text : List Nat)
    (info : text_draw_info) (s : List Nat × rct_drawpixelinfo × text_draw_info)
    (h : ttf_process_glyph_run env dpi text info = some s)
    (hc : utf8_is_format_code (utf8_get_next text).1 = false)
    (hs : (decide (info.flags &&& TEXT_DRAW_FLAG_TTF ≠ 0)
        && env.utf8_should_use_sprite_for_codepoint (utf8_get_next text).1) = false) :
    s.1.length < text.length := by
  have hne : text ≠ [] := by
    rintro rfl
    simp [utf8_get_next_nil, is_format_code_zero] at hc
  obtain ⟨L, c, h1, h2⟩ := glyph_run_scan_first env _ (text.length + 1) text (by omega) hc hs
  have hL : 1 ≤ L := le_trans (utf8_get_next_pos text) h2
  unfold ttf_process_glyph_run at h
  simp only [h1] at h
  split_ifs at h
  · simp only [Option.map_eq_some'] at h
    obtain ⟨r, hr, rfl⟩ := h
    exact drop_length_lt text L hL hne
  · simp only [Option.map_eq_some'] at h
    obtain ⟨r, hr, rfl⟩ := h
    exact drop_length_lt text L hL hne


/-! ### The interpreter loop does not depend on its fuel -/

theorem update_extents_flags (info : text_draw_info) :
    (update_extents info).flags = info.flags := rfl

theorem ttf_process_format_code_mode (env : Env) (g : Globals) (dpi : rct_drawpixelinfo)
    (text : List Nat) (info : text_draw_info) :
    mode_bits (ttf_process_format_code env g dpi text info).2.2.flags = mode_bits info.flags :=
  ttf_process_format_code_switch_mode env g dpi _ _ info

theorem ttf_bit_of_mode {a b : Nat} (h : mode_bits a = mode_bits b) :
    decide (a &&& TEXT_DRAW_FLAG_TTF ≠ 0) = decide (b &&& TEXT_DRAW_FLAG_TTF ≠ 0) := by
  have : a &&& TEXT_DRAW_FLAG_TTF = b &&& TEXT_DRAW_FLAG_TTF := congrArg Prod.fst h
  rw [this]

theorem process_loop_fuel (env : Env) (g : Globals) :
    ∀ (f f' : Nat) (dpi : rct_drawpixelinfo) (ch : List Nat) (info : text_draw_info)
      (isTTF : Bool), isTTF = decide (info.flags &&& TEXT_DRAW_FLAG_TTF ≠ 0) →
      ch.length < f → ch.length < f' →
      ttf_process_string_loop env g isTTF f dpi ch info
        = ttf_process_string_loop env g isTTF f' dpi ch info := by
  intro f
  induction f with
  | zero => intro f' dpi ch info isTTF _ h; omega
  | succ f ih =>
    intro f' dpi ch info isTTF hT h h'
    cases f' with
    | zero => omega
    | succ f' =>
      simp only [ttf_process_string_loop]
      by_cases h0 : (utf8_get_next ch).1 = 0
      · simp only [h0, if_true]
      · have hne : ch ≠ [] := ne_nil_of_codepoint_ne_zero ch h0
        have hpos : 0 < ch.length := List.length_pos.mpr hne
        simp only [h0, if_false]
        by_cases hc : utf8_is_format_code (utf8_get_next ch).1 = true
        · simp only [hc, if_true]
          have hl : (ttf_process_format_code env g dpi ch info).1.length < ch.length := by
            rw [ttf_process_format_code_fst]
            exact drop_length_lt ch _ (le_trans (utf8_get_next_pos ch) (Nat.le_add_right _ _)) hne
          apply ih
          · rw [hT, update_extents_flags]
            exact (ttf_bit_of_mode (ttf_process_format_code_mode env g dpi ch info)).symm
          · omega
          · omega
        · simp only [hc, Bool.false_eq_true, if_false]
          by_cases hs : (isTTF && env.utf8_should_use_sprite_for_codepoint (utf8_get_next ch).1)
              = true
          · simp only [hs, if_true]
            have hl := drop_length_lt ch (utf8_get_next ch).2 (utf8_get_next_pos ch) hne
            apply ih
            · rw [hT, update_extents_flags,
                (ttf_draw_character_sprite_frame env dpi _ info).2.2.2.2.2.1]
            · omega
            · omega
          · simp only [hs, Bool.false_eq_true, if_false]
            cases hr : ttf_process_glyph_run env dpi ch info with
            | none => rfl
            | some s =>
              simp only
              have hl := ttf_process_glyph_run_length env dpi ch info s hr
                (by simpa using hc) (by rw [← hT]; simpa using hs)
              apply ih
              · rw [hT, update_extents_flags,
                  (ttf_process_glyph_run_frame env dpi ch info s hr).2.2.2.2.2.1]
              · omega
              · omega


/-! ### One turn of the interpreter -/

theorem ttf_process_string_zero (env : Env) (g : Globals) (dpi : rct_drawpixelinfo)
    (text : List Nat) (info : text_draw_info) (h0 : (utf8_get_next text).1 = 0) :
    ttf_process_string env g dpi text info = some (dpi, info) := by
  simp [ttf_process_string, ttf_process_string_loop, h0]

theorem ttf_process_string_code (env : Env) (g : Globals) (dpi : rct_drawpixelinfo)
    (text : List Nat) (info : text_draw_info) (h0 : (utf8_get_next text).1 ≠ 0)
    (hc : utf8_is_format_code (utf8_get_next text).1 = true) :
    ttf_process_string env g dpi text info
      = ttf_process_string env g (ttf_process_format_code env g dpi text info).2.1
          (ttf_process_format_code env g dpi text info).1
          (update_extents (ttf_process_format_code env g dpi text info).2.2) := by
  have hne : text ≠ [] := ne_nil_of_codepoint_ne_zero text h0
  have hl : (ttf_process_format_code env g dpi text info).1.length < text.length := by
    rw [ttf_process_format_code_fst]
    exact drop_length_lt text _ (le_trans (utf8_get_next_pos text) (Nat.le_add_right _ _)) hne
  have hT : decide ((update_extents (ttf_process_format_code env g dpi text info).2.2).flags
      &&& TEXT_DRAW_FLAG_TTF ≠ 0) = decide (info.flags &&& TEXT_DRAW_FLAG_TTF ≠ 0) := by
    rw [update_extents_flags]
    exact ttf_bit_of_mode (ttf_process_format_code_mode env g dpi text info)
  unfold ttf_process_string
  rw [hT]
  rw [ttf_process_string_loop]
  simp only [h0, hc, if_true, if_false]
  refine process_loop_fuel env g _ _ _ _ _ _ hT.symm ?_ ?_ <;> omega

theorem ttf_process_string_sprite (env : Env) (g : Globals) (dpi : rct_drawpixelinfo)
    (text : List Nat) (info : text_draw_info)
    (hc : utf8_is_format_code (utf8_get_next text).1 = false)
    (hs : (is_ttf info && env.utf8_should_use_sprite_for_codepoint (utf8_get_next text).1)
      = true) :
    ttf_process_string env g dpi text info
      = ttf_process_string env g
          (ttf_draw_character_sprite env dpi (utf8_get_next text).1 info).1
          (text.drop (utf8_get_next text).2)
          (update_extents (ttf_draw_character_sprite env dpi (utf8_get_next text).1 info).2) := by
  have h0 : (utf8_get_next text).1 ≠ 0 := by
    intro h
    rw [h, is_format_code_zero] at hc
    cases hc
  have hne : text ≠ [] := ne_nil_of_codepoint_ne_zero text h0
  have hl := drop_length_lt text (utf8_get_next text).2 (utf8_get_next_pos text) hne
  have hT : decide ((update_extents
      (ttf_draw_character_sprite env dpi (utf8_get_next text).1 info).2).flags
      &&& TEXT_DRAW_FLAG_TTF ≠ 0) = decide (info.flags &&& TEXT_DRAW_FLAG_TTF ≠ 0) := by
    rw [update_extents_flags, (ttf_draw_character_sprite_frame env dpi _ info).2.2.2.2.2.1]
  unfold is_ttf at hs
  unfold ttf_process_string
  rw [hT]
  rw [ttf_process_string_loop]
  simp only [h0, hc, hs, if_true, if_false, Bool.false_eq_true]
  refine process_loop_fuel env g _ _ _ _ _ _ hT.symm ?_ ?_ <;> omega

theorem ttf_process_string_run (env : Env) (g : Globals) (dpi : rct_drawpixelinfo)
    (text : List Nat) (info : text_draw_info)
    (hc : utf8_is_format_code (utf8_get_next text).1 = false)
    (hs : (is_ttf info && env.utf8_should_use_sprite_for_codepoint (utf8_get_next text).1)
      = false) :
    ttf_process_string env g dpi text info
      = (ttf_process_glyph_run env dpi text info).bind (fun s =>
          ttf_process_string env g s.2.1 s.1 (update_extents s.2.2)) := by
  have h0 : (utf8_get_next text).1 ≠ 0 := by
    intro h
    rw [h, is_format_code_zero] at hc
    cases hc
  unfold is_ttf at hs
  cases hr : ttf_process_glyph_run env dpi text info with
  | none =>
    simp only [Option.none_bind]
    unfold ttf_process_string
    rw [ttf_process_string_loop]
    simp only [h0, hc, hs, hr, if_true, if_false, Bool.false_eq_true]
  | some s =>
    have hl := ttf_process_glyph_run_length env dpi text info s hr hc hs
    have hT : decide ((update_extents s.2.2).flags &&& TEXT_DRAW_FLAG_TTF ≠ 0)
        = decide (info.flags &&& TEXT_DRAW_FLAG_TTF ≠ 0) := by
      rw [update_extents_flags, (ttf_process_glyph_run_frame env dpi text info s hr).2.2.2.2.2.1]
    simp only [Option.some_bind]
    unfold ttf_process_string
    rw [hT]
    rw [ttf_process_string_loop]
    simp only [h0, hc, hs, hr, if_true, if_false, Bool.false_eq_true]
    refine process_loop_fuel env g _ _ _ _ _ _ hT.symm ?_ ?_ <;> omega


/-! ### Tokens -/

theorem is_literal_token_iff (t : List Nat) :
    is_literal_token t = true ↔
      (utf8_get_next t).2 = t.length ∧ utf8_is_format_code (utf8_get_next t).1 = false := by
  simp [is_literal_token]

theorem is_code_token_iff (t : List Nat) :
    is_code_token t = true ↔
      utf8_is_format_code (utf8_get_next t).1 = true ∧ (utf8_get_next t).1 ≠ 0
        ∧ t.length = (utf8_get_next t).2 + ttf_format_code_arg_length (utf8_get_next t).1 := by
  simp [is_code_token, and_assoc]

theorem token_next (t Y : List Nat) (h : is_token t = true) :
    utf8_get_next (t ++ Y) = utf8_get_next t := by
  apply utf8_get_next_append
  unfold is_token at h
  rw [Bool.or_eq_true, is_literal_token_iff, is_code_token_iff] at h
  rcases h with h | h <;> omega

theorem token_codepoint_ne_zero (t : List Nat) (h : is_token t = true) :
    (utf8_get_next t).1 ≠ 0 := by
  unfold is_token at h
  rw [Bool.or_eq_true, is_literal_token_iff, is_code_token_iff] at h
  rcases h with h | h
  · intro h0
    rw [h0, is_format_code_zero] at h
    cases h.2
  · exact h.2.1

theorem literal_token_drop (t Y : List Nat) (h : is_literal_token t = true) :
    (t ++ Y).drop (utf8_get_next t).2 = Y := by
  rw [(is_literal_token_iff t).1 h |>.1]
  simp

theorem literal_not_code (t : List Nat) (h : is_literal_token t = true) :
    is_code_token t = false := by
  rw [is_literal_token_iff] at h
  simp [is_code_token, h.2]

theorem code_token_format_code (env : Env) (g : Globals) (dpi : rct_drawpixelinfo)
    (t Y : List Nat) (info : text_draw_info) (h : is_code_token t = true) :
    ttf_process_format_code env g dpi (t ++ Y) info
      = (Y, (ttf_process_format_code env g dpi t info).2) := by
  have ht : is_token t = true := by simp [is_token, h]
  rw [is_code_token_iff] at h
  obtain ⟨-, -, hlen⟩ := h
  have hd : (t ++ Y).drop (utf8_get_next t).2 = t.drop (utf8_get_next t).2 ++ Y := by
    rw [List.drop_append_of_le_length (by omega)]
  apply Prod.ext
  · rw [ttf_process_format_code_fst, token_next t Y ht, ← hlen]
    simp
  · unfold ttf_process_format_code
    rw [token_next t Y ht, hd]
    apply ttf_process_format_code_switch_snd
    simp only [List.length_drop]
    omega


/-! ### Runs of literal tokens -/

theorem format_code_of_head_zero (X : List Nat) (h : byteAt X 0 = 0) :
    utf8_is_format_code (utf8_get_next X).1 = true := by
  rw [utf8_get_next_of_head_zero X h]
  rfl

theorem glyph_run_scan_tokens (env : Env) (isTTF : Bool) :
    ∀ (toks : List (List Nat)) (X : List Nat) (f len : Nat),
      (∀ t ∈ toks, is_token t = true) → byteAt X 0 = 0 → (toks.flatten ++ X).length < f →
      ttf_process_glyph_run_scan env isTTF f (toks.flatten ++ X) len
        = some (len + (toks.takeWhile (in_run env isTTF)).flatten.length,
            head_codepoint (toks.dropWhile (in_run env isTTF))) := by
  intro toks
  induction toks with
  | nil =>
    intro X f len _ hX hf
    cases f with
    | zero => omega
    | succ f =>
      simp [ttf_process_glyph_run_scan, utf8_get_next_of_head_zero X hX, is_format_code_zero,
        head_codepoint]
  | cons t toks ih =>
    intro X f len ht hX hf
    have htt : is_token t = true := ht t (List.mem_cons_self _ _)
    cases f with
    | zero => omega
    | succ f =>
      simp only [List.flatten_cons, List.append_assoc] at hf ⊢
      rw [ttf_process_glyph_run_scan, token_next t _ htt]
      by_cases hr : in_run env isTTF t = true
      · have hr' := hr
        unfold in_run at hr'
        rw [Bool.and_eq_true, Bool.not_eq_true'] at hr'
        obtain ⟨hlit, hs⟩ := hr'
        have hl := (is_literal_token_iff t).1 hlit
        simp only [hl.2, hs, Bool.false_eq_true, if_false]
        rw [literal_token_drop t _ hlit, ih X f _ (fun u hu => ht u (List.mem_cons_of_mem _ hu)) hX
          (by simp only [List.length_append] at hf ⊢; have := utf8_get_next_pos t; omega)]
        simp only [List.takeWhile_cons, hr, if_true, List.dropWhile_cons, List.flatten_cons,
          List.length_append, hl.1]
        congr 2
        omega
      · simp only [List.takeWhile_cons, hr, List.dropWhile_cons, Bool.false_eq_true, if_false,
          List.flatten_nil, List.length_nil, Nat.add_zero, head_codepoint]
        unfold in_run at hr
        by_cases hc : utf8_is_format_code (utf8_get_next t).1 = true
        · simp [hc]
        · have hlit : is_literal_token t = true := by
            have := htt
            unfold is_token at this
            rw [Bool.or_eq_true, is_code_token_iff] at this
            rcases this with h | h
            · exact h
            · exact absurd h.1 hc
          simp only [hlit, Bool.true_and, Bool.not_eq_true', Bool.not_eq_false] at hr
          simp [hc, hr]

theorem sprite_loop_tokens (env : Env) :
    ∀ (lits : List (List Nat)) (X : List Nat) (f : Nat) (dpi : rct_drawpixelinfo)
      (info : text_draw_info),
      (∀ t ∈ lits, is_literal_token t = true) →
      utf8_is_format_code (utf8_get_next X).1 = true → (lits.flatten ++ X).length < f →
      ttf_draw_string_raw_sprite_loop env f dpi (lits.flatten ++ X) info
        = some (sprite_run env dpi info (codepoints lits)) := by
  intro lits
  induction lits with
  | nil =>
    intro X f dpi info _ hX hf
    cases f with
    | zero => omega
    | succ f => simp [ttf_draw_string_raw_sprite_loop, hX, sprite_run, codepoints]
  | cons t lits ih =>
    intro X f dpi info ht hX hf
    have hlit : is_literal_token t = true := ht t (List.mem_cons_self _ _)
    have htt : is_token t = true := by simp [is_token, hlit]
    have hl := (is_literal_token_iff t).1 hlit
    cases f with
    | zero => omega
    | succ f =>
      simp only [List.flatten_cons, List.append_assoc] at hf ⊢
      rw [ttf_draw_string_raw_sprite_loop, token_next t _ htt]
      simp only [hl.2, Bool.false_eq_true, if_false]
      rw [literal_token_drop t _ hlit, ih X f _ _ (fun u hu => ht u (List.mem_cons_of_mem _ hu)) hX
        (by simp only [List.length_append] at hf ⊢; have := utf8_get_next_pos t; omega)]
      simp [sprite_run, codepoints]

theorem cstr_append_of_head_zero (A X : List Nat) (hX : byteAt X 0 = 0) :
    cstr (A ++ X) = cstr A := by
  induction A with
  | nil =>
    cases X with
    | nil => rfl
    | cons x X =>
      simp only [byteAt, List.getD_cons_zero] at hX
      simp [cstr, hX]
  | cons a A ih =>
    unfold cstr at ih ⊢
    simp only [List.cons_append, List.takeWhile_cons]
    split_ifs
    · rw [ih]
    · rfl

theorem ttf_draw_string_raw_tokens (env : Env) (dpi : rct_drawpixelinfo)
    (info : text_draw_info) (lits : List (List Nat)) (X : List Nat)
    (hl : ∀ t ∈ lits, is_literal_token t = true) (hX : byteAt X 0 = 0) :
    ttf_draw_string_raw env dpi (lits.flatten ++ X) info
      = ttf_draw_string_raw env dpi lits.flatten info := by
  have hs : ttf_draw_string_raw_sprite env dpi (lits.flatten ++ X) info
      = ttf_draw_string_raw_sprite env dpi lits.flatten info := by
    unfold ttf_draw_string_raw_sprite
    rw [sprite_loop_tokens env lits X _ dpi info hl (format_code_of_head_zero X hX) (by omega)]
    have := sprite_loop_tokens env lits [] (lits.flatten.length + 1) dpi info hl
      (by rw [utf8_get_next_nil]; rfl) (by simp)
    rw [List.append_nil] at this
    rw [this]
  unfold ttf_draw_string_raw ttf_draw_string_raw_ttf
  rw [hs, cstr_append_of_head_zero _ X hX]


theorem in_run_literal (env : Env) (isTTF : Bool) (t : List Nat)
    (h : in_run env isTTF t = true) : is_literal_token t = true := by
  unfold in_run at h
  rw [Bool.and_eq_true] at h
  exact h.1

theorem head_codepoint_ne_zero (toks : List (List Nat)) (ht : ∀ t ∈ toks, is_token t = true)
    (hne : toks ≠ []) : head_codepoint toks ≠ 0 := by
  cases toks with
  | nil => exact absurd rfl hne
  | cons t toks => exact token_codepoint_ne_zero t (ht t (List.mem_cons_self _ _))

/-- A glyph run on a well-formed string: the run is the longest list of tokens that go
on with it, it is rendered as one string, and the pointer returned is the rest. -/
theorem ttf_process_glyph_run_tokens (env : Env) (dpi : rct_drawpixelinfo)
    (info : text_draw_info) (toks : List (List Nat)) (X : List Nat)
    (ht : ∀ t ∈ toks, is_token t = true) (hX : byteAt X 0 = 0) :
    ttf_process_glyph_run env dpi (toks.flatten ++ X) info =
      if toks.dropWhile (in_run env (is_ttf info)) = [] then
        (ttf_draw_string_raw env dpi (toks.takeWhile (in_run env (is_ttf info))).flatten
          info).map (fun s => (X, s.1, s.2))
      else if 511 < (toks.takeWhile (in_run env (is_ttf info))).flatten.length then none
      else
        (ttf_draw_string_raw env dpi (toks.takeWhile (in_run env (is_ttf info))).flatten
          info).map (fun s =>
            ((toks.dropWhile (in_run env (is_ttf info))).flatten ++ X, s.1, s.2)) := by
  have hsplit : toks.flatten = (toks.takeWhile (in_run env (is_ttf info))).flatten
      ++ (toks.dropWhile (in_run env (is_ttf info))).flatten := by
    rw [← List.flatten_append, List.takeWhile_append_dropWhile]
  have hlit : ∀ t ∈ toks.takeWhile (in_run env (is_ttf info)), is_literal_token t = true :=
    fun t h => in_run_literal env _ t (List.mem_takeWhile_imp h)
  unfold ttf_process_glyph_run
  have hscan := glyph_run_scan_tokens env (is_ttf info) toks X ((toks.flatten ++ X).length + 1) 0
    ht hX (by omega)
  unfold is_ttf at hscan hsplit hlit ⊢
  dsimp only
  rw [hscan]
  simp only [Nat.zero_add]
  by_cases hr : toks.dropWhile (in_run env (decide (info.flags &&& TEXT_DRAW_FLAG_TTF ≠ 0))) = []
  · simp only [hr, head_codepoint, if_true]
    have hall : toks.takeWhile (in_run env (decide (info.flags &&& TEXT_DRAW_FLAG_TTF ≠ 0)))
        = toks := by
      have := List.takeWhile_append_dropWhile
        (in_run env (decide (info.flags &&& TEXT_DRAW_FLAG_TTF ≠ 0))) toks
      rw [hr, List.append_nil] at this
      exact this
    rw [hall] at hlit ⊢
    rw [ttf_draw_string_raw_tokens env dpi info toks X hlit hX]
    simp
  · have hcp := head_codepoint_ne_zero _
      (fun t h => ht t (List.dropWhile_subset _ h)) hr
    simp only [hcp, hr, if_false]
    split_ifs with h511
    · rfl
    · have htake : (toks.flatten ++ X).take
          (toks.takeWhile (in_run env (decide (info.flags &&& TEXT_DRAW_FLAG_TTF ≠ 0)))).flatten.length
          = (toks.takeWhile (in_run env (decide (info.flags &&& TEXT_DRAW_FLAG_TTF ≠ 0)))).flatten := by
        rw [hsplit, List.append_assoc, List.take_left']
        rfl
      have hdrop : (toks.flatten ++ X).drop
          (toks.takeWhile (in_run env (decide (info.flags &&& TEXT_DRAW_FLAG_TTF ≠ 0)))).flatten.length
          = (toks.dropWhile (in_run env (decide (info.flags &&& TEXT_DRAW_FLAG_TTF ≠ 0)))).flatten
            ++ X := by
        rw [hsplit, List.append_assoc, List.drop_left']
        rfl
      rw [htake, hdrop, ttf_draw_string_raw_tokens env dpi info _ [0] hlit rfl]


theorem token_cases (t : List Nat) (h : is_token t = true) :
    is_code_token t = true ∨ is_literal_token t = true := by
  unfold is_token at h
  rw [Bool.or_eq_true] at h
  exact h.symm

theorem is_ttf_update_extents (info : text_draw_info) :
    is_ttf (update_extents info) = is_ttf info := rfl

theorem is_ttf_of_frame {a b : text_draw_info} (h : cursor_frame a b) : is_ttf a = is_ttf b := by
  unfold is_ttf
  rw [h.2.2.2.2.2.1]

theorem dropWhile_length_le {α : Type} (p : α → Bool) (l : List α) :
    (l.dropWhile p).length ≤ l.length :=
  (List.dropWhile_sublist p).length_le

/-- Interpreting a well-formed string does not depend on what follows its terminator. -/
theorem ttf_process_string_agree (env : Env) (g : Globals) :
    ∀ (n : Nat) (toks : List (List Nat)), toks.length ≤ n →
      (∀ t ∈ toks, is_token t = true) →
      ∀ (X : List Nat), byteAt X 0 = 0 → ∀ (dpi : rct_drawpixelinfo) (info : text_draw_info),
        ttf_process_string env g dpi (toks.flatten ++ X) info
          = ttf_process_string env g dpi toks.flatten info := by
  intro n
  induction n with
  | zero =>
    intro toks hn _ X hX dpi info
    have : toks = [] := List.length_eq_zero.mp (Nat.le_zero.mp hn)
    subst this
    simp only [List.flatten_nil, List.nil_append]
    rw [ttf_process_string_zero env g dpi X info (by rw [utf8_get_next_of_head_zero X hX]),
      ttf_process_string_zero env g dpi [] info (by rw [utf8_get_next_nil])]
  | succ n ih =>
    intro toks hn ht X hX dpi info
    cases toks with
    | nil =>
      simp only [List.flatten_nil, List.nil_append]
      rw [ttf_process_string_zero env g dpi X info (by rw [utf8_get_next_of_head_zero X hX]),
        ttf_process_string_zero env g dpi [] info (by rw [utf8_get_next_nil])]
    | cons t toks =>
      have htt : is_token t = true := ht t (List.mem_cons_self _ _)
      have ht' : ∀ u ∈ toks, is_token u = true := fun u hu => ht u (List.mem_cons_of_mem _ hu)
      have hn' : toks.length ≤ n := by simp only [List.length_cons] at hn; omega
      have h0 := token_codepoint_ne_zero t htt
      rcases token_cases t htt with hcode | hlit
      · -- a control code with its arguments
        have hc := ((is_code_token_iff t).1 hcode).1
        simp only [List.flatten_cons, List.append_assoc]
        rw [ttf_process_string_code env g dpi (t ++ (toks.flatten ++ X)) info
            (by rw [token_next t _ htt]; exact h0) (by rw [token_next t _ htt]; exact hc),
          ttf_process_string_code env g dpi (t ++ toks.flatten) info
            (by rw [token_next t _ htt]; exact h0) (by rw [token_next t _ htt]; exact hc),
          code_token_format_code env g dpi t _ info hcode,
          code_token_format_code env g dpi t _ info hcode]
        exact ih toks hn' ht' X hX _ _
      · have hl := (is_literal_token_iff t).1 hlit
        by_cases hs : (is_ttf info
            && env.utf8_should_use_sprite_for_codepoint (utf8_get_next t).1) = true
        · -- a codepoint the sprite font is forced for
          simp only [List.flatten_cons, List.append_assoc]
          rw [ttf_process_string_sprite env g dpi (t ++ (toks.flatten ++ X)) info
              (by rw [token_next t _ htt]; exact hl.2) (by rw [token_next t _ htt]; exact hs),
            ttf_process_string_sprite env g dpi (t ++ toks.flatten) info
              (by rw [token_next t _ htt]; exact hl.2) (by rw [token_next t _ htt]; exact hs),
            token_next t _ htt, token_next t _ htt, literal_token_drop t _ hlit,
            literal_token_drop t _ hlit]
          exact ih toks hn' ht' X hX _ _
        · -- a glyph run
          have hs' : (is_ttf info
              && env.utf8_should_use_sprite_for_codepoint (utf8_get_next t).1) = false := by
            simpa using hs
          have hin : in_run env (is_ttf info) t = true := by
            unfold in_run
            rw [hlit, hs']
            rfl
          have e1 := ttf_process_string_run env g dpi ((t :: toks).flatten ++ X) info
            (by rw [List.flatten_cons, List.append_assoc, token_next t _ htt]; exact hl.2)
            (by rw [List.flatten_cons, List.append_assoc, token_next t _ htt]; exact hs')
          have e2 := ttf_process_string_run env g dpi ((t :: toks).flatten) info
            (by rw [List.flatten_cons, token_next t _ htt]; exact hl.2)
            (by rw [List.flatten_cons, token_next t _ htt]; exact hs')
          have r1 := ttf_process_glyph_run_tokens env dpi info (t :: toks) X ht hX
          have r2 := ttf_process_glyph_run_tokens env dpi info (t :: toks) [] ht rfl
          rw [List.append_nil] at r2
          rw [e1, e2, r1, r2]
          have hrest : ((t :: toks).dropWhile (in_run env (is_ttf info))).length ≤ n := by
            rw [List.dropWhile_cons_of_pos hin]
            exact le_trans (dropWhile_length_le _ _) hn'
          have hrt : ∀ u ∈ (t :: toks).dropWhile (in_run env (is_ttf info)), is_token u = true :=
            fun u hu => ht u (List.dropWhile_subset _ hu)
          split_ifs with hr h511
          · cases hd : ttf_draw_string_raw env dpi
              ((t :: toks).takeWhile (in_run env (is_ttf info))).flatten info with
            | none => rfl
            | some s =>
              simp only [Option.map_some', Option.some_bind]
              have := ih [] (Nat.zero_le _) (by simp) X hX s.1 (update_extents s.2)
              simpa using this
          · rfl
          · cases hd : ttf_draw_string_raw env dpi
              ((t :: toks).takeWhile (in_run env (is_ttf info))).flatten info with
            | none => rfl
            | some s =>
              simp only [Option.map_some', Option.some_bind, List.append_nil]
              exact ih _ hrest hrt X hX s.1 (update_extents s.2)


/-! ### Measuring -/

theorem gfx_get_string_width_agree (env : Env) (g : Globals) (toks : List (List Nat))
    (X : List Nat) (ht : ∀ t ∈ toks, is_token t = true) (hX : byteAt X 0 = 0) :
    gfx_get_string_width env g (toks.flatten ++ X) = gfx_get_string_width env g toks.flatten := by
  unfold gfx_get_string_width ttf_get_string_width
  rw [ttf_process_string_agree env g toks.length toks (le_refl _) ht X hX]

theorem no_draw_measure_info (g : Globals) :
    (measure_info g).flags &&& TEXT_DRAW_FLAG_NO_DRAW ≠ 0 := by
  intro h
  have : ((measure_info g).flags &&& TEXT_DRAW_FLAG_NO_DRAW).testBit 31 = true := by
    simp only [measure_info, Nat.testBit_and, Nat.testBit_or]
    have : TEXT_DRAW_FLAG_NO_DRAW.testBit 31 = true := by decide
    simp [this]
  rw [h] at this
  simp at this

/-- The glyph-run scan stops at a codepoint other than the terminator only inside the
bytes it was given. -/
theorem glyph_run_scan_bound (env : Env) (isTTF : Bool) :
    ∀ (f : Nat) (ch : List Nat) (len L c : Nat),
      ttf_process_glyph_run_scan env isTTF f ch len = some (L, c) → c ≠ 0 →
      L < len + ch.length := by
  intro f
  induction f with
  | zero => intro ch len L c h; simp [ttf_process_glyph_run_scan] at h
  | succ f ih =>
    intro ch len L c h hc0
    have hne : ch ≠ [] := by
      rintro rfl
      simp only [ttf_process_glyph_run_scan, utf8_get_next_nil, is_format_code_zero,
        if_true, Option.some.injEq, Prod.mk.injEq] at h
      exact hc0 h.2.symm
    have hpos : 0 < ch.length := List.length_pos.mpr hne
    simp only [ttf_process_glyph_run_scan] at h
    split_ifs at h with h1 h2
    · simp only [Option.some.injEq, Prod.mk.injEq] at h
      omega
    · simp only [Option.some.injEq, Prod.mk.injEq] at h
      omega
    · have := ih _ _ _ _ h hc0
      simp only [List.length_drop] at this
      have hc : c ≠ 0 → (utf8_get_next ch).2 ≤ ch.length := by
        intro _
        by_contra hlt
        have hd : ch.drop (utf8_get_next ch).2 = [] := List.drop_eq_nil_of_le (by omega)
        rw [hd] at h
        cases f with
        | zero => simp [ttf_process_glyph_run_scan] at h
        | succ f =>
          simp only [ttf_process_glyph_run_scan, utf8_get_next_nil, is_format_code_zero,
            if_true, Option.some.injEq, Prod.mk.injEq] at h
          exact hc0 h.2.symm
      have := hc hc0
      omega

theorem ttf_draw_string_raw_isSome (env : Env) (dpi : rct_drawpixelinfo) (text : List Nat)
    (info : text_draw_info) : (ttf_draw_string_raw env dpi text info).isSome = true := by
  have hs : (ttf_draw_string_raw_sprite env dpi text info).isSome = true :=
    sprite_loop_isSome env _ dpi text info (by omega)
  unfold ttf_draw_string_raw ttf_draw_string_raw_ttf
  split_ifs
  · rfl
  · exact hs
  · rfl
  · split <;> rfl
  · exact hs

/-- A glyph run gives no result only when more than 511 bytes would be copied. -/
theorem ttf_process_glyph_run_isSome (env : Env) (dpi : rct_drawpixelinfo) (text : List Nat)
    (info : text_draw_info) (h : text.length ≤ 512) :
    (ttf_process_glyph_run env dpi text info).isSome = true := by
  obtain ⟨L, c, h1, -⟩ := glyph_run_scan_some env
    (decide (info.flags &&& TEXT_DRAW_FLAG_TTF ≠ 0)) (text.length + 1) text 0 (by omega)
  unfold ttf_process_glyph_run
  simp only [h1]
  split_ifs with hc h511
  · simp [ttf_draw_string_raw_isSome]
  · have := glyph_run_scan_bound env _ _ _ _ _ _ h1 hc
    omega
  · simp [ttf_draw_string_raw_isSome]

/-- The interpreter gives a result on every string of at most 512 bytes, well-formed or
not. -/
theorem ttf_process_string_isSome (env : Env) (g : Globals) :
    ∀ (n : Nat) (text : List Nat), text.length ≤ n → text.length ≤ 512 →
      ∀ (dpi : rct_drawpixelinfo) (info : text_draw_info),
        (ttf_process_string env g dpi text info).isSome = true := by
  intro n
  induction n with
  | zero =>
    intro text hn _ dpi info
    have : text = [] := List.length_eq_zero.mp (Nat.le_zero.mp hn)
    subst this
    rw [ttf_process_string_zero env g dpi [] info (by rw [utf8_get_next_nil])]
    rfl
  | succ n ih =>
    intro text hn h512 dpi info
    by_cases h0 : (utf8_get_next text).1 = 0
    · rw [ttf_process_string_zero env g dpi text info h0]
      rfl
    · have hne : text ≠ [] := ne_nil_of_codepoint_ne_zero text h0
      by_cases hc : utf8_is_format_code (utf8_get_next text).1 = true
      · rw [ttf_process_string_code env g dpi text info h0 hc]
        have hl : (ttf_process_format_code env g dpi text info).1.length < text.length := by
          rw [ttf_process_format_code_fst]
          exact drop_length_lt text _
            (le_trans (utf8_get_next_pos text) (Nat.le_add_right _ _)) hne
        exact ih _ (by omega) (by omega) _ _
      · have hc' : utf8_is_format_code (utf8_get_next text).1 = false := by simpa using hc
        by_cases hs : (is_ttf info
            && env.utf8_should_use_sprite_for_codepoint (utf8_get_next text).1) = true
        · rw [ttf_process_string_sprite env g dpi text info hc' hs]
          have hl := drop_length_lt text (utf8_get_next text).2 (utf8_get_next_pos text) hne
          exact ih _ (by omega) (by omega) _ _
        · have hs' : (is_ttf info
              && env.utf8_should_use_sprite_for_codepoint (utf8_get_next text).1) = false := by
            simpa using hs
          rw [ttf_process_string_run env g dpi text info hc' hs']
          have hsome := ttf_process_glyph_run_isSome env dpi text info h512
          cases hr : ttf_process_glyph_run env dpi text info with
          | none => rw [hr] at hsome; cases hsome
          | some s =>
            simp only [Option.some_bind]
            have hl := ttf_process_glyph_run_length env dpi text info s hr hc' hs'
            exact ih _ (by omega) (by omega) _ _

theorem gfx_get_string_width_isSome (env : Env) (g : Globals) (text : List Nat)
    (h : text.length ≤ 512) : ∃ w, gfx_get_string_width env g text = some w := by
  have := ttf_process_string_isSome env g text.length text (le_refl _) h nullDpi (measure_info g)
  unfold gfx_get_string_width ttf_get_string_width
  cases hr : ttf_process_string env g nullDpi text (measure_info g) with
  | none => rw [hr] at this; cases this
  | some s => exact ⟨s.2.maxX, rfl⟩


/-! ### Stores into a buffer -/

theorem poke_cons_zero (b : Nat) (R : List Nat) (v : Nat) : poke (b :: R) 0 v = v :: R := by
  simp [poke]

theorem poke_cons_succ (b : Nat) (R : List Nat) (k v : Nat) :
    poke (b :: R) (k + 1) v = b :: poke R k v := by
  unfold poke
  simp only [List.length_cons, Nat.add_lt_add_iff_right, List.set_cons_succ]
  split_ifs
  · rfl
  · simp

theorem poke_append (A R : List Nat) (k v : Nat) :
    poke (A ++ R) (A.length + k) v = A ++ poke R k v := by
  induction A with
  | nil => simp
  | cons a A ih =>
    rw [List.cons_append, List.length_cons, Nat.add_right_comm, poke_cons_succ, ih]
    rfl

theorem poke_append_zero (A R : List Nat) (v : Nat) :
    poke (A ++ R) A.length v = A ++ poke R 0 v := by
  have := poke_append A R 0 v
  simpa using this

theorem byteAt_append (A R : List Nat) (k : Nat) :
    byteAt (A ++ R) (A.length + k) = byteAt R k := by
  unfold byteAt
  rw [List.getD_append_right _ _ _ _ (by omega)]
  simp

theorem byteAt_append_zero (A R : List Nat) : byteAt (A ++ R) A.length = byteAt R 0 := by
  have := byteAt_append A R 0
  simpa using this

theorem poke_ellipsis_append (A : List Nat) (b0 b1 b2 b3 : Nat) (R : List Nat) :
    poke_ellipsis (A ++ b0 :: b1 :: b2 :: b3 :: R) A.length = A ++ 46 :: 46 :: 46 :: 0 :: R := by
  unfold poke_ellipsis
  rw [poke_append_zero, poke_cons_zero, poke_append, poke_cons_succ, poke_cons_zero,
    poke_append, poke_cons_succ, poke_cons_succ, poke_cons_zero,
    poke_append, poke_cons_succ, poke_cons_succ, poke_cons_succ, poke_cons_zero]

theorem poke_restore_append (A : List Nat) (b0 b1 b2 b3 c0 c1 c2 c3 : Nat) (R : List Nat) :
    poke (poke (poke (poke (A ++ c0 :: c1 :: c2 :: c3 :: R) A.length b0) (A.length + 1) b1)
      (A.length + 2) b2) (A.length + 3) b3 = A ++ b0 :: b1 :: b2 :: b3 :: R := by
  rw [poke_append_zero, poke_cons_zero, poke_append, poke_cons_succ, poke_cons_zero,
    poke_append, poke_cons_succ, poke_cons_succ, poke_cons_zero,
    poke_append, poke_cons_succ, poke_cons_succ, poke_cons_succ, poke_cons_zero]

theorem exists_four (R : List Nat) (h : 4 ≤ R.length) :
    ∃ b0 b1 b2 b3 R', R = b0 :: b1 :: b2 :: b3 :: R' := by
  match R, h with
  | b0 :: b1 :: b2 :: b3 :: R', _ => exact ⟨b0, b1, b2, b3, R', rfl⟩


/-! ### Clipping -/

theorem synced_token_is_token (t : List Nat) (h : is_synced_token t = true) :
    is_token t = true := by
  unfold is_synced_token at h
  unfold is_token
  rw [Bool.or_eq_true] at h ⊢
  rcases h with h | h
  · exact Or.inl h
  · rw [Bool.and_eq_true] at h
    exact Or.inr h.1

theorem synced_token_cases (t : List Nat) (h : is_synced_token t = true) :
    (is_code_token t = true ∧
      utf8_get_format_code_arg_length (utf8_get_next t).1
        = ttf_format_code_arg_length (utf8_get_next t).1)
    ∨ is_literal_token t = true := by
  unfold is_synced_token at h
  rw [Bool.or_eq_true] at h
  rcases h with h | h
  · exact Or.inr h
  · rw [Bool.and_eq_true, beq_iff_eq] at h
    exact Or.inl h

theorem ellipsis_tokens_flatten : ellipsis_tokens.flatten = [46, 46, 46] := rfl

theorem ellipsis_tokens_token : ∀ t ∈ ellipsis_tokens, is_token t = true := by
  decide

theorem flatten_append_singleton (pre : List (List Nat)) (t : List Nat) :
    (pre ++ [t]).flatten = pre.flatten ++ t := by
  simp

/-- Measuring a buffer that holds a well-formed string, three dots and a terminator. -/
theorem measure_cut (env : Env) (g : Globals) (p : List (List Nat)) (R : List Nat)
    (hp : ∀ t ∈ p, is_token t = true) :
    gfx_get_string_width env g (p.flatten ++ 46 :: 46 :: 46 :: 0 :: R)
      = gfx_get_string_width env g (p.flatten ++ [46, 46, 46]) := by
  have h := gfx_get_string_width_agree env g (p ++ ellipsis_tokens) (0 :: R)
    (by
      intro t ht
      rcases List.mem_append.1 ht with h | h
      · exact hp t h
      · exact ellipsis_tokens_token t h)
    rfl
  simp only [List.flatten_append, ellipsis_tokens_flatten, List.append_assoc] at h
  exact h

theorem cuts_fit_snoc (env : Env) (g : Globals) (width : Int) (pre : List (List Nat))
    (t : List Nat) (h : cuts_fit env g width pre)
    (ht : is_literal_token t = true → cut_fits env g width (pre ++ [t])) :
    cuts_fit env g width (pre ++ [t]) := by
  intro p u r hpr hu
  rcases List.eq_nil_or_concat r with rfl | ⟨r', x, rfl⟩
  · have h2 : pre ++ [t] = p ++ [u] := hpr
    obtain ⟨h3, h4⟩ := List.append_inj' h2 rfl
    simp only [List.cons.injEq, and_true] at h4
    subst h3; subst h4
    exact ht hu
  · have h2 : pre ++ [t] = (p ++ u :: r') ++ [x] := by
      rw [hpr]; simp
    obtain ⟨h3, -⟩ := List.append_inj' h2 rfl
    exact h p u r' h3 hu

theorem code_token_not_literal (t : List Nat) (h : is_code_token t = true) :
    is_literal_token t = false := by
  have := ((is_code_token_iff t).1 h).1
  simp [is_literal_token, this]

theorem clip_loop_spec (env : Env) (g : Globals) (width : Int) (toks : List (List Nat))
    (tail : List Nat) (hsync : ∀ t ∈ toks, is_synced_token t = true)
    (htail : 3 ≤ tail.length) :
    ∀ (post pre cpre mid : List (List Nat)) (cw : Int) (fuel : Nat),
      toks = pre ++ post → pre = cpre ++ mid → (∀ u ∈ mid, is_literal_token u = false) →
      cuts_fit env g width pre →
      (∀ F w, gfx_clip_string_loop env g width fuel (toks.flatten ++ 0 :: tail)
          pre.flatten.length cpre.flatten.length cw = some (F, w) →
        clip_post env g width toks tail cpre cw F w)
      ∧ (toks.flatten.length + 3 ≤ 512 → post.length < fuel →
          (gfx_clip_string_loop env g width fuel (toks.flatten ++ 0 :: tail)
            pre.flatten.length cpre.flatten.length cw).isSome = true) := by
  have htok : ∀ t ∈ toks, is_token t = true := fun t h => synced_token_is_token t (hsync t h)
  intro post
  induction post with
  | nil =>
    intro pre cpre mid cw fuel hpre hc hmid hfit
    rw [List.append_nil] at hpre
    subst hpre
    have hdrop : (toks.flatten ++ 0 :: tail).drop toks.flatten.length = 0 :: tail := by simp
    have hM := gfx_get_string_width_agree env g toks (0 :: tail) htok rfl
    cases fuel with
    | zero =>
      refine ⟨?_, ?_⟩
      · intro F w h; simp [gfx_clip_string_loop] at h
      · intro _ h; simp at h
    | succ fuel =>
      rw [gfx_clip_string_loop]
      simp only [hdrop, utf8_get_next_of_head_zero (0 :: tail) rfl, if_true, hM]
      refine ⟨?_, ?_⟩
      · intro F w h
        simp only [Option.map_eq_some', Prod.mk.injEq] at h
        obtain ⟨w', hw', hF, hw⟩ := h
        subst hF; subst hw
        exact Or.inl ⟨rfl, hw', hfit⟩
      · intro hlen _
        obtain ⟨w, hw⟩ := gfx_get_string_width_isSome env g toks.flatten (by omega)
        simp [hw]
  | cons t post ih =>
    intro pre cpre mid cw fuel hpre hc hmid hfit
    have htm : t ∈ toks := by rw [hpre]; simp
    have htt : is_token t = true := htok t htm
    have hflat : toks.flatten = pre.flatten ++ (t ++ post.flatten) := by
      rw [hpre]; simp
    have hdrop : (toks.flatten ++ 0 :: tail).drop pre.flatten.length
        = t ++ (post.flatten ++ 0 :: tail) := by
      rw [hflat]; simp
    have hpre' : toks = (pre ++ [t]) ++ post := by rw [hpre]; simp
    cases fuel with
    | zero =>
      refine ⟨?_, ?_⟩
      · intro F w h; simp [gfx_clip_string_loop] at h
      · intro _ h; simp at h
    | succ fuel =>
      rw [gfx_clip_string_loop]
      simp only [hdrop, token_next t _ htt, token_codepoint_ne_zero t htt, if_false]
      rcases synced_token_cases t (hsync t htm) with ⟨hcode, hargs⟩ | hlit
      · -- a control code: skipped with its arguments
        have hcd := (is_code_token_iff t).1 hcode
        have hnl := code_token_not_literal t hcode
        simp only [hcd.1, if_true]
        have hch : pre.flatten.length + (utf8_get_next t).2
            + utf8_get_format_code_arg_length (utf8_get_next t).1
            = (pre ++ [t]).flatten.length := by
          rw [flatten_append_singleton, List.length_append, hargs, hcd.2.2]
          omega
        rw [hch]
        have := ih (pre ++ [t]) cpre (mid ++ [t]) cw fuel hpre'
          (by rw [hc, List.append_assoc])
          (by
            intro u hu
            rcases List.mem_append.1 hu with h | h
            · exact hmid u h
            · rw [List.mem_singleton.1 h]; exact hnl)
          (cuts_fit_snoc env g width pre t hfit (by intro h; rw [hnl] at h; cases h))
        refine ⟨this.1, ?_⟩
        intro hlen hf
        exact this.2 hlen (by simp only [List.length_cons] at hf; omega)
      · -- a literal codepoint: the cut after it is tried
        have hl := (is_literal_token_iff t).1 hlit
        simp only [hl.2, Bool.false_eq_true, if_false]
        have hnext : pre.flatten.length + (utf8_get_next t).2 = (pre ++ [t]).flatten.length := by
          rw [flatten_append_singleton, List.length_append, hl.1]
        rw [hnext]
        obtain ⟨b0, b1, b2, b3, R, hR⟩ := exists_four (post.flatten ++ 0 :: tail)
          (by simp only [List.length_append, List.length_cons]; omega)
        have htext : toks.flatten ++ 0 :: tail
            = (pre ++ [t]).flatten ++ b0 :: b1 :: b2 :: b3 :: R := by
          rw [hflat, flatten_append_singleton, ← hR]
          simp
        have hb0 : byteAt (toks.flatten ++ 0 :: tail) (pre ++ [t]).flatten.length = b0 := by
          rw [htext, byteAt_append_zero]; rfl
        have hb1 : byteAt (toks.flatten ++ 0 :: tail) ((pre ++ [t]).flatten.length + 1) = b1 := by
          rw [htext, byteAt_append]; rfl
        have hb2 : byteAt (toks.flatten ++ 0 :: tail) ((pre ++ [t]).flatten.length + 2) = b2 := by
          rw [htext, byteAt_append]; rfl
        have hb3 : byteAt (toks.flatten ++ 0 :: tail) ((pre ++ [t]).flatten.length + 3) = b3 := by
          rw [htext, byteAt_append]; rfl
        have hpk : poke_ellipsis (toks.flatten ++ 0 :: tail) (pre ++ [t]).flatten.length
            = (pre ++ [t]).flatten ++ 46 :: 46 :: 46 :: 0 :: R := by
          rw [htext, poke_ellipsis_append]
        have hptok : ∀ u ∈ pre ++ [t], is_token u = true := by
          intro u hu
          apply htok
          rw [hpre']
          exact List.mem_append_left _ hu
        have hq := measure_cut env g (pre ++ [t]) R hptok
        simp only [hb0, hb1, hb2, hb3, hpk, hq]
        have hrest : poke (poke (poke (poke ((pre ++ [t]).flatten ++ 46 :: 46 :: 46 :: 0 :: R)
            (pre ++ [t]).flatten.length b0) ((pre ++ [t]).flatten.length + 1) b1)
            ((pre ++ [t]).flatten.length + 2) b2) ((pre ++ [t]).flatten.length + 3) b3
            = toks.flatten ++ 0 :: tail := by
          rw [poke_restore_append, htext]
        cases hm : gfx_get_string_width env g ((pre ++ [t]).flatten ++ [46, 46, 46]) with
        | none =>
          refine ⟨?_, ?_⟩
          · intro F w h; simp at h
          · intro hlen _
            obtain ⟨w, hw⟩ := gfx_get_string_width_isSome env g
              ((pre ++ [t]).flatten ++ [46, 46, 46])
              (by
                have : (pre ++ [t]).flatten.length ≤ toks.flatten.length := by
                  rw [hpre']; simp
                simp only [List.length_append, List.length_cons, List.length_nil] at this ⊢
                omega)
            rw [hm] at hw
            cases hw
        | some qw =>
          simp only
          by_cases hlt : qw < width
          · simp only [hlt, if_true, hrest]
            have := ih (pre ++ [t]) (pre ++ [t]) [] qw fuel hpre' (by simp)
              (by intro u hu; cases hu)
              (cuts_fit_snoc env g width pre t hfit (fun _ => ⟨qw, hm, hlt⟩))
            refine ⟨?_, ?_⟩
            · intro F w h
              rcases this.1 F w h with hA | ⟨p, m, u, q, junk, v, h1, h2, h3, h4, h5, h6, h7, h8⟩
              · exact Or.inl hA
              · refine Or.inr ⟨p, m, u, q, junk, v, h1, h2, h3, h4, h5, h6, h7, Or.inr ?_⟩
                rcases h8 with ⟨hp, hw⟩ | h8
                · subst hp; subst hw
                  exact ⟨⟨pre, t, rfl, hlit⟩, hm, hlt⟩
                · exact h8
            · intro hlen hf
              exact this.2 hlen (by simp only [List.length_cons] at hf; omega)
          · simp only [hlt, if_false]
            refine ⟨?_, ?_⟩
            · intro F w h
              simp only [Option.some.injEq, Prod.mk.injEq] at h
              obtain ⟨hF, hw⟩ := h
              have hsplit : (pre ++ [t]).flatten ++ 46 :: 46 :: 46 :: 0 :: R
                  = cpre.flatten ++ ((mid ++ [t]).flatten ++ 46 :: 46 :: 46 :: 0 :: R) := by
                rw [hc]; simp
              obtain ⟨c0, c1, c2, c3, R2, hR2⟩ := exists_four
                ((mid ++ [t]).flatten ++ 46 :: 46 :: 46 :: 0 :: R)
                (by simp only [List.length_append, List.length_cons]; omega)
              rw [hsplit, hR2, poke_ellipsis_append] at hF
              refine Or.inr ⟨cpre, mid, t, post, R2, qw, ?_, hmid, hlit, ?_, ?_, ?_, hF.symm,
                Or.inl ⟨rfl, hw.symm⟩⟩
              · rw [hpre, hc]
              · rw [← hc]; exact hfit
              · rw [← hc]; exact hm
              · exact not_lt.mp hlt
            · intro _ _
              rfl


theorem token_length_pos (t : List Nat) (h : is_token t = true) : 1 ≤ t.length := by
  unfold is_token at h
  rw [Bool.or_eq_true, is_literal_token_iff, is_code_token_iff] at h
  have := utf8_get_next_pos t
  rcases h with h | h <;> omega

theorem tokens_length_le_flatten (toks : List (List Nat)) (h : ∀ t ∈ toks, is_token t = true) :
    toks.length ≤ toks.flatten.length := by
  induction toks with
  | nil => simp
  | cons t toks ih =>
    have h1 := token_length_pos t (h t (List.mem_cons_self _ _))
    have h2 := ih (fun u hu => h u (List.mem_cons_of_mem _ hu))
    simp only [List.length_cons, List.flatten_cons, List.length_append]
    omega

theorem byteAt_poke_zero (text : List Nat) (v : Nat) : byteAt (poke text 0 v) 0 = v := by
  cases text with
  | nil => simp [poke, byteAt]
  | cons a l => rw [poke_cons_zero]; rfl

theorem gfx_get_string_width_of_head_zero (env : Env) (g : Globals) (text : List Nat)
    (h : byteAt text 0 = 0) : gfx_get_string_width env g text = some 0 := by
  unfold gfx_get_string_width ttf_get_string_width
  rw [ttf_process_string_zero env g nullDpi text (measure_info g)
    (by rw [utf8_get_next_of_head_zero text h])]
  rfl

theorem cstr_of_head_zero (text : List Nat) (h : byteAt text 0 = 0) : cstr text = [] := by
  cases text with
  | nil => rfl
  | cons a l =>
    simp only [byteAt, List.getD_cons_zero] at h
    simp [cstr, h]

theorem cuts_fit_nil (env : Env) (g : Globals) (width : Int) : cuts_fit env g width [] := by
  intro p t r h
  simp at h

/-- What `gfx_clip_string` does to a well-formed text in a buffer with three spare bytes,
for a width at or above the floor. -/
theorem gfx_clip_string_spec (env : Env) (g : Globals) (width : Int)
    (toks : List (List Nat)) (tail : List Nat)
    (hsync : ∀ t ∈ toks, is_synced_token t = true) (htail : 3 ≤ tail.length)
    (hW : 6 ≤ width) :
    (∀ F w, gfx_clip_string env g (toks.flatten ++ 0 :: tail) width = some (F, w) →
      ∃ w0, gfx_get_string_width env g toks.flatten = some w0 ∧
        ((w0 ≤ width ∧ F = toks.flatten ++ 0 :: tail ∧ w = w0)
          ∨ (width < w0 ∧ clip_post env g width toks tail [] w0 F w)))
    ∧ (toks.flatten.length + 3 ≤ 512 →
        (gfx_clip_string env g (toks.flatten ++ 0 :: tail) width).isSome = true) := by
  have htok : ∀ t ∈ toks, is_token t = true := fun t h => synced_token_is_token t (hsync t h)
  have hM := gfx_get_string_width_agree env g toks (0 :: tail) htok rfl
  have hloop := clip_loop_spec env g width toks tail hsync htail toks [] [] [] 
  unfold gfx_clip_string
  simp only [not_lt.mpr hW, if_false, hM]
  cases hm : gfx_get_string_width env g toks.flatten with
  | none =>
    refine ⟨?_, ?_⟩
    · intro F w h; simp at h
    · intro hlen
      obtain ⟨w, hw⟩ := gfx_get_string_width_isSome env g toks.flatten (by omega)
      rw [hm] at hw
      cases hw
  | some w0 =>
    simp only
    by_cases hfit : w0 ≤ width
    · simp only [hfit, if_true]
      refine ⟨?_, fun _ => rfl⟩
      intro F w h
      simp only [Option.some.injEq, Prod.mk.injEq] at h
      exact ⟨w0, rfl, Or.inl ⟨hfit, h.1.symm, h.2.symm⟩⟩
    · simp only [hfit, if_false]
      have := hloop w0 ((toks.flatten ++ 0 :: tail).length + 1) (by simp) (by simp)
        (by intro u hu; cases hu) (cuts_fit_nil env g width)
      simp only [List.flatten_nil, List.length_nil] at this
      refine ⟨?_, ?_⟩
      · intro F w h
        exact ⟨w0, rfl, Or.inr ⟨not_le.mp hfit, this.1 F w h⟩⟩
      · intro hlen
        apply this.2 hlen
        have := tokens_length_le_flatten toks htok
        simp only [List.length_append, List.length_cons]
        omega


/-! ### The interpreter reads the globals only for the window colours -/

theorem ttf_process_format_code_congr (env : Env) (g g' : Globals)
    (h : g.gCurrentWindowColours = g'.gCurrentWindowColours) (dpi : rct_drawpixelinfo)
    (text : List Nat) (info : text_draw_info) :
    ttf_process_format_code env g dpi text info = ttf_process_format_code env g' dpi text info := by
  unfold ttf_process_format_code ttf_process_format_code_switch
  rw [h]

theorem ttf_process_string_loop_congr (env : Env) (g g' : Globals)
    (h : g.gCurrentWindowColours = g'.gCurrentWindowColours) (isTTF : Bool) :
    ∀ (fuel : Nat) (dpi : rct_drawpixelinfo) (ch : List Nat) (info : text_draw_info),
      ttf_process_string_loop env g isTTF fuel dpi ch info
        = ttf_process_string_loop env g' isTTF fuel dpi ch info := by
  intro fuel
  induction fuel with
  | zero => intro dpi ch info; rfl
  | succ fuel ih =>
    intro dpi ch info
    simp only [ttf_process_string_loop, ttf_process_format_code_congr env g g' h, ih]

theorem ttf_process_string_congr (env : Env) (g g' : Globals)
    (h : g.gCurrentWindowColours = g'.gCurrentWindowColours) (dpi : rct_drawpixelinfo)
    (text : List Nat) (info : text_draw_info) :
    ttf_process_string env g dpi text info = ttf_process_string env g' dpi text info := by
  unfold ttf_process_string
  exact ttf_process_string_loop_congr env g g' h _ _ _ _ _

/-- A font selector at the start of a measured string: the rest is measured with the
font selected. -/
theorem measure_font_selector (env : Env) (g : Globals) (c font : Nat) (t : List Nat)
    (hc : c < 32) (h0 : c ≠ 0)
    (hsw : ∀ dpi nextCh info, ttf_process_format_code_switch env g dpi c nextCh info
      = (nextCh, dpi, { info with font_sprite_base := font })) :
    gfx_get_string_width env g (c :: t)
      = gfx_get_string_width env { g with gCurrentFontSpriteBase := font } t := by
  have hn : utf8_get_next (c :: t) = (c, 1) := utf8_get_next_ascii c t (by omega)
  have hf : utf8_is_format_code c = true := by simp [utf8_is_format_code, hc]
  unfold gfx_get_string_width ttf_get_string_width
  rw [ttf_process_string_code env g nullDpi (c :: t) (measure_info g)
    (by rw [hn]; exact h0) (by rw [hn]; exact hf)]
  unfold ttf_process_format_code
  rw [hn, hsw]
  simp only [List.drop_succ_cons, List.drop_zero]
  rw [ttf_process_string_congr env g { g with gCurrentFontSpriteBase := font } rfl]
  rfl


/-! ### The advance of a run of literal codepoints -/

theorem ttf_draw_character_sprite_measure (env : Env) (dpi : rct_drawpixelinfo) (c : Nat)
    (info : text_draw_info) (h : info.flags &&& TEXT_DRAW_FLAG_NO_DRAW ≠ 0) :
    ttf_draw_character_sprite env dpi c info
      = (dpi, { info with
          x := info.x + env.font_sprite_get_codepoint_width info.font_sprite_base c }) := by
  unfold ttf_draw_character_sprite
  simp [h]

theorem sprite_run_cons (env : Env) (dpi : rct_drawpixelinfo) (info : text_draw_info)
    (c : Nat) (cps : List Nat) :
    sprite_run env dpi info (c :: cps)
      = sprite_run env (ttf_draw_character_sprite env dpi c info).1
          (ttf_draw_character_sprite env dpi c info).2 cps := rfl

theorem sprite_run_measure (env : Env) :
    ∀ (cps : List Nat) (dpi : rct_drawpixelinfo) (info : text_draw_info),
      info.flags &&& TEXT_DRAW_FLAG_NO_DRAW ≠ 0 →
      sprite_run env dpi info cps
        = (dpi, { info with x := info.x + sprite_width env info.font_sprite_base cps }) := by
  intro cps
  induction cps with
  | nil =>
    intro dpi info _
    simp [sprite_run, sprite_width]
  | cons c cps ih =>
    intro dpi info hnd
    rw [sprite_run_cons, ttf_draw_character_sprite_measure env dpi c info hnd]
    simp only
    rw [ih dpi { info with
      x := info.x + env.font_sprite_get_codepoint_width info.font_sprite_base c } hnd]
    simp only [sprite_width, List.map_cons, List.sum_cons, Prod.mk.injEq, true_and,
      text_draw_info.mk.injEq, and_true]
    omega

/-- Measuring a run of literal tokens: the context changes in the cursor only, which
advances by `run_advance`, and nothing is drawn. -/
theorem ttf_draw_string_raw_measure (env : Env) (dpi : rct_drawpixelinfo)
    (info : text_draw_info) (lits : List (List Nat))
    (hl : ∀ t ∈ lits, is_literal_token t = true)
    (hnd : info.flags &&& TEXT_DRAW_FLAG_NO_DRAW ≠ 0) :
    ttf_draw_string_raw env dpi lits.flatten info
      = some (dpi, { info with x := info.x + run_advance env info lits }) := by
  have hs : ttf_draw_string_raw_sprite env dpi lits.flatten info
      = some (dpi, { info with
          x := info.x + sprite_width env info.font_sprite_base (codepoints lits) }) := by
    unfold ttf_draw_string_raw_sprite
    have := sprite_loop_tokens env lits [] (lits.flatten.length + 1) dpi info hl
      (by rw [utf8_get_next_nil]; rfl) (by simp)
    rw [List.append_nil] at this
    rw [this, sprite_run_measure env _ dpi info hnd]
  unfold ttf_draw_string_raw ttf_draw_string_raw_ttf run_advance
  rw [hs]
  by_cases hT : info.flags &&& TEXT_DRAW_FLAG_TTF ≠ 0
  · rw [if_pos hT, if_pos hT]
    by_cases hi : env.ttf_initialise = true
    · by_cases hf : env.ttf_font_loaded info.font_sprite_base = true
      · simp [hi, hf, hnd]
      · simp [hi, hf]
    · simp [hi]
  · rw [if_neg hT, if_neg hT]


/-! ### Plain ASCII text -/

theorem plain_token_eq (t : List Nat) (h : is_plain_token t = true) :
    ∃ b, t = [b] ∧ is_plain_ascii b = true := by
  match t, h with
  | [b], h => exact ⟨b, rfl, h⟩

theorem plain_ascii_bounds (b : Nat) (h : is_plain_ascii b = true) :
    32 ≤ b ∧ b < 127 ∧ utf8_is_format_code b = false := by
  simpa [is_plain_ascii, and_assoc] using h

theorem plain_ascii_next (b : Nat) (rest : List Nat) (h : is_plain_ascii b = true) :
    utf8_get_next (b :: rest) = (b, 1) :=
  utf8_get_next_ascii b rest (by have := plain_ascii_bounds b h; omega)

theorem plain_ascii_token (b : Nat) (h : is_plain_ascii b = true) :
    is_literal_token [b] = true := by
  rw [is_literal_token_iff, plain_ascii_next b [] h]
  exact ⟨rfl, (plain_ascii_bounds b h).2.2⟩

theorem plain_token_literal (t : List Nat) (h : is_plain_token t = true) :
    is_literal_token t = true := by
  obtain ⟨b, rfl, hb⟩ := plain_token_eq t h
  exact plain_ascii_token b hb

theorem ascii_tokens_flatten (s : List Nat) : (ascii_tokens s).flatten = s := by
  induction s with
  | nil => rfl
  | cons b s ih =>
    simp only [ascii_tokens, List.map_cons, List.flatten_cons, List.singleton_append] at ih ⊢
    rw [ih]

theorem ascii_tokens_plain (s : List Nat) (h : ∀ b ∈ s, is_plain_ascii b = true) :
    ∀ t ∈ ascii_tokens s, is_plain_token t = true := by
  intro t ht
  simp only [ascii_tokens, List.mem_map] at ht
  obtain ⟨b, hb, rfl⟩ := ht
  exact h b hb

theorem ascii_tokens_append (s : List Nat) (c : Nat) :
    ascii_tokens (s ++ [c]) = ascii_tokens s ++ [[c]] := by
  simp [ascii_tokens]

theorem cstr_plain_tokens (toks : List (List Nat)) (h : ∀ t ∈ toks, is_plain_token t = true) :
    cstr toks.flatten = toks.flatten := by
  induction toks with
  | nil => rfl
  | cons t toks ih =>
    obtain ⟨b, rfl, hb⟩ := plain_token_eq t (h t (List.mem_cons_self _ _))
    have hb0 : b ≠ 0 := by have := plain_ascii_bounds b hb; omega
    have := ih (fun u hu => h u (List.mem_cons_of_mem _ hu))
    unfold cstr at this ⊢
    simp [List.takeWhile_cons, hb0, this]

theorem codepoints_append (a b : List (List Nat)) :
    codepoints (a ++ b) = codepoints a ++ codepoints b := by
  simp [codepoints]

theorem sprite_width_append (env : Env) (font : Nat) (a b : List Nat) :
    sprite_width env font (a ++ b) = sprite_width env font a + sprite_width env font b := by
  simp [sprite_width]

/-- Appending a plain character to a run does not shrink its advance, when the sprite
widths are not negative and the widths of the outline font do not shrink. -/
theorem run_advance_snoc (env : Env) (info : text_draw_info)
    (hw : ∀ f c, 0 ≤ env.font_sprite_get_codepoint_width f c)
    (ht : is_ttf info = true → ∀ f r c, env.ttf_getwidth_cache_get_or_add f r
      ≤ env.ttf_getwidth_cache_get_or_add f (r ++ [c]))
    (lits : List (List Nat)) (u : Nat) (hl : ∀ t ∈ lits, is_plain_token t = true)
    (hu : is_plain_ascii u = true) :
    run_advance env info lits ≤ run_advance env info (lits ++ [[u]]) := by
  have hall : ∀ t ∈ lits ++ [[u]], is_plain_token t = true := by
    intro t h
    rcases List.mem_append.1 h with h | h
    · exact hl t h
    · rw [List.mem_singleton.1 h]; exact hu
  have hsp : sprite_width env info.font_sprite_base (codepoints lits)
      ≤ sprite_width env info.font_sprite_base (codepoints (lits ++ [[u]])) := by
    rw [codepoints_append, sprite_width_append]
    have : 0 ≤ sprite_width env info.font_sprite_base (codepoints [[u]]) := by
      simp only [sprite_width, codepoints, List.map_cons, List.map_nil, List.sum_cons,
        List.sum_nil, add_zero]
      exact hw _ _
    omega
  unfold run_advance
  rw [cstr_plain_tokens lits hl, cstr_plain_tokens _ hall]
  split_ifs with h1
  · exact le_refl _
  · exact hsp
  · simp only [List.flatten_append, List.flatten_cons, List.flatten_nil, List.append_nil]
    exact ht (by unfold is_ttf; simpa using h1) _ _ _
  · exact hsp

theorem takeWhile_append_of_dropWhile_ne_nil {α : Type} (p : α → Bool) (xs ys : List α)
    (h : xs.dropWhile p ≠ []) :
    (xs ++ ys).takeWhile p = xs.takeWhile p ∧ (xs ++ ys).dropWhile p = xs.dropWhile p ++ ys := by
  induction xs with
  | nil => exact absurd rfl h
  | cons x xs ih =>
    by_cases hx : p x = true
    · simp only [List.dropWhile_cons, hx, if_true] at h
      obtain ⟨h1, h2⟩ := ih h
      simp [List.takeWhile_cons, List.dropWhile_cons, hx, h1, h2]
    · simp [List.takeWhile_cons, List.dropWhile_cons, hx]

theorem update_extents_maxX_le (info : text_draw_info) :
    info.maxX ≤ (update_extents info).maxX := le_max_left _ _


/-! ### Appending a plain character does not shrink the measure -/

theorem no_draw_update_extents (info : text_draw_info) :
    (update_extents info).flags &&& TEXT_DRAW_FLAG_NO_DRAW
      = info.flags &&& TEXT_DRAW_FLAG_NO_DRAW := rfl

/-- Measuring one more plain character from any measuring context. -/
theorem process_single_plain (env : Env) (g : Globals) (u : Nat)
    (hu : is_plain_ascii u = true) (dpi : rct_drawpixelinfo) (info : text_draw_info)
    (hnd : info.flags &&& TEXT_DRAW_FLAG_NO_DRAW ≠ 0) :
    ∃ r, ttf_process_string env g dpi [u] info = some r ∧ info.maxX ≤ r.2.maxX := by
  have hn := plain_ascii_next u [] hu
  have hlit := plain_ascii_token u hu
  have hl := (is_literal_token_iff [u]).1 hlit
  by_cases hs : (is_ttf info && env.utf8_should_use_sprite_for_codepoint (utf8_get_next [u]).1)
      = true
  · rw [ttf_process_string_sprite env g dpi [u] info hl.2 hs, hn,
      ttf_draw_character_sprite_measure env dpi u info hnd]
    simp only [List.drop_succ_cons, List.drop_zero]
    rw [ttf_process_string_zero env g _ [] _ (by rw [utf8_get_next_nil])]
    exact ⟨_, rfl, le_max_left _ _⟩
  · have hs' : (is_ttf info
        && env.utf8_should_use_sprite_for_codepoint (utf8_get_next [u]).1) = false := by
      simpa using hs
    have hin : in_run env (is_ttf info) [u] = true := by
      unfold in_run
      rw [hlit, hs']
      rfl
    have hr := ttf_process_glyph_run_tokens env dpi info [[u]] []
      (by intro t ht; rw [List.mem_singleton.1 ht]; simp [is_token, hlit]) rfl
    simp only [List.flatten_cons, List.flatten_nil, List.append_nil, List.dropWhile_cons, hin,
      if_true, List.dropWhile_nil, List.takeWhile_cons, List.takeWhile_nil] at hr
    have hm := ttf_draw_string_raw_measure env dpi info [[u]]
      (by intro t ht; rw [List.mem_singleton.1 ht]; exact hlit) hnd
    simp only [List.flatten_cons, List.flatten_nil, List.append_nil] at hm
    rw [ttf_process_string_run env g dpi [u] info hl.2 hs', hr, hm]
    simp only [Option.map_some', Option.some_bind]
    rw [ttf_process_string_zero env g _ [] _ (by rw [utf8_get_next_nil])]
    exact ⟨_, rfl, le_max_left _ _⟩

/-- Appending a plain character does not shrink the measure of a string of plain
characters; a run in front of a character forced to the sprite font has to fit the staging
buffer. -/
theorem process_snoc_mono_runs (env : Env) (g : Globals)
    (hw : ∀ f c, 0 ≤ env.font_sprite_get_codepoint_width f c)
    (u : Nat) (hu : is_plain_ascii u = true) :
    ∀ (n : Nat) (toks : List (List Nat)), toks.length ≤ n →
      (∀ t ∈ toks, is_plain_token t = true) →
      ∀ (dpi : rct_drawpixelinfo) (info : text_draw_info),
        info.flags &&& TEXT_DRAW_FLAG_NO_DRAW ≠ 0 →
        (is_ttf info = true → ∀ f r c, env.ttf_getwidth_cache_get_or_add f r
          ≤ env.ttf_getwidth_cache_get_or_add f (r ++ [c])) →
        (is_ttf info = true → (∃ v ∈ toks ++ [[u]], in_run env (is_ttf info) v = false) →
          toks.flatten.length ≤ 511) →
        ∃ r r', ttf_process_string env g dpi toks.flatten info = some r
          ∧ ttf_process_string env g dpi (toks ++ [[u]]).flatten info = some r'
          ∧ r.2.maxX ≤ r'.2.maxX := by
  have hbase : ∀ (dpi : rct_drawpixelinfo) (info : text_draw_info),
      info.flags &&& TEXT_DRAW_FLAG_NO_DRAW ≠ 0 →
      ∃ r r', ttf_process_string env g dpi ([] : List (List Nat)).flatten info = some r
        ∧ ttf_process_string env g dpi ([] ++ [[u]]).flatten info = some r'
        ∧ r.2.maxX ≤ r'.2.maxX := by
    intro dpi info hnd
    obtain ⟨r', h1, h2⟩ := process_single_plain env g u hu dpi info hnd
    refine ⟨(dpi, info), r', ?_, ?_, h2⟩
    · exact ttf_process_string_zero env g dpi [] info (by rw [utf8_get_next_nil])
    · simpa using h1
  intro n
  induction n with
  | zero =>
    intro toks hn _ dpi info hnd _ _
    have : toks = [] := List.length_eq_zero.mp (Nat.le_zero.mp hn)
    subst this
    exact hbase dpi info hnd
  | succ n ih =>
    intro toks hn hp dpi info hnd ht hlen
    cases toks with
    | nil => exact hbase dpi info hnd
    | cons t rest =>
      have hpt := hp t (List.mem_cons_self _ _)
      have hprest : ∀ v ∈ rest, is_plain_token v = true :=
        fun v hv => hp v (List.mem_cons_of_mem _ hv)
      have hn' : rest.length ≤ n := by simp only [List.length_cons] at hn; omega
      obtain ⟨b, rfl, hb⟩ := plain_token_eq t hpt
      have hlit := plain_ascii_token b hb
      have hlb := (is_literal_token_iff [b]).1 hlit
      have hlen_rest : rest.flatten.length ≤ ([b] :: rest).flatten.length := by simp
      by_cases hs : (is_ttf info && env.utf8_should_use_sprite_for_codepoint b) = true
      · -- the sprite font is forced for `b`
        have e1 : ([b] :: rest).flatten = b :: rest.flatten := by simp
        have e2 : ([b] :: rest ++ [[u]]).flatten = b :: (rest ++ [[u]]).flatten := by simp
        rw [e1, e2,
          ttf_process_string_sprite env g dpi (b :: rest.flatten) info
            (by rw [plain_ascii_next b _ hb]; exact hlb.2 ▸ (by rw [plain_ascii_next b [] hb]))
            (by rw [plain_ascii_next b _ hb]; exact hs),
          ttf_process_string_sprite env g dpi (b :: (rest ++ [[u]]).flatten) info
            (by rw [plain_ascii_next b _ hb]; exact hlb.2 ▸ (by rw [plain_ascii_next b [] hb]))
            (by rw [plain_ascii_next b _ hb]; exact hs),
          plain_ascii_next b _ hb, plain_ascii_next b _ hb,
          ttf_draw_character_sprite_measure env dpi b info hnd]
        simp only [List.drop_succ_cons, List.drop_zero]
        refine ih rest hn' hprest _ _ hnd ht (fun h hex => le_trans hlen_rest (hlen h ?_))
        obtain ⟨v, hv, hvf⟩ := hex
        exact ⟨v, List.mem_cons_of_mem _ hv, hvf⟩
      · -- a glyph run starts at `b`
        have hs' : (is_ttf info && env.utf8_should_use_sprite_for_codepoint b) = false := by
          simpa using hs
        have hnb : ∀ X, utf8_get_next (([b] :: rest).flatten ++ X) = (b, 1) := by
          intro X
          simp only [List.flatten_cons, List.singleton_append, List.cons_append]
          exact plain_ascii_next b _ hb
        have hin : in_run env (is_ttf info) [b] = true := by
          unfold in_run
          rw [hlit, plain_ascii_next b [] hb, hs']
          rfl
        have htok : ∀ v ∈ [b] :: rest, is_token v = true := by
          intro v hv
          simp [is_token, plain_token_literal v (hp v hv)]
        have hutok : is_token [u] = true := by simp [is_token, plain_ascii_token u hu]
        have htok2 : ∀ v ∈ ([b] :: rest) ++ [[u]], is_token v = true := by
          intro v hv
          rcases List.mem_append.1 hv with h | h
          · exact htok v h
          · rw [List.mem_singleton.1 h]; exact hutok
        have e1 := ttf_process_string_run env g dpi ([b] :: rest).flatten info
          (by have := hnb []; rw [List.append_nil] at this; rw [this]; exact hlb.2 ▸ (by rw [plain_ascii_next b [] hb]))
          (by have := hnb []; rw [List.append_nil] at this; rw [this]; exact hs')
        have e2 := ttf_process_string_run env g dpi (([b] :: rest) ++ [[u]]).flatten info
          (by
            have := hnb [u]
            simp only [List.flatten_append, List.flatten_cons, List.flatten_nil, List.append_nil]
              at this ⊢
            rw [this]; exact hlb.2 ▸ (by rw [plain_ascii_next b [] hb]))
          (by
            have := hnb [u]
            simp only [List.flatten_append, List.flatten_cons, List.flatten_nil, List.append_nil]
              at this ⊢
            rw [this]; exact hs')
        have r1 := ttf_process_glyph_run_tokens env dpi info ([b] :: rest) [] htok rfl
        have r2 := ttf_process_glyph_run_tokens env dpi info (([b] :: rest) ++ [[u]]) [] htok2 rfl
        simp only [List.append_nil] at r1 r2
        rw [e1, e2, r1, r2]
        have hrunlit : ∀ v ∈ ([b] :: rest).takeWhile (in_run env (is_ttf info)),
            is_literal_token v = true :=
          fun v hv => in_run_literal env _ v (List.mem_takeWhile_imp hv)
        have hsplit := List.takeWhile_append_dropWhile (in_run env (is_ttf info)) ([b] :: rest)
        have hflat : (([b] :: rest).takeWhile (in_run env (is_ttf info))).flatten.length
            + (([b] :: rest).dropWhile (in_run env (is_ttf info))).flatten.length
            = ([b] :: rest).flatten.length := by
          rw [← List.length_append, ← List.flatten_append, hsplit]
        by_cases hr : ([b] :: rest).dropWhile (in_run env (is_ttf info)) = []
        · -- the run reaches the end of the string
          have hall : ∀ v ∈ [b] :: rest, in_run env (is_ttf info) v = true :=
            List.dropWhile_eq_nil_iff.1 hr
          have htake : ([b] :: rest).takeWhile (in_run env (is_ttf info)) = [b] :: rest := by
            rw [hr, List.append_nil] at hsplit
            exact hsplit
          have hm1 := ttf_draw_string_raw_measure env dpi info ([b] :: rest)
            (fun v hv => plain_token_literal v (hp v hv)) hnd
          simp only [hr, if_true, htake, hm1, Option.map_some', Option.some_bind]
          rw [ttf_process_string_zero env g _ [] _ (by rw [utf8_get_next_nil])]
          by_cases hpu : in_run env (is_ttf info) [u] = true
          · have hd2 : (([b] :: rest) ++ [[u]]).dropWhile (in_run env (is_ttf info)) = [] := by
              rw [List.dropWhile_append_of_pos hall]
              simp [hpu]
            have ht2 : (([b] :: rest) ++ [[u]]).takeWhile (in_run env (is_ttf info))
                = ([b] :: rest) ++ [[u]] := by
              rw [List.takeWhile_append_of_pos hall]
              simp [hpu]
            have hm2 := ttf_draw_string_raw_measure env dpi info (([b] :: rest) ++ [[u]])
              (fun v hv => by
                rcases List.mem_append.1 hv with h | h
                · exact plain_token_literal v (hp v h)
                · rw [List.mem_singleton.1 h]; exact plain_ascii_token u hu) hnd
            simp only [hd2, if_true, ht2, hm2, Option.map_some', Option.some_bind]
            rw [ttf_process_string_zero env g _ [] _ (by rw [utf8_get_next_nil])]
            refine ⟨_, _, rfl, rfl, ?_⟩
            have := run_advance_snoc env info hw ht ([b] :: rest) u hp hu
            exact max_le_max (le_refl _) (by simp only; omega)
          · have hpu' : in_run env (is_ttf info) [u] = false := by simpa using hpu
            have hd2 : (([b] :: rest) ++ [[u]]).dropWhile (in_run env (is_ttf info)) = [[u]] := by
              rw [List.dropWhile_append_of_pos hall]
              simp [hpu']
            have ht2 : (([b] :: rest) ++ [[u]]).takeWhile (in_run env (is_ttf info))
                = [b] :: rest := by
              rw [List.takeWhile_append_of_pos hall]
              simp [hpu']
            have httf : is_ttf info = true := by
              unfold in_run at hpu'
              rw [plain_ascii_token u hu] at hpu'
              simp only [Bool.true_and, Bool.not_eq_false', Bool.and_eq_true] at hpu'
              exact hpu'.1
            have h511 : ¬ 511 < ([b] :: rest).flatten.length := by
              have := hlen httf ⟨[u], by simp, hpu'⟩
              omega
            have hu1 : ([[u]] : List (List Nat)) ≠ [] := by simp
            have hu2 : ([[u]] : List (List Nat)).flatten = [u] := rfl
            simp only [hd2, ht2, h511, hu1, hu2, if_false, hm1, Option.map_some',
              Option.some_bind]
            obtain ⟨r', h1, h2⟩ := process_single_plain env g u hu dpi
              (update_extents { info with x := info.x + run_advance env info ([b] :: rest) })
              hnd
            exact ⟨_, r', rfl, h1, h2⟩
        · -- the run ends at a character the sprite font is forced for
          obtain ⟨ht2, hd2⟩ := takeWhile_append_of_dropWhile_ne_nil
            (in_run env (is_ttf info)) ([b] :: rest) [[u]] hr
          have httf : is_ttf info = true := by
            by_contra hf
            have hf' : is_ttf info = false := by simpa using hf
            apply hr
            rw [List.dropWhile_eq_nil_iff]
            intro v hv
            unfold in_run
            rw [plain_token_literal v (hp v hv), hf']
            rfl
          have hex : ∃ v ∈ ([b] :: rest) ++ [[u]], in_run env (is_ttf info) v = false := by
            by_contra hno
            apply hr
            rw [List.dropWhile_eq_nil_iff]
            intro v hv
            cases hvr : in_run env (is_ttf info) v with
            | true => rfl
            | false => exact absurd ⟨v, List.mem_append_left _ hv, hvr⟩ hno
          have h511 : ¬ 511 < (([b] :: rest).takeWhile (in_run env (is_ttf info))).flatten.length := by
            have := hlen httf hex
            omega
          have hm1 := ttf_draw_string_raw_measure env dpi info
            (([b] :: rest).takeWhile (in_run env (is_ttf info))) hrunlit hnd
          have hne2 : ([b] :: rest).dropWhile (in_run env (is_ttf info)) ++ [[u]] ≠ [] := by simp
          simp only [hr, if_false, ht2, hd2, hne2, h511, hm1, Option.map_some', Option.some_bind]
          have hdl : (([b] :: rest).dropWhile (in_run env (is_ttf info))).length ≤ n := by
            rw [List.dropWhile_cons_of_pos hin]
            exact le_trans (dropWhile_length_le _ _) hn'
          exact ih _ hdl (fun v hv => hp v (List.dropWhile_subset _ hv)) dpi
            (update_extents { info with x := info.x + run_advance env info (([b] :: rest).takeWhile (in_run env (is_ttf info))) })
            hnd ht (fun h _ => by have := hlen httf hex; omega)

/-! ### Totality of the interpreter on well-formed strings -/

theorem runs_fit_suffix (env : Env) (isTTF : Bool) (a b : List (List Nat))
    (h : runs_fit env isTTF (a ++ b)) : runs_fit env isTTF b := by
  intro pre run t rest hb hrun ht
  exact h (a ++ pre) run t rest (by rw [hb]; simp) hrun ht

theorem dropWhile_head_not {α : Type} (p : α → Bool) (l : List α) (t : α) (rest : List α)
    (h : l.dropWhile p = t :: rest) : p t = false := by
  induction l with
  | nil => simp at h
  | cons x xs ih =>
    by_cases hx : p x = true
    · rw [List.dropWhile_cons_of_pos hx] at h
      exact ih h
    · rw [List.dropWhile_cons_of_neg hx] at h
      simp only [List.cons.injEq] at h
      rw [← h.1]
      simpa using hx

theorem ttf_process_string_isSome_of_runs_fit (env : Env) (g : Globals) :
    ∀ (n : Nat) (toks : List (List Nat)), toks.length ≤ n →
      (∀ t ∈ toks, is_token t = true) →
      ∀ (dpi : rct_drawpixelinfo) (info : text_draw_info),
        runs_fit env (is_ttf info) toks →
        (ttf_process_string env g dpi toks.flatten info).isSome = true := by
  intro n
  induction n with
  | zero =>
    intro toks hn _ dpi info _
    have : toks = [] := List.length_eq_zero.mp (Nat.le_zero.mp hn)
    subst this
    rw [List.flatten_nil, ttf_process_string_zero env g dpi [] info (by rw [utf8_get_next_nil])]
    rfl
  | succ n ih =>
    intro toks hn ht dpi info hfit
    cases toks with
    | nil =>
      rw [List.flatten_nil, ttf_process_string_zero env g dpi [] info (by rw [utf8_get_next_nil])]
      rfl
    | cons t toks =>
      have htt : is_token t = true := ht t (List.mem_cons_self _ _)
      have ht' : ∀ u ∈ toks, is_token u = true := fun u hu => ht u (List.mem_cons_of_mem _ hu)
      have hn' : toks.length ≤ n := by simp only [List.length_cons] at hn; omega
      have h0 := token_codepoint_ne_zero t htt
      have hfit' : runs_fit env (is_ttf info) toks := runs_fit_suffix env _ [t] toks hfit
      rcases token_cases t htt with hcode | hlit
      · have hc := ((is_code_token_iff t).1 hcode).1
        rw [List.flatten_cons,
          ttf_process_string_code env g dpi (t ++ toks.flatten) info
            (by rw [token_next t _ htt]; exact h0) (by rw [token_next t _ htt]; exact hc),
          code_token_format_code env g dpi t _ info hcode]
        apply ih toks hn' ht'
        rw [is_ttf_update_extents]
        have hm := ttf_process_format_code_mode env g dpi t info
        have : is_ttf (ttf_process_format_code env g dpi t info).2.2 = is_ttf info :=
          ttf_bit_of_mode hm
        rw [this]
        exact hfit'
      · have hl := (is_literal_token_iff t).1 hlit
        by_cases hs : (is_ttf info
            && env.utf8_should_use_sprite_for_codepoint (utf8_get_next t).1) = true
        · rw [List.flatten_cons,
            ttf_process_string_sprite env g dpi (t ++ toks.flatten) info
              (by rw [token_next t _ htt]; exact hl.2) (by rw [token_next t _ htt]; exact hs),
            token_next t _ htt, literal_token_drop t _ hlit]
          apply ih toks hn' ht'
          rw [is_ttf_update_extents,
            is_ttf_of_frame (ttf_draw_character_sprite_frame env dpi _ info)]
          exact hfit'
        · have hs' : (is_ttf info
              && env.utf8_should_use_sprite_for_codepoint (utf8_get_next t).1) = false := by
            simpa using hs
          have hin : in_run env (is_ttf info) t = true := by
            unfold in_run
            rw [hlit, hs']
            rfl
          have e1 := ttf_process_string_run env g dpi ((t :: toks).flatten) info
            (by rw [List.flatten_cons, token_next t _ htt]; exact hl.2)
            (by rw [List.flatten_cons, token_next t _ htt]; exact hs')
          have r1 := ttf_process_glyph_run_tokens env dpi info (t :: toks) [] ht rfl
          simp only [List.append_nil] at r1
          rw [e1, r1]
          have hsplit := List.takeWhile_append_dropWhile (in_run env (is_ttf info)) (t :: toks)
          have hraw := ttf_draw_string_raw_isSome env dpi
            ((t :: toks).takeWhile (in_run env (is_ttf info))).flatten info
          cases hd : ttf_draw_string_raw env dpi
              ((t :: toks).takeWhile (in_run env (is_ttf info))).flatten info with
          | none => rw [hd] at hraw; cases hraw
          | some s =>
            have hfr := ttf_draw_string_raw_frame env dpi _ info s hd
            by_cases hr : (t :: toks).dropWhile (in_run env (is_ttf info)) = []
            · simp only [hr, if_true, Option.map_some', Option.some_bind]
              rw [ttf_process_string_zero env g _ [] _ (by rw [utf8_get_next_nil])]
              rfl
            · obtain ⟨v, rest, hvr⟩ := List.exists_cons_of_ne_nil hr
              have hv := dropWhile_head_not _ _ v rest hvr
              have h511 : ¬ 511 < ((t :: toks).takeWhile (in_run env (is_ttf info))).flatten.length := by
                have := hfit [] ((t :: toks).takeWhile (in_run env (is_ttf info))) v rest
                  (by rw [List.nil_append, ← hvr, hsplit])
                  (fun u hu => List.mem_takeWhile_imp hu) hv
                omega
              simp only [hr, h511, if_false, Option.map_some', Option.some_bind]
              apply ih
              · rw [List.dropWhile_cons_of_pos hin]
                exact le_trans (dropWhile_length_le _ _) hn'
              · exact fun u hu => ht u (List.dropWhile_subset _ hu)
              · rw [is_ttf_update_extents, is_ttf_of_frame hfr]
                apply runs_fit_suffix env _ ((t :: toks).takeWhile (in_run env (is_ttf info)))
                rw [hsplit]
                exact hfit


theorem runs_fit_of_length (env : Env) (isTTF : Bool) (toks : List (List Nat))
    (h : toks.flatten.length ≤ 511) : runs_fit env isTTF toks := by
  intro pre run t rest hb _ _
  have : run.flatten.length ≤ toks.flatten.length := by
    rw [hb]
    simp only [List.flatten_append, List.length_append]
    omega
  omega

/-! ### Plain tokens -/

theorem char_token_spec (t : List Nat) (h : is_char_token t = true) :
    is_literal_token t = true ∧ (∀ b ∈ t, b ≠ 0)
      ∧ ((utf8_get_next t).1 = 32 → t = [32]) := by
  unfold is_char_token at h
  simp only [Bool.and_eq_true, List.all_eq_true, bne_iff_ne, ne_eq, Bool.or_eq_true,
    beq_iff_eq] at h
  obtain ⟨⟨h1, h2⟩, h3⟩ := h
  refine ⟨h1, h2, ?_⟩
  intro h32
  rcases h3 with h3 | h3
  · exact absurd h32 h3
  · exact h3

theorem char_token_is_token (t : List Nat) (h : is_char_token t = true) : is_token t = true := by
  simp [is_token, (char_token_spec t h).1]

theorem literal_arg_length (c : Nat) (h : utf8_is_format_code c = false) :
    utf8_get_format_code_arg_length c = 0 := by
  have h32 : ¬ c < 32 := by
    intro hlt
    simp [utf8_is_format_code, hlt] at h
  unfold utf8_get_format_code_arg_length FORMAT_MOVE_X FORMAT_ADJUST_PALETTE FORMAT_3 FORMAT_4
    FORMAT_NEWLINE_X_Y FORMAT_INLINE_SPRITE
  split_ifs with h1 h2 h3
  · omega
  · omega
  · omega
  · rfl

theorem cstr_of_nonzero (l : List Nat) (h : ∀ b ∈ l, b ≠ 0) : cstr l = l := by
  induction l with
  | nil => rfl
  | cons a l ih =>
    have ha : a ≠ 0 := h a (List.mem_cons_self _ _)
    have := ih (fun b hb => h b (List.mem_cons_of_mem _ hb))
    unfold cstr at this ⊢
    simp [List.takeWhile_cons, ha, this]

theorem char_tokens_nonzero (toks : List (List Nat)) (h : ∀ t ∈ toks, is_char_token t = true) :
    ∀ b ∈ toks.flatten, b ≠ 0 := by
  intro b hb
  rw [List.mem_flatten] at hb
  obtain ⟨t, ht, hbt⟩ := hb
  exact (char_token_spec t (h t ht)).2.1 b hbt

/-! ### The end of a string of plain tokens -/

theorem get_string_end_loop_tokens :
    ∀ (toks : List (List Nat)) (X : List Nat) (fuel pos : Nat),
      (∀ t ∈ toks, is_char_token t = true) → byteAt X 0 = 0 →
      (toks.flatten ++ X).length < fuel →
      get_string_end_loop fuel (toks.flatten ++ X) pos = some (pos + toks.flatten.length + 1) := by
  intro toks
  induction toks with
  | nil =>
    intro X fuel pos _ hX hf
    cases fuel with
    | zero => omega
    | succ fuel =>
      simp [get_string_end_loop, utf8_get_next_of_head_zero X hX]
  | cons t toks ih =>
    intro X fuel pos ht hX hf
    have hct := ht t (List.mem_cons_self _ _)
    have hlit := (char_token_spec t hct).1
    have hl := (is_literal_token_iff t).1 hlit
    have htt := char_token_is_token t hct
    cases fuel with
    | zero => omega
    | succ fuel =>
      simp only [List.flatten_cons, List.append_assoc] at hf ⊢
      rw [get_string_end_loop, token_next t _ htt]
      simp only [token_codepoint_ne_zero t htt, if_false, literal_arg_length _ hl.2,
        Nat.add_zero]
      rw [literal_token_drop t _ hlit,
        ih X fuel _ (fun u hu => ht u (List.mem_cons_of_mem _ hu)) hX
          (by simp only [List.length_append] at hf ⊢; have := utf8_get_next_pos t; omega)]
      simp only [List.length_append, hl.1]
      congr 1
      omega

theorem get_string_end_tokens (toks : List (List Nat)) (tail : List Nat)
    (h : ∀ t ∈ toks, is_char_token t = true) :
    get_string_end (toks.flatten ++ 0 :: tail) = some toks.flatten.length := by
  unfold get_string_end
  rw [get_string_end_loop_tokens toks (0 :: tail) _ 0 h rfl (by omega)]
  simp

theorem range_map_byteAt (A L R : List Nat) :
    (List.range L.length).map (fun i => byteAt (A ++ (L ++ R)) (A.length + i)) = L := by
  apply List.ext_getElem
  · simp
  · intro i h1 h2
    simp only [List.getElem_map, List.getElem_range]
    rw [byteAt_append, byteAt_append_left L R i h2]
    unfold byteAt
    rw [List.getD_eq_getElem _ _ h2]

/-- Inserting the terminator in front of a string of plain tokens. -/
theorem utf8_insert_codepoint_zero_tokens (A : List Nat) (toks : List (List Nat))
    (tail : List Nat) (h : ∀ t ∈ toks, is_char_token t = true) :
    utf8_insert_codepoint_zero (A ++ (toks.flatten ++ 0 :: tail)) A.length
      = some (A ++ 0 :: (toks.flatten ++ 0 :: tail.drop 1), 1) := by
  unfold utf8_insert_codepoint_zero
  have hd : (A ++ (toks.flatten ++ 0 :: tail)).drop A.length = toks.flatten ++ 0 :: tail := by
    simp
  rw [hd, get_string_end_tokens toks tail h]
  simp only [Option.map_some', Option.some.injEq, Prod.mk.injEq, and_true]
  have hm := range_map_byteAt A (toks.flatten ++ [0]) tail
  have e1 : A ++ (toks.flatten ++ 0 :: tail) = A ++ ((toks.flatten ++ [0]) ++ tail) := by simp
  rw [e1]
  have e2 : (toks.flatten ++ [0]).length = toks.flatten.length + 1 := by simp
  rw [e2] at hm
  rw [hm]
  have e3 : (A ++ ((toks.flatten ++ [0]) ++ tail)).drop (A.length + toks.flatten.length + 2)
      = tail.drop 1 := by
    rw [← List.append_assoc, List.drop_append_eq_append_drop]
    have : (A ++ (toks.flatten ++ [0])).length = A.length + toks.flatten.length + 1 := by
      simp; omega
    rw [this, List.drop_eq_nil_of_le (by rw [this]; omega)]
    simp
  rw [e3]
  simp


/-! ### One turn of the wrap loop on plain tokens -/

/-- The second half of a turn, with the measurement and the two stores around it
resolved: the buffer holds `D`, the line so far `L`, the token `t` and more. -/
theorem gfx_wrap_string_place_eq (env : Env) (g : Globals) (width : Int) (s : wrap_state)
    (D : List Nat) (line : List (List Nat)) (t : List Nat) (x0 : Nat) (X : List Nat)
    (htext : s.text = D ++ (line.flatten ++ (t ++ x0 :: X)))
    (hfirst : s.firstCh = D.length)
    (htok : ∀ u ∈ line ++ [t], is_token u = true) :
    gfx_wrap_string_place env g width s (D.length + line.flatten.length + t.length)
      = (gfx_get_string_width env g (line ++ [t]).flatten).bind (fun lw =>
          if lw ≤ width ∨ s.numCharactersOnLine = 0 then
            some { s with lineWidth := lw, ch := D.length + line.flatten.length + t.length,
                          numCharactersOnLine := s.numCharactersOnLine + 1 }
          else
            match s.currentWord with
            | none =>
              (utf8_insert_codepoint_zero s.text s.ch).map (fun r =>
                wrap_new_line { s with lineWidth := lw } r.1 (s.ch + r.2) lw)
            | some k =>
              some (wrap_new_line { s with lineWidth := lw } (poke s.text k 0) (k + 1)
                s.currentWidth)) := by
  have hP : s.text = (D ++ (line.flatten ++ t)) ++ x0 :: X := by
    rw [htext]; simp
  have hlen : (D ++ (line.flatten ++ t)).length = D.length + line.flatten.length + t.length := by
    simp; omega
  have hsave : byteAt s.text (D.length + line.flatten.length + t.length) = x0 := by
    rw [hP, ← hlen, byteAt_append_zero]; rfl
  have hpoke : poke s.text (D.length + line.flatten.length + t.length) 0
      = (D ++ (line.flatten ++ t)) ++ 0 :: X := by
    rw [hP, ← hlen, poke_append_zero, poke_cons_zero]
  have hrest : poke ((D ++ (line.flatten ++ t)) ++ 0 :: X)
      (D.length + line.flatten.length + t.length) x0 = s.text := by
    rw [hP, ← hlen, poke_append_zero, poke_cons_zero]
  have hdrop : ((D ++ (line.flatten ++ t)) ++ 0 :: X).drop s.firstCh
      = (line ++ [t]).flatten ++ 0 :: X := by
    rw [hfirst]; simp
  unfold gfx_wrap_string_place
  simp only [hsave, hpoke, hdrop, hrest,
    gfx_get_string_width_agree env g (line ++ [t]) (0 :: X) htok rfl]
  cases gfx_get_string_width env g (line ++ [t]).flatten with
  | none => rfl
  | some lw => rfl


theorem lines_bytes_snoc (lines : List (List (List Nat) × Bool)) (l : List (List Nat))
    (b : Bool) : lines_bytes (lines ++ [(l, b)]) = lines_bytes lines ++ (l.flatten ++ [0]) := by
  simp [lines_bytes]

theorem lines_tokens_snoc (lines : List (List (List Nat) × Bool)) (l : List (List Nat))
    (b : Bool) :
    lines_tokens (lines ++ [(l, b)]) = lines_tokens lines ++ (l ++ (if b then [[32]] else [])) := by
  simp [lines_tokens]

theorem potential_break (R R' C C' : Nat) (h1 : R' + 1 ≤ R) (h2 : C' ≤ R') :
    R' * (R' + 1) + C' + 1 < R * (R + 1) + C + 1 := by
  have h3 : R' * (R' + 1) + R' + 1 ≤ R * R := by nlinarith
  nlinarith

theorem wrap_inv_accept (env : Env) (g : Globals) (width : Int) (toks : List (List Nat))
    (s s1 : wrap_state) (v : wrap_view) (t : List Nat) (rest' : List (List Nat))
    (hinv : wrap_inv env g width toks s v) (hrest : v.rest = t :: rest')
    (hword : word_inv env g width (lines_bytes v.lines).length (v.line ++ [t]) s1.currentWord)
    (hok : line_ok env g width (v.line ++ [t]))
    (h1 : s1.text = s.text) (h2 : s1.firstCh = s.firstCh) (h3 : s1.ch = s.ch + t.length)
    (h4 : s1.numCharactersOnLine ≠ 0) (h6 : s1.outNumLines = s.outNumLines) :
    wrap_inv env g width toks s1 { v with line := v.line ++ [t], rest := rest' } := by
  obtain ⟨htext, hfirst, hch, hnum, -, -, hlines, hnl, hcons, hforced⟩ := hinv
  refine ⟨?_, ?_, ?_, ?_, hword, hok, hlines, ?_, ?_, hforced⟩
  · rw [h1, htext]
    simp [view_text, hrest]
  · rw [h2, hfirst]
  · rw [h3, hch]
    simp only [List.flatten_append, List.length_append, List.flatten_cons, List.flatten_nil,
      List.append_nil]
    omega
  · constructor
    · intro h; exact absurd h h4
    · intro h; simp at h
  · rw [h6, hnl]
  · rw [hcons, hrest]
    simp

theorem wrap_inv_break (env : Env) (g : Globals) (width : Int) (toks : List (List Nat))
    (s s1 : wrap_state) (v : wrap_view) (l : List (List Nat)) (b : Bool)
    (newrest : List (List Nat)) (newtail : List Nat)
    (hinv : wrap_inv env g width toks s v)
    (h1 : s1.text = lines_bytes v.lines ++ (l.flatten ++ 0 :: (newrest.flatten ++ 0 :: newtail)))
    (h2 : s1.firstCh = (lines_bytes v.lines).length + l.flatten.length + 1)
    (h3 : s1.ch = (lines_bytes v.lines).length + l.flatten.length + 1)
    (h4 : s1.numCharactersOnLine = 0) (h5 : s1.currentWord = none)
    (h6 : s1.outNumLines = s.outNumLines + 1)
    (hok : line_ok env g width l)
    (hcons : v.line ++ v.rest = l ++ (if b then [[32]] else []) ++ newrest)
    (hb : b = false → l ≠ []) :
    wrap_inv env g width toks s1 ⟨v.lines ++ [(l, b)], [], newrest, newtail⟩ := by
  obtain ⟨-, -, -, -, -, -, hlines, hnl, hcons0, hforced⟩ := hinv
  refine ⟨?_, ?_, ?_, ?_, ?_, Or.inl rfl, ?_, ?_, ?_, ?_⟩
  · rw [h1]
    simp [view_text, lines_bytes_snoc]
  · rw [h2, lines_bytes_snoc]
    simp only [List.length_append, List.length_cons, List.length_nil]
    omega
  · rw [h3, lines_bytes_snoc]
    simp only [List.length_append, List.length_cons, List.length_nil, List.flatten_nil]
    omega
  · simp [h4]
  · rw [h5]
    intro t ht
    cases ht
  · intro x hx
    rcases List.mem_append.1 hx with h | h
    · exact hlines x h
    · rw [List.mem_singleton.1 h]; exact hok
  · rw [h6, hnl]
    simp
  · rw [hcons0, lines_tokens_snoc, hcons]
    simp
  · intro x hx hx2
    rcases List.mem_append.1 hx with h | h
    · exact hforced x h hx2
    · rw [List.mem_singleton.1 h] at hx2 ⊢
      exact hb hx2


theorem word_inv_snoc (env : Env) (g : Globals) (width : Int) (base : Nat)
    (line : List (List Nat)) (t : List Nat) (cw : Option Nat)
    (h : word_inv env g width base line cw) (ht : is_space_token t = false) :
    word_inv env g width base (line ++ [t]) cw := by
  cases cw with
  | none =>
    intro u hu
    rcases List.mem_append.1 hu with hu | hu
    · exact h u hu
    · rw [List.mem_singleton.1 hu]; exact ht
  | some k =>
    obtain ⟨l1, l2, e, hk, hl2, hok⟩ := h
    refine ⟨l1, l2 ++ [t], ?_, hk, ?_, hok⟩
    · rw [e]; simp
    · intro u hu
      rcases List.mem_append.1 hu with hu | hu
      · exact hl2 u hu
      · rw [List.mem_singleton.1 hu]; exact ht

theorem poke_at (A : List Nat) (b : Nat) (R : List Nat) (k : Nat) (hk : k = A.length) :
    poke (A ++ b :: R) k 0 = A ++ 0 :: R := by
  rw [hk, poke_append_zero, poke_cons_zero]

theorem flatten_length_pos (l : List (List Nat)) (h : ∀ t ∈ l, is_token t = true)
    (hne : l ≠ []) : 1 ≤ l.flatten.length := by
  have := tokens_length_le_flatten l h
  have : 1 ≤ l.length := by
    cases l with
    | nil => exact absurd rfl hne
    | cons a l => simp
  omega


theorem wrap_step_spec (env : Env) (g : Globals) (width : Int) (toks : List (List Nat))
    (hct : ∀ t ∈ toks, is_char_token t = true) (s : wrap_state) (v : wrap_view)
    (hinv : wrap_inv env g width toks s v) :
    wrap_step_post env g width toks s v (gfx_wrap_string_step env g width s) := by
  have hinv0 := hinv
  obtain ⟨htext, hfirst, hch, hnum, hword, hlok, hlines, hnl, hcons, hforced⟩ := hinv
  have hmem : ∀ t ∈ v.line ++ v.rest, is_char_token t = true := by
    intro t ht
    apply hct
    rw [hcons]
    exact List.mem_append_right _ ht
  have hdrop : s.text.drop s.ch = v.rest.flatten ++ 0 :: v.tail := by
    rw [htext, hch, view_text, ← List.append_assoc, ← List.length_append, List.drop_left]
  cases hrest : v.rest with
  | nil =>
    rw [hrest] at hdrop
    have h0 : utf8_get_next (s.text.drop s.ch) = (0, 1) := by
      rw [hdrop]
      exact utf8_get_next_of_head_zero _ rfl
    unfold gfx_wrap_string_step
    dsimp only
    rw [h0, if_pos rfl]
    exact ⟨rfl, hrest⟩
  | cons t rest' =>
    rw [hrest] at hdrop hmem
    have htc := hmem t (by simp)
    obtain ⟨hlit, hnz, h32⟩ := char_token_spec t htc
    have htok := char_token_is_token t htc
    obtain ⟨hlen, hnf⟩ := (is_literal_token_iff t).1 hlit
    have hc0 := token_codepoint_ne_zero t htok
    have hdrop2 : s.text.drop s.ch = t ++ (rest'.flatten ++ 0 :: v.tail) := by
      rw [hdrop]; simp
    have hnext : utf8_get_next (s.text.drop s.ch) = utf8_get_next t := by
      rw [hdrop2]; exact token_next _ _ htok
    obtain ⟨x0, X, hX⟩ : ∃ x0 X, rest'.flatten ++ 0 :: v.tail = x0 :: X := by
      cases h : rest'.flatten with
      | nil => exact ⟨0, v.tail, rfl⟩
      | cons a l => exact ⟨a, l ++ 0 :: v.tail, rfl⟩
    have htext2 : s.text = lines_bytes v.lines ++ (v.line.flatten ++ (t ++ x0 :: X)) := by
      rw [htext, view_text, hrest, ← hX]; simp
    have hnextCh : s.ch + (utf8_get_next t).2
        = (lines_bytes v.lines).length + v.line.flatten.length + t.length := by
      rw [hch, hlen]
    have hltok : ∀ u ∈ v.line, is_token u = true := fun u hu =>
      char_token_is_token u (hmem u (List.mem_append_left _ hu))
    have htoks : ∀ u ∈ v.line ++ [t], is_token u = true := by
      intro u hu
      rcases List.mem_append.1 hu with hu | hu
      · exact hltok u hu
      · rw [List.mem_singleton.1 hu]; exact htok
    have hcnl : (utf8_get_next t).1 ≠ FORMAT_NEWLINE := by
      intro h
      rw [h] at hnf
      exact absurd hnf (by decide)
    have hR : (v.line ++ t :: rest').flatten.length
        = v.line.flatten.length + t.length + rest'.flatten.length := by
      simp; omega
    have htpos := token_length_pos t htok
    have hmeas : gfx_get_string_width env g (v.line ++ [t]).flatten = none →
        512 < (v.line ++ t :: rest').flatten.length := by
      intro hm
      by_contra hle
      have hl : (v.line ++ [t]).flatten.length ≤ 512 := by
        have : (v.line ++ [t]).flatten.length = v.line.flatten.length + t.length := by simp
        omega
      obtain ⟨w, hw⟩ := gfx_get_string_width_isSome env g _ hl
      rw [hw] at hm
      cases hm
    have hacc : (v.line ++ [t] ++ rest').flatten.length = (v.line ++ t :: rest').flatten.length := by
      simp
    have hpacc : wrap_potential { v with line := v.line ++ [t], rest := rest' }
        < wrap_potential { v with rest := t :: rest' } := by
      unfold wrap_potential
      dsimp only
      rw [hacc]
      have : (t :: rest').flatten.length = t.length + rest'.flatten.length := by simp
      omega
    have hv : v = { v with rest := t :: rest' } := by
      cases v
      simp only at hrest
      rw [hrest]
    unfold gfx_wrap_string_step
    dsimp only
    rw [hnext, hnextCh, if_neg hc0]
    by_cases hsp : (utf8_get_next t).1 = 32
    · rw [if_pos hsp]
      have ht32 := h32 hsp
      rw [gfx_wrap_string_place_eq env g width
        { s with currentWord := some s.ch, currentWidth := s.lineWidth, numCharactersOnLine := s.numCharactersOnLine + 1 }
        (lines_bytes v.lines) v.line t x0 X htext2 hfirst htoks]
      cases hm : gfx_get_string_width env g (v.line ++ [t]).flatten with
      | none =>
        simp only [Option.none_bind, Option.map_none']
        show 512 < (v.line ++ v.rest).flatten.length
        rw [hrest]
        exact hmeas hm
      | some lw =>
        by_cases hfit : lw ≤ width
        · simp only [Option.some_bind, if_pos (Or.inl hfit), Option.map_some']
          refine ⟨{ v with line := v.line ++ [t], rest := rest' }, ?_, ?_, ?_⟩
          · refine wrap_inv_accept env g width toks s _ v t rest' hinv0 hrest ?_ ?_ rfl rfl ?_
              (Nat.succ_ne_zero _) rfl
            · refine ⟨v.line, [], ?_, hch, ?_, hlok⟩
              · rw [ht32]
              · intro u hu; cases hu
            · exact Or.inr (Or.inr ⟨lw, hm, hfit⟩)
            · show _ = s.ch + t.length
              rw [hch]
          · rw [hv]; exact hpacc
          · dsimp only; rw [hacc, hrest]
        · have hcond : ¬ (lw ≤ width ∨ s.numCharactersOnLine + 1 = 0) := by
            intro h
            rcases h with h | h
            · exact hfit h
            · omega
          simp only [Option.some_bind, if_neg hcond, Option.map_some']
          refine ⟨⟨v.lines ++ [(v.line, true)], [], rest', v.tail⟩, ?_, ?_, ?_⟩
          · refine wrap_inv_break env g width toks s _ v v.line true rest' v.tail hinv0
              ?_ ?_ ?_ rfl rfl rfl hlok ?_ (fun h => by cases h)
            · show poke s.text s.ch 0 = _
              have e : s.text = (lines_bytes v.lines ++ v.line.flatten)
                  ++ 32 :: (rest'.flatten ++ 0 :: v.tail) := by
                rw [htext, view_text, hrest, ht32]; simp
              rw [e, poke_at _ _ _ _ (by rw [hch]; simp)]
              simp
            · show s.ch + 1 = _
              rw [hch]
            · show s.ch + 1 = _
              rw [hch]
            · rw [hrest, ht32]; simp
          · unfold wrap_potential
            dsimp only
            rw [hrest, List.nil_append, hR]
            exact potential_break _ _ _ _ (by omega) (le_refl _)
          · dsimp only
            rw [hrest, List.nil_append, hR]
            omega
    · rw [if_neg hsp, if_neg hcnl]
      rw [hnf]
      simp only [Bool.false_eq_true, if_false]
      have hns : is_space_token t = false := by
        simp [is_space_token, hsp]
      rw [gfx_wrap_string_place_eq env g width s
        (lines_bytes v.lines) v.line t x0 X htext2 hfirst htoks]
      cases hm : gfx_get_string_width env g (v.line ++ [t]).flatten with
      | none =>
        simp only [Option.none_bind, Option.map_none']
        show 512 < (v.line ++ v.rest).flatten.length
        rw [hrest]
        exact hmeas hm
      | some lw =>
        by_cases hfit : lw ≤ width ∨ s.numCharactersOnLine = 0
        · simp only [Option.some_bind, if_pos hfit, Option.map_some']
          refine ⟨{ v with line := v.line ++ [t], rest := rest' }, ?_, ?_, ?_⟩
          · refine wrap_inv_accept env g width toks s _ v t rest' hinv0 hrest ?_ ?_ rfl rfl ?_
              (Nat.succ_ne_zero _) rfl
            · exact word_inv_snoc env g width _ v.line t s.currentWord hword hns
            · rcases hfit with hfit | hfit
              · exact Or.inr (Or.inr ⟨lw, hm, hfit⟩)
              · rw [hnum.1 hfit]
                exact Or.inr (Or.inl ⟨t, rfl⟩)
            · show _ = s.ch + t.length
              rw [hch]
          · rw [hv]; exact hpacc
          · dsimp only; rw [hacc, hrest]
        · simp only [Option.some_bind, if_neg hfit]
          have hne : v.line ≠ [] := by
            intro h
            exact hfit (Or.inr (hnum.2 h))
          have hlpos := flatten_length_pos v.line hltok hne
          cases hcw : s.currentWord with
          | none =>
            have e : s.text = (lines_bytes v.lines ++ v.line.flatten)
                ++ ((t :: rest').flatten ++ 0 :: v.tail) := by
              rw [htext, view_text, hrest]; simp
            have hins : utf8_insert_codepoint_zero s.text s.ch
                = some ((lines_bytes v.lines ++ v.line.flatten)
                    ++ 0 :: ((t :: rest').flatten ++ 0 :: v.tail.drop 1), 1) := by
              have hk : s.ch = (lines_bytes v.lines ++ v.line.flatten).length := by
                rw [hch]; simp
              rw [hk, e]
              exact utf8_insert_codepoint_zero_tokens _ _ _
                (fun u hu => hmem u (List.mem_append_right _ hu))
            simp only [hins, Option.map_some']
            refine ⟨⟨v.lines ++ [(v.line, false)], [], t :: rest', v.tail.drop 1⟩, ?_, ?_, ?_⟩
            · refine wrap_inv_break env g width toks s _ v v.line false (t :: rest')
                (v.tail.drop 1) hinv0 ?_ ?_ ?_ rfl rfl rfl hlok ?_ (fun _ => hne)
              · show _ ++ _ = _
                simp
              · show s.ch + 1 = _
                rw [hch]
              · show s.ch + 1 = _
                rw [hch]
              · rw [hrest]; simp
            · unfold wrap_potential
              dsimp only
              rw [hrest, List.nil_append, hR]
              have : (t :: rest').flatten.length = t.length + rest'.flatten.length := by simp
              rw [this]
              exact potential_break _ _ _ _ (by omega) (le_refl _)
            · dsimp only
              rw [hrest, List.nil_append, hR]
              have : (t :: rest').flatten.length = t.length + rest'.flatten.length := by simp
              omega
          | some k =>
            rw [hcw] at hword
            obtain ⟨l1, l2, el, hk, hl2, hok1⟩ := hword
            simp only [Option.map_some']
            refine ⟨⟨v.lines ++ [(l1, true)], [], l2 ++ t :: rest', v.tail⟩, ?_, ?_, ?_⟩
            · refine wrap_inv_break env g width toks s _ v l1 true (l2 ++ t :: rest') v.tail hinv0
                ?_ ?_ ?_ rfl rfl rfl hok1 ?_ (fun h => by cases h)
              · show poke s.text k 0 = _
                have e : s.text = (lines_bytes v.lines ++ l1.flatten)
                    ++ 32 :: ((l2 ++ t :: rest').flatten ++ 0 :: v.tail) := by
                  rw [htext, view_text, hrest, el]; simp
                rw [e, poke_at _ _ _ _ (by rw [hk]; simp)]
                simp
              · show k + 1 = _
                rw [hk]
              · show k + 1 = _
                rw [hk]
              · rw [hrest, el]; simp
            · unfold wrap_potential
              dsimp only
              rw [hrest, List.nil_append, hR, el]
              have e1 : (l2 ++ t :: rest').flatten.length
                  = l2.flatten.length + t.length + rest'.flatten.length := by simp; omega
              have e2 : (l1 ++ [32] :: l2).flatten.length
                  = l1.flatten.length + 1 + l2.flatten.length := by simp; omega
              rw [e1, e2]
              exact potential_break _ _ _ _ (by omega) (le_refl _)
            · dsimp only
              rw [hrest, List.nil_append, hR, el]
              have e1 : (l2 ++ t :: rest').flatten.length
                  = l2.flatten.length + t.length + rest'.flatten.length := by simp; omega
              have e2 : (l1 ++ [32] :: l2).flatten.length
                  = l1.flatten.length + 1 + l2.flatten.length := by simp; omega
              omega


theorem wrap_loop_spec (env : Env) (g : Globals) (width : Int) (toks : List (List Nat))
    (hct : ∀ t ∈ toks, is_char_token t = true) :
    ∀ (fuel : Nat) (s : wrap_state) (v : wrap_view), wrap_inv env g width toks s v →
      wrap_potential v < fuel →
      wrap_loop_post env g width toks v (gfx_wrap_string_loop env g width fuel s) := by
  intro fuel
  induction fuel with
  | zero => intro s v _ h; omega
  | succ n ih =>
    intro s v hinv hpot
    have hstep := wrap_step_spec env g width toks hct s v hinv
    rw [gfx_wrap_string_loop]
    cases hr : gfx_wrap_string_step env g width s with
    | none =>
      rw [hr] at hstep
      exact hstep
    | some p =>
      obtain ⟨s1, b⟩ := p
      rw [hr] at hstep
      cases b with
      | false =>
        obtain ⟨e, hrest⟩ := hstep
        exact ⟨v, e ▸ hinv, hrest⟩
      | true =>
        obtain ⟨v1, hinv1, hlt, hle⟩ := hstep
        have h1 := ih s1 v1 hinv1 (by omega)
        show wrap_loop_post env g width toks v (gfx_wrap_string_loop env g width n s1)
        cases hl : gfx_wrap_string_loop env g width n s1 with
        | none =>
          rw [hl] at h1
          show 512 < _
          have : 512 < (v1.line ++ v1.rest).flatten.length := h1
          omega
        | some s2 =>
          rw [hl] at h1
          exact h1

theorem wrap_inv_initial (env : Env) (g : Globals) (width : Int) (toks : List (List Nat))
    (tail : List Nat) :
    wrap_inv env g width toks
      { text := toks.flatten ++ 0 :: tail, lineWidth := 0, maxWidth := 0, outNumLines := 0,
        currentWord := none, currentWidth := 0, ch := 0, firstCh := 0,
        numCharactersOnLine := 0 }
      ⟨[], [], toks, tail⟩ := by
  refine ⟨?_, rfl, rfl, ?_, ?_, Or.inl rfl, ?_, rfl, ?_, ?_⟩
  · simp [view_text, lines_bytes]
  · simp
  · intro t ht; cases ht
  · intro l hl; cases hl
  · simp [lines_tokens]
  · intro l hl; cases hl

theorem wrap_fuel_covers (toks : List (List Nat)) (tail : List Nat) :
    wrap_potential ⟨[], [], toks, tail⟩ < wrap_fuel (toks.flatten ++ 0 :: tail).length := by
  unfold wrap_potential wrap_fuel
  simp only [List.nil_append, List.length_append, List.length_cons]
  nlinarith

/-- The wrap of a text of plain codepoints: a result whenever the text has at most 512
bytes, and every result agrees with a view that has nothing left to place. -/
theorem gfx_wrap_string_spec (env : Env) (g : Globals) (width : Int) (toks : List (List Nat))
    (tail : List Nat) (hct : ∀ t ∈ toks, is_char_token t = true) :
    (toks.flatten.length ≤ 512 →
        ∃ r, gfx_wrap_string env g (toks.flatten ++ 0 :: tail) width = some r)
      ∧ ∀ r, gfx_wrap_string env g (toks.flatten ++ 0 :: tail) width = some r →
        ∃ s v, wrap_inv env g width toks s v ∧ v.rest = [] ∧ r.text = s.text
          ∧ r.numLines = s.outNumLines := by
  have h := wrap_loop_spec env g width toks hct _ _ _
    (wrap_inv_initial env g width toks tail) (wrap_fuel_covers toks tail)
  unfold gfx_wrap_string
  dsimp only
  cases hl : gfx_wrap_string_loop env g width (wrap_fuel (toks.flatten ++ 0 :: tail).length)
      { text := toks.flatten ++ 0 :: tail, lineWidth := 0, maxWidth := 0, outNumLines := 0,
        currentWord := none, currentWidth := 0, ch := 0, firstCh := 0,
        numCharactersOnLine := 0 } with
  | none =>
    rw [hl] at h
    have h512 : 512 < (([] : List (List Nat)) ++ toks).flatten.length := h
    constructor
    · intro hle
      rw [List.nil_append] at h512
      omega
    · intro r hr
      cases hr
  | some s1 =>
    rw [hl] at h
    obtain ⟨v1, hinv1, hrest1⟩ := h
    constructor
    · intro _
      exact ⟨_, rfl⟩
    · intro r hr
      simp only [Option.map_some', Option.some.injEq] at hr
      subst hr
      exact ⟨s1, v1, hinv1, hrest1, rfl, rfl⟩

theorem wrapped_lines_bytes :
    ∀ (lines : List (List (List Nat) × Bool)) (Lf tail : List Nat),
      (∀ l ∈ lines, ∀ b ∈ l.1.flatten, b ≠ 0) → (∀ b ∈ Lf, b ≠ 0) →
      wrapped_lines lines.length (lines_bytes lines ++ (Lf ++ 0 :: tail))
        = lines.map (fun l => l.1.flatten) ++ [Lf] := by
  intro lines
  induction lines with
  | nil =>
    intro Lf tail _ hL
    simp only [List.length_nil, lines_bytes, List.map_nil, List.flatten_nil, List.nil_append,
      wrapped_lines]
    rw [cstr_append_of_head_zero Lf (0 :: tail) rfl, cstr_of_nonzero _ hL]
  | cons l lines ih =>
    intro Lf tail hl hL
    have hl0 : ∀ b ∈ l.1.flatten, b ≠ 0 := hl l (List.mem_cons_self _ _)
    have e : lines_bytes (l :: lines) ++ (Lf ++ 0 :: tail)
        = l.1.flatten ++ 0 :: (lines_bytes lines ++ (Lf ++ 0 :: tail)) := by
      simp [lines_bytes]
    have hc : cstr (l.1.flatten ++ 0 :: (lines_bytes lines ++ (Lf ++ 0 :: tail))) = l.1.flatten := by
      rw [cstr_append_of_head_zero l.1.flatten (0 :: _) rfl, cstr_of_nonzero _ hl0]
    rw [e, List.length_cons, wrapped_lines, hc]
    have hd : (l.1.flatten ++ 0 :: (lines_bytes lines ++ (Lf ++ 0 :: tail))).drop
        (l.1.flatten.length + 1) = lines_bytes lines ++ (Lf ++ 0 :: tail) := by
      have : l.1.flatten ++ 0 :: (lines_bytes lines ++ (Lf ++ 0 :: tail))
          = (l.1.flatten ++ [0]) ++ (lines_bytes lines ++ (Lf ++ 0 :: tail)) := by simp
      rw [this]
      have h2 : l.1.flatten.length + 1 = (l.1.flatten ++ [0]).length := by simp
      rw [h2, List.drop_left]
    rw [hd, ih Lf tail (fun x hx => hl x (List.mem_cons_of_mem _ hx)) hL]
    simp


theorem wrap_fuel_two (n : Nat) : wrap_fuel n = (n * n + 4 * n + 3) + 1 + 1 := by
  unfold wrap_fuel
  ring

theorem wrap_single_token (env : Env) (g : Globals) (width : Int) (t tail : List Nat)
    (hc : is_char_token t = true) (hns : is_space_token t = false) (hlen : t.length ≤ 512) :
    ∃ r, gfx_wrap_string env g (t ++ 0 :: tail) width = some r ∧ r.numLines = 0
      ∧ r.text = t ++ 0 :: tail := by
  obtain ⟨lw, hlw⟩ := gfx_get_string_width_isSome env g t hlen
  obtain ⟨hlit, -, -⟩ := char_token_spec t hc
  have htok := char_token_is_token t hc
  obtain ⟨hl2, hnf⟩ := (is_literal_token_iff t).1 hlit
  have hc0 := token_codepoint_ne_zero t htok
  have hsp : (utf8_get_next t).1 ≠ 32 := by
    intro h
    simp [is_space_token, h] at hns
  have hcnl : (utf8_get_next t).1 ≠ FORMAT_NEWLINE := by
    intro h
    rw [h] at hnf
    exact absurd hnf (by decide)
  have hp := gfx_wrap_string_place_eq env g width
    { text := t ++ 0 :: tail, lineWidth := 0, maxWidth := 0, outNumLines := 0,
      currentWord := none, currentWidth := 0, ch := 0, firstCh := 0, numCharactersOnLine := 0 }
    [] [] t 0 tail rfl rfl (by simpa using htok)
  simp only [List.length_nil, List.flatten_nil, List.nil_append, Nat.zero_add, Nat.add_zero,
    List.flatten_cons, List.append_nil, hlw, Option.some_bind, or_true, if_true] at hp
  have hstep1 : gfx_wrap_string_step env g width
      { text := t ++ 0 :: tail, lineWidth := 0, maxWidth := 0, outNumLines := 0,
        currentWord := none, currentWidth := 0, ch := 0, firstCh := 0,
        numCharactersOnLine := 0 }
      = some ((⟨t ++ 0 :: tail, lw, 0, 0, none, 0, t.length, 0, 1⟩ : wrap_state), true) := by
    unfold gfx_wrap_string_step
    dsimp only
    rw [List.drop_zero, token_next t _ htok, if_neg hc0, if_neg hsp, if_neg hcnl, hnf]
    simp only [Bool.false_eq_true, if_false, Nat.zero_add]
    rw [hl2, hp]
    rfl
  have hstep2 : gfx_wrap_string_step env g width
      { text := t ++ 0 :: tail, lineWidth := lw, maxWidth := 0, outNumLines := 0,
        currentWord := none, currentWidth := 0, ch := t.length, firstCh := 0,
        numCharactersOnLine := 1 }
      = some ((⟨t ++ 0 :: tail, lw, 0, 0, none, 0, t.length, 0, 1⟩ : wrap_state), false) := by
    unfold gfx_wrap_string_step
    dsimp only
    rw [List.drop_left, utf8_get_next_of_head_zero (0 :: tail) rfl, if_pos rfl]
  unfold gfx_wrap_string
  dsimp only
  rw [wrap_fuel_two, gfx_wrap_string_loop, hstep1]
  dsimp only
  rw [gfx_wrap_string_loop, hstep2]
  exact ⟨_, rfl, rfl, rfl⟩

theorem mem_lines_tokens (lines : List (List (List Nat) × Bool)) (x : List (List Nat) × Bool)
    (t : List Nat) (hx : x ∈ lines) (ht : t ∈ x.1) : t ∈ lines_tokens lines := by
  unfold lines_tokens
  rw [List.mem_flatten]
  exact ⟨x.1 ++ (if x.2 then [[32]] else []), List.mem_map.2 ⟨x, hx, rfl⟩,
    List.mem_append_left _ ht⟩

/-- The lines of a finished wrap, read off the view. -/
theorem wrap_final_lines (env : Env) (g : Globals) (width : Int) (toks : List (List Nat))
    (hct : ∀ t ∈ toks, is_char_token t = true) (s : wrap_state) (v : wrap_view)
    (hinv : wrap_inv env g width toks s v) (hrest : v.rest = []) :
    wrapped_lines s.outNumLines.toNat s.text
      = v.lines.map (fun l => l.1.flatten) ++ [v.line.flatten] := by
  obtain ⟨htext, -, -, -, -, -, -, hnl, hcons, -⟩ := hinv
  rw [htext, hnl, Int.toNat_ofNat, view_text, hrest]
  simp only [List.flatten_nil, List.nil_append]
  apply wrapped_lines_bytes
  · intro l hl b hb
    rw [List.mem_flatten] at hb
    obtain ⟨t, ht, hbt⟩ := hb
    have : t ∈ toks := by
      rw [hcons]
      exact List.mem_append_left _ (mem_lines_tokens v.lines l t hl ht)
    exact (char_token_spec t (hct t this)).2.1 b hbt
  · apply char_tokens_nonzero
    intro t ht
    apply hct
    rw [hcons, hrest, List.append_nil]
    exact List.mem_append_right _ ht


/-! ### Measuring a whole glyph run -/

theorem takeWhile_dropWhile_run {α : Type} (p : α → Bool) :
    ∀ (run rest : List α), (∀ t ∈ run, p t = true) → (∀ t r, rest = t :: r → p t = false) →
      (run ++ rest).takeWhile p = run ∧ (run ++ rest).dropWhile p = rest := by
  intro run
  induction run with
  | nil =>
    intro rest _ h
    cases rest with
    | nil => exact ⟨rfl, rfl⟩
    | cons t r =>
      have := h t r rfl
      simp [List.takeWhile_cons, List.dropWhile_cons, this]
  | cons a run ih =>
    intro rest h1 h2
    have ha := h1 a (List.mem_cons_self _ _)
    obtain ⟨e1, e2⟩ := ih rest (fun t ht => h1 t (List.mem_cons_of_mem _ ht)) h2
    simp [List.takeWhile_cons, List.dropWhile_cons, ha, e1, e2]

/-- In measure-only mode a glyph run `run`, followed by tokens `rest` that do not go on
with it, adds its advance to the cursor and the extents are updated once. -/
theorem process_run_measure (env : Env) (g : Globals) (dpi : rct_drawpixelinfo)
    (info : text_draw_info) (run rest : List (List Nat)) (X : List Nat)
    (ht : ∀ t ∈ run ++ rest, is_token t = true)
    (hrun : ∀ t ∈ run, in_run env (is_ttf info) t = true) (hne : run ≠ [])
    (hhead : ∀ t r, rest = t :: r → in_run env (is_ttf info) t = false)
    (hfit : rest ≠ [] → run.flatten.length ≤ 511)
    (hnd : info.flags &&& TEXT_DRAW_FLAG_NO_DRAW ≠ 0) (hX : byteAt X 0 = 0) :
    ttf_process_string env g dpi ((run ++ rest).flatten ++ X) info
      = ttf_process_string env g dpi (rest.flatten ++ X)
          (update_extents { info with x := info.x + run_advance env info run }) := by
  obtain ⟨e1, e2⟩ := takeWhile_dropWhile_run (in_run env (is_ttf info)) run rest hrun hhead
  have hlit : ∀ t ∈ run, is_literal_token t = true :=
    fun t h => in_run_literal env _ t (hrun t h)
  cases run with
  | nil => exact absurd rfl hne
  | cons t run' =>
    have hin := hrun t (List.mem_cons_self _ _)
    have htl := hlit t (List.mem_cons_self _ _)
    have htt : is_token t = true := ht t (by simp)
    have hnext : utf8_get_next (((t :: run') ++ rest).flatten ++ X) = utf8_get_next t := by
      have : ((t :: run') ++ rest).flatten ++ X = t ++ ((run' ++ rest).flatten ++ X) := by simp
      rw [this]
      exact token_next t _ htt
    have hnf := ((is_literal_token_iff t).1 htl).2
    have hs : (is_ttf info && env.utf8_should_use_sprite_for_codepoint (utf8_get_next t).1)
        = false := by
      unfold in_run at hin
      rw [htl] at hin
      cases hb : (is_ttf info && env.utf8_should_use_sprite_for_codepoint (utf8_get_next t).1) with
      | false => rfl
      | true => rw [hb] at hin; cases hin
    rw [ttf_process_string_run env g dpi _ info (by rw [hnext]; exact hnf) (by rw [hnext]; exact hs),
      ttf_process_glyph_run_tokens env dpi info _ X ht hX, e1, e2,
      ttf_draw_string_raw_measure env dpi info (t :: run') hlit hnd]
    by_cases hr : rest = []
    · subst hr
      simp
    · rw [if_neg hr, if_neg (by have := hfit hr; omega)]
      simp

theorem in_run_sprite_backend (env : Env) (t : List Nat) :
    in_run env false t = is_literal_token t := by
  simp [in_run]

theorem run_advance_sprite_backend (env : Env) (info : text_draw_info)
    (h : is_ttf info = false) (lits : List (List Nat)) :
    run_advance env info lits = sprite_width env info.font_sprite_base (codepoints lits) := by
  unfold is_ttf at h
  unfold run_advance
  rw [if_neg (by simpa using h)]

theorem sprite_width_nonneg (env : Env) (font : Nat)
    (hw : ∀ c, 0 ≤ env.font_sprite_get_codepoint_width font c) (cps : List Nat) :
    0 ≤ sprite_width env font cps := by
  unfold sprite_width
  apply List.sum_nonneg
  intro x hx
  obtain ⟨c, -, rfl⟩ := List.mem_map.1 hx
  exact hw c

/-- Measuring a text of literal codepoints with the sprite backend, from any measuring
context: the surface is untouched and the cursor has advanced by the sum of the widths. -/
theorem process_literals_sprite (env : Env) (g : Globals) (dpi : rct_drawpixelinfo)
    (info : text_draw_info) (toks : List (List Nat)) (X : List Nat)
    (hl : ∀ t ∈ toks, is_literal_token t = true) (hne : toks ≠ [])
    (hs : is_ttf info = false) (hnd : info.flags &&& TEXT_DRAW_FLAG_NO_DRAW ≠ 0)
    (hX : byteAt X 0 = 0) :
    ttf_process_string env g dpi (toks.flatten ++ X) info
      = some (dpi, update_extents { info with
          x := info.x + sprite_width env info.font_sprite_base (codepoints toks) }) := by
  have h := process_run_measure env g dpi info toks [] X
    (by
      intro t ht
      rw [List.append_nil] at ht
      simp [is_token, hl t ht])
    (by
      intro t ht
      rw [hs, in_run_sprite_backend]
      exact hl t ht)
    hne (by intro t r h; cases h) (by intro h; exact absurd rfl h) hnd hX
  rw [List.append_nil] at h
  rw [h, run_advance_sprite_backend env info hs]
  simp only [List.flatten_nil, List.nil_append]
  exact ttf_process_string_zero env g dpi X _ (by rw [utf8_get_next_of_head_zero X hX])


/-! ### Measuring a text of several lines -/

theorem newline_step (env : Env) (g : Globals) (dpi : rct_drawpixelinfo) (R : List Nat)
    (info : text_draw_info) :
    ttf_process_format_code env g dpi (FORMAT_NEWLINE :: R) info
      = (R, dpi, { info with x := info.startX,
                             y := info.y + env.font_get_line_height info.font_sprite_base }) := by
  unfold ttf_process_format_code
  rw [show utf8_get_next (FORMAT_NEWLINE :: R) = (5, 1) from utf8_get_next_ascii 5 _ (by decide)]
  rfl

theorem newline_smaller_step (env : Env) (g : Globals) (dpi : rct_drawpixelinfo) (R : List Nat)
    (info : text_draw_info) :
    ttf_process_format_code env g dpi (FORMAT_NEWLINE_SMALLER :: R) info
      = (R, dpi, { info with x := info.startX,
                             y := info.y
                              + env.font_get_line_height_small info.font_sprite_base }) := by
  unfold ttf_process_format_code
  rw [show utf8_get_next (FORMAT_NEWLINE_SMALLER :: R) = (6, 1) from
    utf8_get_next_ascii 6 _ (by decide)]
  rfl


theorem run_advance_context (env : Env) (g : Globals) (info : text_draw_info)
    (h : measuring_context g info) (l : List (List Nat)) :
    run_advance env info l = run_advance env (measure_info g) l := by
  obtain ⟨-, -, hfl, hfo, -⟩ := h
  unfold run_advance
  rw [hfl, hfo]
  rfl

theorem is_ttf_context (g : Globals) (info : text_draw_info) (h : measuring_context g info) :
    is_ttf info = is_ttf (measure_info g) := by
  obtain ⟨-, -, hfl, -, -⟩ := h
  unfold is_ttf
  rw [hfl]

theorem no_draw_context (g : Globals) (info : text_draw_info) (h : measuring_context g info) :
    info.flags &&& TEXT_DRAW_FLAG_NO_DRAW ≠ 0 := by
  obtain ⟨-, -, hfl, -, -⟩ := h
  rw [hfl]
  exact no_draw_measure_info g

theorem measuring_context_measure_info (g : Globals) : measuring_context g (measure_info g) :=
  ⟨rfl, rfl, rfl, rfl, le_refl _⟩

theorem newline_code_cases (c : Nat) (h : is_newline_code c = true) :
    c = FORMAT_NEWLINE ∨ c = FORMAT_NEWLINE_SMALLER := by
  simpa [is_newline_code] using h

theorem newline_code_token (c : Nat) (h : is_newline_code c = true) :
    is_token [c] = true ∧ is_literal_token [c] = false := by
  rcases newline_code_cases c h with rfl | rfl <;> exact ⟨by decide, by decide⟩

/-- A line in front of the terminator or of a newline code, measured from the start of a
line: the surface is untouched, the cursor is where the line ends and the widest extent
has taken the width of the line in. -/
theorem process_line (env : Env) (g : Globals) (dpi : rct_drawpixelinfo)
    (info : text_draw_info) (hctx : measuring_context g info) (l rest : List (List Nat))
    (X : List Nat) (hl : ∀ t ∈ l, in_run env (is_ttf (measure_info g)) t = true)
    (hr : ∀ t ∈ rest, is_token t = true)
    (hhead : ∀ t r, rest = t :: r → is_literal_token t = false)
    (hfit : rest ≠ [] → l.flatten.length ≤ 511) (hX : byteAt X 0 = 0) :
    ∃ info1, ttf_process_string env g dpi ((l ++ rest).flatten ++ X) info
        = ttf_process_string env g dpi (rest.flatten ++ X) info1
      ∧ info1.startX = 0 ∧ info1.flags = (measure_info g).flags
      ∧ info1.font_sprite_base = g.gCurrentFontSpriteBase
      ∧ info1.maxX = max info.maxX (line_width env g l) := by
  have hctx0 := hctx
  obtain ⟨hsx, hx, hfl, hfo, hm⟩ := hctx
  by_cases hne : l = []
  · subst hne
    refine ⟨info, by simp, hsx, hfl, hfo, ?_⟩
    simp [line_width, hm]
  · have htt := is_ttf_context g info hctx0
    refine ⟨update_extents { info with x := info.x + run_advance env info l }, ?_, hsx, hfl,
      hfo, ?_⟩
    · apply process_run_measure env g dpi info l rest X
      · intro t ht
        rcases List.mem_append.1 ht with h | h
        · simp [is_token, in_run_literal env _ t (hl t h)]
        · exact hr t h
      · rw [htt]; exact hl
      · exact hne
      · intro t r h
        unfold in_run
        rw [hhead t r h]
        rfl
      · exact hfit
      · exact no_draw_context g info hctx0
      · exact hX
    · simp only [update_extents, line_width, if_neg hne, hx, zero_add,
        run_advance_context env g info hctx0]
      rcases le_total 0 (run_advance env (measure_info g) l) with h | h
      · rw [max_eq_right h]
      · rw [max_eq_left h, max_eq_left (le_trans h hm), max_eq_left hm]


theorem lines_tokens_of_cons (first : List (List Nat)) (c : Nat) (l : List (List Nat))
    (more : List (Nat × List (List Nat))) :
    lines_tokens_of first ((c, l) :: more) = first ++ [c] :: lines_tokens_of l more := by
  simp [lines_tokens_of]

theorem lines_tokens_of_is_token (env : Env) (isTTF : Bool) :
    ∀ (more : List (Nat × List (List Nat))) (first : List (List Nat)),
      (∀ p ∈ more, is_newline_code p.1 = true) →
      (∀ t ∈ first, in_run env isTTF t = true) →
      (∀ p ∈ more, ∀ t ∈ p.2, in_run env isTTF t = true) →
      ∀ t ∈ lines_tokens_of first more, is_token t = true := by
  intro more
  induction more with
  | nil =>
    intro first _ hf _ t ht
    simp only [lines_tokens_of, List.map_nil, List.flatten_nil, List.append_nil] at ht
    simp [is_token, in_run_literal env _ t (hf t ht)]
  | cons p more ih =>
    obtain ⟨c, l⟩ := p
    intro first hs hf hm t ht
    rw [lines_tokens_of_cons] at ht
    rcases List.mem_append.1 ht with h | h
    · simp [is_token, in_run_literal env _ t (hf t h)]
    · rcases List.mem_cons.1 h with h | h
      · rw [h]
        exact (newline_code_token c (hs (c, l) (List.mem_cons_self _ _))).1
      · exact ih l (fun q hq => hs q (List.mem_cons_of_mem _ hq))
          (hm (c, l) (List.mem_cons_self _ _))
          (fun q hq => hm q (List.mem_cons_of_mem _ hq)) t h

/-- Measuring a text of several lines from the start of a line: the surface is untouched
and the widest extent has taken the width of every line in. -/
theorem process_lines (env : Env) (g : Globals) (dpi : rct_drawpixelinfo) (tail : List Nat) :
    ∀ (more : List (Nat × List (List Nat))) (first : List (List Nat))
      (info : text_draw_info), measuring_context g info →
      (∀ p ∈ more, is_newline_code p.1 = true) →
      (∀ t ∈ first, in_run env (is_ttf (measure_info g)) t = true) →
      (∀ p ∈ more, ∀ t ∈ p.2, in_run env (is_ttf (measure_info g)) t = true) →
      (∀ l ∈ (first :: more.map Prod.snd).dropLast, l.flatten.length ≤ 511) →
      ∃ info1, ttf_process_string env g dpi (lines_text first more ++ 0 :: tail) info
          = some (dpi, info1)
        ∧ info1.maxX = (more.map (fun p => line_width env g p.2)).foldl max
            (max info.maxX (line_width env g first)) := by
  intro more
  induction more with
  | nil =>
    intro first info hctx _ hf _ _
    obtain ⟨info1, he, -, -, -, h4⟩ := process_line env g dpi info hctx first [] (0 :: tail) hf
      (by intro t ht; cases ht) (by intro t r h; cases h) (by intro h; exact absurd rfl h) rfl
    refine ⟨info1, ?_, h4⟩
    unfold lines_text lines_tokens_of
    simp only [List.map_nil, List.flatten_nil]
    rw [he]
    exact ttf_process_string_zero env g dpi _ _
      (by simp only [List.flatten_nil, List.nil_append]; rw [utf8_get_next_of_head_zero (0 :: tail) rfl])
  | cons p more ih =>
    obtain ⟨c, l⟩ := p
    intro first info hctx hs hf hm hfit
    have hc := hs (c, l) (List.mem_cons_self _ _)
    have hs' : ∀ q ∈ more, is_newline_code q.1 = true :=
      fun q hq => hs q (List.mem_cons_of_mem _ hq)
    have hl := hm (c, l) (List.mem_cons_self _ _)
    have hm' : ∀ q ∈ more, ∀ t ∈ q.2, in_run env (is_ttf (measure_info g)) t = true :=
      fun q hq => hm q (List.mem_cons_of_mem _ hq)
    have hdl : (first :: List.map Prod.snd ((c, l) :: more)).dropLast
        = first :: (l :: more.map Prod.snd).dropLast := by
      simp [List.dropLast]
    rw [hdl] at hfit
    obtain ⟨info1, he, h1, h2, h3, h4⟩ := process_line env g dpi info hctx first
      ([c] :: lines_tokens_of l more) (0 :: tail) hf
      (by
        intro t ht
        rcases List.mem_cons.1 ht with h | h
        · rw [h]; exact (newline_code_token c hc).1
        · exact lines_tokens_of_is_token env _ more l hs' hl hm' t h)
      (by
        intro t r h
        cases h
        exact (newline_code_token c hc).2)
      (fun _ => hfit first (List.mem_cons_self _ _)) rfl
    have hctx2 : ∀ y : Int, measuring_context g
        (update_extents { info1 with x := info1.startX, y := y }) := by
      intro y
      refine ⟨h1, h1, h2, h3, ?_⟩
      have h0 : 0 ≤ info1.maxX := by
        rw [h4]
        exact le_trans hctx.2.2.2.2 (le_max_left _ _)
      simp only [update_extents]
      exact le_trans h0 (le_max_left _ _)
    have hmx : ∀ y : Int, (update_extents { info1 with x := info1.startX, y := y }).maxX
        = max info.maxX (line_width env g first) := by
      intro y
      simp only [update_extents]
      rw [h4, h1]
      exact max_eq_left (le_trans hctx.2.2.2.2 (le_max_left _ _))
    have htext : ([c] :: lines_tokens_of l more).flatten ++ 0 :: tail
        = c :: (lines_text l more ++ 0 :: tail) := by
      simp [lines_text]
    have hfit' : ∀ x ∈ (l :: more.map Prod.snd).dropLast, x.flatten.length ≤ 511 :=
      fun x hx => hfit x (List.mem_cons_of_mem _ hx)
    unfold lines_text
    rw [lines_tokens_of_cons, he, htext]
    rcases newline_code_cases c hc with rfl | rfl
    · rw [ttf_process_string_code env g dpi _ info1
        (by rw [utf8_get_next_ascii FORMAT_NEWLINE _ (by decide)]; decide)
        (by rw [utf8_get_next_ascii FORMAT_NEWLINE _ (by decide)]; decide), newline_step]
      obtain ⟨info3, e3, m3⟩ := ih l _ (hctx2 _) hs' hl hm' hfit'
      refine ⟨info3, e3, ?_⟩
      rw [m3, hmx]
      rfl
    · rw [ttf_process_string_code env g dpi _ info1
        (by rw [utf8_get_next_ascii FORMAT_NEWLINE_SMALLER _ (by decide)]; decide)
        (by rw [utf8_get_next_ascii FORMAT_NEWLINE_SMALLER _ (by decide)]; decide),
        newline_smaller_step]
      obtain ⟨info3, e3, m3⟩ := ih l _ (hctx2 _) hs' hl hm' hfit'
      refine ⟨info3, e3, ?_⟩
      rw [m3, hmx]
      rfl

theorem line_width_nonneg (env : Env) (g : Globals) (l : List (List Nat)) :
    0 ≤ line_width env g l := by
  unfold line_width
  split_ifs
  · exact le_refl _
  · exact le_max_left _ _

/-- A line measured on its own. -/
theorem measure_line (env : Env) (g : Globals) (l : List (List Nat)) (X : List Nat)
    (hl : ∀ t ∈ l, in_run env (is_ttf (measure_info g)) t = true) (hX : byteAt X 0 = 0) :
    gfx_get_string_width env g (l.flatten ++ X) = some (line_width env g l) := by
  obtain ⟨info1, he, -, -, -, h4⟩ := process_line env g nullDpi (measure_info g)
    (measuring_context_measure_info g) l [] X hl
    (by intro t ht; cases ht) (by intro t r h; cases h) (by intro h; exact absurd rfl h) hX
  unfold gfx_get_string_width ttf_get_string_width
  rw [List.append_nil] at he
  rw [he, List.flatten_nil, List.nil_append,
    ttf_process_string_zero env g nullDpi X _ (by rw [utf8_get_next_of_head_zero X hX])]
  simp only [Option.map_some', h4]
  exact congrArg some (max_eq_right (line_width_nonneg env g l))


/-! ### The path shortener -/

theorem cstr_nonzero (p : List Nat) : ∀ b ∈ cstr p, b ≠ 0 := by
  intro b hb
  unfold cstr at hb
  have := List.mem_takeWhile_imp hb
  simpa using this

theorem cstr_terminated (s R : List Nat) (hs : ∀ b ∈ s, b ≠ 0) : cstr (s ++ 0 :: R) = s := by
  rw [cstr_append_of_head_zero s (0 :: R) rfl, cstr_of_nonzero s hs]

theorem store_bytes_zero (buf bytes : List Nat) :
    store_bytes buf 0 bytes = bytes ++ buf.drop bytes.length := by
  simp [store_bytes]

theorem store_bytes_three (a b c : Nat) (B bytes : List Nat) :
    store_bytes (a :: b :: c :: B) 3 bytes = a :: b :: c :: (bytes ++ B.drop bytes.length) := by
  have : 3 + bytes.length = bytes.length + 1 + 1 + 1 := by omega
  simp [store_bytes, this]

theorem safe_strcpy_fits (buf : List Nat) (dst : Nat) (s R : List Nat) (size : Nat)
    (hs : ∀ b ∈ s, b ≠ 0) (hsize : s.length < size) :
    safe_strcpy buf dst (s ++ 0 :: R) size = store_bytes buf dst (s ++ [0]) := by
  unfold safe_strcpy
  rw [if_neg (by omega), cstr_terminated s R hs, List.take_of_length_le (by omega)]

theorem shorten_path_scan_spec (sep : Nat) :
    ∀ (mid A : List Nat) (s : Nat) (R : List Nat) (fuel : Nat),
      (∀ b ∈ mid, b ≠ sep ∧ b ≠ 47) → (s = sep ∨ s = 47) → mid.length < fuel →
      shorten_path_scan sep (A ++ (mid ++ s :: R)) fuel A.length = some (A.length + mid.length) := by
  intro mid
  induction mid with
  | nil =>
    intro A s R fuel _ hs hf
    cases fuel with
    | zero => simp at hf
    | succ f =>
      unfold shorten_path_scan
      rw [byteAt_append_zero]
      have : byteAt ([] ++ s :: R) 0 = s := rfl
      rw [this, if_neg (by rcases hs with h | h <;> simp [h])]
      simp
  | cons m mid ih =>
    intro A s R fuel hm hs hf
    cases fuel with
    | zero => simp at hf
    | succ f =>
      unfold shorten_path_scan
      rw [byteAt_append_zero]
      have : byteAt (m :: mid ++ s :: R) 0 = m := rfl
      rw [this, if_pos (hm m (List.mem_cons_self _ _))]
      have e : A ++ (m :: mid ++ s :: R) = (A ++ [m]) ++ (mid ++ s :: R) := by simp
      have e2 : A.length + 1 = (A ++ [m]).length := by simp
      rw [e, e2, ih (A ++ [m]) s R f (fun b hb => hm b (List.mem_cons_of_mem _ hb)) hs
        (by simp only [List.length_cons] at hf; omega)]
      simp only [List.length_append, List.length_cons, List.length_nil]
      congr 1
      omega

theorem countP_range_byteAt (P : Nat → Bool) (p R : List Nat) :
    (List.range p.length).countP (fun x => P (byteAt (p ++ R) x)) = p.countP P := by
  have h := range_map_byteAt [] p R
  simp only [List.nil_append, List.length_nil, Nat.zero_add] at h
  have h2 : (List.range p.length).countP (fun x => P (byteAt (p ++ R) x))
      = ((List.range p.length).map (fun i => byteAt (p ++ R) i)).countP P := by
    rw [List.countP_map]
    rfl
  rw [h2, h]

theorem path_token_spec (sep : Nat) (t : List Nat) (h : is_path_token sep t = true) :
    is_token t = true ∧ (∀ b ∈ t, b ≠ 0)
      ∧ (t.length = 1 ∨ ∀ b ∈ t, b ≠ sep ∧ b ≠ 47) := by
  unfold is_path_token at h
  simp only [Bool.and_eq_true, List.all_eq_true, bne_iff_ne, ne_eq, Bool.or_eq_true,
    beq_iff_eq] at h
  obtain ⟨⟨h1, h2⟩, h3⟩ := h
  exact ⟨h1, h2, h3⟩

theorem separator_token_iff (sep : Nat) (t : List Nat) :
    is_separator_token sep t = true ↔ t = [sep] ∨ t = [47] := by
  simp [is_separator_token]

theorem path_token_bytes (sep : Nat) (t : List Nat) (h : is_path_token sep t = true)
    (hn : is_separator_token sep t = false) : ∀ b ∈ t, b ≠ sep ∧ b ≠ 47 := by
  obtain ⟨-, -, h3⟩ := path_token_spec sep t h
  rcases h3 with h3 | h3
  · obtain ⟨b, rfl⟩ := List.length_eq_one.1 h3
    intro c hc
    rw [List.mem_singleton] at hc
    subst hc
    have hn' : ¬ ([c] = [sep] ∨ [c] = [47]) := by
      rw [← separator_token_iff]
      simp [hn]
    constructor
    · intro e; exact hn' (Or.inl (by rw [e]))
    · intro e; exact hn' (Or.inr (by rw [e]))
  · exact h3

theorem path_tokens_bytes (sep : Nat) (mid : List (List Nat))
    (h : ∀ t ∈ mid, is_path_token sep t = true)
    (hn : ∀ t ∈ mid, is_separator_token sep t = false) :
    ∀ b ∈ mid.flatten, b ≠ sep ∧ b ≠ 47 := by
  intro b hb
  rw [List.mem_flatten] at hb
  obtain ⟨t, ht, hbt⟩ := hb
  exact path_token_bytes sep t (h t ht) (hn t ht) b hbt

theorem path_tokens_nonzero (sep : Nat) (toks : List (List Nat))
    (h : ∀ t ∈ toks, is_path_token sep t = true) : ∀ b ∈ toks.flatten, b ≠ 0 := by
  intro b hb
  rw [List.mem_flatten] at hb
  obtain ⟨t, ht, hbt⟩ := hb
  exact (path_token_spec sep t (h t ht)).2.1 b hbt

theorem countP_separator_bytes (sep : Nat) (toks : List (List Nat))
    (h : ∀ t ∈ toks, is_path_token sep t = true) :
    toks.flatten.countP (fun b => decide (b = sep ∨ b = 47))
      = toks.countP (is_separator_token sep) := by
  induction toks with
  | nil => rfl
  | cons t toks ih =>
    rw [List.flatten_cons, List.countP_append, List.countP_cons,
      ih (fun u hu => h u (List.mem_cons_of_mem _ hu))]
    have ht := h t (List.mem_cons_self _ _)
    cases hs : is_separator_token sep t with
    | true =>
      rcases (separator_token_iff sep t).1 hs with rfl | rfl
      · simp [List.countP_cons]
        omega
      · simp [List.countP_cons]
        omega
    | false =>
      have hb := path_token_bytes sep t ht hs
      have : t.countP (fun b => decide (b = sep ∨ b = 47)) = 0 := by
        rw [List.countP_eq_zero]
        intro b hbt
        have := hb b hbt
        simp [this.1, this.2]
      rw [this]
      simp

theorem separator_split (sep : Nat) :
    ∀ (toks : List (List Nat)) (k : Nat), toks.countP (is_separator_token sep) = k + 1 →
      ∃ mid s rest, toks = mid ++ s :: rest
        ∧ (∀ t ∈ mid, is_separator_token sep t = false)
        ∧ is_separator_token sep s = true ∧ rest.countP (is_separator_token sep) = k := by
  intro toks
  induction toks with
  | nil => intro k h; simp at h
  | cons t toks ih =>
    intro k h
    cases hs : is_separator_token sep t with
    | true =>
      rw [List.countP_cons_of_pos _ _ hs] at h
      exact ⟨[], t, toks, rfl, (by intro u hu; cases hu), hs, (by omega)⟩
    | false =>
      rw [List.countP_cons_of_neg _ _ (by simp [hs])] at h
      obtain ⟨mid, s, rest, e, h1, h2, h3⟩ := ih k h
      refine ⟨t :: mid, s, rest, by rw [e]; rfl, ?_, h2, h3⟩
      intro u hu
      rcases List.mem_cons.1 hu with hu | hu
      · rw [hu]; exact hs
      · exact h1 u hu

theorem path_suffixes_split (sep : Nat) (mid : List (List Nat)) (s : List Nat)
    (rest : List (List Nat)) (h1 : ∀ t ∈ mid, is_separator_token sep t = false)
    (h2 : is_separator_token sep s = true) :
    path_suffixes sep (mid ++ s :: rest) = (s :: rest) :: path_suffixes sep rest := by
  induction mid with
  | nil => simp [path_suffixes, h2]
  | cons m mid ih =>
    rw [List.cons_append, path_suffixes, if_neg (by simp [h1 m (List.mem_cons_self _ _)])]
    exact ih (fun t ht => h1 t (List.mem_cons_of_mem _ ht))

theorem path_suffixes_none (sep : Nat) (toks : List (List Nat))
    (h : toks.countP (is_separator_token sep) = 0) : path_suffixes sep toks = [] := by
  induction toks with
  | nil => rfl
  | cons t toks ih =>
    cases hs : is_separator_token sep t with
    | true => rw [List.countP_cons_of_pos _ _ hs] at h; omega
    | false =>
      rw [List.countP_cons_of_neg _ _ (by simp [hs])] at h
      rw [path_suffixes, if_neg (by simp [hs])]
      exact ih h


theorem first_fitting_nil (env : Env) (g : Globals) (width : Int) (fallback : List Nat) :
    first_fitting env g width fallback [] = fallback := rfl

theorem first_fitting_cons_pos (env : Env) (g : Globals) (width : Int) (fallback : List Nat)
    (s : List (List Nat)) (cands : List (List (List Nat)))
    (h : candidate_fits env g width s = true) :
    first_fitting env g width fallback (s :: cands) = 46 :: 46 :: 46 :: s.flatten := by
  simp [first_fitting, List.find?_cons, h]

theorem first_fitting_cons_neg (env : Env) (g : Globals) (width : Int) (fallback : List Nat)
    (s : List (List Nat)) (cands : List (List (List Nat)))
    (h : candidate_fits env g width s = false) :
    first_fitting env g width fallback (s :: cands)
      = first_fitting env g width fallback cands := by
  simp [first_fitting, List.find?_cons, h]

/-- The second loop of `shorten_path` on a path of tokens, `toks` being the tokens from
`begin + 1` on and as many turns being left as `toks` has separators. -/
theorem shorten_path_loop_spec (env : Env) (g : Globals) (sep : Nat) (bufferSize : Nat)
    (width : Int) (all : List (List Nat)) (tail : List Nat)
    (hall : ∀ t ∈ all, is_path_token sep t = true) (hlen : all.flatten.length + 3 ≤ 512)
    (hsize : all.flatten.length + 4 ≤ bufferSize) :
    ∀ (k : Nat) (pre toks : List (List Nat)) (B : List Nat), all = pre ++ toks →
      toks.countP (is_separator_token sep) = k →
      ∃ out, shorten_path_loop env g sep bufferSize (all.flatten ++ 0 :: tail) width k
          pre.flatten.length (46 :: 46 :: 46 :: B) = some out
        ∧ cstr out = first_fitting env g width all.flatten (path_suffixes sep toks) := by
  have hnz := path_tokens_nonzero sep all hall
  intro k
  induction k with
  | zero =>
    intro pre toks B _ hk
    refine ⟨_, rfl, ?_⟩
    rw [path_suffixes_none sep toks hk, first_fitting_nil,
      safe_strcpy_fits _ 0 all.flatten tail bufferSize hnz (by omega), store_bytes_zero,
      List.append_assoc]
    exact cstr_terminated _ _ hnz
  | succ k ih =>
    intro pre toks B hsplit hk
    obtain ⟨mid, s, rest, e, hmid, hs, hrest⟩ := separator_split sep toks k hk
    obtain ⟨sb, rfl, hsb⟩ : ∃ sb, s = [sb] ∧ (sb = sep ∨ sb = 47) := by
      rcases (separator_token_iff sep s).1 hs with h | h
      · exact ⟨sep, h, Or.inl rfl⟩
      · exact ⟨47, h, Or.inr rfl⟩
    subst e
    have hmidp : ∀ t ∈ mid, is_path_token sep t = true := by
      intro t ht; apply hall; rw [hsplit]; simp [ht]
    have hrestp : ∀ t ∈ [sb] :: rest, is_path_token sep t = true := by
      intro t ht; apply hall; rw [hsplit]
      exact List.mem_append_right _ (List.mem_append_right _ ht)
    have hpath : all.flatten ++ 0 :: tail
        = pre.flatten ++ (mid.flatten ++ sb :: (rest.flatten ++ 0 :: tail)) := by
      rw [hsplit]; simp
    have hflat : all.flatten.length
        = pre.flatten.length + mid.flatten.length + 1 + rest.flatten.length := by
      rw [hsplit]; simp; omega
    have hscan : shorten_path_scan sep (all.flatten ++ 0 :: tail)
        ((all.flatten ++ 0 :: tail).length + 1) pre.flatten.length
        = some (pre.flatten.length + mid.flatten.length) := by
      have hfuel : mid.flatten.length < (all.flatten ++ 0 :: tail).length + 1 := by
        simp only [List.length_append, List.length_cons]; omega
      rw [hpath] at hfuel ⊢
      exact shorten_path_scan_spec sep mid.flatten pre.flatten sb _ _
        (path_tokens_bytes sep mid hmidp hmid) hsb hfuel
    have hdrop : (all.flatten ++ 0 :: tail).drop (pre.flatten.length + mid.flatten.length)
        = (sb :: rest.flatten) ++ 0 :: tail := by
      have : all.flatten ++ 0 :: tail
          = (pre.flatten ++ mid.flatten) ++ ((sb :: rest.flatten) ++ 0 :: tail) := by
        rw [hpath]; simp
      rw [this, ← List.length_append, List.drop_left]
    have hsuf : ∀ b ∈ sb :: rest.flatten, b ≠ 0 := by
      have := path_tokens_nonzero sep ([sb] :: rest) hrestp
      simpa using this
    have hcopy : safe_strcpy (46 :: 46 :: 46 :: B) 3 ((sb :: rest.flatten) ++ 0 :: tail)
        (bufferSize - 3)
        = 46 :: 46 :: 46 :: (((sb :: rest.flatten) ++ [0])
            ++ B.drop ((sb :: rest.flatten) ++ [0]).length) := by
      rw [safe_strcpy_fits _ 3 _ tail _ hsuf (by simp only [List.length_cons]; omega),
        store_bytes_three]
    have hbuf : 46 :: 46 :: 46 :: (((sb :: rest.flatten) ++ [0])
        ++ B.drop ((sb :: rest.flatten) ++ [0]).length)
        = ([[46], [46], [46]] ++ [sb] :: rest).flatten
            ++ 0 :: B.drop ((sb :: rest.flatten) ++ [0]).length := by
      simp
    have htok : ∀ t ∈ [[46], [46], [46]] ++ [sb] :: rest, is_token t = true := by
      intro t ht
      rcases List.mem_append.1 ht with h | h
      · have : t = [46] := by simpa using h
        rw [this]; decide
      · exact (path_token_spec sep t (hrestp t h)).1
    have hcand : ([[46], [46], [46]] ++ [sb] :: rest).flatten
        = 46 :: 46 :: 46 :: ([sb] :: rest).flatten := by simp
    obtain ⟨w, hw⟩ := gfx_get_string_width_isSome env g
      (46 :: 46 :: 46 :: ([sb] :: rest).flatten)
      (by simp only [List.length_cons, List.flatten_cons, List.length_append,
            List.length_nil]; omega)
    have hM : gfx_get_string_width env g (46 :: 46 :: 46 :: (((sb :: rest.flatten) ++ [0])
        ++ B.drop ((sb :: rest.flatten) ++ [0]).length)) = some w := by
      rw [hbuf, gfx_get_string_width_agree env g _ (0 :: _) htok rfl, hcand, hw]
    have hfits : candidate_fits env g width ([sb] :: rest) = decide (w ≤ width) := by
      unfold candidate_fits
      rw [hw]
    have htry : shorten_path_try env g sep bufferSize (all.flatten ++ 0 :: tail) width
        pre.flatten.length (46 :: 46 :: 46 :: B)
        = some (46 :: 46 :: 46 :: (((sb :: rest.flatten) ++ [0])
            ++ B.drop ((sb :: rest.flatten) ++ [0]).length),
          pre.flatten.length + mid.flatten.length + 1, decide (w ≤ width)) := by
      unfold shorten_path_try
      simp only [hscan, hdrop, if_pos (show 3 ≤ bufferSize by omega), hcopy, hM]
    rw [path_suffixes_split sep mid [sb] rest hmid hs, shorten_path_loop, htry]
    by_cases hle : w ≤ width
    · rw [decide_eq_true hle, first_fitting_cons_pos _ _ _ _ _ _ (by rw [hfits]; simpa using hle)]
      refine ⟨_, rfl, ?_⟩
      rw [hbuf, hcand]
      apply cstr_terminated
      intro b hb
      have hs2 : ∀ b ∈ ([sb] :: rest).flatten, b ≠ 0 := path_tokens_nonzero sep _ hrestp
      rcases List.mem_cons.1 hb with h | h
      · rw [h]; decide
      · rcases List.mem_cons.1 h with h | h
        · rw [h]; decide
        · rcases List.mem_cons.1 h with h | h
          · rw [h]; decide
          · exact hs2 b h
    · rw [decide_eq_false hle,
        first_fitting_cons_neg _ _ _ _ _ _ (by rw [hfits]; simpa using hle)]
      have hpre : pre.flatten.length + mid.flatten.length + 1
          = (pre ++ mid ++ [[sb]]).flatten.length := by
        simp only [List.flatten_append, List.length_append, List.flatten_cons, List.flatten_nil,
          List.length_cons, List.length_nil, List.append_nil]
      rw [hpre]
      exact ih (pre ++ mid ++ [[sb]]) rest _ (by rw [hsplit]; simp) hrest


theorem mem_path_suffixes (sep : Nat) :
    ∀ (toks s : List (List Nat)), s ∈ path_suffixes sep toks →
      ∃ pre t r, toks = pre ++ s ∧ s = t :: r ∧ is_separator_token sep t = true := by
  intro toks
  induction toks with
  | nil => intro s hs; cases hs
  | cons a toks ih =>
    intro s hs
    unfold path_suffixes at hs
    by_cases ha : is_separator_token sep a = true
    · rw [if_pos ha] at hs
      rcases List.mem_cons.1 hs with h | h
      · exact ⟨[], a, toks, by rw [h]; rfl, h, ha⟩
      · obtain ⟨pre, t, r, e1, e2, e3⟩ := ih s h
        exact ⟨a :: pre, t, r, by rw [e1]; rfl, e2, e3⟩
    · rw [if_neg ha] at hs
      obtain ⟨pre, t, r, e1, e2, e3⟩ := ih s hs
      exact ⟨a :: pre, t, r, by rw [e1]; rfl, e2, e3⟩

/-- The path shortener on a path of tokens that does not fit. -/
theorem shorten_path_spec (env : Env) (g : Globals) (sep : Nat) (buffer : List Nat)
    (bufferSize : Nat) (toks : List (List Nat)) (tail : List Nat) (width w0 : Int)
    (ht : ∀ t ∈ toks, is_path_token sep t = true) (hlen : toks.flatten.length + 3 ≤ 512)
    (hsize : toks.flatten.length + 4 ≤ bufferSize)
    (hm : gfx_get_string_width env g (toks.flatten ++ 0 :: tail) = some w0)
    (hover : width < w0) :
    ∃ out, shorten_path env g sep buffer bufferSize (toks.flatten ++ 0 :: tail) width = some out
      ∧ cstr out = first_fitting env g width toks.flatten (path_suffixes sep toks) := by
  have hnz := path_tokens_nonzero sep toks ht
  have hcount : (List.range (cstr (toks.flatten ++ 0 :: tail)).length).countP
      (fun x => decide (byteAt (toks.flatten ++ 0 :: tail) x = sep
        ∨ byteAt (toks.flatten ++ 0 :: tail) x = 47))
      = toks.countP (is_separator_token sep) := by
    rw [cstr_terminated _ _ hnz, ← countP_separator_bytes sep toks ht]
    exact countP_range_byteAt (fun b => decide (b = sep ∨ b = 47)) toks.flatten (0 :: tail)
  have hdots : safe_strcpy buffer 0 [46, 46, 46, 0] bufferSize
      = 46 :: 46 :: 46 :: 0 :: buffer.drop 4 := by
    have := safe_strcpy_fits buffer 0 [46, 46, 46] [] bufferSize (by decide)
      (by simp only [List.length_cons, List.length_nil]; omega)
    rw [store_bytes_zero] at this
    exact this
  unfold shorten_path
  simp only [hm, if_neg (not_le.mpr hover), hcount, hdots]
  exact shorten_path_loop_spec env g sep bufferSize width toks tail ht hlen hsize
    (toks.countP (is_separator_token sep)) [] toks _ rfl rfl



/-! ### Word wrap of well-formed text -/

theorem newline_token_wrap : is_wrap_token [FORMAT_NEWLINE] = true := by decide

theorem space_token_wrap : is_wrap_token [32] = true := by decide

theorem wrap_token_is_token (t : List Nat) (h : is_wrap_token t = true) : is_token t = true := by
  unfold is_wrap_token at h
  simp only [Bool.and_eq_true] at h
  exact synced_token_is_token t h.1.1

/-- The three kinds of tokens of a well-formed text: a literal codepoint, which is placed;
the newline code; any other control code, which is stepped over with its arguments. -/
theorem wrap_token_kinds (t : List Nat) (h : is_wrap_token t = true) :
    (is_literal_token t = true ∧ ((utf8_get_next t).1 = 32 → t = [32]))
      ∨ t = [FORMAT_NEWLINE]
      ∨ (is_code_token t = true
          ∧ utf8_get_format_code_arg_length (utf8_get_next t).1
              = ttf_format_code_arg_length (utf8_get_next t).1
          ∧ (utf8_get_next t).1 ≠ FORMAT_NEWLINE) := by
  unfold is_wrap_token at h
  simp only [Bool.and_eq_true, Bool.or_eq_true, bne_iff_ne, ne_eq, beq_iff_eq] at h
  obtain ⟨⟨hs, h32⟩, h5⟩ := h
  rcases synced_token_cases t hs with hc | hl
  · rcases h5 with h5 | h5
    · exact Or.inr (Or.inr ⟨hc.1, hc.2, h5⟩)
    · exact Or.inr (Or.inl h5)
  · left
    refine ⟨hl, ?_⟩
    intro h
    rcases h32 with h32 | h32
    · exact absurd h h32
    · exact h32

/-- What the scanners of the layout code see of a token of a well-formed text. -/
theorem wrap_token_scan (t : List Nat) (h : is_wrap_token t = true) :
    (∀ Y, utf8_get_next (t ++ Y) = utf8_get_next t) ∧ (utf8_get_next t).1 ≠ 0
      ∧ (utf8_get_next t).2 + utf8_get_format_code_arg_length (utf8_get_next t).1
          = t.length := by
  have htok := wrap_token_is_token t h
  refine ⟨fun Y => token_next t Y htok, token_codepoint_ne_zero t htok, ?_⟩
  rcases wrap_token_kinds t h with hl | rfl | hc
  · obtain ⟨h1, h2⟩ := (is_literal_token_iff t).1 hl.1
    rw [literal_arg_length _ h2, h1, Nat.add_zero]
  · decide
  · obtain ⟨-, -, h3⟩ := (is_code_token_iff t).1 hc.1
    rw [hc.2.1, h3]

theorem get_string_end_loop_wrap_tokens :
    ∀ (toks : List (List Nat)) (X : List Nat) (fuel pos : Nat),
      (∀ t ∈ toks, is_wrap_token t = true) → byteAt X 0 = 0 →
      (toks.flatten ++ X).length < fuel →
      get_string_end_loop fuel (toks.flatten ++ X) pos = some (pos + toks.flatten.length + 1) := by
  intro toks
  induction toks with
  | nil =>
    intro X fuel pos _ hX hf
    cases fuel with
    | zero => omega
    | succ fuel =>
      simp [get_string_end_loop, utf8_get_next_of_head_zero X hX]
  | cons t toks ih =>
    intro X fuel pos ht hX hf
    cases fuel with
    | zero => omega
    | succ fuel =>
      obtain ⟨h1, h2, h3⟩ := wrap_token_scan t (ht t (List.mem_cons_self _ _))
      simp only [List.flatten_cons, List.append_assoc] at hf ⊢
      rw [get_string_end_loop, h1]
      simp only [h2, if_false, h3]
      have hd : (t ++ (toks.flatten ++ X)).drop t.length = toks.flatten ++ X := by simp
      rw [hd, ih X fuel _ (fun u hu => ht u (List.mem_cons_of_mem _ hu)) hX
        (by
          simp only [List.length_append] at hf ⊢
          have := utf8_get_next_pos t
          omega)]
      simp only [List.length_append]
      congr 1
      omega

theorem get_string_end_wrap_tokens (toks : List (List Nat)) (tail : List Nat)
    (h : ∀ t ∈ toks, is_wrap_token t = true) :
    get_string_end (toks.flatten ++ 0 :: tail) = some toks.flatten.length := by
  unfold get_string_end
  rw [get_string_end_loop_wrap_tokens toks (0 :: tail) _ 0 h rfl (by omega)]
  simp

/-- Inserting the terminator in front of the rest of a well-formed text. -/
theorem utf8_insert_codepoint_zero_wrap_tokens (A : List Nat) (toks : List (List Nat))
    (tail : List Nat) (h : ∀ t ∈ toks, is_wrap_token t = true) :
    utf8_insert_codepoint_zero (A ++ (toks.flatten ++ 0 :: tail)) A.length
      = some (A ++ 0 :: (toks.flatten ++ 0 :: tail.drop 1), 1) := by
  unfold utf8_insert_codepoint_zero
  have hd : (A ++ (toks.flatten ++ 0 :: tail)).drop A.length = toks.flatten ++ 0 :: tail := by
    simp
  rw [hd, get_string_end_wrap_tokens toks tail h]
  simp only [Option.map_some', Option.some.injEq, Prod.mk.injEq, and_true]
  have hm := range_map_byteAt A (toks.flatten ++ [0]) tail
  have e1 : A ++ (toks.flatten ++ 0 :: tail) = A ++ ((toks.flatten ++ [0]) ++ tail) := by simp
  rw [e1]
  have e2 : (toks.flatten ++ [0]).length = toks.flatten.length + 1 := by simp
  rw [e2] at hm
  rw [hm]
  have e3 : (A ++ ((toks.flatten ++ [0]) ++ tail)).drop (A.length + toks.flatten.length + 2)
      = tail.drop 1 := by
    rw [← List.append_assoc, List.drop_append_eq_append_drop]
    have : (A ++ (toks.flatten ++ [0])).length = A.length + toks.flatten.length + 1 := by
      simp; omega
    rw [this, List.drop_eq_nil_of_le (by rw [this]; omega)]
    simp
  rw [e3]
  simp

theorem trace_bytes_snoc (lines : List (List (List Nat) × Option (List Nat)))
    (l : List (List Nat)) (b : Option (List Nat)) :
    trace_bytes (lines ++ [(l, b)]) = trace_bytes lines ++ (l.flatten ++ [0]) := by
  simp [trace_bytes]

theorem trace_tokens_snoc (lines : List (List (List Nat) × Option (List Nat)))
    (l : List (List Nat)) (b : Option (List Nat)) :
    trace_tokens (lines ++ [(l, b)]) = trace_tokens lines ++ (l ++ b.toList) := by
  simp [trace_tokens]

/-- The trace after a token has been taken on the line. -/
theorem trace_inv_accept (toks : List (List Nat)) (s s1 : wrap_state) (v : wrap_trace)
    (t : List Nat) (rest' : List (List Nat))
    (hinv : trace_inv toks s v) (hrest : v.rest = t :: rest') (ht : t ≠ [FORMAT_NEWLINE])
    (hnum : s1.numCharactersOnLine = 0 ↔ ∀ u ∈ v.line ++ [t], is_literal_token u = false)
    (hword : trace_word (trace_bytes v.lines).length (v.line ++ [t]) s1.currentWord)
    (h1 : s1.text = s.text) (h2 : s1.firstCh = s.firstCh) (h3 : s1.ch = s.ch + t.length)
    (h6 : s1.outNumLines = s.outNumLines) :
    trace_inv toks s1 { v with line := v.line ++ [t], rest := rest' } := by
  obtain ⟨htext, hfirst, hch, -, -, hnl, hcons, hsep, hlc, hc⟩ := hinv
  refine ⟨?_, ?_, ?_, hnum, hword, ?_, ?_, hsep, hlc, ?_⟩
  · rw [h1, htext]
    simp [trace_text, hrest]
  · rw [h2, hfirst]
  · rw [h3, hch]
    simp only [List.flatten_append, List.length_append, List.flatten_cons, List.flatten_nil,
      List.append_nil]
    omega
  · rw [h6, hnl]
  · rw [hcons, hrest]
    simp
  · intro hm
    rcases List.mem_append.1 hm with h | h
    · exact hc h
    · exact ht (List.mem_singleton.1 h).symm

/-- The trace after a line has been ended. -/
theorem trace_inv_break (toks : List (List Nat)) (s s1 : wrap_state) (v : wrap_trace)
    (l : List (List Nat)) (b : Option (List Nat))
    (newrest : List (List Nat)) (newtail : List Nat)
    (hinv : trace_inv toks s v)
    (h1 : s1.text = trace_bytes v.lines ++ (l.flatten ++ 0 :: (newrest.flatten ++ 0 :: newtail)))
    (h2 : s1.firstCh = (trace_bytes v.lines).length + l.flatten.length + 1)
    (h3 : s1.ch = (trace_bytes v.lines).length + l.flatten.length + 1)
    (h4 : s1.numCharactersOnLine = 0) (h5 : s1.currentWord = none)
    (h6 : s1.outNumLines = s.outNumLines + 1)
    (hcons : v.line ++ v.rest = l ++ b.toList ++ newrest)
    (hb : (b = none ∧ ∃ t ∈ l, is_literal_token t = true) ∨ b = some [32]
      ∨ b = some [FORMAT_NEWLINE])
    (hl : [FORMAT_NEWLINE] ∉ l) :
    trace_inv toks s1 ⟨v.lines ++ [(l, b)], [], newrest, newtail⟩ := by
  obtain ⟨-, -, -, -, -, hnl, hcons0, hsep, hlc, -⟩ := hinv
  refine ⟨?_, ?_, ?_, ?_, ?_, ?_, ?_, ?_, ?_, ?_⟩
  · rw [h1]
    simp [trace_text, trace_bytes_snoc]
  · rw [h2, trace_bytes_snoc]
    simp only [List.length_append, List.length_cons, List.length_nil]
    omega
  · rw [h3, trace_bytes_snoc]
    simp only [List.length_append, List.length_cons, List.length_nil, List.flatten_nil]
    omega
  · simp [h4]
  · rw [h5]
    intro t ht
    cases ht
  · rw [h6, hnl]
    simp
  · rw [hcons0, trace_tokens_snoc, hcons]
    simp
  · intro x hx
    rcases List.mem_append.1 hx with h | h
    · exact hsep x h
    · rw [List.mem_singleton.1 h]; exact hb
  · intro x hx
    rcases List.mem_append.1 hx with h | h
    · exact hlc x h
    · rw [List.mem_singleton.1 h]; exact hl
  · intro h
    cases h


theorem trace_word_snoc (base : Nat) (line : List (List Nat)) (t : List Nat) (cw : Option Nat)
    (h : trace_word base line cw) (ht : is_space_token t = false) :
    trace_word base (line ++ [t]) cw := by
  cases cw with
  | none =>
    intro u hu
    rcases List.mem_append.1 hu with hu | hu
    · exact h u hu
    · rw [List.mem_singleton.1 hu]; exact ht
  | some k =>
    obtain ⟨l1, l2, e, hk, hl2⟩ := h
    refine ⟨l1, l2 ++ [t], ?_, hk, ?_⟩
    · rw [e]; simp
    · intro u hu
      rcases List.mem_append.1 hu with hu | hu
      · exact hl2 u hu
      · rw [List.mem_singleton.1 hu]; exact ht

/-- The tokens of a trace are tokens of the text. -/
theorem trace_mem (toks : List (List Nat)) (hwt : ∀ t ∈ toks, is_wrap_token t = true)
    (s : wrap_state) (v : wrap_trace) (hinv : trace_inv toks s v) :
    ∀ t ∈ v.line ++ v.rest, is_wrap_token t = true := by
  intro t ht
  apply hwt
  rw [hinv.2.2.2.2.2.2.1]
  exact List.mem_append_right _ ht

/-- The bytes at the cursor of a state that agrees with a trace. -/
theorem trace_drop (toks : List (List Nat)) (s : wrap_state) (v : wrap_trace)
    (hinv : trace_inv toks s v) :
    s.text.drop s.ch = v.rest.flatten ++ 0 :: v.tail := by
  obtain ⟨htext, -, hch, -⟩ := hinv
  rw [htext, hch, trace_text, ← List.append_assoc, ← List.length_append, List.drop_left]

/-- A turn at the end of the text stops the loop. -/
theorem wrap_step_end (env : Env) (g : Globals) (width : Int) (toks : List (List Nat))
    (s : wrap_state) (v : wrap_trace) (hinv : trace_inv toks s v)
    (hrest : v.rest = []) : gfx_wrap_string_step env g width s = some (s, false) := by
  have hdrop := trace_drop toks s v hinv
  rw [hrest] at hdrop
  have h0 : utf8_get_next (s.text.drop s.ch) = (0, 1) := by
    rw [hdrop]
    exact utf8_get_next_of_head_zero _ rfl
  unfold gfx_wrap_string_step
  dsimp only
  rw [h0, if_pos rfl]

/-- A turn at a newline code: the code is overwritten by a terminator and a line is
counted, whatever the width and whatever the line holds. -/
theorem wrap_step_newline (env : Env) (g : Globals) (width : Int) (toks : List (List Nat))
    (s : wrap_state) (v : wrap_trace) (rest' : List (List Nat))
    (hinv : trace_inv toks s v) (hrest : v.rest = [FORMAT_NEWLINE] :: rest') :
    gfx_wrap_string_step env g width s
        = some (wrap_new_line s (poke s.text s.ch 0) (s.ch + 1) s.lineWidth, true)
      ∧ trace_inv toks (wrap_new_line s (poke s.text s.ch 0) (s.ch + 1) s.lineWidth)
          ⟨v.lines ++ [(v.line, some [FORMAT_NEWLINE])], [], rest', v.tail⟩ := by
  have hdrop := trace_drop toks s v hinv
  have hinv0 := hinv
  obtain ⟨htext, hfirst, hch, hnum, hword, hnl, hcons, hsep, hlc, hc⟩ := hinv
  rw [hrest] at hdrop
  have h5 : utf8_get_next (s.text.drop s.ch) = (5, 1) := by
    rw [hdrop]
    exact utf8_get_next_ascii 5 _ (by decide)
  constructor
  · unfold gfx_wrap_string_step
    dsimp only
    rw [h5]
    rfl
  · refine trace_inv_break toks s _ v v.line (some [FORMAT_NEWLINE]) rest' v.tail
      hinv0 ?_ ?_ ?_ rfl rfl rfl ?_ (Or.inr (Or.inr rfl)) hc
    · show poke s.text s.ch 0 = _
      have e : s.text = (trace_bytes v.lines ++ v.line.flatten)
          ++ 5 :: (rest'.flatten ++ 0 :: v.tail) := by
        rw [htext, trace_text, hrest]
        simp [FORMAT_NEWLINE]
      rw [e, poke_at _ _ _ _ (by rw [hch]; simp)]
      simp
    · show s.ch + 1 = _
      rw [hch]
    · show s.ch + 1 = _
      rw [hch]
    · rw [hrest]
      simp

/-- A turn at a control code other than the newline code: the code and its argument bytes
are stepped over; they stay on the current line. -/
theorem wrap_step_code (env : Env) (g : Globals) (width : Int) (toks : List (List Nat))
    (s : wrap_state) (v : wrap_trace) (t : List Nat) (rest' : List (List Nat))
    (hinv : trace_inv toks s v) (hrest : v.rest = t :: rest')
    (hc : is_code_token t = true)
    (hsync : utf8_get_format_code_arg_length (utf8_get_next t).1
      = ttf_format_code_arg_length (utf8_get_next t).1)
    (hn : (utf8_get_next t).1 ≠ FORMAT_NEWLINE) :
    gfx_wrap_string_step env g width s = some ({ s with ch := s.ch + t.length }, true)
      ∧ trace_inv toks { s with ch := s.ch + t.length }
          { v with line := v.line ++ [t], rest := rest' } := by
  have hdrop := trace_drop toks s v hinv
  have hinv0 := hinv
  obtain ⟨htext, hfirst, hch, hnum, hword, hnl, hcons, hsep, hlc, hcl⟩ := hinv
  rw [hrest] at hdrop
  have htok : is_token t = true := by simp [is_token, hc]
  obtain ⟨hf, h0, hlen⟩ := (is_code_token_iff t).1 hc
  have hnext : utf8_get_next (s.text.drop s.ch) = utf8_get_next t := by
    rw [hdrop]
    simp only [List.flatten_cons, List.append_assoc]
    exact token_next _ _ htok
  have h32 : (utf8_get_next t).1 ≠ 32 := by
    intro h
    rw [h] at hf
    exact absurd hf (by decide)
  have hns : is_space_token t = false := by simp [is_space_token, h32]
  have hnl' : is_literal_token t = false := code_token_not_literal t hc
  constructor
  · unfold gfx_wrap_string_step
    dsimp only
    rw [hnext, if_neg h0, if_neg h32, if_neg hn, hf]
    simp only [if_true, hsync]
    rw [Nat.add_assoc, ← hlen]
  · refine trace_inv_accept toks s _ v t rest' hinv0 hrest ?_ ?_ ?_ rfl rfl rfl rfl
    · intro h
      rw [h] at hn
      exact hn (by decide)
    · show s.numCharactersOnLine = 0 ↔ _
      rw [hnum]
      constructor
      · intro h u hu
        rcases List.mem_append.1 hu with hu | hu
        · exact h u hu
        · rw [List.mem_singleton.1 hu]; exact hnl'
      · intro h u hu
        exact h u (List.mem_append_left _ hu)
    · exact trace_word_snoc _ v.line t s.currentWord hword hns

/-- A turn at a literal codepoint `t`: the codepoint is placed; a space is first noted as
the last word boundary. -/
theorem wrap_step_char (env : Env) (g : Globals) (width : Int) (toks : List (List Nat))
    (s : wrap_state) (v : wrap_trace) (t : List Nat) (rest' : List (List Nat))
    (hinv : trace_inv toks s v) (hrest : v.rest = t :: rest')
    (hlit : is_literal_token t = true) :
    gfx_wrap_string_step env g width s
      = (gfx_wrap_string_place env g width
          (if (utf8_get_next t).1 = 32 then
            { s with currentWord := some s.ch, currentWidth := s.lineWidth, numCharactersOnLine := s.numCharactersOnLine + 1 }
           else s)
          ((trace_bytes v.lines).length + v.line.flatten.length + t.length)).map
          (fun s => (s, true)) := by
  have hdrop := trace_drop toks s v hinv
  obtain ⟨htext, hfirst, hch, -⟩ := hinv
  rw [hrest] at hdrop
  have htok : is_token t = true := by simp [is_token, hlit]
  obtain ⟨hlen, hnf⟩ := (is_literal_token_iff t).1 hlit
  have hc0 := token_codepoint_ne_zero t htok
  have hnext : utf8_get_next (s.text.drop s.ch) = utf8_get_next t := by
    rw [hdrop]
    simp only [List.flatten_cons, List.append_assoc]
    exact token_next _ _ htok
  have hnextCh : s.ch + (utf8_get_next t).2
      = (trace_bytes v.lines).length + v.line.flatten.length + t.length := by
    rw [hch, hlen]
  have hcnl : (utf8_get_next t).1 ≠ FORMAT_NEWLINE := by
    intro h
    rw [h] at hnf
    exact absurd hnf (by decide)
  unfold gfx_wrap_string_step
  dsimp only
  rw [hnext, hnextCh, if_neg hc0]
  by_cases hsp : (utf8_get_next t).1 = 32
  · rw [if_pos hsp, if_pos hsp]
  · rw [if_neg hsp, if_neg hcnl, if_neg hsp, hnf]
    simp only [Bool.false_eq_true, if_false]

/-- The placing of a literal codepoint `t` from a state that agrees with a trace but for
the word boundary and the count of characters. -/
theorem trace_place_eq (env : Env) (g : Globals) (width : Int) (toks : List (List Nat))
    (hwt : ∀ t ∈ toks, is_wrap_token t = true)
    (s s' : wrap_state) (v : wrap_trace) (t : List Nat) (rest' : List (List Nat))
    (hinv : trace_inv toks s v) (hrest : v.rest = t :: rest')
    (h1 : s'.text = s.text) (h2 : s'.firstCh = s.firstCh) :
    gfx_wrap_string_place env g width s'
        ((trace_bytes v.lines).length + v.line.flatten.length + t.length)
      = (gfx_get_string_width env g (v.line ++ [t]).flatten).bind (fun lw =>
          if lw ≤ width ∨ s'.numCharactersOnLine = 0 then
            some { s' with lineWidth := lw, ch := (trace_bytes v.lines).length + v.line.flatten.length + t.length,
                           numCharactersOnLine := s'.numCharactersOnLine + 1 }
          else
            match s'.currentWord with
            | none =>
              (utf8_insert_codepoint_zero s'.text s'.ch).map (fun r =>
                wrap_new_line { s' with lineWidth := lw } r.1 (s'.ch + r.2) lw)
            | some k =>
              some (wrap_new_line { s' with lineWidth := lw } (poke s'.text k 0) (k + 1)
                s'.currentWidth)) := by
  have hmem := trace_mem toks hwt s v hinv
  obtain ⟨htext, hfirst, -⟩ := hinv
  obtain ⟨x0, X, hX⟩ : ∃ x0 X, rest'.flatten ++ 0 :: v.tail = x0 :: X := by
    cases h : rest'.flatten with
    | nil => exact ⟨0, v.tail, rfl⟩
    | cons a l => exact ⟨a, l ++ 0 :: v.tail, rfl⟩
  have htext2 : s'.text = trace_bytes v.lines ++ (v.line.flatten ++ (t ++ x0 :: X)) := by
    rw [h1, htext, trace_text, hrest, ← hX]
    simp
  have htoks : ∀ u ∈ v.line ++ [t], is_token u = true := by
    intro u hu
    apply wrap_token_is_token
    apply hmem
    rw [hrest]
    rcases List.mem_append.1 hu with hu | hu
    · exact List.mem_append_left _ hu
    · rw [List.mem_singleton.1 hu]
      exact List.mem_append_right _ (List.mem_cons_self _ _)
  exact gfx_wrap_string_place_eq env g width s' (trace_bytes v.lines) v.line t x0 X htext2
    (h2.trans hfirst) htoks


theorem last_space_unique :
    ∀ (a b c d : List (List Nat)), a ++ [32] :: b = c ++ [32] :: d →
      (∀ t ∈ b, is_space_token t = false) → (∀ t ∈ d, is_space_token t = false) →
      a = c ∧ b = d := by
  intro a
  induction a with
  | nil =>
    intro b c d h hb hd
    cases c with
    | nil =>
      simp only [List.nil_append, List.cons.injEq, true_and] at h
      exact ⟨rfl, h⟩
    | cons x c =>
      simp only [List.nil_append, List.cons_append, List.cons.injEq] at h
      have : ([32] : List Nat) ∈ b := by rw [h.2]; simp
      exact absurd (hb _ this) (by decide)
  | cons x a ih =>
    intro b c d h hb hd
    cases c with
    | nil =>
      simp only [List.nil_append, List.cons_append, List.cons.injEq] at h
      have : ([32] : List Nat) ∈ d := by rw [← h.2]; simp
      exact absurd (hd _ this) (by decide)
    | cons y c =>
      simp only [List.cons_append, List.cons.injEq] at h
      obtain ⟨e1, e2⟩ := ih b c d h.2 hb hd
      exact ⟨by rw [h.1, e1], e2⟩

theorem literal_count_iff (n : Nat) (hn : n ≠ 0) (line : List (List Nat)) (t : List Nat)
    (ht : is_literal_token t = true) :
    n = 0 ↔ ∀ u ∈ line ++ [t], is_literal_token u = false := by
  constructor
  · intro h
    exact absurd h hn
  · intro h
    have := h t (List.mem_append_right _ (List.mem_singleton_self _))
    rw [ht] at this
    cases this

/-- A turn at a literal codepoint `t` with which the line measures more than `width`, the
line with `t` holding a space: the line is ended at the last space, `l1` being the tokens in
front of it and `l2` those behind; the space is overwritten by the terminator and the
tokens behind it are placed again, on the next line. -/
theorem wrap_step_word_break (env : Env) (g : Globals) (width : Int) (toks : List (List Nat))
    (hwt : ∀ t ∈ toks, is_wrap_token t = true)
    (s : wrap_state) (v : wrap_trace) (t : List Nat) (rest' l1 l2 : List (List Nat))
    (lw : Int) (hinv : trace_inv toks s v) (hrest : v.rest = t :: rest')
    (ht : is_literal_token t = true) (ht32 : (utf8_get_next t).1 = 32 → t = [32])
    (hsplit : v.line ++ [t] = l1 ++ [32] :: l2)
    (hl2 : ∀ u ∈ l2, is_space_token u = false)
    (hm : gfx_get_string_width env g (v.line ++ [t]).flatten = some lw) (hover : width < lw) :
    ∃ s1, gfx_wrap_string_step env g width s = some (s1, true)
      ∧ trace_inv toks s1 ⟨v.lines ++ [(l1, some [32])], [], l2 ++ rest', v.tail⟩ := by
  have hinv0 := hinv
  obtain ⟨htext, hfirst, hch, hnum, hword, hnl, hcons, hsep, hlc, hc⟩ := hinv
  have hnfit : ¬ lw ≤ width := not_le.mpr hover
  rw [wrap_step_char env g width toks s v t rest' hinv0 hrest ht]
  by_cases hsp : (utf8_get_next t).1 = 32
  · have ht32 := ht32 hsp
    subst ht32
    obtain ⟨e1, e2⟩ := last_space_unique v.line [] l1 l2 hsplit (by intro u hu; cases hu) hl2
    subst e1 e2
    rw [if_pos hsp, trace_place_eq env g width toks hwt s
      { s with currentWord := some s.ch, currentWidth := s.lineWidth, numCharactersOnLine := s.numCharactersOnLine + 1 }
      v [32] rest' hinv0 hrest rfl rfl, hm]
    have hcond : ¬ (lw ≤ width ∨ s.numCharactersOnLine + 1 = 0) := by
      intro h
      rcases h with h | h
      · exact hnfit h
      · omega
    simp only [Option.some_bind, if_neg hcond, Option.map_some']
    refine ⟨_, rfl, ?_⟩
    refine trace_inv_break toks s _ v v.line (some [32]) ([] ++ rest') v.tail hinv0
      ?_ ?_ ?_ rfl rfl rfl ?_ (Or.inr (Or.inl rfl)) hc
    · show poke s.text s.ch 0 = _
      have e : s.text = (trace_bytes v.lines ++ v.line.flatten)
          ++ 32 :: (rest'.flatten ++ 0 :: v.tail) := by
        rw [htext, trace_text, hrest]; simp
      rw [e, poke_at _ _ _ _ (by rw [hch]; simp)]
      simp
    · show s.ch + 1 = _
      rw [hch]
    · show s.ch + 1 = _
      rw [hch]
    · rw [hrest]; simp
  · have hns : is_space_token t = false := by simp [is_space_token, hsp]
    obtain ⟨l2', rfl⟩ : ∃ l2', l2 = l2' ++ [t] := by
      rcases List.eq_nil_or_concat l2 with h | ⟨l2', u, h⟩
      · subst h
        have := List.append_inj' hsplit rfl
        have e : t = [32] := by simpa using this.2
        rw [e] at hns
        exact absurd hns (by decide)
      · rw [List.concat_eq_append] at h
        subst h
        have e : v.line ++ [t] = (l1 ++ [32] :: l2') ++ [u] := by rw [hsplit]; simp
        have := List.append_inj' e rfl
        have e2 : t = u := by simpa using this.2
        exact ⟨l2', by rw [e2]⟩
    have hline : v.line = l1 ++ [32] :: l2' := by
      have e : v.line ++ [t] = (l1 ++ [32] :: l2') ++ [t] := by rw [hsplit]; simp
      exact (List.append_inj' e rfl).1
    have hl2' : ∀ u ∈ l2', is_space_token u = false :=
      fun u hu => hl2 u (List.mem_append_left _ hu)
    have hne : s.numCharactersOnLine ≠ 0 := by
      intro h
      have := hnum.1 h [32] (by rw [hline]; simp)
      exact absurd this (by decide)
    have hcond : ¬ (lw ≤ width ∨ s.numCharactersOnLine = 0) := by
      intro h
      rcases h with h | h
      · exact hnfit h
      · exact hne h
    rw [if_neg hsp, trace_place_eq env g width toks hwt s s v t rest' hinv0 hrest rfl rfl, hm]
    simp only [Option.some_bind, if_neg hcond]
    cases hcw : s.currentWord with
    | none =>
      rw [hcw] at hword
      have h32 : ([32] : List Nat) ∈ v.line := by rw [hline]; simp
      exact absurd (hword _ h32) (by decide)
    | some k =>
      rw [hcw] at hword
      obtain ⟨m1, m2, el, hk, hm2⟩ := hword
      obtain ⟨e1, e2⟩ := last_space_unique m1 m2 l1 l2' (by rw [← el, hline]) hm2 hl2'
      subst e1 e2
      simp only [Option.map_some']
      refine ⟨_, rfl, ?_⟩
      have hr : m2 ++ [t] ++ rest' = m2 ++ t :: rest' := by simp
      rw [hr]
      refine trace_inv_break toks s _ v m1 (some [32]) (m2 ++ t :: rest') v.tail
        hinv0 ?_ ?_ ?_ rfl rfl rfl ?_ (Or.inr (Or.inl rfl)) ?_
      · show poke s.text k 0 = _
        have e : s.text = (trace_bytes v.lines ++ m1.flatten)
            ++ 32 :: ((m2 ++ t :: rest').flatten ++ 0 :: v.tail) := by
          rw [htext, trace_text, hrest, el]; simp
        rw [e, poke_at _ _ _ _ (by rw [hk]; simp)]
        simp
      · show k + 1 = _
        rw [hk]
      · show k + 1 = _
        rw [hk]
      · rw [hrest, el]; simp
      · intro hu
        apply hc
        rw [el]
        exact List.mem_append_left _ hu

theorem trace_potential_break (v : wrap_trace) (lines : List (List (List Nat) × Option (List Nat)))
    (newrest : List (List Nat)) (newtail : List Nat)
    (h : newrest.flatten.length + 1 ≤ (v.line ++ v.rest).flatten.length) :
    trace_potential ⟨lines, [], newrest, newtail⟩ < trace_potential v
      ∧ (([] : List (List Nat)) ++ newrest).flatten.length ≤ (v.line ++ v.rest).flatten.length := by
  unfold trace_potential
  dsimp only
  rw [List.nil_append]
  exact ⟨potential_break _ _ _ _ h (le_refl _), by omega⟩

/-- One turn of the loop of `gfx_wrap_string` from a state that agrees with a trace of a
well-formed text. -/
theorem trace_step_spec (env : Env) (g : Globals) (width : Int) (toks : List (List Nat))
    (hwt : ∀ t ∈ toks, is_wrap_token t = true) (s : wrap_state) (v : wrap_trace)
    (hinv : trace_inv toks s v) :
    trace_step_post toks s v (gfx_wrap_string_step env g width s) := by
  have hinv0 := hinv
  have hall := trace_mem toks hwt s v hinv
  obtain ⟨htext, hfirst, hch, hnum, hword, hnl, hcons, hsep, hlc, hc⟩ := hinv
  have hmem : ∀ t ∈ v.rest, is_wrap_token t = true :=
    fun t ht => hall t (List.mem_append_right _ ht)
  have hltok : ∀ u ∈ v.line, is_token u = true :=
    fun u hu => wrap_token_is_token u (hall u (List.mem_append_left _ hu))
  cases hrest : v.rest with
  | nil =>
    rw [wrap_step_end env g width toks s v hinv0 hrest]
    exact ⟨rfl, hrest⟩
  | cons t rest' =>
    rw [hrest] at hmem
    have hR : (v.line ++ t :: rest').flatten.length
        = v.line.flatten.length + t.length + rest'.flatten.length := by
      simp; omega
    have htok := wrap_token_is_token t (hmem t (List.mem_cons_self _ _))
    have htpos := token_length_pos t htok
    have hacc : (v.line ++ [t] ++ rest').flatten.length
        = (v.line ++ t :: rest').flatten.length := by simp
    have hpacc : trace_potential { v with line := v.line ++ [t], rest := rest' }
        < trace_potential { v with rest := t :: rest' } := by
      unfold trace_potential
      dsimp only
      rw [hacc]
      have : (t :: rest').flatten.length = t.length + rest'.flatten.length := by simp
      omega
    have hv : v = { v with rest := t :: rest' } := by
      cases v
      simp only at hrest
      rw [hrest]
    rcases wrap_token_kinds t (hmem t (List.mem_cons_self _ _)) with ⟨ht, ht32⟩ | rfl | ⟨hcode, hsync, hn5⟩
    · -- a literal codepoint
      have htne : t ≠ [FORMAT_NEWLINE] := by
        intro h
        rw [h] at ht
        exact absurd ht (by decide)
      cases hm : gfx_get_string_width env g (v.line ++ [t]).flatten with
      | none =>
        rw [wrap_step_char env g width toks s v t rest' hinv0 hrest ht]
        have hbound : 512 < (v.line ++ t :: rest').flatten.length := by
          by_contra hle
          have hl : (v.line ++ [t]).flatten.length ≤ 512 := by
            have : (v.line ++ [t]).flatten.length = v.line.flatten.length + t.length := by simp
            omega
          obtain ⟨w, hw⟩ := gfx_get_string_width_isSome env g _ hl
          rw [hw] at hm
          cases hm
        by_cases hsp : (utf8_get_next t).1 = 32
        · rw [if_pos hsp, trace_place_eq env g width toks hwt s
            { s with currentWord := some s.ch, currentWidth := s.lineWidth, numCharactersOnLine := s.numCharactersOnLine + 1 }
            v t rest' hinv0 hrest rfl rfl, hm]
          simp only [Option.none_bind, Option.map_none']
          show 512 < (v.line ++ v.rest).flatten.length
          rw [hrest]
          exact hbound
        · rw [if_neg hsp, trace_place_eq env g width toks hwt s s v t rest' hinv0 hrest rfl rfl,
            hm]
          simp only [Option.none_bind, Option.map_none']
          show 512 < (v.line ++ v.rest).flatten.length
          rw [hrest]
          exact hbound
      | some lw =>
        by_cases hsp : (utf8_get_next t).1 = 32
        · have ht32 := ht32 hsp
          by_cases hfit : lw ≤ width
          · rw [wrap_step_char env g width toks s v t rest' hinv0 hrest ht, if_pos hsp,
              trace_place_eq env g width toks hwt s
                { s with currentWord := some s.ch, currentWidth := s.lineWidth, numCharactersOnLine := s.numCharactersOnLine + 1 }
                v t rest' hinv0 hrest rfl rfl, hm]
            simp only [Option.some_bind, if_pos (Or.inl hfit), Option.map_some']
            refine ⟨{ v with line := v.line ++ [t], rest := rest' }, ?_, ?_, ?_⟩
            · refine trace_inv_accept toks s _ v t rest' hinv0 hrest htne ?_ ?_ rfl rfl ?_ rfl
              · exact literal_count_iff _ (Nat.succ_ne_zero _) v.line t ht
              · refine ⟨v.line, [], ?_, hch, ?_⟩
                · rw [ht32]
                · intro u hu; cases hu
              · show _ = s.ch + t.length
                rw [hch]
            · rw [hv]; exact hpacc
            · dsimp only; rw [hacc, hrest]
          · obtain ⟨s1, e1, hinv1⟩ := wrap_step_word_break env g width toks hwt s v t rest' v.line []
              lw hinv0 hrest ht (fun _ => ht32) (by rw [ht32]) (by intro u hu; cases hu) hm
              (not_le.mp hfit)
            rw [e1]
            refine ⟨_, hinv1, ?_⟩
            exact trace_potential_break _ _ _ _ (by rw [hrest, hR, List.nil_append]; omega)
        · have hns : is_space_token t = false := by simp [is_space_token, hsp]
          by_cases hfit : lw ≤ width ∨ s.numCharactersOnLine = 0
          · rw [wrap_step_char env g width toks s v t rest' hinv0 hrest ht, if_neg hsp,
              trace_place_eq env g width toks hwt s s v t rest' hinv0 hrest rfl rfl, hm]
            simp only [Option.some_bind, if_pos hfit, Option.map_some']
            refine ⟨{ v with line := v.line ++ [t], rest := rest' }, ?_, ?_, ?_⟩
            · refine trace_inv_accept toks s _ v t rest' hinv0 hrest htne ?_ ?_ rfl rfl ?_ rfl
              · exact literal_count_iff _ (Nat.succ_ne_zero _) v.line t ht
              · exact trace_word_snoc _ v.line t s.currentWord hword hns
              · show _ = s.ch + t.length
                rw [hch]
            · rw [hv]; exact hpacc
            · dsimp only; rw [hacc, hrest]
          · have hlit : ∃ u ∈ v.line, is_literal_token u = true := by
              by_contra h
              apply hfit
              right
              apply hnum.2
              intro u hu
              cases hb : is_literal_token u with
              | false => rfl
              | true => exact absurd ⟨u, hu, hb⟩ h
            have hne : v.line ≠ [] := by
              intro h
              obtain ⟨u, hu, -⟩ := hlit
              rw [h] at hu
              cases hu
            have hlpos := flatten_length_pos v.line hltok hne
            have hover : width < lw := by
              by_contra h
              exact hfit (Or.inl (not_lt.mp h))
            cases hcw : s.currentWord with
            | none =>
              rw [wrap_step_char env g width toks s v t rest' hinv0 hrest ht, if_neg hsp,
                trace_place_eq env g width toks hwt s s v t rest' hinv0 hrest rfl rfl, hm]
              simp only [Option.some_bind, if_neg hfit, hcw]
              have e : s.text = (trace_bytes v.lines ++ v.line.flatten)
                  ++ ((t :: rest').flatten ++ 0 :: v.tail) := by
                rw [htext, trace_text, hrest]; simp
              have hins : utf8_insert_codepoint_zero s.text s.ch
                  = some ((trace_bytes v.lines ++ v.line.flatten)
                      ++ 0 :: ((t :: rest').flatten ++ 0 :: v.tail.drop 1), 1) := by
                have hk : s.ch = (trace_bytes v.lines ++ v.line.flatten).length := by
                  rw [hch]; simp
                rw [hk, e]
                exact utf8_insert_codepoint_zero_wrap_tokens _ _ _ hmem
              simp only [hins, Option.map_some']
              refine ⟨⟨v.lines ++ [(v.line, none)], [], t :: rest', v.tail.drop 1⟩, ?_, ?_⟩
              · refine trace_inv_break toks s _ v v.line none (t :: rest')
                  (v.tail.drop 1) hinv0 ?_ ?_ ?_ rfl rfl rfl ?_ (Or.inl ⟨rfl, hlit⟩) hc
                · show _ ++ _ = _
                  simp
                · show s.ch + 1 = _
                  rw [hch]
                · show s.ch + 1 = _
                  rw [hch]
                · rw [hrest]; simp
              · have : (t :: rest').flatten.length = t.length + rest'.flatten.length := by simp
                exact trace_potential_break _ _ _ _ (by rw [hrest, hR, this]; omega)
            | some k =>
              rw [hcw] at hword
              obtain ⟨m1, m2, el, hk, hm2⟩ := hword
              have hl2 : ∀ u ∈ m2 ++ [t], is_space_token u = false := by
                intro u hu
                rcases List.mem_append.1 hu with h | h
                · exact hm2 u h
                · rw [List.mem_singleton.1 h]; exact hns
              obtain ⟨s1, e1, hinv1⟩ := wrap_step_word_break env g width toks hwt s v t rest' m1
                (m2 ++ [t]) lw hinv0 hrest ht ht32 (by rw [el]; simp) hl2 hm hover
              rw [e1]
              refine ⟨_, hinv1, ?_⟩
              have e3 : (m2 ++ [t] ++ rest').flatten.length
                  = m2.flatten.length + t.length + rest'.flatten.length := by simp; omega
              have e4 : v.line.flatten.length = m1.flatten.length + 1 + m2.flatten.length := by
                rw [el]; simp; omega
              exact trace_potential_break _ _ _ _ (by rw [hrest, hR, e3, e4]; omega)
    · -- the newline code
      obtain ⟨e1, hinv1⟩ := wrap_step_newline env g width toks s v rest' hinv0 hrest
      rw [e1]
      refine ⟨_, hinv1, ?_⟩
      exact trace_potential_break _ _ _ _ (by
        rw [hrest, hR]
        simp only [List.length_cons, List.length_nil]
        omega)
    · -- another control code
      obtain ⟨e1, hinv1⟩ := wrap_step_code env g width toks s v t rest' hinv0 hrest hcode
        hsync hn5
      rw [e1]
      refine ⟨{ v with line := v.line ++ [t], rest := rest' }, hinv1, ?_, ?_⟩
      · rw [hv]; exact hpacc
      · dsimp only; rw [hacc, hrest]


theorem trace_loop_spec (env : Env) (g : Globals) (width : Int) (toks : List (List Nat))
    (hwt : ∀ t ∈ toks, is_wrap_token t = true) :
    ∀ (fuel : Nat) (s : wrap_state) (v : wrap_trace), trace_inv toks s v →
      trace_potential v < fuel →
      trace_loop_post toks v (gfx_wrap_string_loop env g width fuel s) := by
  intro fuel
  induction fuel with
  | zero => intro s v _ h; omega
  | succ n ih =>
    intro s v hinv hpot
    have hstep := trace_step_spec env g width toks hwt s v hinv
    rw [gfx_wrap_string_loop]
    cases hr : gfx_wrap_string_step env g width s with
    | none =>
      rw [hr] at hstep
      exact hstep
    | some p =>
      obtain ⟨s1, b⟩ := p
      rw [hr] at hstep
      cases b with
      | false =>
        obtain ⟨e, hrest⟩ := hstep
        exact ⟨v, e ▸ hinv, hrest⟩
      | true =>
        obtain ⟨v1, hinv1, hlt, hle⟩ := hstep
        have h1 := ih s1 v1 hinv1 (by omega)
        show trace_loop_post toks v (gfx_wrap_string_loop env g width n s1)
        cases hl : gfx_wrap_string_loop env g width n s1 with
        | none =>
          rw [hl] at h1
          show 512 < _
          have : 512 < (v1.line ++ v1.rest).flatten.length := h1
          omega
        | some s2 =>
          rw [hl] at h1
          exact h1

theorem trace_inv_initial (toks : List (List Nat)) (tail : List Nat) :
    trace_inv toks
      { text := toks.flatten ++ 0 :: tail, lineWidth := 0, maxWidth := 0, outNumLines := 0,
        currentWord := none, currentWidth := 0, ch := 0, firstCh := 0,
        numCharactersOnLine := 0 }
      ⟨[], [], toks, tail⟩ := by
  refine ⟨?_, rfl, rfl, ?_, ?_, rfl, ?_, ?_, ?_, ?_⟩
  · simp [trace_text, trace_bytes]
  · simp
  · intro t ht; cases ht
  · simp [trace_tokens]
  · intro l hl; cases hl
  · intro l hl; cases hl
  · intro ht; cases ht

theorem trace_fuel_covers (toks : List (List Nat)) (tail : List Nat) :
    trace_potential ⟨[], [], toks, tail⟩ < wrap_fuel (toks.flatten ++ 0 :: tail).length := by
  unfold trace_potential wrap_fuel
  simp only [List.nil_append, List.length_append, List.length_cons]
  nlinarith

/-- The wrap of a well-formed text: a result whenever the text has at most 512 bytes, and
every result agrees with a trace that has nothing left to place. -/
theorem gfx_wrap_string_trace (env : Env) (g : Globals) (width : Int) (toks : List (List Nat))
    (tail : List Nat) (hwt : ∀ t ∈ toks, is_wrap_token t = true) :
    (toks.flatten.length ≤ 512 →
        ∃ r, gfx_wrap_string env g (toks.flatten ++ 0 :: tail) width = some r)
      ∧ ∀ r, gfx_wrap_string env g (toks.flatten ++ 0 :: tail) width = some r →
        ∃ s v, trace_inv toks s v ∧ v.rest = [] ∧ r.text = s.text
          ∧ r.numLines = s.outNumLines := by
  have h := trace_loop_spec env g width toks hwt _ _ _
    (trace_inv_initial toks tail) (trace_fuel_covers toks tail)
  unfold gfx_wrap_string
  dsimp only
  cases hl : gfx_wrap_string_loop env g width (wrap_fuel (toks.flatten ++ 0 :: tail).length)
      { text := toks.flatten ++ 0 :: tail, lineWidth := 0, maxWidth := 0, outNumLines := 0,
        currentWord := none, currentWidth := 0, ch := 0, firstCh := 0,
        numCharactersOnLine := 0 } with
  | none =>
    rw [hl] at h
    have h512 : 512 < (([] : List (List Nat)) ++ toks).flatten.length := h
    constructor
    · intro hle
      rw [List.nil_append] at h512
      omega
    · intro r hr
      cases hr
  | some s1 =>
    rw [hl] at h
    obtain ⟨v1, hinv1, hrest1⟩ := h
    constructor
    · intro _
      exact ⟨_, rfl⟩
    · intro r hr
      simp only [Option.map_some', Option.some.injEq] at hr
      subst hr
      exact ⟨s1, v1, hinv1, hrest1, rfl, rfl⟩

theorem trace_bytes_eq_lines_bytes (lines : List (List (List Nat) × Option (List Nat))) :
    trace_bytes lines = lines_bytes (lines.map (fun l => (l.1, l.2.isSome))) := by
  simp [trace_bytes, lines_bytes, List.map_map, Function.comp_def]

theorem mem_trace_tokens (lines : List (List (List Nat) × Option (List Nat)))
    (l : List (List Nat) × Option (List Nat)) (hl : l ∈ lines) (t : List Nat) (ht : t ∈ l.1) :
    t ∈ trace_tokens lines := by
  unfold trace_tokens
  rw [List.mem_flatten]
  exact ⟨l.1 ++ l.2.toList, List.mem_map.2 ⟨l, hl, rfl⟩, List.mem_append_left _ ht⟩

theorem flatten_nonzero (l : List (List Nat)) (h : ∀ t ∈ l, ∀ b ∈ t, b ≠ 0) :
    ∀ b ∈ l.flatten, b ≠ 0 := by
  intro b hb
  obtain ⟨t, ht, hbt⟩ := List.mem_flatten.1 hb
  exact h t ht b hbt

/-- The lines of a finished wrap, read off the trace by a reader that stops at the first
zero byte: right when no token holds a zero byte. -/
theorem trace_final_lines (toks : List (List Nat))
    (s : wrap_state) (v : wrap_trace) (hinv : trace_inv toks s v)
    (hrest : v.rest = []) (hz : ∀ t ∈ toks, ∀ b ∈ t, b ≠ 0) :
    wrapped_lines s.outNumLines.toNat s.text
      = v.lines.map (fun l => l.1.flatten) ++ [v.line.flatten] := by
  obtain ⟨htext, -, -, -, -, hnl, hcons, -⟩ := hinv
  rw [htext, hnl, Int.toNat_ofNat, trace_text, hrest]
  simp only [List.flatten_nil, List.nil_append]
  have h := wrapped_lines_bytes (v.lines.map (fun l => (l.1, l.2.isSome))) v.line.flatten v.tail
    (by
      intro l hl
      obtain ⟨x, hx, rfl⟩ := List.mem_map.1 hl
      apply flatten_nonzero
      intro t ht
      apply hz
      rw [hcons]
      exact List.mem_append_left _ (mem_trace_tokens v.lines x hx t ht))
    (by
      apply flatten_nonzero
      intro t ht
      apply hz
      rw [hcons, hrest, List.append_nil]
      exact List.mem_append_right _ ht)
  rw [← trace_bytes_eq_lines_bytes, List.length_map, List.map_map] at h
  exact h

/-- The lines of a buffer of terminated lines of well-formed text, read by a reader that
goes from line to line with `get_string_end`. -/
theorem scanned_lines_trace :
    ∀ (lines : List (List (List Nat) × Option (List Nat))) (last : List (List Nat))
      (tail : List Nat),
      (∀ l ∈ lines, ∀ t ∈ l.1, is_wrap_token t = true) →
      (∀ t ∈ last, is_wrap_token t = true) →
      scanned_lines lines.length (trace_bytes lines ++ (last.flatten ++ 0 :: tail))
        = some (lines.map (fun l => l.1.flatten) ++ [last.flatten]) := by
  intro lines
  induction lines with
  | nil =>
    intro last tail _ hlast
    simp only [List.length_nil, trace_bytes, List.map_nil, List.flatten_nil, List.nil_append,
      scanned_lines]
    rw [get_string_end_wrap_tokens last tail hlast]
    simp
  | cons a lines ih =>
    intro last tail hl hlast
    have e : trace_bytes (a :: lines) ++ (last.flatten ++ 0 :: tail)
        = a.1.flatten ++ 0 :: (trace_bytes lines ++ (last.flatten ++ 0 :: tail)) := by
      simp [trace_bytes]
    rw [e, List.length_cons, scanned_lines,
      get_string_end_wrap_tokens a.1 _ (hl a (List.mem_cons_self _ _))]
    simp only [Option.some_bind]
    have e2 : (a.1.flatten ++ 0 :: (trace_bytes lines ++ (last.flatten ++ 0 :: tail))).drop
        (a.1.flatten.length + 1) = trace_bytes lines ++ (last.flatten ++ 0 :: tail) := by
      rw [← List.drop_drop, List.drop_left]
      rfl
    rw [e2, ih last tail (fun l h => hl l (List.mem_cons_of_mem _ h)) hlast]
    simp

/-- The newline codes of the tokens a trace accounts for are the newline codes that ended
a line. -/
theorem count_newline_trace_tokens :
    ∀ (lines : List (List (List Nat) × Option (List Nat))),
      (∀ l ∈ lines, (l.2 = none ∧ ∃ t ∈ l.1, is_literal_token t = true)
        ∨ l.2 = some [32] ∨ l.2 = some [FORMAT_NEWLINE]) →
      (∀ l ∈ lines, [FORMAT_NEWLINE] ∉ l.1) →
      (trace_tokens lines).count [FORMAT_NEWLINE]
        = lines.countP (fun l => l.2 == some [FORMAT_NEWLINE]) := by
  intro lines
  induction lines with
  | nil => intro _ _; rfl
  | cons a lines ih =>
    intro hsep hlc
    have e : trace_tokens (a :: lines) = a.1 ++ a.2.toList ++ trace_tokens lines := by
      simp [trace_tokens]
    rw [e, List.count_append, List.count_append,
      ih (fun l hl => hsep l (List.mem_cons_of_mem _ hl))
        (fun l hl => hlc l (List.mem_cons_of_mem _ hl)),
      List.count_eq_zero.2 (hlc a (List.mem_cons_self _ _)), List.countP_cons]
    rcases hsep a (List.mem_cons_self _ _) with h | h | h
    · rw [h.1]
      simp
    · rw [h]
      have : (some [32] == some [FORMAT_NEWLINE]) = false := by decide
      simp [this, FORMAT_NEWLINE]
    · rw [h]
      simp
      omega

/-- The wrap of the empty text. -/
theorem wrap_empty (env : Env) (g : Globals) (tail : List Nat) (width : Int) :
    gfx_wrap_string env g (0 :: tail) width
      = some { text := 0 :: tail, width := 0, numLines := 0,
               fontHeight := g.gCurrentFontSpriteBase } := by
  have hstep : gfx_wrap_string_step env g width
      (⟨0 :: tail, 0, 0, 0, none, 0, 0, 0, 0⟩ : wrap_state)
      = some ((⟨0 :: tail, 0, 0, 0, none, 0, 0, 0, 0⟩ : wrap_state), false) := by
    unfold gfx_wrap_string_step
    dsimp only
    rw [List.drop_zero, utf8_get_next_of_head_zero (0 :: tail) rfl, if_pos rfl]
  unfold gfx_wrap_string
  dsimp only
  rw [wrap_fuel_two, gfx_wrap_string_loop, hstep]
  rfl

theorem count_zero_trace_bytes :
    ∀ (lines : List (List (List Nat) × Option (List Nat))),
      (∀ l ∈ lines, ∀ b ∈ l.1.flatten, b ≠ 0) →
      (trace_bytes lines).count 0 = lines.length := by
  intro lines
  induction lines with
  | nil => intro _; rfl
  | cons a lines ih =>
    intro hlc
    have e : trace_bytes (a :: lines) = a.1.flatten ++ [0] ++ trace_bytes lines := by
      simp [trace_bytes]
    have h0 : a.1.flatten.count 0 = 0 := by
      rw [List.count_eq_zero]
      intro hm
      exact hlc a (List.mem_cons_self _ _) 0 hm rfl
    rw [e, List.count_append, List.count_append, h0,
      ih (fun l hl => hlc l (List.mem_cons_of_mem _ hl))]
    simp
    omega

/-- What a finished wrap of a well-formed text leaves: the lines that were ended, each with
the token its terminator has overwritten, and the last line. -/
theorem gfx_wrap_string_lines (env : Env) (g : Globals) (width : Int) (toks : List (List Nat))
    (tail : List Nat) (hwt : ∀ t ∈ toks, is_wrap_token t = true) (r : wrap_result)
    (hr : gfx_wrap_string env g (toks.flatten ++ 0 :: tail) width = some r) :
    ∃ lines last tail', toks = trace_tokens lines ++ last
      ∧ r.text = trace_bytes lines ++ (last.flatten ++ 0 :: tail')
      ∧ r.numLines = lines.length
      ∧ (∀ l ∈ lines, (l.2 = none ∧ ∃ t ∈ l.1, is_literal_token t = true)
          ∨ l.2 = some [32] ∨ l.2 = some [FORMAT_NEWLINE])
      ∧ (∀ l ∈ lines, [FORMAT_NEWLINE] ∉ l.1)
      ∧ [FORMAT_NEWLINE] ∉ last
      ∧ scanned_lines r.numLines.toNat r.text
          = some (lines.map (fun l => l.1.flatten) ++ [last.flatten])
      ∧ ((∀ t ∈ toks, ∀ b ∈ t, b ≠ 0) →
          (trace_bytes lines).count 0 = lines.length
            ∧ wrapped_lines r.numLines.toNat r.text
                = lines.map (fun l => l.1.flatten) ++ [last.flatten]) := by
  obtain ⟨s, v, hinv, hrest, htext, hnum⟩ :=
    (gfx_wrap_string_trace env g width toks tail hwt).2 r hr
  have hfin := trace_final_lines toks s v hinv hrest
  obtain ⟨ht, -, -, -, -, hnl, hcons, hsep, hlc, hc⟩ := hinv
  have hcons' : toks = trace_tokens v.lines ++ v.line := by
    rw [hcons, hrest, List.append_nil]
  have e : r.text = trace_bytes v.lines ++ (v.line.flatten ++ 0 :: v.tail) := by
    rw [htext, ht, trace_text, hrest]
    simp
  refine ⟨v.lines, v.line, v.tail, hcons', e, ?_, hsep, hlc, hc, ?_, ?_⟩
  · rw [hnum, hnl]
  · rw [e, hnum, hnl, Int.toNat_ofNat]
    apply scanned_lines_trace
    · intro l hl t ht
      apply hwt
      rw [hcons']
      exact List.mem_append_left _ (mem_trace_tokens v.lines l hl t ht)
    · intro t ht
      apply hwt
      rw [hcons']
      exact List.mem_append_right _ ht
  · intro hz
    constructor
    · apply count_zero_trace_bytes
      intro l hl
      apply flatten_nonzero
      intro t ht
      apply hz
      rw [hcons']
      exact List.mem_append_left _ (mem_trace_tokens v.lines l hl t ht)
    · rw [htext, hnum]
      exact hfin hz

/-! ### Control codes the interpreter has a case for -/

theorem recognised_format_code_iff (c : Nat) :
    is_recognised_format_code c = true
      ↔ (1 ≤ c ∧ c ≤ 16) ∨ c = 23 ∨ (142 ≤ c ∧ c ≤ 155) := by
  unfold is_recognised_format_code
  rw [decide_eq_true_iff]
  simp only [FORMAT_MOVE_X, FORMAT_ADJUST_PALETTE, FORMAT_3, FORMAT_4, FORMAT_NEWLINE,
    FORMAT_NEWLINE_SMALLER, FORMAT_TINYFONT, FORMAT_SMALLFONT, FORMAT_MEDIUMFONT,
    FORMAT_BIGFONT, FORMAT_OUTLINE, FORMAT_OUTLINE_OFF, FORMAT_WINDOW_COLOUR_1,
    FORMAT_WINDOW_COLOUR_2, FORMAT_WINDOW_COLOUR_3, FORMAT_16, FORMAT_INLINE_SPRITE,
    FORMAT_COLOUR_CODE_START, FORMAT_COLOUR_CODE_END]
  omega

/-- For a control code the interpreter has a case for, the argument bytes it steps over
are the declared ones. -/
theorem recognised_arg_length (c : Nat) (h : is_recognised_format_code c = true) :
    ttf_format_code_arg_length c = utf8_get_format_code_arg_length c := by
  rcases (recognised_format_code_iff c).1 h with ⟨h1, h2⟩ | rfl | ⟨h1, h2⟩
  · interval_cases c <;> decide
  · decide
  · interval_cases c <;> decide

/-- A codepoint the interpreter has no case for changes nothing; two argument bytes are
stepped over for a codepoint up to `0x16` and four for any other. -/
theorem unrecognised_switch (env : Env) (g : Globals) (dpi : rct_drawpixelinfo) (c : Nat)
    (nextCh : List Nat) (info : text_draw_info) (h : is_recognised_format_code c = false) :
    ttf_process_format_code_switch env g dpi c nextCh info
      = (nextCh.drop (if c ≤ 0x16 then 2 else 4), dpi, info) := by
  unfold is_recognised_format_code at h
  have h := of_decide_eq_false h
  simp only [not_or] at h
  obtain ⟨h1, h2, h3, h4, h5, h6, h7, h8, h9, h10, h11, h12, h13, h14, h15, h16, h17, h18⟩ := h
  unfold ttf_process_format_code_switch
  rw [if_neg h1, if_neg h2, if_neg (not_or.2 ⟨h3, h4⟩), if_neg h5, if_neg h6, if_neg h7,
    if_neg h8, if_neg h9, if_neg h10, if_neg h11, if_neg h12, if_neg h13, if_neg h14,
    if_neg h15, if_neg h16, if_neg h17, if_neg h18]
  by_cases hc : c ≤ 0x16
  · rw [if_pos hc, if_pos hc]
  · rw [if_neg hc, if_neg hc]

/-- No control code changes the extents. -/
theorem ttf_process_format_code_switch_extents (env : Env) (g : Globals)
    (dpi : rct_drawpixelinfo) (c : Nat) (nextCh : List Nat) (info : text_draw_info) :
    (ttf_process_format_code_switch env g dpi c nextCh info).2.2.maxX = info.maxX
      ∧ (ttf_process_format_code_switch env g dpi c nextCh info).2.2.maxY = info.maxY := by
  unfold ttf_process_format_code_switch
  repeat' first
    | exact ⟨rfl, rfl⟩
    | refine ite_same_step (fun (x : List Nat × rct_drawpixelinfo × text_draw_info) =>
        x.2.2.maxX = info.maxX ∧ x.2.2.maxY = info.maxY) (fun hc => ?_) (fun _ => ?_)
    | (dsimp only; generalize env.gfx_get_g1_element _ = o; cases o <;> exact ⟨rfl, rfl⟩)

theorem ttf_process_format_code_extents (env : Env) (g : Globals) (dpi : rct_drawpixelinfo)
    (text : List Nat) (info : text_draw_info) :
    (ttf_process_format_code env g dpi text info).2.2.maxX = info.maxX
      ∧ (ttf_process_format_code env g dpi text info).2.2.maxY = info.maxY :=
  ttf_process_format_code_switch_extents env g dpi _ _ info

/-- A control code the interpreter has a case for is a control code other than the
terminator. -/
theorem recognised_is_format_code (c : Nat) (h : is_recognised_format_code c = true) :
    c ≠ 0 ∧ utf8_is_format_code c = true := by
  rcases (recognised_format_code_iff c).1 h with ⟨h1, h2⟩ | rfl | ⟨h1, h2⟩
  · constructor
    · omega
    · interval_cases c <;> decide
  · decide
  · constructor
    · omega
    · interval_cases c <;> decide

/-! ### The extents along one pass of the interpreter -/

/-- The stores that end a turn of the loop leave the extents at least as they were and
at least at the cursor. -/
theorem update_extents_grows (info i : text_draw_info) (hx : i.maxX = info.maxX)
    (hy : i.maxY = info.maxY) :
    (info.maxX ≤ (update_extents i).maxX ∧ info.maxY ≤ (update_extents i).maxY)
      ∧ (update_extents i).x ≤ (update_extents i).maxX
      ∧ (update_extents i).y ≤ (update_extents i).maxY := by
  unfold update_extents
  dsimp only
  rw [hx, hy]
  exact ⟨⟨le_max_left _ _, le_max_left _ _⟩, le_max_right _ _, le_max_right _ _⟩

theorem states_cons (R : text_draw_info → text_draw_info → Prop) (info u r : text_draw_info)
    (o : Option (List text_draw_info))
    (ih : ∃ l, o = some l ∧ (u :: l).getLast? = some r ∧ List.Chain' R (u :: l)
      ∧ ∀ s ∈ l, s.x ≤ s.maxX ∧ s.y ≤ s.maxY)
    (hu : R info u) (hux : u.x ≤ u.maxX ∧ u.y ≤ u.maxY) :
    ∃ l, o.map (fun l => u :: l) = some l ∧ (info :: l).getLast? = some r
      ∧ List.Chain' R (info :: l) ∧ ∀ s ∈ l, s.x ≤ s.maxX ∧ s.y ≤ s.maxY := by
  obtain ⟨l, e, hlast, hch, hall⟩ := ih
  refine ⟨u :: l, by rw [e]; rfl, ?_, List.Chain'.cons hu hch, ?_⟩
  · rw [List.getLast?_cons_cons]
    exact hlast
  · intro s hs
    rcases List.mem_cons.1 hs with rfl | hs
    · exact hux
    · exact hall s hs

/-- The loop of the interpreter, with the contexts it passes through: each turn leaves the
extents at least as they were and at least at the cursor. -/
theorem ttf_process_string_states_spec (env : Env) (g : Globals) (isTTF : Bool) :
    ∀ (fuel : Nat) (dpi : rct_drawpixelinfo) (ch : List Nat) (info : text_draw_info)
      (r : rct_drawpixelinfo × text_draw_info),
      ttf_process_string_loop env g isTTF fuel dpi ch info = some r →
      ∃ l, ttf_process_string_states env g isTTF fuel dpi ch info = some l
        ∧ (info :: l).getLast? = some r.2
        ∧ List.Chain' (fun a b => a.maxX ≤ b.maxX ∧ a.maxY ≤ b.maxY) (info :: l)
        ∧ ∀ s ∈ l, s.x ≤ s.maxX ∧ s.y ≤ s.maxY := by
  intro fuel
  induction fuel with
  | zero =>
    intro dpi ch info r h
    simp [ttf_process_string_loop] at h
  | succ n ih =>
    intro dpi ch info r h
    rw [ttf_process_string_loop] at h
    rw [ttf_process_string_states]
    dsimp only at h ⊢
    by_cases h0 : (utf8_get_next ch).1 = 0
    · rw [if_pos h0] at h ⊢
      cases h
      exact ⟨[], rfl, rfl, List.chain'_singleton _, fun s hs => by cases hs⟩
    · rw [if_neg h0] at h ⊢
      by_cases hc : utf8_is_format_code (utf8_get_next ch).1 = true
      · rw [if_pos hc] at h ⊢
        have hext := ttf_process_format_code_extents env g dpi ch info
        have hg := update_extents_grows info _ hext.1 hext.2
        exact states_cons _ info _ r.2 _ (ih _ _ _ r h) hg.1 hg.2
      · rw [if_neg hc] at h ⊢
        by_cases hs : (isTTF && env.utf8_should_use_sprite_for_codepoint (utf8_get_next ch).1)
            = true
        · rw [if_pos hs] at h ⊢
          have hf := ttf_draw_character_sprite_frame env dpi (utf8_get_next ch).1 info
          have hg := update_extents_grows info _ hf.2.2.2.1 hf.2.2.2.2.1
          exact states_cons _ info _ r.2 _ (ih _ _ _ r h) hg.1 hg.2
        · rw [if_neg hs] at h ⊢
          cases hr : ttf_process_glyph_run env dpi ch info with
          | none =>
            rw [hr] at h
            cases h
          | some s =>
            rw [hr] at h
            dsimp only at h ⊢
            have hf := ttf_process_glyph_run_frame env dpi ch info s hr
            have hg := update_extents_grows info _ hf.2.2.2.1 hf.2.2.2.2.1
            exact states_cons _ info _ r.2 _ (ih _ _ _ r h) hg.1 hg.2

/-- Along a chain of contexts with growing extents, the last has the greatest. -/
theorem chain_extents_last :
    ∀ (l : List text_draw_info) (a z : text_draw_info),
      List.Chain' (fun a b : text_draw_info => a.maxX ≤ b.maxX ∧ a.maxY ≤ b.maxY) (a :: l) →
      (a :: l).getLast? = some z →
      ∀ s ∈ a :: l, s.maxX ≤ z.maxX ∧ s.maxY ≤ z.maxY := by
  intro l
  induction l with
  | nil =>
    intro a z _ hz s hs
    simp only [List.getLast?_singleton, Option.some.injEq] at hz
    rw [List.mem_singleton] at hs
    rw [hs, hz]
    exact ⟨le_refl _, le_refl _⟩
  | cons b l ih =>
    intro a z hch hz s hs
    rw [List.getLast?_cons_cons] at hz
    rw [List.chain'_cons] at hch
    have hb := ih b z hch.2 hz
    rcases List.mem_cons.1 hs with rfl | hs
    · have := hb b (List.mem_cons_self _ _)
      exact ⟨le_trans hch.1.1 this.1, le_trans hch.1.2 this.2⟩
    · exact hb s hs

/-! ### The backends of a glyph run -/

/-- The sprite backend advances the cursor by the sprite widths of the codepoints, drawing
or measuring. -/
theorem sprite_run_x (env : Env) :
    ∀ (cps : List Nat) (dpi : rct_drawpixelinfo) (info : text_draw_info),
      (sprite_run env dpi info cps).2.x
        = info.x + sprite_width env info.font_sprite_base cps := by
  intro cps
  induction cps with
  | nil =>
    intro dpi info
    simp [sprite_run, sprite_width]
  | cons c cps ih =>
    intro dpi info
    rw [sprite_run_cons, ih]
    have hf := ttf_draw_character_sprite_frame env dpi c info
    have hx : (ttf_draw_character_sprite env dpi c info).2.x
        = info.x + env.font_sprite_get_codepoint_width info.font_sprite_base c := by
      unfold ttf_draw_character_sprite
      split_ifs <;> rfl
    rw [hx, hf.2.2.2.2.2.2.2]
    simp only [sprite_width, List.map_cons, List.sum_cons]
    omega

/-- The sprite backend on a run of literal tokens. -/
theorem ttf_draw_string_raw_sprite_tokens (env : Env) (dpi : rct_drawpixelinfo)
    (info : text_draw_info) (lits : List (List Nat))
    (hl : ∀ t ∈ lits, is_literal_token t = true) :
    ttf_draw_string_raw_sprite env dpi lits.flatten info
      = some (sprite_run env dpi info (codepoints lits)) := by
  unfold ttf_draw_string_raw_sprite
  have := sprite_loop_tokens env lits [] (lits.flatten.length + 1) dpi info hl
    (by rw [utf8_get_next_nil]; rfl) (by simp)
  rw [List.append_nil] at this
  exact this

/-! ### Compositing -/

theorem byteAt_poke (buf : List Nat) (i v j : Nat) :
    byteAt (poke buf i v) j = if j = i then v else byteAt buf j := by
  unfold byteAt poke
  by_cases hi : i < buf.length
  · rw [if_pos hi]
    by_cases hj : j = i
    · subst hj
      rw [if_pos rfl]
      simp [List.getD_eq_getElem?_getD, hi]
    · rw [if_neg hj]
      simp [List.getD_eq_getElem?_getD, List.getElem?_set_ne (Ne.symm hj)]
  · rw [if_neg hi]
    simp only [List.getD_eq_getElem?_getD, List.getElem?_append, List.length_append,
      List.length_replicate, List.getElem?_replicate]
    by_cases hj : j = i
    · subst hj
      rw [if_pos rfl, if_neg (by omega)]
      have : j - (buf.length + (j - buf.length)) = 0 := by omega
      rw [this]
      rfl
    · rw [if_neg hj]
      by_cases hjl : j < buf.length
      · rw [if_pos (by omega), if_pos hjl]
      · rw [List.getElem?_eq_none (l := buf) (by omega)]
        by_cases hji : j < i
        · rw [if_pos (by omega), if_neg hjl, if_pos (by omega)]
          rfl
        · rw [if_neg (by omega)]
          have : 1 ≤ j - (buf.length + (i - buf.length)) := by omega
          rw [List.getElem?_eq_none (by simpa using this)]

/-- One row of the main compositing pass without the inset flag: each pixel of the row is
decided by its source pixel and the value it held; no other pixel changes. -/
theorem ttf_composite_row_spec (h : ttf_hinting) (flags : Nat) (palette pixels : List Nat)
    (width dstScanSkip : Nat) (hin : flags &&& TEXT_DRAW_FLAG_INSET = 0) :
    ∀ (n src dst : Nat) (bits : List Nat),
      (ttf_composite_row h flags palette pixels width dstScanSkip n src dst bits).1 = src + n
        ∧ (ttf_composite_row h flags palette pixels width dstScanSkip n src dst bits).2.1
            = dst + n
        ∧ ∀ i, byteAt
            (ttf_composite_row h flags palette pixels width dstScanSkip n src dst bits).2.2 i
          = if dst ≤ i ∧ i < dst + n then
              (ttf_composite_pixel h flags (byteAt palette 1) (byteAt pixels (src + (i - dst)))
                (byteAt bits i)).getD (byteAt bits i)
            else byteAt bits i := by
  intro n
  induction n with
  | zero =>
    intro src dst bits
    refine ⟨rfl, rfl, fun i => ?_⟩
    rw [if_neg (by omega)]
    rfl
  | succ n ih =>
    intro src dst bits
    rw [ttf_composite_row]
    have hno : ¬ (byteAt pixels src ≠ 0 ∧ flags &&& TEXT_DRAW_FLAG_INSET ≠ 0) :=
      fun hc => hc.2 hin
    simp only [if_neg hno]
    have hb : ∀ i, byteAt
        (store_pixel bits dst (ttf_composite_pixel h flags (byteAt palette 1)
          (byteAt pixels src) (byteAt bits dst))) i
        = if i = dst then
            (ttf_composite_pixel h flags (byteAt palette 1) (byteAt pixels src)
              (byteAt bits dst)).getD (byteAt bits dst)
          else byteAt bits i := by
      intro i
      cases ttf_composite_pixel h flags (byteAt palette 1) (byteAt pixels src)
          (byteAt bits dst) with
      | none =>
        simp only [Option.getD_none, store_pixel]
        split_ifs with hi
        · rw [hi]
        · rfl
      | some v =>
        simp only [Option.getD_some, store_pixel]
        exact byteAt_poke bits dst v i
    obtain ⟨h1, h2, h3⟩ := ih (src + 1) (dst + 1) _
    refine ⟨by rw [h1]; omega, by rw [h2]; omega, fun i => ?_⟩
    rw [h3 i, hb i]
    by_cases hi : i = dst
    · subst hi
      rw [if_neg (by omega), if_pos rfl, if_pos (by omega), Nat.sub_self, Nat.add_zero]
    · rw [if_neg hi]
      by_cases hr : dst + 1 ≤ i ∧ i < dst + 1 + n
      · rw [if_pos hr, if_pos (by omega)]
        have : src + 1 + (i - (dst + 1)) = src + (i - dst) := by omega
        rw [this]
      · rw [if_neg hr, if_neg (by omega)]

/-- The main compositing pass without the inset flag: the pixel `xx` of the row `yy` of
the rectangle is decided by the source pixel `xx` of the row `yy` and the value it held;
no pixel outside the rectangle changes. -/
theorem ttf_composite_rows_spec (h : ttf_hinting) (flags : Nat) (palette pixels : List Nat)
    (width srcScanSkip dstScanSkip : Nat) (hin : flags &&& TEXT_DRAW_FLAG_INSET = 0) :
    ∀ (m src dst : Nat) (bits : List Nat),
      (∀ yy xx, yy < m → xx < width →
        byteAt (ttf_composite_rows h flags palette pixels width srcScanSkip dstScanSkip m
            src dst bits) (dst + yy * (width + dstScanSkip) + xx)
          = (ttf_composite_pixel h flags (byteAt palette 1)
              (byteAt pixels (src + yy * (width + srcScanSkip) + xx))
              (byteAt bits (dst + yy * (width + dstScanSkip) + xx))).getD
                (byteAt bits (dst + yy * (width + dstScanSkip) + xx)))
        ∧ ∀ i, (∀ yy xx, yy < m → xx < width → i ≠ dst + yy * (width + dstScanSkip) + xx) →
          byteAt (ttf_composite_rows h flags palette pixels width srcScanSkip dstScanSkip m
            src dst bits) i = byteAt bits i := by
  intro m
  induction m with
  | zero =>
    intro src dst bits
    exact ⟨fun yy xx hy _ => absurd hy (Nat.not_lt_zero _), fun i _ => rfl⟩
  | succ m ih =>
    intro src dst bits
    rw [ttf_composite_rows]
    obtain ⟨r1, r2, r3⟩ := ttf_composite_row_spec h flags palette pixels width dstScanSkip hin
      width src dst bits
    simp only [r1, r2]
    obtain ⟨i1, i2⟩ := ih (src + width + srcScanSkip) (dst + width + dstScanSkip)
      (ttf_composite_row h flags palette pixels width dstScanSkip width src dst bits).2.2
    constructor
    · intro yy xx hy hx
      cases yy with
      | zero =>
        rw [Nat.zero_mul, Nat.zero_mul, Nat.add_zero, Nat.add_zero, i2, r3,
          if_pos (by omega)]
        · have : src + (dst + xx - dst) = src + xx := by omega
          rw [this]
        · intro yy' xx' _ hx'
          have := Nat.zero_le (yy' * (width + dstScanSkip))
          omega
      | succ k =>
        have ed : dst + (k + 1) * (width + dstScanSkip) + xx
            = dst + width + dstScanSkip + k * (width + dstScanSkip) + xx := by
          rw [Nat.succ_mul]; omega
        have es : src + (k + 1) * (width + srcScanSkip) + xx
            = src + width + srcScanSkip + k * (width + srcScanSkip) + xx := by
          rw [Nat.succ_mul]; omega
        rw [ed, es, i1 k xx (by omega) hx, r3, if_neg (by
          have := Nat.zero_le (k * (width + dstScanSkip))
          omega)]
    · intro i hi
      rw [i2, r3, if_neg]
      · intro hc
        exact hi 0 (i - dst) (by omega) (by omega) (by rw [Nat.zero_mul]; omega)
      · intro yy xx hy hx
        have := hi (yy + 1) xx (by omega) hx
        rw [Nat.succ_mul] at this
        omega

/-! ### The flags after the starting colour -/

theorem initial_colour_spec (env : Env) (colour : Nat) (info : text_draw_info)
    (h254 : colour ≠ TEXT_COLOUR_254) (h255 : colour ≠ TEXT_COLOUR_255) :
    (ttf_process_initial_colour env colour info).flags = initial_colour_flags colour info
      ∧ (ttf_process_initial_colour env colour info).font_sprite_base
        = (if 0x8000 ≤ info.font_sprite_base then FONT_SPRITE_BASE_MEDIUM
           else info.font_sprite_base) := by
  have hmask : (0xFFFFFFFF - (TEXT_DRAW_FLAG_INSET ||| TEXT_DRAW_FLAG_OUTLINE
      ||| TEXT_DRAW_FLAG_DARK ||| TEXT_DRAW_FLAG_EXTRA_DARK)) = 0xFFFFFFF0 := by decide
  have hins : colour &&& (0xFFFFFFFF - COLOUR_FLAG_OUTLINE) &&& COLOUR_FLAG_INSET
      = colour &&& COLOUR_FLAG_INSET := by
    rw [Nat.and_assoc]
    rfl
  unfold ttf_process_initial_colour initial_colour_flags
  rw [if_pos ⟨h254, h255⟩, hmask]
  dsimp only
  rw [hins]
  have hne : ¬ 0x8000 ≤ info.font_sprite_base →
      ¬ info.font_sprite_base = FONT_SPRITE_BASE_MEDIUM_EXTRA_DARK := by
    intro hn he
    rw [he] at hn
    exact hn (by decide)
  split_ifs <;> simp only [Nat.or_zero] <;>
    first
      | exact ⟨rfl, rfl⟩
      | exact ⟨trivial, trivial⟩
      | contradiction
      | (exfalso; exact hne ‹_› ‹_›)

theorem flags_low_bit (X low m : Nat) (h1 : 0xFFFFFFF0 &&& m = 0) :
    ((X &&& 0xFFFFFFF0) ||| low) &&& m = low &&& m := by
  rw [Nat.and_distrib_right, Nat.and_assoc, h1, Nat.and_zero, Nat.zero_or]

theorem flags_high_bits (X low m : Nat) (h1 : 0xFFFFFFF0 &&& m = m) (h2 : low &&& m = 0) :
    ((X &&& 0xFFFFFFF0) ||| low) &&& m = X &&& m := by
  rw [Nat.and_distrib_right, Nat.and_assoc, h1, h2, Nat.or_zero]

/-- The flags after the starting colour, bit by bit. -/
theorem initial_colour_flags_bits (colour : Nat) (info : text_draw_info) :
    (initial_colour_flags colour info &&& TEXT_DRAW_FLAG_OUTLINE ≠ 0
        ↔ colour &&& COLOUR_FLAG_OUTLINE ≠ 0)
      ∧ (initial_colour_flags colour info &&& TEXT_DRAW_FLAG_INSET ≠ 0
        ↔ colour &&& COLOUR_FLAG_INSET ≠ 0)
      ∧ (initial_colour_flags colour info &&& TEXT_DRAW_FLAG_DARK ≠ 0
        ↔ 0x8000 ≤ info.font_sprite_base)
      ∧ (initial_colour_flags colour info &&& TEXT_DRAW_FLAG_EXTRA_DARK ≠ 0
        ↔ info.font_sprite_base = FONT_SPRITE_BASE_MEDIUM_EXTRA_DARK)
      ∧ initial_colour_flags colour info &&& 0xFFFFFFF0 = info.flags &&& 0xFFFFFFF0
      ∧ initial_colour_flags colour info &&& TEXT_DRAW_FLAG_TTF
        = info.flags &&& TEXT_DRAW_FLAG_TTF
      ∧ initial_colour_flags colour info &&& TEXT_DRAW_FLAG_NO_DRAW
        = info.flags &&& TEXT_DRAW_FLAG_NO_DRAW
      ∧ initial_colour_flags colour info &&& TEXT_DRAW_FLAG_Y_OFFSET_EFFECT
        = info.flags &&& TEXT_DRAW_FLAG_Y_OFFSET_EFFECT := by
  unfold initial_colour_flags
  simp only [Nat.or_assoc]
  refine ⟨?_, ?_, ?_, ?_, ?_, ?_, ?_, ?_⟩
  · rw [flags_low_bit _ _ _ (by decide)]
    split_ifs <;> first
      | exact iff_of_true (by decide) ‹_›
      | exact iff_of_false (by decide) ‹_›
  · rw [flags_low_bit _ _ _ (by decide)]
    split_ifs <;> first
      | exact iff_of_true (by decide) ‹_›
      | exact iff_of_false (by decide) ‹_›
  · rw [flags_low_bit _ _ _ (by decide)]
    split_ifs <;> first
      | exact iff_of_true (by decide) ‹_›
      | exact iff_of_false (by decide) ‹_›
  · rw [flags_low_bit _ _ _ (by decide)]
    split_ifs <;> first
      | exact iff_of_true (by decide) ‹_›
      | exact iff_of_false (by decide) ‹_›
  · split_ifs <;> exact flags_high_bits _ _ _ (by decide) (by decide)
  · split_ifs <;> exact flags_high_bits _ _ _ (by decide) (by decide)
  · split_ifs <;> exact flags_high_bits _ _ _ (by decide) (by decide)
  · split_ifs <;> exact flags_high_bits _ _ _ (by decide) (by decide)

/-! ### Matching a file name against a pattern -/

theorem toupper_ne_zero (c : Nat) (h : c ≠ 0) : toupper c ≠ 0 := by
  unfold toupper
  split_ifs <;> omega

theorem byteAt_cons_zero (c : Nat) (l : List Nat) : byteAt (c :: l) 0 = c := rfl

theorem byteAt_nil (i : Nat) : byteAt [] i = 0 := rfl

/-- For a pattern without `*` the code agrees with the wildcard semantics. -/
theorem MatchWildcard_no_star :
    ∀ (f p : List Nat) (fuel : Nat), (∀ b ∈ f, b ≠ 0) → (∀ b ∈ p, b ≠ 0 ∧ b ≠ 42) →
      f.length < fuel →
      MatchWildcard_fuel fuel f p = some (match_outcome.returns (wildcard_matches p f)) := by
  intro f
  induction f with
  | nil =>
    intro p fuel _ hp hfuel
    obtain ⟨k, rfl⟩ : ∃ k, fuel = k + 1 := ⟨fuel - 1, by simp at hfuel; omega⟩
    rw [MatchWildcard_fuel, byteAt_nil, if_neg (by simp)]
    cases p with
    | nil =>
      rw [byteAt_nil, if_neg (by decide)]
      rfl
    | cons d p' =>
      have hd := hp d (List.mem_cons_self _ _)
      rw [byteAt_cons_zero, if_neg hd.2]
      simp [wildcard_matches, hd.1, hd.2]
  | cons c f' ih =>
    intro p fuel hf hp hfuel
    obtain ⟨k, rfl⟩ : ∃ k, fuel = k + 1 := ⟨fuel - 1, by simp at hfuel; omega⟩
    have hc : c ≠ 0 := hf c (List.mem_cons_self _ _)
    have hf' : ∀ b ∈ f', b ≠ 0 := fun b hb => hf b (List.mem_cons_of_mem _ hb)
    have hk : f'.length < k := by simp at hfuel; omega
    rw [MatchWildcard_fuel, byteAt_cons_zero, if_pos hc]
    cases p with
    | nil =>
      rw [byteAt_nil, if_neg (by decide), if_neg (by decide),
        if_pos (by
          have : toupper 0 = 0 := rfl
          rw [this]
          exact toupper_ne_zero c hc)]
      rfl
    | cons d p' =>
      have hd := hp d (List.mem_cons_self _ _)
      have hp' : ∀ b ∈ p', b ≠ 0 ∧ b ≠ 42 := fun b hb => hp b (List.mem_cons_of_mem _ hb)
      rw [byteAt_cons_zero]
      simp only [List.drop_succ_cons, List.drop_zero]
      rw [ih p' k hf' hp' hk]
      have hw : wildcard_matches (d :: p') (c :: f')
          = if d = 63 then (c != 46 && wildcard_matches p' f')
            else (toupper c == toupper d && wildcard_matches p' f') := by
        rw [wildcard_matches, if_neg hd.2]
      rw [hw]
      by_cases h63 : d = 63
      · rw [if_pos h63, if_pos h63]
        by_cases h46 : c = 46
        · rw [if_pos h46]
          simp [h46]
        · rw [if_neg h46]
          simp [h46]
      · rw [if_neg h63, if_neg hd.2, if_neg h63]
        by_cases ht : toupper c = toupper d
        · rw [if_neg (by simpa using ht)]
          simp [ht]
        · rw [if_pos ht]
          simp [ht]

/-- For a pattern without wildcards the wildcard semantics is equality up to the case of
ASCII letters. -/
theorem wildcard_matches_literal :
    ∀ (S f : List Nat), (∀ b ∈ S, b ≠ 42 ∧ b ≠ 63) →
      (wildcard_matches S f = true ↔ f.map toupper = S.map toupper) := by
  intro S
  induction S with
  | nil =>
    intro f _
    cases f <;> simp [wildcard_matches]
  | cons d S' ih =>
    intro f hS
    have hd := hS d (List.mem_cons_self _ _)
    have hS' : ∀ b ∈ S', b ≠ 42 ∧ b ≠ 63 := fun b hb => hS b (List.mem_cons_of_mem _ hb)
    cases f with
    | nil =>
      rw [wildcard_matches, if_neg hd.1]
      simp
    | cons c f' =>
      rw [wildcard_matches, if_neg hd.1]
      simp only [if_neg hd.2, Bool.and_eq_true, beq_iff_eq, List.map_cons, List.cons.injEq]
      rw [ih f' hS']

/-- The loop of the case `'*'` in front of a pattern without `*`: it gives whether the
pattern matches the file name from one of its bytes on. -/
theorem MatchWildcard_star_no_star (S : List Nat) (hS : ∀ b ∈ S, b ≠ 0 ∧ b ≠ 42)
    (fuel : Nat) :
    ∀ (f : List Nat) (n : Nat), (∀ b ∈ f, b ≠ 0) → f.length < fuel → f.length < n →
      MatchWildcard_star (fun x => MatchWildcard_fuel fuel x S) n f
        = some (match_outcome.returns
            ((List.range f.length).any (fun k => wildcard_matches S (f.drop k)))) := by
  intro f
  induction f with
  | nil =>
    intro n _ _ hn
    obtain ⟨k, rfl⟩ : ∃ k, n = k + 1 := ⟨n - 1, by simp at hn; omega⟩
    rw [MatchWildcard_star, byteAt_nil, if_neg (by simp)]
    rfl
  | cons c f' ih =>
    intro n hf hfuel hn
    obtain ⟨k, rfl⟩ : ∃ k, n = k + 1 := ⟨n - 1, by simp at hn; omega⟩
    have hc : c ≠ 0 := hf c (List.mem_cons_self _ _)
    have hf' : ∀ b ∈ f', b ≠ 0 := fun b hb => hf b (List.mem_cons_of_mem _ hb)
    have hany : (List.range (c :: f').length).any (fun k => wildcard_matches S ((c :: f').drop k))
        = (wildcard_matches S (c :: f')
            || (List.range f'.length).any (fun k => wildcard_matches S (f'.drop k))) := by
      rw [List.length_cons, List.range_succ_eq_map, List.any_cons, List.any_map]
      rfl
    rw [MatchWildcard_star, byteAt_cons_zero, if_pos hc]
    simp only [MatchWildcard_no_star (c :: f') S fuel hf hS hfuel, List.drop_succ_cons,
      List.drop_zero]
    rw [hany]
    cases hw : wildcard_matches S (c :: f') with
    | true => rfl
    | false =>
      simp only [Bool.false_or]
      exact ih k hf' (by simp at hfuel; omega) (by simp at hn; omega)

/-- With fuel enough, `MatchWildcard` on a pattern without `*`. -/
theorem MatchWildcard_of_no_star (f p : List Nat) (hf : ∀ b ∈ f, b ≠ 0)
    (hp : ∀ b ∈ p, b ≠ 0 ∧ b ≠ 42) :
    MatchWildcard f p = some (match_outcome.returns (wildcard_matches p f)) :=
  MatchWildcard_no_star f p _ hf hp (by omega)

/-- A match from one of the bytes of the file name on, up to the case of ASCII letters, is
a match of its end. -/
theorem suffix_iff_drop (f S : List Nat) (hS : S ≠ []) :
    (∃ k, k < f.length ∧ (f.drop k).map toupper = S.map toupper)
      ↔ List.IsSuffix (S.map toupper) (f.map toupper) := by
  constructor
  · rintro ⟨k, -, hk⟩
    refine ⟨(f.take k).map toupper, ?_⟩
    rw [← hk, ← List.map_append, List.take_append_drop]
  · rintro ⟨t, ht⟩
    have hlen : t.length + S.length = f.length := by
      have := congrArg List.length ht
      simpa using this
    have hSl : 0 < S.length := List.length_pos.2 hS
    refine ⟨t.length, by omega, ?_⟩
    rw [List.map_drop, ← ht, List.drop_left]

/-- A turn at a literal codepoint `t` that does not fit on a line without a space: the
terminator is inserted in front of `t`, the rest of the text moving up by one byte. -/
theorem wrap_step_forced_break (env : Env) (g : Globals) (width : Int) (toks : List (List Nat))
    (hwt : ∀ t ∈ toks, is_wrap_token t = true) (s : wrap_state) (v : wrap_trace)
    (t : List Nat) (rest' : List (List Nat)) (lw : Int)
    (hinv : trace_inv toks s v) (hrest : v.rest = t :: rest')
    (ht : is_literal_token t = true) (hsp : (utf8_get_next t).1 ≠ 32)
    (hcw : s.currentWord = none) (hnum : s.numCharactersOnLine ≠ 0)
    (hm : gfx_get_string_width env g (v.line ++ [t]).flatten = some lw) (hover : width < lw) :
    ∃ s1, gfx_wrap_string_step env g width s = some (s1, true)
      ∧ s1.text = (trace_bytes v.lines ++ v.line.flatten)
          ++ 0 :: ((t :: rest').flatten ++ 0 :: v.tail.drop 1)
      ∧ s1.firstCh = s.ch + 1 ∧ s1.ch = s.ch + 1 ∧ s1.outNumLines = s.outNumLines + 1
      ∧ s1.currentWord = none ∧ s1.numCharactersOnLine = 0 := by
  have hall := trace_mem toks hwt s v hinv
  have hinv0 := hinv
  obtain ⟨htext, hfirst, hch, -⟩ := hinv
  have hmem : ∀ u ∈ t :: rest', is_wrap_token u = true := by
    intro u hu
    apply hall
    rw [hrest]
    exact List.mem_append_right _ hu
  have hfit : ¬ (lw ≤ width ∨ s.numCharactersOnLine = 0) := by
    rintro (h | h)
    · omega
    · exact hnum h
  rw [wrap_step_char env g width toks s v t rest' hinv0 hrest ht, if_neg hsp,
    trace_place_eq env g width toks hwt s s v t rest' hinv0 hrest rfl rfl, hm]
  simp only [Option.some_bind, if_neg hfit, hcw]
  have e : s.text = (trace_bytes v.lines ++ v.line.flatten)
      ++ ((t :: rest').flatten ++ 0 :: v.tail) := by
    rw [htext, trace_text, hrest]; simp
  have hins : utf8_insert_codepoint_zero s.text s.ch
      = some ((trace_bytes v.lines ++ v.line.flatten)
          ++ 0 :: ((t :: rest').flatten ++ 0 :: v.tail.drop 1), 1) := by
    have hk : s.ch = (trace_bytes v.lines ++ v.line.flatten).length := by
      rw [hch]; simp
    rw [hk, e]
    exact utf8_insert_codepoint_zero_wrap_tokens _ _ _ hmem
  simp only [hins, Option.map_some']
  exact ⟨_, rfl, rfl, rfl, rfl, rfl, rfl, rfl⟩

/-- A literal codepoint that is not a space is a token of a well-formed text. -/
theorem literal_nonspace_wrap (t : List Nat) (h : is_literal_token t = true)
    (hs : is_space_token t = false) : is_wrap_token t = true := by
  have hnf := ((is_literal_token_iff t).1 h).2
  have h32 : (utf8_get_next t).1 ≠ 32 := by
    intro e
    simp [is_space_token, e] at hs
  have h5 : (utf8_get_next t).1 ≠ FORMAT_NEWLINE := by
    intro e
    rw [e] at hnf
    exact absurd hnf (by decide)
  simp [is_wrap_token, is_synced_token, h, h32, h5]

/-- The tokens of lines that were all ended by an inserted terminator. -/
theorem trace_tokens_inserted :
    ∀ lines : List (List (List Nat) × Option (List Nat)), (∀ l ∈ lines, l.2 = none) →
      trace_tokens lines = (lines.map (fun l => l.1)).flatten := by
  intro lines
  induction lines using List.reverseRecOn with
  | nil => intro _; rfl
  | append_singleton ls l ih =>
    intro h
    rw [trace_tokens_snoc, ih (fun x hx => h x (List.mem_append_left _ hx)),
      h l (by simp)]
    simp

theorem trace_bytes_map (lines : List (List (List Nat) × Option (List Nat))) :
    trace_bytes lines = ((lines.map (fun l => l.1)).map (fun l => l.flatten ++ [0])).flatten := by
  unfold trace_bytes
  rw [List.map_map]
  rfl

theorem shorten_path_scan_first (sep : Nat) (path : List Nat) :
    ∀ (fuel next j : Nat), next ≤ j →
      (∀ i, next ≤ i → i < j → byteAt path i ≠ sep ∧ byteAt path i ≠ 47) →
      (byteAt path j = sep ∨ byteAt path j = 47) → j - next < fuel →
      shorten_path_scan sep path fuel next = some j := by
  intro fuel
  induction fuel with
  | zero => intro next j _ _ _ h; omega
  | succ f ih =>
    intro next j hle hno hj hf
    unfold shorten_path_scan
    by_cases hn : next = j
    · subst hn
      rw [if_neg (by rcases hj with h | h <;> simp [h])]
    · rw [if_pos (hno next (le_refl _) (by omega))]
      exact ih (next + 1) j (by omega) (fun i h1 h2 => hno i (by omega) h2) hj (by omega)

theorem separator_indices_length (sep : Nat) (path : List Nat) :
    (separator_indices sep path).length
      = (List.range (cstr path).length).countP
          (fun x => decide (byteAt path x = sep ∨ byteAt path x = 47)) := by
  unfold separator_indices
  rw [List.countP_eq_length_filter]

theorem mem_separator_indices (sep : Nat) (path : List Nat) (i : Nat) :
    i ∈ separator_indices sep path
      ↔ i < (cstr path).length ∧ (byteAt path i = sep ∨ byteAt path i = 47) := by
  unfold separator_indices
  simp [List.mem_filter]

theorem separator_indices_sorted (sep : Nat) (path : List Nat) :
    (separator_indices sep path).Pairwise (· < ·) := by
  unfold separator_indices
  exact List.Pairwise.filter _ (List.pairwise_lt_range _)

theorem separator_indices_lt (sep : Nat) (path : List Nat) (x y : Nat)
    (hxy : x < y) (hy : y < (separator_indices sep path).length) :
    (separator_indices sep path).getD x 0 < (separator_indices sep path).getD y 0 := by
  have h := List.pairwise_iff_getElem.1 (separator_indices_sorted sep path) x y (by omega) hy hxy
  rw [List.getD_eq_getElem _ _ (by omega), List.getD_eq_getElem _ _ hy]
  exact h

/-- No separator lies between two neighbours of the list of the separator indices. -/
theorem separator_indices_gap (sep : Nat) (path : List Nat) (x i : Nat)
    (hx : x < (separator_indices sep path).length)
    (hlo : ∀ y, y < x → (separator_indices sep path).getD y 0 < i)
    (hhi : i < (separator_indices sep path).getD x 0) :
    byteAt path i ≠ sep ∧ byteAt path i ≠ 47 := by
  by_contra hc
  have hP : byteAt path i = sep ∨ byteAt path i = 47 := by
    by_contra h
    apply hc
    constructor
    · intro e; exact h (Or.inl e)
    · intro e; exact h (Or.inr e)
  have hxm : (separator_indices sep path).getD x 0 ∈ separator_indices sep path := by
    rw [List.getD_eq_getElem _ _ hx]
    exact List.getElem_mem _
  have hlt := ((mem_separator_indices sep path _).1 hxm).1
  have hi : i ∈ separator_indices sep path :=
    (mem_separator_indices sep path i).2 ⟨by omega, hP⟩
  obtain ⟨y, hy, e⟩ := List.getElem_of_mem hi
  have e' : (separator_indices sep path).getD y 0 = i := by
    rw [List.getD_eq_getElem _ _ hy]
    exact e
  rcases Nat.lt_trichotomy y x with h | h | h
  · have := hlo y h
    omega
  · subst h
    omega
  · have := separator_indices_lt sep path x y h hy
    omega

/-- Turn `x` of the second loop of `shorten_path` stops its scan at separator `x + 1`. -/
theorem shorten_path_begin_spec (sep : Nat) (path : List Nat) :
    ∀ x, x < (separator_indices sep path).length →
      shorten_path_begin sep path x = some ((separator_indices sep path).getD x 0) := by
  have hmem : ∀ x, x < (separator_indices sep path).length →
      (separator_indices sep path).getD x 0 < (cstr path).length
        ∧ (byteAt path ((separator_indices sep path).getD x 0) = sep
          ∨ byteAt path ((separator_indices sep path).getD x 0) = 47) := by
    intro x hx
    apply (mem_separator_indices sep path _).1
    rw [List.getD_eq_getElem _ _ hx]
    exact List.getElem_mem _
  have hcl : (cstr path).length ≤ path.length := by
    unfold cstr
    exact (List.takeWhile_sublist _).length_le
  intro x
  induction x with
  | zero =>
    intro hx
    unfold shorten_path_begin
    apply shorten_path_scan_first sep path _ 0 _ (Nat.zero_le _)
    · intro i _ hi
      exact separator_indices_gap sep path 0 i hx (fun y hy => absurd hy (by omega)) hi
    · exact (hmem 0 hx).2
    · have := (hmem 0 hx).1
      omega
  | succ x ih =>
    intro hx
    unfold shorten_path_begin
    rw [ih (by omega)]
    simp only [Option.some_bind]
    have hlt := separator_indices_lt sep path x (x + 1) (by omega) hx
    apply shorten_path_scan_first sep path _ _ _ (by omega)
    · intro i h1 h2
      apply separator_indices_gap sep path (x + 1) i hx _ h2
      intro y hy
      rcases Nat.lt_or_ge y x with h | h
      · have := separator_indices_lt sep path y x h (by omega)
        omega
      · have : y = x := by omega
        subst this
        omega
    · exact (hmem (x + 1) hx).2
    · have := (hmem (x + 1) hx).1
      omega

theorem byteAt_cstr_length (p : List Nat) : byteAt p (cstr p).length = 0 := by
  induction p with
  | nil => rfl
  | cons a p ih =>
    by_cases h : a = 0
    · subst h
      rfl
    · have : cstr (a :: p) = a :: cstr p := by
        unfold cstr
        rw [List.takeWhile_cons_of_pos (by simpa using h)]
      rw [this]
      exact ih

theorem byteAt_zero_ne_nil (l : List Nat) (h : byteAt l 0 ≠ 0) : l ≠ [] := by
  rintro rfl
  exact h rfl

/-- The loop of the case `'*'` comes to an end when each of its calls does. -/
theorem MatchWildcard_star_isSome (call : List Nat → Option match_outcome) :
    ∀ (n : Nat) (f : List Nat), f.length < n →
      (∀ k, (call (f.drop k)).isSome = true) →
      (MatchWildcard_star call n f).isSome = true := by
  intro n
  induction n with
  | zero => intro f h; omega
  | succ n ih =>
    intro f hn hcall
    unfold MatchWildcard_star
    by_cases h0 : byteAt f 0 ≠ 0
    · rw [if_pos h0]
      have hne := byteAt_zero_ne_nil f h0
      have hc := hcall 0
      rw [List.drop_zero] at hc
      cases hr : call f with
      | none => rw [hr] at hc; cases hc
      | some o =>
        cases o with
        | hangs => rfl
        | returns b =>
          cases b with
          | true => rfl
          | false =>
            apply ih
            · have := List.length_pos.2 hne
              rw [List.length_drop]
              omega
            · intro k
              rw [List.drop_drop]
              exact hcall _
    · rw [if_neg h0]
      rfl

/-- The fuel of the model of `MatchWildcard` is enough: the scan and its recursion always
come to an end, with a value returned or with the loop behind the scan entered. -/
theorem MatchWildcard_fuel_isSome :
    ∀ (fuel : Nat) (f p : List Nat), f.length + p.length < fuel →
      (MatchWildcard_fuel fuel f p).isSome = true := by
  intro fuel
  induction fuel with
  | zero => intro f p h; omega
  | succ fuel ih =>
    intro f p hf
    unfold MatchWildcard_fuel
    by_cases h0 : byteAt f 0 ≠ 0
    · rw [if_pos h0]
      have hne := byteAt_zero_ne_nil f h0
      have hpos := List.length_pos.2 hne
      have hd : (f.drop 1).length + (p.drop 1).length < fuel := by
        rw [List.length_drop, List.length_drop]
        omega
      by_cases h63 : byteAt p 0 = 63
      · rw [if_pos h63]
        by_cases h46 : byteAt f 0 = 46
        · rw [if_pos h46]; rfl
        · rw [if_neg h46]; exact ih _ _ hd
      · rw [if_neg h63]
        by_cases h42 : byteAt p 0 = 42
        · rw [if_pos h42]
          dsimp only
          have hpne : p ≠ [] := byteAt_zero_ne_nil p (by rw [h42]; decide)
          have hppos := List.length_pos.2 hpne
          have hpl : ((p.drop 1).dropWhile (fun b => b == 42)).length < p.length := by
            have h1 := (List.dropWhile_sublist (fun b => b == 42) (l := p.drop 1)).length_le
            rw [List.length_drop] at h1
            omega
          by_cases hz : byteAt ((p.drop 1).dropWhile (fun b => b == 42)) 0 = 0
          · rw [if_pos hz]; rfl
          · rw [if_neg hz]
            apply MatchWildcard_star_isSome
            · omega
            · intro k
              apply ih
              rw [List.length_drop]
              omega
        · rw [if_neg h42]
          by_cases ht : toupper (byteAt f 0) ≠ toupper (byteAt p 0)
          · rw [if_pos ht]; rfl
          · rw [if_neg ht]; exact ih _ _ hd
    · rw [if_neg h0]
      by_cases h42 : byteAt p 0 = 42
      · rw [if_pos h42]; rfl
      · rw [if_neg h42]; rfl

theorem split_pieces_ne_nil (sep : Nat) (l : List Nat) : split_pieces sep l ≠ [] := by
  cases l with
  | nil => simp [split_pieces]
  | cons b rest =>
    unfold split_pieces
    split_ifs <;> simp

theorem split_pieces_head_tail (sep : Nat) (l : List Nat) :
    split_pieces sep l = (split_pieces sep l).headD [] :: (split_pieces sep l).tail := by
  cases h : split_pieces sep l with
  | nil => exact absurd h (split_pieces_ne_nil sep l)
  | cons a r => rfl

theorem split_pieces_append (sep : Nat) :
    ∀ (P X : List Nat), (∀ b ∈ P, b ≠ sep) →
      split_pieces sep (P ++ X)
        = (P ++ (split_pieces sep X).headD []) :: (split_pieces sep X).tail := by
  intro P
  induction P with
  | nil =>
    intro X _
    rw [List.nil_append, List.nil_append]
    exact split_pieces_head_tail sep X
  | cons a P ih =>
    intro X h
    rw [List.cons_append, split_pieces, if_neg (h a (List.mem_cons_self _ _)),
      ih X (fun b hb => h b (List.mem_cons_of_mem _ hb))]
    rfl

theorem split_pieces_no_sep (sep : Nat) (P : List Nat) (h : ∀ b ∈ P, b ≠ sep) :
    split_pieces sep P = [P] := by
  have := split_pieces_append sep P [] h
  rw [List.append_nil] at this
  rw [this]
  simp [split_pieces]

theorem split_pieces_at_sep (sep : Nat) (P X : List Nat) (h : ∀ b ∈ P, b ≠ sep) :
    split_pieces sep (P ++ sep :: X) = P :: split_pieces sep X := by
  rw [split_pieces_append sep P _ h, split_pieces, if_pos rfl]
  simp

/-- No piece holds a delimiter. -/
theorem split_pieces_mem (sep : Nat) :
    ∀ (l : List Nat), ∀ p ∈ split_pieces sep l, sep ∉ p ∧ ∀ b ∈ p, b ∈ l := by
  intro l
  induction l with
  | nil =>
    intro p hp
    simp only [split_pieces, List.mem_singleton] at hp
    subst hp
    simp
  | cons a l ih =>
    intro p hp
    unfold split_pieces at hp
    by_cases ha : a = sep
    · rw [if_pos ha] at hp
      rcases List.mem_cons.1 hp with h | h
      · subst h
        simp
      · obtain ⟨h1, h2⟩ := ih p h
        exact ⟨h1, fun b hb => List.mem_cons_of_mem _ (h2 b hb)⟩
    · rw [if_neg ha] at hp
      have hht := split_pieces_head_tail sep l
      rcases List.mem_cons.1 hp with h | h
      · have hm : (split_pieces sep l).headD [] ∈ split_pieces sep l := by
          rw [hht]
          simp
        obtain ⟨h1, h2⟩ := ih _ hm
        subst h
        constructor
        · intro hc
          rcases List.mem_cons.1 hc with e | e
          · exact ha e.symm
          · exact h1 e
        · intro b hb
          rcases List.mem_cons.1 hb with e | e
          · rw [e]; simp
          · exact List.mem_cons_of_mem _ (h2 b e)
      · obtain ⟨h1, h2⟩ := ih p (List.mem_of_mem_tail h)
        exact ⟨h1, fun b hb => List.mem_cons_of_mem _ (h2 b hb)⟩

theorem intercalate_cons_cons (sep a b : List Nat) (r : List (List Nat)) :
    List.intercalate sep (a :: b :: r) = a ++ sep ++ List.intercalate sep (b :: r) := by
  simp [List.intercalate]

/-- Joining the pieces with the delimiter gives the string back. -/
theorem intercalate_split_pieces (sep : Nat) :
    ∀ l : List Nat, List.intercalate [sep] (split_pieces sep l) = l := by
  intro l
  induction l with
  | nil => simp [split_pieces, List.intercalate]
  | cons a l ih =>
    unfold split_pieces
    have hht := split_pieces_head_tail sep l
    by_cases ha : a = sep
    · rw [if_pos ha, hht, intercalate_cons_cons, ← hht, ih, ha]
      rfl
    · rw [if_neg ha]
      rw [hht] at ih
      cases ht : (split_pieces sep l).tail with
      | nil =>
        rw [ht] at ih
        simp only [List.intercalate, List.intersperse_single, List.flatten_cons,
          List.flatten_nil, List.append_nil] at ih ⊢
        rw [ih]
      | cons x r =>
        rw [ht] at ih
        rw [intercalate_cons_cons] at ih ⊢
        rw [List.cons_append, List.cons_append, ih]

theorem cstr_cons_ne_zero (b : Nat) (l : List Nat) (h : b ≠ 0) : cstr (b :: l) = b :: cstr l := by
  unfold cstr
  rw [List.takeWhile_cons_of_pos (by simpa using h)]

theorem cstr_cons_zero (l : List Nat) : cstr (0 :: l) = [] := rfl

/-- The loop of `GetPatterns`, standing behind the bytes `P` of a piece that starts behind
`A`. -/
theorem GetPatterns_loop_spec :
    ∀ (rest A P : List Nat) (fuel : Nat) (patterns : List (List Nat)) (start ch : Nat),
      start = A.length → ch = A.length + P.length →
      (∀ b ∈ P, b ≠ 59) → rest.length < fuel →
      GetPatterns_loop (A ++ (P ++ rest)) fuel start ch patterns
        = some (patterns
            ++ (split_pieces 59 (P ++ cstr rest)).filter (fun p => !p.isEmpty)) := by
  intro rest
  induction rest with
  | nil =>
    intro A P fuel patterns start ch hs hch hP hf
    cases fuel with
    | zero => omega
    | succ n =>
      subst hs hch
      have hc : byteAt (A ++ (P ++ [])) (A.length + P.length) = 0 := by
        rw [byteAt_append, byteAt_append_zero]
        rfl
      have hd : ((A ++ (P ++ [])).drop A.length).take (A.length + P.length - A.length)
          = P := by
        rw [List.drop_left, Nat.add_sub_cancel_left, List.take_left]
      unfold GetPatterns_loop
      simp only [hc, hd, true_or, true_and, ne_eq, not_true_eq_false, if_false]
      have : cstr [] = [] := rfl
      rw [this, List.append_nil, split_pieces_no_sep 59 P hP]
      cases P with
      | nil => simp
      | cons a P => simp
  | cons b rest ih =>
    intro A P fuel patterns start ch hs hch hP hf
    cases fuel with
    | zero => omega
    | succ n =>
      subst hs hch
      have hc : byteAt (A ++ (P ++ b :: rest)) (A.length + P.length) = b := by
        rw [byteAt_append, byteAt_append_zero]
        rfl
      have hd : ((A ++ (P ++ b :: rest)).drop A.length).take
          (A.length + P.length - A.length) = P := by
        rw [List.drop_left, Nat.add_sub_cancel_left, List.take_left]
      have hn : rest.length < n := by
        simp only [List.length_cons] at hf
        omega
      unfold GetPatterns_loop
      simp only [hc, hd]
      by_cases h0 : b = 0
      · subst h0
        simp only [true_or, true_and, ne_eq, not_true_eq_false, if_false]
        rw [cstr_cons_zero, List.append_nil, split_pieces_no_sep 59 P hP]
        cases P with
        | nil => simp
        | cons a P => simp
      · by_cases h59 : b = 59
        · subst h59
          simp only [or_true, true_and, ne_eq, if_true]
          rw [if_pos (by decide)]
          have e1 : A ++ (P ++ 59 :: rest) = (A ++ P ++ [59]) ++ ([] ++ rest) := by simp
          rw [e1, ih (A ++ P ++ [59]) [] n _ _ _ (by simp; omega) (by simp; omega)
            (by intro b hb; cases hb) hn]
          rw [cstr_cons_ne_zero 59 rest (by decide), split_pieces_at_sep 59 P _ hP,
            List.nil_append]
          cases P with
          | nil => simp
          | cons a P => simp
        · have hno : ¬ (b = 0 ∨ b = 59) := by
            rintro (h | h)
            · exact h0 h
            · exact h59 h
          have hA : ¬ ((b = 0 ∨ b = 59) ∧ 0 < A.length + P.length - A.length) :=
            fun h => hno h.1
          have hB : b ≠ 0 := h0
          rw [if_pos hB, if_neg hA, if_neg hno]
          have e1 : A ++ (P ++ b :: rest) = A ++ ((P ++ [b]) ++ rest) := by simp
          rw [e1, ih A (P ++ [b]) n patterns _ _ rfl (by simp; omega)
            (by
              intro x hx
              rcases List.mem_append.1 hx with h | h
              · exact hP x h
              · rw [List.mem_singleton.1 h]; exact h59)
            hn]
          rw [cstr_cons_ne_zero b rest h0]
          simp

/-- The patterns `GetPatterns` returns are the non-empty pieces of the string, in their
order. -/
theorem GetPatterns_spec (s : List Nat) :
    GetPatterns s = some ((split_pieces 59 (cstr s)).filter (fun p => !p.isEmpty)) := by
  have h := GetPatterns_loop_spec s [] [] (s.length + 1) [] 0 0 rfl rfl
    (by intro b hb; cases hb) (by omega)
  simpa [GetPatterns] using h

theorem listing_entries_cons (recurse : Bool) (path : ScanPath) (child : DirectoryChild)
    (rest : List DirectoryChild) :
    listing_entries recurse path (child :: rest)
      = child_entries recurse path child ++ listing_entries recurse path rest := by
  rw [listing_entries]

theorem listing_size_cons (child : DirectoryChild) (rest : List DirectoryChild) :
    listing_size (child :: rest) = child_size child + listing_size rest := by
  rw [listing_size]

theorem child_size_directory (Name : List Nat) (Listing : List DirectoryChild) :
    child_size (DirectoryChild.DC_DIRECTORY Name Listing) = listing_size Listing + 2 := by
  rw [child_size]

theorem child_size_file (Name : List Nat) (Size LastModified : Nat) :
    child_size (DirectoryChild.DC_FILE Name Size LastModified) = 1 := by
  rw [child_size]

theorem child_entries_directory (recurse : Bool) (path : ScanPath) (Name : List Nat)
    (Listing : List DirectoryChild) :
    child_entries recurse path (DirectoryChild.DC_DIRECTORY Name Listing)
      = if recurse then listing_entries recurse (path ++ [Name]) Listing else [] := by
  rw [child_entries]

theorem child_entries_file (recurse : Bool) (path : ScanPath) (Name : List Nat)
    (Size LastModified : Nat) :
    child_entries recurse path (DirectoryChild.DC_FILE Name Size LastModified)
      = [(path, Name)] := by
  rw [child_entries]

theorem pattern_matches_of_returns (patterns : List (List Nat)) (name : List Nat) (b : Bool)
    (h : PatternMatch patterns name = some (match_outcome.returns b)) :
    pattern_matches patterns name = b := by
  unfold pattern_matches
  rw [h]
  cases b <;> decide

/-- What the loop of `Next` gives from a stack whose indices are in range, every call of
`PatternMatch` for a file still to come returning: it ends with the stack empty when no
file still to come matches, else it ends at the first one that does, the files behind it
being the ones the new stack stands for. -/
theorem Next_loop_spec (patterns : List (List Nat)) (recurse : Bool) :
    ∀ (fuel : Nat) (stack : List DirectoryState), (∀ st ∈ stack, -1 ≤ st.Index) →
      stack_size stack < fuel →
      (∀ e ∈ stack_entries recurse stack,
        ∃ b, PatternMatch patterns e.2 = some (match_outcome.returns b)) →
      ((∀ e ∈ stack_entries recurse stack, pattern_matches patterns e.2 = false)
          ∧ Next_loop patterns recurse fuel stack = some loop_outcome.finished)
        ∨ ∃ E1 e stack1 info,
            stack_entries recurse stack = E1 ++ e :: stack_entries recurse stack1
              ∧ (∀ x ∈ E1, pattern_matches patterns x.2 = false)
              ∧ pattern_matches patterns e.2 = true
              ∧ Next_loop patterns recurse fuel stack
                  = some (loop_outcome.found stack1 (e.1 ++ [e.2]) info)
              ∧ info.Name = e.2
              ∧ (∀ st ∈ stack1, -1 ≤ st.Index) := by
  intro fuel
  induction fuel with
  | zero => intro stack _ h; omega
  | succ fuel ih =>
    intro stack hinv hsz hret
    cases stack with
    | nil =>
      left
      exact ⟨(by intro e he; cases he), rfl⟩
    | cons state below =>
      have hI : -1 ≤ state.Index := hinv state (List.mem_cons_self _ _)
      have hbelow : ∀ st ∈ below, -1 ≤ st.Index :=
        fun st h => hinv st (List.mem_cons_of_mem _ h)
      obtain ⟨k, hk⟩ : ∃ k : Nat, (state.Index + 1).toNat = k := ⟨_, rfl⟩
      have hkI : state.Index + 1 = (k : Int) := by omega
      have hk1 : (state.Index + 1 + 1).toNat = k + 1 := by omega
      have hE : stack_entries recurse (state :: below)
          = listing_entries recurse state.Path (state.Listing.drop k)
            ++ stack_entries recurse below := by
        rw [stack_entries, hk]
      have hS : stack_size (state :: below)
          = listing_size (state.Listing.drop k) + 1 + stack_size below := by
        rw [stack_size, hk]
      have hE1 : stack_entries recurse
          ({ state with Index := state.Index + 1 } :: below)
          = listing_entries recurse state.Path (state.Listing.drop (k + 1))
            ++ stack_entries recurse below := by
        rw [stack_entries]
        dsimp only
        rw [hk1]
      have hS1 : stack_size ({ state with Index := state.Index + 1 } :: below)
          = listing_size (state.Listing.drop (k + 1)) + 1 + stack_size below := by
        rw [stack_size]
        dsimp only
        rw [hk1]
      have hinv1 : ∀ st ∈ ({ state with Index := state.Index + 1 } :: below : List DirectoryState),
          -1 ≤ st.Index := by
        intro st hst
        rcases List.mem_cons.1 hst with h | h
        · rw [h]
          dsimp only
          omega
        · exact hbelow st h
      rw [Next_loop]
      dsimp only
      by_cases hge : state.Index + 1 ≥ (state.Listing.length : Int)
      · rw [if_pos hge]
        have hdrop : state.Listing.drop k = [] := List.drop_eq_nil_of_le (by omega)
        rw [hdrop] at hE hS
        have hE' : stack_entries recurse (state :: below) = stack_entries recurse below := by
          rw [hE]
          rfl
        rw [hE'] at hret ⊢
        have hS' : stack_size below < fuel := by
          rw [hS] at hsz
          omega
        exact ih below hbelow hS' hret
      · rw [if_neg hge, if_neg (by omega)]
        have hlt : k < state.Listing.length := by omega
        have hdrop : state.Listing.drop k = state.Listing[k] :: state.Listing.drop (k + 1) :=
          List.drop_eq_getElem_cons hlt
        rw [hk, List.getElem?_eq_getElem hlt]
        rw [hdrop, listing_entries_cons] at hE
        rw [hdrop, listing_size_cons] at hS
        cases hc : state.Listing[k] with
        | DC_DIRECTORY Name Listing =>
          rw [hc, child_entries_directory] at hE
          rw [hc, child_size_directory] at hS
          dsimp only
          cases recurse with
          | true =>
            rw [if_pos rfl] at hE
            rw [if_pos rfl]
            have hE2 : stack_entries true
                (PushState (state.Path ++ [Name]) Listing
                  ({ state with Index := state.Index + 1 } :: below))
                = stack_entries true (state :: below) := by
              rw [PushState, stack_entries, hE1, hE]
              simp
            have hS2 : stack_size
                (PushState (state.Path ++ [Name]) Listing
                  ({ state with Index := state.Index + 1 } :: below))
                = listing_size Listing + 1
                  + (listing_size (state.Listing.drop (k + 1)) + 1 + stack_size below) := by
              rw [PushState, stack_size, hS1]
              simp
            rw [← hE2] at hret ⊢
            apply ih _ _ _ hret
            · intro st hst
              rcases List.mem_cons.1 hst with h | h
              · rw [h]
              · exact hinv1 st h
            · rw [hS2]
              rw [hS] at hsz
              omega
          | false =>
            rw [if_neg (by decide)] at hE
            rw [if_neg (by decide)]
            have hE2 : stack_entries false ({ state with Index := state.Index + 1 } :: below)
                = stack_entries false (state :: below) := by
              rw [hE1, hE]
              rfl
            rw [← hE2] at hret ⊢
            apply ih _ hinv1 _ hret
            rw [hS1]
            rw [hS] at hsz
            omega
        | DC_FILE Name Size LastModified =>
          rw [hc, child_entries_file] at hE
          rw [hc, child_size_file] at hS
          dsimp only
          have hE' : stack_entries recurse (state :: below)
              = (state.Path, Name)
                :: stack_entries recurse ({ state with Index := state.Index + 1 } :: below) := by
            rw [hE, hE1]
            rfl
          obtain ⟨b, hb⟩ := hret (state.Path, Name) (by rw [hE']; simp)
          have hm := pattern_matches_of_returns patterns Name b hb
          rw [hb]
          cases b with
          | true =>
            right
            exact ⟨[], (state.Path, Name), _, ⟨Name, Size, LastModified⟩, hE',
              (by intro x hx; cases hx), hm, rfl, rfl, hinv1⟩
          | false =>
            dsimp only
            have hret1 : ∀ e ∈ stack_entries recurse
                ({ state with Index := state.Index + 1 } :: below),
                ∃ b, PatternMatch patterns e.2 = some (match_outcome.returns b) := by
              intro e he
              apply hret
              rw [hE']
              exact List.mem_cons_of_mem _ he
            have hS' : stack_size ({ state with Index := state.Index + 1 } :: below) < fuel := by
              rw [hS1]
              rw [hS] at hsz
              omega
            rcases ih _ hinv1 hS' hret1 with ⟨h1, h2⟩ | ⟨E1, e, stack1, info, h1, h2, h3, h4, h5, h6⟩
            · left
              refine ⟨?_, h2⟩
              intro e he
              rw [hE'] at he
              rcases List.mem_cons.1 he with h | h
              · rw [h]
                exact hm
              · exact h1 e h
            · right
              refine ⟨(state.Path, Name) :: E1, e, stack1, info, ?_, ?_, h3, h4, h5, h6⟩
              · rw [hE', h1]
                rfl
              · intro x hx
                rcases List.mem_cons.1 hx with h | h
                · rw [h]
                  exact hm
                · exact h2 x h

theorem take_append_replicate_succ {α : Type} (L : List α) (x : α) (n : Nat) :
    (L ++ List.replicate (n + 1) x).take n = (L ++ List.replicate n x).take n := by
  rw [List.take_append_eq_append_take, List.take_append_eq_append_take,
    List.take_replicate, List.take_replicate]
  congr 2
  omega

/-- A call of `Next` on a scanner that is started. -/
theorem Next_started_spec (root : List DirectoryChild) (s : FileScannerBase)
    (hst : s._started = true) (hinv : ∀ st ∈ s._directoryStack, -1 ≤ st.Index)
    (hret : ∀ e ∈ stack_entries s._recurse s._directoryStack,
      ∃ b, PatternMatch s._patterns e.2 = some (match_outcome.returns b)) :
    ((∀ e ∈ stack_entries s._recurse s._directoryStack,
          pattern_matches s._patterns e.2 = false)
        ∧ FileScannerBase.Next root s
            = some (scan_outcome.returns false { s with _directoryStack := [] }))
      ∨ ∃ E1 e s1,
          stack_entries s._recurse s._directoryStack
              = E1 ++ e :: stack_entries s._recurse s1._directoryStack
            ∧ (∀ x ∈ E1, pattern_matches s._patterns x.2 = false)
            ∧ pattern_matches s._patterns e.2 = true
            ∧ FileScannerBase.Next root s = some (scan_outcome.returns true s1)
            ∧ s1._currentPath = e.1 ++ [e.2] ∧ s1._currentFileInfo.Name = e.2
            ∧ s1._started = true ∧ s1._patterns = s._patterns ∧ s1._recurse = s._recurse
            ∧ s1._rootPath = s._rootPath
            ∧ (∀ st ∈ s1._directoryStack, -1 ≤ st.Index) := by
  have hs : (if s._started = false then
        { s with _started := true,
                 _directoryStack := PushState s._rootPath root s._directoryStack }
      else s) = s := if_neg (by rw [hst]; decide)
  rcases Next_loop_spec s._patterns s._recurse _ s._directoryStack hinv (Nat.lt_succ_self _) hret
    with ⟨h1, h2⟩ | ⟨E1, e, stack1, info, h1, h2, h3, h4, h5, h6⟩
  · left
    refine ⟨h1, ?_⟩
    unfold FileScannerBase.Next
    dsimp only
    rw [hs, h2]
  · right
    refine ⟨E1, e, ⟨s._rootPath, s._patterns, s._recurse, s._started, stack1, info,
      e.1 ++ [e.2]⟩, h1, h2, h3, ?_, rfl, h5, hst, rfl, rfl, rfl, h6⟩
    unfold FileScannerBase.Next
    dsimp only
    rw [hs, h4]

/-- A first call of `Next` is a call on the scanner started, with the root directory
pushed. -/
theorem Next_not_started (root : List DirectoryChild) (s : FileScannerBase)
    (hst : s._started = false) :
    FileScannerBase.Next root s
      = FileScannerBase.Next root
          { s with _started := true,
                   _directoryStack := PushState s._rootPath root s._directoryStack } := by
  unfold FileScannerBase.Next
  simp only [hst, if_true, Bool.true_eq_false, if_false]

/-- The results of `n` calls of `Next` on a scanner that is started. -/
theorem Next_results_started (root : List DirectoryChild) (patterns : List (List Nat))
    (recurse : Bool) :
    ∀ (n : Nat) (s : FileScannerBase), s._started = true → s._patterns = patterns →
      s._recurse = recurse → (∀ st ∈ s._directoryStack, -1 ≤ st.Index) →
      (∀ e ∈ stack_entries recurse s._directoryStack,
        ∃ b, PatternMatch patterns e.2 = some (match_outcome.returns b)) →
      Next_results root n s
        = some ((((stack_entries recurse s._directoryStack).filter
              (fun e : ScanPath × List Nat => pattern_matches patterns e.2)).map
              (fun e : ScanPath × List Nat => some (e.1 ++ [e.2]))
            ++ List.replicate n none).take n) := by
  intro n
  induction n with
  | zero => intro s _ _ _ _ _; rfl
  | succ n ih =>
    intro s hst hp hr hinv hret
    subst hp hr
    rcases Next_started_spec root s hst hinv hret with
      ⟨h1, h2⟩ | ⟨E1, e, s1, h1, h2, h3, h4, h5, -, h7, h8, h9, -, h11⟩
    · have hf : (stack_entries s._recurse s._directoryStack).filter
          (fun e : ScanPath × List Nat => pattern_matches s._patterns e.2) = [] := by
        apply List.filter_eq_nil_iff.2
        intro e he
        rw [h1 e he]
        decide
      rw [Next_results, h2]
      dsimp only
      rw [ih { s with _directoryStack := [] } hst rfl rfl (by intro st h; cases h)
        (by intro e h; cases h), hf]
      simp [stack_entries, List.replicate_succ]
    · have hf : (stack_entries s._recurse s._directoryStack).filter
          (fun e => pattern_matches s._patterns e.2)
          = e :: (stack_entries s._recurse s1._directoryStack).filter
              (fun e => pattern_matches s._patterns e.2) := by
        rw [h1, List.filter_append, List.filter_cons_of_pos (by exact h3)]
        have : E1.filter (fun e : ScanPath × List Nat => pattern_matches s._patterns e.2) = [] := by
          apply List.filter_eq_nil_iff.2
          intro x hx
          rw [h2 x hx]
          decide
        rw [this]
        rfl
      have hret1 : ∀ x ∈ stack_entries s._recurse s1._directoryStack,
          ∃ b, PatternMatch s._patterns x.2 = some (match_outcome.returns b) := by
        intro x hx
        apply hret
        rw [h1]
        exact List.mem_append_right _ (List.mem_cons_of_mem _ hx)
      rw [Next_results, h4]
      dsimp only
      rw [ih s1 h7 h8 h9 h11 hret1, hf, h5]
      simp only [if_true, Option.map_some', List.map_cons, List.cons_append,
        List.take_succ_cons, Option.some.injEq, List.cons.injEq, true_and]
      exact (take_append_replicate_succ _ _ _).symm

/-- Without recursion the files of a listing are its own entries that are files. -/
theorem listing_entries_flat (path : ScanPath) :
    ∀ l : List DirectoryChild,
      listing_entries false path l
        = l.filterMap (fun c => (file_name c).map (fun n => (path, n))) := by
  intro l
  induction l with
  | nil => rw [listing_entries]; rfl
  | cons c l ih =>
    rw [listing_entries_cons, ih]
    cases c with
    | DC_DIRECTORY Name Listing =>
      rw [child_entries_directory, if_neg (by decide)]
      simp [file_name]
    | DC_FILE Name Size LastModified =>
      rw [child_entries_file]
      simp [file_name]

theorem ttf_format_code_arg_length_low (c : Nat) (h0 : c ≠ 0) (h : c < 32) :
    ttf_format_code_arg_length c
      = if c ≤ 4 then 1 else if c ≤ 16 then 0 else if c ≤ 22 then 2 else 4 := by
  interval_cases c <;> first | exact absurd rfl h0 | rfl

theorem is_height_token_spec (t : List Nat) (h : is_height_token t = true) :
    ∃ c args, t = c :: args ∧ c ≠ 0
      ∧ (c < 32 → args.length
          = if c ≤ 4 then 1 else if c ≤ 16 then 0 else if c ≤ 22 then 2 else 4)
      ∧ (32 ≤ c → args = []) := by
  cases t with
  | nil => cases h
  | cons c args =>
    simp only [is_height_token, Bool.and_eq_true, bne_iff_ne, ne_eq] at h
    obtain ⟨h0, h1⟩ := h
    refine ⟨c, args, rfl, h0, ?_, ?_⟩
    · intro hc
      rw [if_pos hc, beq_iff_eq] at h1
      rw [h1, ttf_format_code_arg_length_low c h0 hc]
    · intro hc
      rw [if_neg (by omega)] at h1
      exact List.isEmpty_iff.1 h1

theorem char_value_eq (char_signed : Bool) (b : Nat) (h : char_signed = true → b < 128) :
    char_value char_signed b = (b : Int) := by
  unfold char_value
  rw [if_neg]
  rintro ⟨h1, h2⟩
  have := h h1
  omega

theorem lines_height_cons (font : Nat) (t : List Nat) (rest : List (List Nat)) :
    lines_height font (t :: rest)
      = if t = [5] then font_line_height font + lines_height font rest
        else if t = [6] then font_line_height font / 2 + lines_height font rest
        else if t = [7] then lines_height FONT_SPRITE_BASE_TINY rest
        else if t = [8] then lines_height FONT_SPRITE_BASE_BIG rest
        else if t = [9] then lines_height FONT_SPRITE_BASE_MEDIUM rest
        else if t = [10] then lines_height FONT_SPRITE_BASE_SMALL rest
        else lines_height font rest := by
  rw [lines_height]
  rfl

/-- One element of the string in `string_get_height_raw`. -/
theorem string_get_height_raw_loop_token (char_signed : Bool) (t rest : List Nat)
    (ht : is_height_token t = true) (hs : char_signed = true → byteAt t 0 < 128)
    (fuel : Nat) (font : Nat) (height : Int) :
    ∃ font1 height1,
      string_get_height_raw_loop char_signed (fuel + 1) (t ++ rest) font height
          = string_get_height_raw_loop char_signed fuel rest font1 height1
        ∧ ∀ toks, height1 + lines_height font1 toks = height + lines_height font (t :: toks) := by
  obtain ⟨c, args, rfl, h0, hlow, hhigh⟩ := is_height_token_spec t ht
  have hb : byteAt (c :: args ++ rest) 0 = c := rfl
  have hcv : char_value char_signed c = (c : Int) := char_value_eq char_signed c hs
  have hd : (c :: args ++ rest).drop 1 = args ++ rest := rfl
  rw [string_get_height_raw_loop, hb, if_neg h0]
  simp only [hcv, hd, FORMAT_NEWLINE, FORMAT_NEWLINE_SMALLER, FORMAT_TINYFONT, FORMAT_BIGFONT,
    FORMAT_MEDIUMFONT, FORMAT_SMALLFONT]
  have hne : ∀ k : Nat, c ≠ k → ¬ ((c : Int) = (k : Int)) := by
    intro k h e
    exact h (by exact_mod_cast e)
  have hnt : ∀ k : Nat, c ≠ k → c :: args ≠ [k] := by
    intro k h e
    simp only [List.cons.injEq] at e
    exact h e.1
  by_cases h5 : c = 5
  · subst h5
    have ha : args = [] := List.length_eq_zero.1 (by rw [hlow (by decide)]; rfl)
    subst ha
    rw [if_pos rfl]
    by_cases hf : font = FONT_SPRITE_BASE_SMALL ∨ font = FONT_SPRITE_BASE_MEDIUM
    · rw [if_pos hf]
      refine ⟨font, height + 10, rfl, ?_⟩
      intro toks
      rw [lines_height_cons, if_pos rfl, font_line_height, if_pos hf]
      ring
    · rw [if_neg hf]
      by_cases hf2 : font = FONT_SPRITE_BASE_TINY
      · rw [if_pos hf2]
        refine ⟨font, height + 6, rfl, ?_⟩
        intro toks
        rw [lines_height_cons, if_pos rfl, font_line_height, if_neg hf, if_pos hf2]
        ring
      · rw [if_neg hf2]
        refine ⟨font, height + 18, rfl, ?_⟩
        intro toks
        rw [lines_height_cons, if_pos rfl, font_line_height, if_neg hf, if_neg hf2]
        ring
  · rw [if_neg (hne 5 h5)]
    by_cases h6 : c = 6
    · subst h6
      have ha : args = [] := List.length_eq_zero.1 (by rw [hlow (by decide)]; rfl)
      subst ha
      rw [if_pos rfl]
      by_cases hf : font = FONT_SPRITE_BASE_SMALL ∨ font = FONT_SPRITE_BASE_MEDIUM
      · rw [if_pos hf]
        refine ⟨font, height + 5, rfl, ?_⟩
        intro toks
        rw [lines_height_cons, if_neg (by decide), if_pos rfl, font_line_height, if_pos hf]
        norm_num
        ring
      · rw [if_neg hf]
        by_cases hf2 : font = FONT_SPRITE_BASE_TINY
        · rw [if_pos hf2]
          refine ⟨font, height + 3, rfl, ?_⟩
          intro toks
          rw [lines_height_cons, if_neg (by decide), if_pos rfl, font_line_height, if_neg hf,
            if_pos hf2]
          norm_num
          ring
        · rw [if_neg hf2]
          refine ⟨font, height + 9, rfl, ?_⟩
          intro toks
          rw [lines_height_cons, if_neg (by decide), if_pos rfl, font_line_height, if_neg hf,
            if_neg hf2]
          norm_num
          ring
    · rw [if_neg (hne 6 h6)]
      by_cases h7 : c = 7
      · subst h7
        have ha : args = [] := List.length_eq_zero.1 (by rw [hlow (by decide)]; rfl)
        subst ha
        rw [if_pos rfl]
        refine ⟨FONT_SPRITE_BASE_TINY, height, rfl, ?_⟩
        intro toks
        rw [lines_height_cons, if_neg (by decide), if_neg (by decide), if_pos rfl]
      · rw [if_neg (hne 7 h7)]
        by_cases h8 : c = 8
        · subst h8
          have ha : args = [] := List.length_eq_zero.1 (by rw [hlow (by decide)]; rfl)
          subst ha
          rw [if_pos rfl]
          refine ⟨FONT_SPRITE_BASE_BIG, height, rfl, ?_⟩
          intro toks
          rw [lines_height_cons, if_neg (by decide), if_neg (by decide), if_neg (by decide),
            if_pos rfl]
        · rw [if_neg (hne 8 h8)]
          by_cases h9 : c = 9
          · subst h9
            have ha : args = [] := List.length_eq_zero.1 (by rw [hlow (by decide)]; rfl)
            subst ha
            rw [if_pos rfl]
            refine ⟨FONT_SPRITE_BASE_MEDIUM, height, rfl, ?_⟩
            intro toks
            rw [lines_height_cons, if_neg (by decide), if_neg (by decide), if_neg (by decide),
              if_neg (by decide), if_pos rfl]
          · rw [if_neg (hne 9 h9)]
            by_cases h10 : c = 10
            · subst h10
              have ha : args = [] := List.length_eq_zero.1 (by rw [hlow (by decide)]; rfl)
              subst ha
              rw [if_pos rfl]
              refine ⟨FONT_SPRITE_BASE_SMALL, height, rfl, ?_⟩
              intro toks
              rw [lines_height_cons, if_neg (by decide), if_neg (by decide), if_neg (by decide),
                if_neg (by decide), if_neg (by decide), if_pos rfl]
            · rw [if_neg (hne 10 h10)]
              have hl : ∀ toks, lines_height font ((c :: args) :: toks)
                  = lines_height font toks := by
                intro toks
                rw [lines_height_cons, if_neg (hnt 5 h5), if_neg (hnt 6 h6), if_neg (hnt 7 h7),
                  if_neg (hnt 8 h8), if_neg (hnt 9 h9), if_neg (hnt 10 h10)]
              by_cases h32 : 32 ≤ c
              · rw [if_pos (by exact_mod_cast h32), hhigh h32, List.nil_append]
                refine ⟨font, height, rfl, ?_⟩
                intro toks
                rw [← hhigh h32, hl]
              · have hlen := hlow (by omega)
                rw [if_neg (by push_neg; exact_mod_cast (by omega : c < 32))]
                by_cases h4 : c ≤ 4
                · rw [if_pos (by exact_mod_cast h4)]
                  rw [if_pos h4] at hlen
                  obtain ⟨a, rfl⟩ := List.length_eq_one.1 hlen
                  exact ⟨font, height, rfl, fun toks => by rw [hl]⟩
                · rw [if_neg (by push_neg; exact_mod_cast (by omega : 4 < c))]
                  rw [if_neg h4] at hlen
                  by_cases h16 : c ≤ 16
                  · rw [if_pos (by exact_mod_cast h16)]
                    rw [if_pos h16] at hlen
                    rw [List.length_eq_zero.1 hlen]
                    refine ⟨font, height, rfl, fun toks => ?_⟩
                    rw [← List.length_eq_zero.1 hlen, hl]
                  · rw [if_neg (by push_neg; exact_mod_cast (by omega : 16 < c))]
                    rw [if_neg h16] at hlen
                    by_cases h22 : c ≤ 22
                    · rw [if_pos (by exact_mod_cast h22)]
                      rw [if_pos h22] at hlen
                      have : (args ++ rest).drop 2 = rest := by
                        rw [← hlen, List.drop_left]
                      rw [this]
                      exact ⟨font, height, rfl, fun toks => by rw [hl]⟩
                    · rw [if_neg (by push_neg; exact_mod_cast (by omega : 22 < c))]
                      rw [if_neg h22] at hlen
                      have : (args ++ rest).drop 4 = rest := by
                        rw [← hlen, List.drop_left]
                      rw [this]
                      exact ⟨font, height, rfl, fun toks => by rw [hl]⟩

/-- The loop of `string_get_height_raw` over the elements of a string. -/
theorem string_get_height_raw_loop_tokens (char_signed : Bool) :
    ∀ (toks : List (List Nat)) (X : List Nat) (fuel font : Nat) (height : Int),
      (∀ t ∈ toks, is_height_token t = true) →
      (char_signed = true → ∀ t ∈ toks, byteAt t 0 < 128) →
      byteAt X 0 = 0 → toks.length < fuel →
      string_get_height_raw_loop char_signed fuel (toks.flatten ++ X) font height
        = some (height + lines_height font toks) := by
  intro toks
  induction toks with
  | nil =>
    intro X fuel font height _ _ hX hf
    cases fuel with
    | zero => omega
    | succ n =>
      rw [List.flatten_nil, List.nil_append, string_get_height_raw_loop, if_pos hX,
        lines_height]
      simp
  | cons t toks ih =>
    intro X fuel font height ht hs hX hf
    cases fuel with
    | zero => omega
    | succ n =>
      obtain ⟨font1, height1, h1, h2⟩ := string_get_height_raw_loop_token char_signed t
        (toks.flatten ++ X) (ht t (List.mem_cons_self _ _))
        (fun h => hs h t (List.mem_cons_self _ _)) n font height
      rw [List.flatten_cons, List.append_assoc, h1,
        ih X n font1 height1 (fun u hu => ht u (List.mem_cons_of_mem _ hu))
          (fun h u hu => hs h u (List.mem_cons_of_mem _ hu)) hX
          (by simp only [List.length_cons] at hf; omega),
        h2 toks]

theorem height_tokens_length (toks : List (List Nat))
    (h : ∀ t ∈ toks, is_height_token t = true) : toks.length ≤ toks.flatten.length := by
  induction toks with
  | nil => simp
  | cons t toks ih =>
    obtain ⟨c, args, rfl, -⟩ := is_height_token_spec t (h t (List.mem_cons_self _ _))
    have := ih (fun u hu => h u (List.mem_cons_of_mem _ hu))
    simp only [List.length_cons, List.flatten_cons, List.length_append]
    omega

/-- The height `string_get_height_raw` returns for a string of elements whose bytes are
read as they are. -/
theorem string_get_height_raw_tokens (char_signed : Bool) (g : Globals)
    (toks : List (List Nat)) (tail : List Nat)
    (ht : ∀ t ∈ toks, is_height_token t = true)
    (hs : char_signed = true → ∀ t ∈ toks, byteAt t 0 < 128) :
    string_get_height_raw char_signed g (toks.flatten ++ 0 :: tail)
      = some ((if g.gCurrentFontSpriteBase ≤ FONT_SPRITE_BASE_MEDIUM then 10
          else if g.gCurrentFontSpriteBase = FONT_SPRITE_BASE_TINY then 6 else 0)
        + lines_height g.gCurrentFontSpriteBase toks) := by
  unfold string_get_height_raw
  dsimp only
  rw [string_get_height_raw_loop_tokens char_signed toks (0 :: tail) _ _ _ ht hs rfl]
  have := height_tokens_length toks ht
  simp only [List.length_append, List.length_cons]
  omega

theorem line_token_cases (t : List Nat) (h : is_line_token t = true) :
    is_literal_token t = true ∨ ∃ c, t = [c] ∧ is_newline_code c = true := by
  unfold is_line_token at h
  simp only [Bool.or_eq_true, beq_iff_eq] at h
  rcases h with (h | h) | h
  · exact Or.inl h
  · exact Or.inr ⟨FORMAT_NEWLINE, h, by decide⟩
  · exact Or.inr ⟨FORMAT_NEWLINE_SMALLER, h, by decide⟩

theorem line_token_is_token (t : List Nat) (h : is_line_token t = true) : is_token t = true := by
  rcases line_token_cases t h with h | ⟨c, rfl, hc⟩
  · simp [is_token, h]
  · exact (newline_code_token c hc).1

/-- A newline code in front of the text `Y`: the cursor goes back to the start of the
line. -/
theorem process_newline_code (env : Env) (g : Globals) (dpi : rct_drawpixelinfo) (c : Nat)
    (hc : is_newline_code c = true) (Y : List Nat) (info : text_draw_info) :
    ∃ y : Int, ttf_process_string env g dpi (c :: Y) info
      = ttf_process_string env g dpi Y
          (update_extents { info with x := info.startX, y := y }) := by
  rcases newline_code_cases c hc with rfl | rfl
  · refine ⟨info.y + env.font_get_line_height info.font_sprite_base, ?_⟩
    rw [ttf_process_string_code env g dpi _ info
      (by rw [utf8_get_next_ascii FORMAT_NEWLINE _ (by decide)]; decide)
      (by rw [utf8_get_next_ascii FORMAT_NEWLINE _ (by decide)]; decide), newline_step]
  · refine ⟨info.y + env.font_get_line_height_small info.font_sprite_base, ?_⟩
    rw [ttf_process_string_code env g dpi _ info
      (by rw [utf8_get_next_ascii FORMAT_NEWLINE_SMALLER _ (by decide)]; decide)
      (by rw [utf8_get_next_ascii FORMAT_NEWLINE_SMALLER _ (by decide)]; decide),
      newline_smaller_step]

/-- A literal codepoint that is forced to the sprite font, measured. -/
theorem process_forced_sprite (env : Env) (g : Globals) (dpi : rct_drawpixelinfo)
    (t Y : List Nat) (info : text_draw_info) (ht : is_literal_token t = true)
    (hs : (is_ttf info && env.utf8_should_use_sprite_for_codepoint (utf8_get_next t).1) = true)
    (hnd : info.flags &&& TEXT_DRAW_FLAG_NO_DRAW ≠ 0) :
    ttf_process_string env g dpi (t ++ Y) info
      = ttf_process_string env g dpi Y
          (update_extents { info with
            x := info.x + env.font_sprite_get_codepoint_width info.font_sprite_base
              (utf8_get_next t).1 }) := by
  have htok : is_token t = true := by simp [is_token, ht]
  have hn : utf8_get_next (t ++ Y) = utf8_get_next t := token_next t Y htok
  obtain ⟨hlen, hnf⟩ := (is_literal_token_iff t).1 ht
  rw [ttf_process_string_sprite env g dpi (t ++ Y) info (by rw [hn]; exact hnf)
    (by rw [hn]; exact hs), hn, ttf_draw_character_sprite_measure env dpi _ info hnd, hlen,
    List.drop_left]

/-- A glyph run of more than 511 bytes in front of another token gives no result. -/
theorem process_run_overflow (env : Env) (g : Globals) (dpi : rct_drawpixelinfo)
    (info : text_draw_info) (run rest : List (List Nat)) (X : List Nat)
    (ht : ∀ t ∈ run ++ rest, is_token t = true)
    (hrun : ∀ t ∈ run, in_run env (is_ttf info) t = true) (hne : run ≠ [])
    (hhead : ∀ t r, rest = t :: r → in_run env (is_ttf info) t = false)
    (hr : rest ≠ []) (hover : 511 < run.flatten.length) (hX : byteAt X 0 = 0) :
    ttf_process_string env g dpi ((run ++ rest).flatten ++ X) info = none := by
  obtain ⟨e1, e2⟩ := takeWhile_dropWhile_run (in_run env (is_ttf info)) run rest hrun hhead
  have hlit : ∀ t ∈ run, is_literal_token t = true :=
    fun t h => in_run_literal env _ t (hrun t h)
  cases run with
  | nil => exact absurd rfl hne
  | cons t run1 =>
    have hin := hrun t (List.mem_cons_self _ _)
    have htl := hlit t (List.mem_cons_self _ _)
    have htt : is_token t = true := ht t (by simp)
    have hnext : utf8_get_next (((t :: run1) ++ rest).flatten ++ X) = utf8_get_next t := by
      have : ((t :: run1) ++ rest).flatten ++ X = t ++ ((run1 ++ rest).flatten ++ X) := by simp
      rw [this]
      exact token_next t _ htt
    have hnf := ((is_literal_token_iff t).1 htl).2
    have hs : (is_ttf info && env.utf8_should_use_sprite_for_codepoint (utf8_get_next t).1)
        = false := by
      unfold in_run at hin
      rw [Bool.and_eq_true, Bool.not_eq_true'] at hin
      exact hin.2
    rw [ttf_process_string_run env g dpi _ info (by rw [hnext]; exact hnf)
        (by rw [hnext]; exact hs),
      ttf_process_glyph_run_tokens env dpi info _ X ht hX, e1, e2, if_neg hr, if_pos hover]
    rfl

theorem run_advance_congr (env : Env) (a b : text_draw_info) (h1 : a.flags = b.flags)
    (h2 : a.font_sprite_base = b.font_sprite_base) (l : List (List Nat)) :
    run_advance env a l = run_advance env b l := by
  unfold run_advance
  rw [h1, h2]

theorem is_ttf_congr (a b : text_draw_info) (h : a.flags = b.flags) : is_ttf a = is_ttf b := by
  unfold is_ttf
  rw [h]

theorem ends_with_newline_suffix (A B : List (List Nat)) (h : ends_with_newline (A ++ B))
    (hB : B ≠ []) : ends_with_newline B := by
  obtain ⟨T1, c, e, hc⟩ := h
  obtain ⟨B1, x, rfl⟩ := List.eq_nil_or_concat B |>.resolve_left hB
  rw [List.concat_eq_append, ← List.append_assoc] at e
  have := List.append_inj' e rfl
  refine ⟨B1, c, ?_, hc⟩
  rw [List.concat_eq_append, this.2]

theorem ends_with_newline_last_not_in_run (env : Env) (isTTF : Bool) (T : List (List Nat))
    (h : ends_with_newline T) : T.dropWhile (in_run env isTTF) ≠ [] := by
  obtain ⟨T1, c, rfl, hc⟩ := h
  intro hd
  have hall : ∀ t ∈ T1 ++ [[c]], in_run env isTTF t = true := by
    intro t ht
    by_contra hn
    have := List.dropWhile_eq_nil_iff.1 hd t ht
    exact hn this
  have := hall [c] (by simp)
  have h2 := in_run_literal env isTTF [c] this
  rw [(newline_code_token c hc).2] at h2
  cases h2

theorem measure_rel_step (M : Int) (a b : text_draw_info) (h : measure_rel M a b)
    (va vb ya yb : Int) (hv : va = vb) :
    measure_rel M (update_extents { a with x := va, y := ya })
      (update_extents { b with x := vb, y := yb }) := by
  obtain ⟨h1, h2, h3, h4, h5⟩ := h
  refine ⟨h1, hv, h3, h4, ?_⟩
  simp only [update_extents]
  rw [h5, hv, max_assoc]

/-- One step of the two measurements, the rest being compared already. -/
theorem measure_rel_post_step (env : Env) (g : Globals) (dpi : rct_drawpixelinfo)
    (T T1 R : List (List Nat)) (X X' : List Nat) (a b a1 b1 : text_draw_info) (M : Int)
    (hb : ttf_process_string env g dpi (T.flatten ++ X') b
      = ttf_process_string env g dpi (T1.flatten ++ X') b1)
    (ha : ttf_process_string env g dpi ((T ++ R).flatten ++ X) a
      = ttf_process_string env g dpi ((T1 ++ R).flatten ++ X) a1)
    (h1 : b1.startX = b.startX) (h2 : b1.flags = b.flags)
    (h3 : b1.font_sprite_base = b.font_sprite_base) (h4 : b.maxX ≤ b1.maxX)
    (hne : T ≠ [])
    (h5 : ends_with_newline T → (T1 = [] ∧ b1.x = b1.startX) ∨ ends_with_newline T1)
    (h : measure_rel_post env g dpi T1 R X X' a1 b1 M) :
    measure_rel_post env g dpi T R X X' a b M := by
  obtain ⟨p1, p2⟩ := h
  constructor
  · intro hn
    rw [ha]
    apply p1
    rw [← hb]
    exact hn
  · intro d rb hr
    rw [hb] at hr
    obtain ⟨q1, q2, q3, q4, q5, q6, ra, q7, q8⟩ := p2 d rb hr
    refine ⟨q1, q2.trans h1, q3.trans h2, q4.trans h3, le_trans h4 q5, ?_, ra, q7, ?_⟩
    · intro hx
      rcases hx with ⟨e, -⟩ | hx
      · exact absurd e hne
      · rw [q6 (h5 hx), h1]
    · rw [ha, q8]

theorem not_ends_with_newline_singleton_literal (t : List Nat) (T1 : List (List Nat))
    (ht : is_literal_token t = true) (h : ends_with_newline (t :: T1)) :
    T1 ≠ [] := by
  rintro rfl
  obtain ⟨T0, c, e, hc⟩ := h
  have e2 : [t] = T0 ++ [[c]] := e
  have := List.append_inj' (show [] ++ [t] = T0 ++ [[c]] from e2) rfl
  have ht2 : t = [c] := by
    have := this.2
    simpa using this
  rw [ht2, (newline_code_token c hc).2] at ht
  cases ht

/-- Measuring the tokens `T` of a text of lines from two contexts that stand at the same
place in the same font: both measurements give no result, or both give one, and then the
contexts they end in stand at the same place again; what follows `T` in the text of the
first does not matter when `T` ends with a newline code. -/
theorem measure_lines_rel (env : Env) (g : Globals) (dpi : rct_drawpixelinfo) :
    ∀ (n : Nat) (T : List (List Nat)), T.length ≤ n → (∀ t ∈ T, is_line_token t = true) →
      ∀ (R : List (List Nat)) (X X' : List Nat) (a b : text_draw_info) (M : Int),
        (∀ t ∈ R, is_token t = true) → (R = [] ∨ T = [] ∨ ends_with_newline T) →
        byteAt X 0 = 0 → byteAt X' 0 = 0 → measure_rel M a b →
        b.flags &&& TEXT_DRAW_FLAG_NO_DRAW ≠ 0 →
        measure_rel_post env g dpi T R X X' a b M := by
  have base : ∀ (R : List (List Nat)) (X X' : List Nat) (a b : text_draw_info) (M : Int),
      byteAt X' 0 = 0 → measure_rel M a b →
      measure_rel_post env g dpi [] R X X' a b M := by
    intro R X X' a b M hX' hrel
    have hz : ttf_process_string env g dpi (([] : List (List Nat)).flatten ++ X') b
        = some (dpi, b) :=
      ttf_process_string_zero env g dpi _ b
        (by rw [List.flatten_nil, List.nil_append, utf8_get_next_of_head_zero X' hX'])
    constructor
    · intro hn
      rw [hz] at hn
      cases hn
    · intro d rb hr
      rw [hz] at hr
      cases hr
      refine ⟨rfl, rfl, rfl, rfl, le_refl _, ?_, a, hrel, rfl⟩
      rintro (⟨-, h⟩ | ⟨T1, c, e, -⟩)
      · exact h
      · exact absurd e (by simp)
  intro n
  induction n with
  | zero =>
    intro T hn _ R X X' a b M _ _ _ hX' hrel _
    have : T = [] := List.length_eq_zero.mp (Nat.le_zero.mp hn)
    subst this
    exact base R X X' a b M hX' hrel
  | succ n ih =>
    intro T hn hT R X X' a b M hR hend hX hX' hrel hnd
    cases T with
    | nil => exact base R X X' a b M hX' hrel
    | cons t T1 =>
      have hT1 : ∀ u ∈ T1, is_line_token u = true :=
        fun u hu => hT u (List.mem_cons_of_mem _ hu)
      have hlen1 : T1.length ≤ n := by
        simp only [List.length_cons] at hn
        omega
      obtain ⟨r1, r2, r3, r4, r5⟩ := hrel
      have hnda : a.flags &&& TEXT_DRAW_FLAG_NO_DRAW ≠ 0 := by rw [r3]; exact hnd
      have htt : is_ttf a = is_ttf b := is_ttf_congr a b r3
      have hend1 : ends_with_newline (t :: T1) → T1 ≠ [] → ends_with_newline T1 :=
        fun h hne => ends_with_newline_suffix [t] T1 h hne
      have hendT1 : R = [] ∨ T1 = [] ∨ ends_with_newline T1 := by
        rcases hend with h | h | h
        · exact Or.inl h
        · cases h
        · by_cases hne : T1 = []
          · exact Or.inr (Or.inl hne)
          · exact Or.inr (Or.inr (hend1 h hne))
      have eb : (t :: T1).flatten ++ X' = t ++ (T1.flatten ++ X') := by simp
      have ea : ((t :: T1) ++ R).flatten ++ X = t ++ ((T1 ++ R).flatten ++ X) := by simp
      rcases line_token_cases t (hT t (List.mem_cons_self _ _)) with hlit | ⟨c, rfl, hc⟩
      · by_cases hs : (is_ttf b
            && env.utf8_should_use_sprite_for_codepoint (utf8_get_next t).1) = true
        · -- a codepoint forced to the sprite font
          have hb := process_forced_sprite env g dpi t (T1.flatten ++ X') b hlit hs hnd
          have ha := process_forced_sprite env g dpi t ((T1 ++ R).flatten ++ X) a hlit
            (by rw [htt]; exact hs) hnda
          rw [← eb] at hb
          rw [← ea] at ha
          refine measure_rel_post_step env g dpi (t :: T1) T1 R X X' a b _ _ M hb ha rfl rfl rfl
            (le_max_left _ _) (by simp) ?_ ?_
          · intro h
            exact Or.inr (hend1 h (not_ends_with_newline_singleton_literal t T1 hlit h))
          · apply ih T1 hlen1 hT1 R X X' _ _ M hR hendT1 hX hX'
            · exact measure_rel_step M a b ⟨r1, r2, r3, r4, r5⟩ _ _ a.y b.y (by rw [r2, r4])
            · exact hnd
        · -- a glyph run
          have hs' : (is_ttf b
              && env.utf8_should_use_sprite_for_codepoint (utf8_get_next t).1) = false := by
            cases h : (is_ttf b
              && env.utf8_should_use_sprite_for_codepoint (utf8_get_next t).1) with
            | false => rfl
            | true => exact absurd h hs
          have hin : in_run env (is_ttf b) t = true := by
            unfold in_run
            rw [hlit, hs']
            rfl
          obtain ⟨run, T2, hrun, hT2⟩ : ∃ run T2, run = (t :: T1).takeWhile (in_run env (is_ttf b))
              ∧ T2 = (t :: T1).dropWhile (in_run env (is_ttf b)) := ⟨_, _, rfl, rfl⟩
          have hsplit : t :: T1 = run ++ T2 := by
            rw [hrun, hT2, List.takeWhile_append_dropWhile]
          have hrunin : ∀ u ∈ run, in_run env (is_ttf b) u = true := by
            intro u hu
            rw [hrun] at hu
            exact List.mem_takeWhile_imp hu
          have hrne : run ≠ [] := by
            rw [hrun, List.takeWhile_cons, if_pos hin]
            simp
          have hT2len : T2.length ≤ n := by
            have h1 : (t :: T1).length = run.length + T2.length := by
              rw [hsplit, List.length_append]
            have h2 := List.length_pos.2 hrne
            simp only [List.length_cons] at hn h1
            omega
          have hT2tok : ∀ u ∈ T2, is_line_token u = true := by
            intro u hu
            apply hT
            rw [hsplit]
            exact List.mem_append_right _ hu
          have hhead2 : ∀ u r, T2 = u :: r → in_run env (is_ttf b) u = false := by
            intro u r e
            exact dropWhile_head_not (in_run env (is_ttf b)) (t :: T1) u r (by rw [← hT2, e])
          have hT2R : T2 = [] → R = [] := by
            intro e
            rcases hend with h | h | h
            · exact h
            · cases h
            · have := ends_with_newline_last_not_in_run env (is_ttf b) (t :: T1) h
              rw [← hT2] at this
              exact absurd e this
          have hheadR : ∀ u r, T2 ++ R = u :: r → in_run env (is_ttf b) u = false := by
            intro u r e
            cases hT2c : T2 with
            | nil =>
              rw [hT2c, hT2R hT2c] at e
              cases e
            | cons x xs =>
              rw [hT2c] at e
              simp only [List.cons_append, List.cons.injEq] at e
              rw [← e.1]
              exact hhead2 x xs hT2c
          have htokb : ∀ u ∈ run ++ T2, is_token u = true := by
            intro u hu
            rw [← hsplit] at hu
            exact line_token_is_token u (hT u hu)
          have htoka : ∀ u ∈ run ++ (T2 ++ R), is_token u = true := by
            intro u hu
            rw [← List.append_assoc] at hu
            rcases List.mem_append.1 hu with h | h
            · exact htokb u h
            · exact hR u h
          have eb2 : (t :: T1).flatten ++ X' = (run ++ T2).flatten ++ X' := by rw [hsplit]
          have ea2 : ((t :: T1) ++ R).flatten ++ X = (run ++ (T2 ++ R)).flatten ++ X := by
            rw [hsplit, List.append_assoc]
          have hendT2 : R = [] ∨ T2 = [] ∨ ends_with_newline T2 := by
            rcases hend with h | h | h
            · exact Or.inl h
            · cases h
            · by_cases hne : T2 = []
              · exact Or.inr (Or.inl hne)
              · refine Or.inr (Or.inr ?_)
                rw [hsplit] at h
                exact ends_with_newline_suffix run T2 h hne
          by_cases hfit : T2 ≠ [] ∧ 511 < run.flatten.length
          · -- the run does not fit the buffer
            have hb := process_run_overflow env g dpi b run T2 X' htokb hrunin hrne hhead2
              hfit.1 hfit.2 hX'
            have ha := process_run_overflow env g dpi a run (T2 ++ R) X htoka
              (by rw [htt]; exact hrunin) hrne (by rw [htt]; exact hheadR)
              (by
                intro e
                exact hfit.1 (List.append_eq_nil.1 e).1)
              hfit.2 hX
            rw [← eb2] at hb
            rw [← ea2] at ha
            constructor
            · intro _
              exact ha
            · intro d rb hr
              rw [hb] at hr
              cases hr
          · have hfitb : T2 ≠ [] → run.flatten.length ≤ 511 := by
              intro h
              by_contra hc
              exact hfit ⟨h, by omega⟩
            have hfita : T2 ++ R ≠ [] → run.flatten.length ≤ 511 := by
              intro h
              apply hfitb
              intro e
              apply h
              rw [e, hT2R e]
              rfl
            have hb := process_run_measure env g dpi b run T2 X' htokb hrunin hrne hhead2
              hfitb hnd hX'
            have ha := process_run_measure env g dpi a run (T2 ++ R) X htoka
              (by rw [htt]; exact hrunin) hrne (by rw [htt]; exact hheadR) hfita hnda hX
            rw [← eb2] at hb
            rw [← ea2] at ha
            refine measure_rel_post_step env g dpi (t :: T1) T2 R X X' a b _ _ M hb ha rfl rfl
              rfl (le_max_left _ _) (by simp) ?_ ?_
            · intro h
              have hne := ends_with_newline_last_not_in_run env (is_ttf b) (t :: T1) h
              rw [← hT2] at hne
              rw [hsplit] at h
              exact Or.inr (ends_with_newline_suffix run T2 h hne)
            · apply ih T2 hT2len hT2tok R X X' _ _ M hR hendT2 hX hX'
              · exact measure_rel_step M a b ⟨r1, r2, r3, r4, r5⟩ _ _ a.y b.y
                  (by rw [r2, run_advance_congr env a b r3 r4])
              · exact hnd
      · -- a newline code
        obtain ⟨yb, hb⟩ := process_newline_code env g dpi c hc (T1.flatten ++ X') b
        obtain ⟨ya, ha⟩ := process_newline_code env g dpi c hc ((T1 ++ R).flatten ++ X) a
        have eb3 : ([c] :: T1).flatten ++ X' = c :: (T1.flatten ++ X') := by simp
        have ea3 : (([c] :: T1) ++ R).flatten ++ X = c :: ((T1 ++ R).flatten ++ X) := by simp
        rw [← eb3] at hb
        rw [← ea3] at ha
        refine measure_rel_post_step env g dpi ([c] :: T1) T1 R X X' a b _ _ M hb ha rfl rfl rfl
          (le_max_left _ _) (by simp) ?_ ?_
        · intro h
          by_cases hne : T1 = []
          · exact Or.inl ⟨hne, rfl⟩
          · exact Or.inr (hend1 h hne)
        · apply ih T1 hlen1 hT1 R X X' _ _ M hR hendT1 hX hX'
          · exact measure_rel_step M a b ⟨r1, r2, r3, r4, r5⟩ _ _ ya yb r1
          · exact hnd

theorem measure_rel_measure_info (g : Globals) :
    measure_rel 0 (measure_info g) (measure_info g) :=
  ⟨rfl, rfl, rfl, rfl, rfl⟩

/-- The width of a text of lines is not negative. -/
theorem measure_lines_nonneg (env : Env) (g : Globals) (T : List (List Nat)) (X : List Nat)
    (hT : ∀ t ∈ T, is_line_token t = true) (hX : byteAt X 0 = 0) (w : Int)
    (h : gfx_get_string_width env g (T.flatten ++ X) = some w) : 0 ≤ w := by
  have hp := measure_lines_rel env g nullDpi T.length T (le_refl _) hT [] X X (measure_info g)
    (measure_info g) 0 (by intro t ht; cases ht) (Or.inl rfl) hX hX
    (measure_rel_measure_info g) (no_draw_measure_info g)
  unfold gfx_get_string_width ttf_get_string_width at h
  cases hr : ttf_process_string env g nullDpi (T.flatten ++ X) (measure_info g) with
  | none =>
    rw [hr] at h
    cases h
  | some s =>
    rw [hr] at h
    simp only [Option.map_some', Option.some.injEq] at h
    obtain ⟨-, -, -, -, h5, -⟩ := hp.2 s.1 s.2 hr
    rw [← h]
    exact h5

/-- The width of a text that starts with lines ended by a newline code: the widest of the
width of these lines and of the width of the rest. -/
theorem measure_lines_split (env : Env) (g : Globals) (S R : List (List Nat))
    (X X' : List Nat) (hS : ∀ t ∈ S, is_line_token t = true)
    (hR : ∀ t ∈ R, is_line_token t = true) (hend : ends_with_newline S)
    (hX : byteAt X 0 = 0) (hX' : byteAt X' 0 = 0) :
    gfx_get_string_width env g ((S ++ R).flatten ++ X)
      = (gfx_get_string_width env g (S.flatten ++ X')).bind (fun w1 =>
          (gfx_get_string_width env g (R.flatten ++ X)).map (fun w2 => max w1 w2)) := by
  have hp1 := measure_lines_rel env g nullDpi S.length S (le_refl _) hS R X X' (measure_info g)
    (measure_info g) 0 (fun t ht => line_token_is_token t (hR t ht)) (Or.inr (Or.inr hend))
    hX hX' (measure_rel_measure_info g) (no_draw_measure_info g)
  unfold gfx_get_string_width ttf_get_string_width
  cases hr : ttf_process_string env g nullDpi (S.flatten ++ X') (measure_info g) with
  | none =>
    rw [hp1.1 hr]
    rfl
  | some s =>
    obtain ⟨d, rb⟩ := s
    obtain ⟨-, q2, q3, q4, q5, q6, ra, ⟨r1, r2, r3, r4, r5⟩, q8⟩ := hp1.2 d rb hr
    have hx : rb.x = 0 := q6 (Or.inr hend)
    have hm0 : (0 : Int) ≤ rb.maxX := q5
    have hram : ra.maxX = rb.maxX := by
      rw [r5]
      exact max_eq_right hm0
    have hrel2 : measure_rel ra.maxX ra (measure_info g) := by
      refine ⟨r1.trans q2, ?_, r3.trans q3, r4.trans q4, ?_⟩
      · rw [r2, hx]
        rfl
      · have : (measure_info g).maxX = 0 := rfl
        rw [this, hram]
        exact (max_eq_left hm0).symm
    have hp2 := measure_lines_rel env g nullDpi R.length R (le_refl _) hR [] X X ra
      (measure_info g) ra.maxX (by intro t ht; cases ht) (Or.inl rfl) hX hX hrel2
      (no_draw_measure_info g)
    rw [q8]
    simp only [Option.map_some', Option.some_bind]
    cases hr2 : ttf_process_string env g nullDpi (R.flatten ++ X) (measure_info g) with
    | none =>
      have := hp2.1 hr2
      rw [List.append_nil] at this
      rw [this]
      rfl
    | some s2 =>
      obtain ⟨d2, rb2⟩ := s2
      obtain ⟨-, -, -, -, -, -, ra2, ⟨-, -, -, -, t5⟩, t8⟩ := hp2.2 d2 rb2 hr2
      rw [List.append_nil] at t8
      rw [t8, ttf_process_string_zero env g nullDpi _ ra2
        (by rw [List.flatten_nil, List.nil_append, utf8_get_next_of_head_zero X hX])]
      simp only [Option.map_some', Option.some.injEq]
      rw [t5, hram]

/-- The loop of `gfx_get_string_width_new_lined` on a text of lines, standing behind the
tokens `cur` of a line that starts behind `A`: the width of the text from the start of that
line on, and at least `m`. -/
theorem new_lined_loop_spec (env : Env) (g : Globals) (tail : List Nat) :
    ∀ (todo cur : List (List Nat)) (A : List Nat) (m : Int) (fuel : Nat),
      (∀ t ∈ cur, is_literal_token t = true) → (∀ t ∈ todo, is_line_token t = true) →
      0 ≤ m → todo.length < fuel →
      gfx_get_string_width_new_lined_loop env g (A ++ ((cur ++ todo).flatten ++ 0 :: tail)) fuel
          (A.length + cur.flatten.length) A.length m
        = (gfx_get_string_width env g ((cur ++ todo).flatten ++ 0 :: tail)).map
            (fun w => max m w) := by
  intro todo
  induction todo with
  | nil =>
    intro cur A m fuel _ _ _ hf
    cases fuel with
    | zero => omega
    | succ n =>
      have hd : (A ++ ((cur ++ []).flatten ++ 0 :: tail)).drop (A.length + cur.flatten.length)
          = 0 :: tail := by
        rw [List.append_nil, ← List.append_assoc, ← List.length_append, List.drop_left]
      have hd2 : (A ++ ((cur ++ []).flatten ++ 0 :: tail)).drop A.length
          = (cur ++ []).flatten ++ 0 :: tail := List.drop_left _ _
      rw [gfx_get_string_width_new_lined_loop]
      simp only [hd, hd2, utf8_get_next_of_head_zero (0 :: tail) rfl, if_true]
  | cons t todo ih =>
    intro cur A m fuel hcur htodo hm hf
    cases fuel with
    | zero => omega
    | succ n =>
      have hn : todo.length < n := by
        simp only [List.length_cons] at hf
        omega
      have htodo1 : ∀ u ∈ todo, is_line_token u = true :=
        fun u hu => htodo u (List.mem_cons_of_mem _ hu)
      have htok := line_token_is_token t (htodo t (List.mem_cons_self _ _))
      have hd : (A ++ ((cur ++ t :: todo).flatten ++ 0 :: tail)).drop
          (A.length + cur.flatten.length) = t ++ (todo.flatten ++ 0 :: tail) := by
        have : A ++ ((cur ++ t :: todo).flatten ++ 0 :: tail)
            = (A ++ cur.flatten) ++ (t ++ (todo.flatten ++ 0 :: tail)) := by simp
        rw [this, ← List.length_append, List.drop_left]
      have hnext : utf8_get_next (t ++ (todo.flatten ++ 0 :: tail)) = utf8_get_next t :=
        token_next t _ htok
      have h0 := token_codepoint_ne_zero t htok
      rw [gfx_get_string_width_new_lined_loop]
      simp only [hd, hnext]
      rw [if_neg h0]
      rcases line_token_cases t (htodo t (List.mem_cons_self _ _)) with hlit | ⟨c, rfl, hc⟩
      · obtain ⟨hlen, hnf⟩ := (is_literal_token_iff t).1 hlit
        have hnl : ¬ ((utf8_get_next t).1 = FORMAT_NEWLINE
            ∨ (utf8_get_next t).1 = FORMAT_NEWLINE_SMALLER) := by
          rintro (e | e) <;> rw [e] at hnf <;> exact absurd hnf (by decide)
        rw [if_neg hnl, hlen]
        have e1 : cur ++ t :: todo = (cur ++ [t]) ++ todo := by simp
        have e2 : A.length + cur.flatten.length + t.length
            = A.length + (cur ++ [t]).flatten.length := by
          simp only [List.flatten_append, List.flatten_cons, List.flatten_nil,
            List.append_nil, List.length_append]
          omega
        rw [e1, e2]
        apply ih (cur ++ [t]) A m n _ htodo1 hm hn
        intro u hu
        rcases List.mem_append.1 hu with h | h
        · exact hcur u h
        · rw [List.mem_singleton.1 h]
          exact hlit
      · have hcn : utf8_get_next [c] = (c, 1) := by
          rcases newline_code_cases c hc with rfl | rfl <;> rfl
        have hcc : c = FORMAT_NEWLINE ∨ c = FORMAT_NEWLINE_SMALLER := newline_code_cases c hc
        rw [hcn]
        simp only
        rw [if_pos hcc]
        obtain ⟨x0, X1, hX1⟩ : ∃ x0 X1, todo.flatten ++ 0 :: tail = x0 :: X1 := by
          cases h : todo.flatten with
          | nil => exact ⟨0, tail, rfl⟩
          | cons a l => exact ⟨a, l ++ 0 :: tail, rfl⟩
        have htext : A ++ ((cur ++ [c] :: todo).flatten ++ 0 :: tail)
            = (A ++ (cur ++ [[c]]).flatten) ++ x0 :: X1 := by
          rw [← hX1]
          simp
        have hidx : A.length + cur.flatten.length + 1 = (A ++ (cur ++ [[c]]).flatten).length := by
          simp only [List.flatten_append, List.flatten_cons, List.flatten_nil,
            List.append_nil, List.length_append, List.length_cons, List.length_nil]
          omega
        have hpoke : (poke (A ++ ((cur ++ [c] :: todo).flatten ++ 0 :: tail))
            (A.length + cur.flatten.length + 1) 0).drop A.length
            = (cur ++ [[c]]).flatten ++ 0 :: X1 := by
          rw [htext, poke_at _ x0 X1 _ hidx, List.append_assoc, List.drop_left]
        rw [hpoke]
        have hS : ∀ u ∈ cur ++ [[c]], is_line_token u = true := by
          intro u hu
          rcases List.mem_append.1 hu with h | h
          · simp [is_line_token, hcur u h]
          · rw [List.mem_singleton.1 h]
            exact htodo [c] (List.mem_cons_self _ _)
        have hsplit := measure_lines_split env g (cur ++ [[c]]) todo (0 :: tail) (0 :: X1) hS
          htodo1 ⟨cur, c, rfl, hc⟩ rfl rfl
        have e3 : cur ++ [c] :: todo = (cur ++ [[c]]) ++ todo := by simp
        rw [e3, hsplit]
        cases hw : gfx_get_string_width env g ((cur ++ [[c]]).flatten ++ 0 :: X1) with
        | none => rfl
        | some w =>
          have hw0 : 0 ≤ w := measure_lines_nonneg env g (cur ++ [[c]]) (0 :: X1) hS rfl w hw
          simp only [Option.some_bind, Option.map_map]
          have e4 : A ++ (((cur ++ [[c]]) ++ todo).flatten ++ 0 :: tail)
              = (A ++ (cur ++ [[c]]).flatten) ++ ((([] : List (List Nat)) ++ todo).flatten
                ++ 0 :: tail) := by simp
          have e5 : A.length + cur.flatten.length + 1
              = (A ++ (cur ++ [[c]]).flatten).length
                + ([] : List (List Nat)).flatten.length := by
            rw [hidx]
            rfl
          rw [e4]
          nth_rewrite 1 [e5]
          rw [hidx]
          rw [ih [] (A ++ (cur ++ [[c]]).flatten) (max m w) n (by intro u hu; cases hu) htodo1
            (le_trans hm (le_max_left _ _)) hn]
          rw [List.nil_append]
          congr 1
          funext w2
          simp only [Function.comp]
          exact (max_assoc m w w2)

/-- On a text of literal codepoints and newline codes `gfx_get_string_width_new_lined`
gives what `gfx_get_string_width` gives. -/
theorem new_lined_eq_width (env : Env) (g : Globals) (toks : List (List Nat))
    (tail : List Nat) (h : ∀ t ∈ toks, is_line_token t = true) :
    gfx_get_string_width_new_lined env g (toks.flatten ++ 0 :: tail)
      = gfx_get_string_width env g (toks.flatten ++ 0 :: tail) := by
  have hl := new_lined_loop_spec env g tail toks [] [] 0
    ((toks.flatten ++ 0 :: tail).length + 1) (by intro t ht; cases ht) h (le_refl _)
    (by
      have := tokens_length_le_flatten toks (fun t ht => line_token_is_token t (h t ht))
      simp only [List.length_append, List.length_cons]
      omega)
  simp only [List.nil_append, List.length_nil, List.flatten_nil, Nat.add_zero] at hl
  unfold gfx_get_string_width_new_lined
  rw [hl]
  cases hw : gfx_get_string_width env g (toks.flatten ++ 0 :: tail) with
  | none => rfl
  | some w =>
    have := measure_lines_nonneg env g toks (0 :: tail) h rfl w hw
    simp only [Option.map_some', Option.some.injEq]
    exact max_eq_right this

theorem get_string_end_loop_isSome :
    ∀ (fuel : Nat) (ch : List Nat) (pos : Nat), ch.length < fuel →
      (get_string_end_loop fuel ch pos).isSome = true := by
  intro fuel
  induction fuel with
  | zero => intro ch pos h; omega
  | succ fuel ih =>
    intro ch pos h
    rw [get_string_end_loop]
    dsimp only
    by_cases h0 : (utf8_get_next ch).1 = 0
    · rw [if_pos h0]
      rfl
    · rw [if_neg h0]
      apply ih
      have hne := ne_nil_of_codepoint_ne_zero ch h0
      have := drop_length_lt ch ((utf8_get_next ch).2
        + utf8_get_format_code_arg_length (utf8_get_next ch).1)
        (le_trans (utf8_get_next_pos ch) (Nat.le_add_right _ _)) hne
      omega

theorem get_string_end_isSome (text : List Nat) : (get_string_end text).isSome = true := by
  unfold get_string_end
  rw [Option.isSome_map']
  exact get_string_end_loop_isSome _ _ _ (Nat.lt_succ_self _)

theorem byteAt_drop (l : List Nat) (k i : Nat) : byteAt (l.drop k) i = byteAt l (k + i) := by
  unfold byteAt
  simp [List.getD_eq_getElem?_getD, List.getElem?_drop]

theorem byteAt_of_length_le (l : List Nat) (i : Nat) (h : l.length ≤ i) : byteAt l i = 0 := by
  unfold byteAt
  simp [List.getD_eq_getElem?_getD, List.getElem?_eq_none h]

theorem lt_length_of_byteAt_ne_zero (l : List Nat) (i : Nat) (h : byteAt l i ≠ 0) :
    i < l.length := by
  by_contra hc
  exact h (byteAt_of_length_le l i (by omega))

theorem zeros_from_length (text : List Nat) : zeros_from text text.length :=
  fun i hi => byteAt_of_length_le text i hi

theorem zeros_from_poke_zero (text : List Nat) (N k : Nat) (h : zeros_from text N) :
    zeros_from (poke text k 0) N := by
  intro i hi
  rw [byteAt_poke]
  split_ifs
  · rfl
  · exact h i hi

theorem zeros_from_poke_restore (text : List Nat) (N k : Nat) (h : zeros_from text N) :
    zeros_from (poke (poke text k 0) k (byteAt text k)) N := by
  intro i hi
  rw [byteAt_poke, byteAt_poke]
  by_cases e : i = k
  · rw [if_pos e, ← e]
    exact h i hi
  · rw [if_neg e, if_neg e]
    exact h i hi

/-- The bytes behind an inserted terminator: those that were there, one place up. -/
theorem byteAt_insert_zero (buf : List Nat) (dst e j : Nat) (hd : dst ≤ buf.length)
    (hj : dst < j) :
    byteAt (buf.take dst ++ [0] ++ (List.range (e + 1)).map (fun i => byteAt buf (dst + i))
        ++ buf.drop (dst + e + 2)) j
      = if j ≤ dst + e + 1 then byteAt buf (j - 1) else byteAt buf j := by
  have hl : (buf.take dst ++ [0]).length = dst + 1 := by
    simp [List.length_take, Nat.min_eq_left hd]
  have hl2 : (buf.take dst ++ [0] ++ (List.range (e + 1)).map (fun i => byteAt buf (dst + i))).length
      = dst + 1 + (e + 1) := by
    rw [List.length_append, hl]
    simp
  by_cases h : j ≤ dst + e + 1
  · rw [if_pos h, byteAt_append_left _ _ _ (by rw [hl2]; omega)]
    obtain ⟨i, rfl⟩ : ∃ i, j = dst + 1 + i := ⟨j - (dst + 1), by omega⟩
    rw [← hl, byteAt_append]
    unfold byteAt
    rw [List.getD_eq_getElem _ _ (by simp; omega)]
    simp only [List.getElem_map, List.getElem_range]
    rw [hl]
    congr 1
    omega
  · rw [if_neg h]
    obtain ⟨i, rfl⟩ : ∃ i, j = dst + 1 + (e + 1) + i := ⟨j - (dst + 1 + (e + 1)), by omega⟩
    rw [← hl2, byteAt_append, byteAt_drop, hl2]
    congr 1
    omega

theorem utf8_insert_codepoint_zero_zeros (buf : List Nat) (dst N : Nat)
    (hd : dst < buf.length) (hN : dst < N) (hz : zeros_from buf N) :
    ∃ text1, utf8_insert_codepoint_zero buf dst = some (text1, 1)
      ∧ zeros_from text1 (N + 1) := by
  obtain ⟨e, he⟩ := Option.isSome_iff_exists.1 (get_string_end_isSome (buf.drop dst))
  refine ⟨_, by unfold utf8_insert_codepoint_zero; rw [he]; rfl, ?_⟩
  intro j hj
  rw [byteAt_insert_zero buf dst e j (by omega) (by omega)]
  split_ifs
  · exact hz _ (by omega)
  · exact hz _ (by omega)

theorem scan_potential_break (N N1 F F1 c : Nat) (h : N1 - F1 + 1 ≤ N - F) :
    (N1 - F1) * (N1 - F1 + 1) + (N1 - F1) + 1 < (N - F) * (N - F + 1) + (N - c) + 1 := by
  have := potential_break (N - F) (N1 - F1) (N - c) (N1 - F1) h (le_refl _)
  omega

/-- The placing of a codepoint, whatever the bytes of the buffer: the indices stay in order
and the measure of the loop decreases. -/
theorem wrap_place_scan (env : Env) (g : Globals) (width : Int) (s : wrap_state)
    (nextCh N : Nat) (s1 : wrap_state) (hz : zeros_from s.text N)
    (h1 : s.firstCh ≤ s.ch)
    (h2 : ∀ k, s.currentWord = some k → s.firstCh ≤ k ∧ k ≤ s.ch)
    (h3 : s.numCharactersOnLine ≠ 0 → s.currentWord = none → s.firstCh < s.ch)
    (hc : s.ch < nextCh) (hb : byteAt s.text s.ch ≠ 0)
    (h : gfx_wrap_string_place env g width s nextCh = some s1) :
    ∃ N1, wrap_scan_inv s1 N1 ∧ wrap_scan_potential s1 N1 < wrap_scan_potential s N := by
  have hcN : s.ch < N := by
    by_contra hn
    exact hb (hz _ (by omega))
  have hz1 := zeros_from_poke_restore s.text N nextCh hz
  have hb1 : byteAt (poke (poke s.text nextCh 0) nextCh (byteAt s.text nextCh)) s.ch ≠ 0 := by
    rw [byteAt_poke, byteAt_poke, if_neg (by omega), if_neg (by omega)]
    exact hb
  have hcl := lt_length_of_byteAt_ne_zero _ _ hb1
  unfold gfx_wrap_string_place at h
  dsimp only at h
  cases hm : gfx_get_string_width env g ((poke s.text nextCh 0).drop s.firstCh) with
  | none =>
    rw [hm] at h
    cases h
  | some lw =>
    rw [hm] at h
    dsimp only at h
    by_cases hfit : lw ≤ width ∨ s.numCharactersOnLine = 0
    · rw [if_pos hfit] at h
      cases h
      refine ⟨N, ⟨hz1, ?_, ?_, ?_⟩, ?_⟩
      · show s.firstCh ≤ nextCh
        omega
      · intro k hk
        have := h2 k hk
        show s.firstCh ≤ k ∧ k < nextCh
        omega
      · intro _
        show s.firstCh < nextCh
        omega
      · show (N - s.firstCh) * (N - s.firstCh + 1) + (N - nextCh) + 1
          < (N - s.firstCh) * (N - s.firstCh + 1) + (N - s.ch) + 1
        omega
    · rw [if_neg hfit] at h
      have hnum : s.numCharactersOnLine ≠ 0 := fun e => hfit (Or.inr e)
      cases hcw : s.currentWord with
      | none =>
        rw [hcw] at h
        dsimp only at h
        obtain ⟨text1, hins, hz2⟩ := utf8_insert_codepoint_zero_zeros _ s.ch N hcl hcN hz1
        rw [hins] at h
        cases h
        have hlt := h3 hnum hcw
        refine ⟨N + 1, ⟨hz2, le_refl _, ?_, ?_⟩, ?_⟩
        · intro k hk
          cases hk
        · intro hn
          exact absurd rfl hn
        · exact scan_potential_break N (N + 1) s.firstCh (s.ch + 1) s.ch (by omega)
      | some k =>
        rw [hcw] at h
        dsimp only at h
        cases h
        obtain ⟨hk1, hk2⟩ := h2 k hcw
        refine ⟨N, ⟨zeros_from_poke_zero _ N k hz1, le_refl _, ?_, ?_⟩, ?_⟩
        · intro k1 hk
          cases hk
        · intro hn
          exact absurd rfl hn
        · exact scan_potential_break N N s.firstCh (k + 1) s.ch (by omega)

/-- One turn of the loop of `gfx_wrap_string` that goes on, whatever the bytes of the
buffer: the indices stay in order and the measure of the loop decreases. -/
theorem wrap_step_scan (env : Env) (g : Globals) (width : Int) (s : wrap_state) (N : Nat)
    (hinv : wrap_scan_inv s N) (s1 : wrap_state)
    (h : gfx_wrap_string_step env g width s = some (s1, true)) :
    ∃ N1, wrap_scan_inv s1 N1 ∧ wrap_scan_potential s1 N1 < wrap_scan_potential s N := by
  obtain ⟨hz, h1, h2, h3⟩ := hinv
  have hpos := utf8_get_next_pos (s.text.drop s.ch)
  unfold gfx_wrap_string_step at h
  dsimp only at h
  by_cases h0 : (utf8_get_next (s.text.drop s.ch)).1 = 0
  · rw [if_pos h0] at h
    cases h
  · rw [if_neg h0] at h
    have hb : byteAt s.text s.ch ≠ 0 := by
      intro e
      apply h0
      rw [utf8_get_next_of_head_zero (s.text.drop s.ch) (by rw [byteAt_drop]; exact e)]
    have hcN : s.ch < N := by
      by_contra hn
      exact hb (hz _ (by omega))
    by_cases h32 : (utf8_get_next (s.text.drop s.ch)).1 = 32
    · rw [if_pos h32] at h
      rw [Option.map_eq_some'] at h
      obtain ⟨s2, hp, e⟩ := h
      cases e
      refine wrap_place_scan env g width
        (⟨s.text, s.lineWidth, s.maxWidth, s.outNumLines, some s.ch, s.lineWidth, s.ch,
          s.firstCh, s.numCharactersOnLine + 1⟩ : wrap_state)
        (s.ch + (utf8_get_next (s.text.drop s.ch)).2) N s1 hz h1 ?_ ?_ ?_ hb hp
      · intro k hk
        have e : s.ch = k := Option.some.inj hk
        show s.firstCh ≤ k ∧ k ≤ s.ch
        omega
      · intro _ hk
        cases hk
      · show s.ch < s.ch + _
        omega
    · rw [if_neg h32] at h
      by_cases h5 : (utf8_get_next (s.text.drop s.ch)).1 = FORMAT_NEWLINE
      · rw [if_pos h5] at h
        cases h
        refine ⟨N, ⟨zeros_from_poke_zero _ N _ hz, le_refl _, ?_, ?_⟩, ?_⟩
        · intro k hk
          cases hk
        · intro hn
          exact absurd rfl hn
        · exact scan_potential_break N N s.firstCh (s.ch + 1) s.ch (by omega)
      · rw [if_neg h5] at h
        by_cases hf : utf8_is_format_code (utf8_get_next (s.text.drop s.ch)).1 = true
        · rw [if_pos hf] at h
          cases h
          refine ⟨N, ⟨hz, ?_, ?_, ?_⟩, ?_⟩
          · show s.firstCh ≤ s.ch + _ + _
            omega
          · intro k hk
            have := h2 k hk
            show s.firstCh ≤ k ∧ k < s.ch + _ + _
            omega
          · intro hn
            have := h3 hn
            show s.firstCh < s.ch + _ + _
            omega
          · show (N - s.firstCh) * (N - s.firstCh + 1) + (N - (s.ch + _ + _)) + 1
              < (N - s.firstCh) * (N - s.firstCh + 1) + (N - s.ch) + 1
            omega
        · rw [if_neg hf] at h
          rw [Option.map_eq_some'] at h
          obtain ⟨s2, hp, e⟩ := h
          cases e
          exact wrap_place_scan env g width s _ N s1 hz h1
            (by
              intro k hk
              have := h2 k hk
              omega)
            (fun hn _ => h3 hn) (by omega) hb hp

/-- The loop of `gfx_wrap_string` is left after fewer turns than its measure says. -/
theorem wrap_turns_end (env : Env) (g : Globals) (width : Int) :
    ∀ (P : Nat) (s : wrap_state) (N : Nat), wrap_scan_inv s N →
      wrap_scan_potential s N ≤ P →
      ∃ n s1 N1, n < P ∧ gfx_wrap_string_turns env g width n s = some s1
        ∧ wrap_scan_inv s1 N1
        ∧ (gfx_wrap_string_step env g width s1 = none
          ∨ ∃ s2, gfx_wrap_string_step env g width s1 = some (s2, false)) := by
  intro P
  induction P with
  | zero =>
    intro s N _ h
    unfold wrap_scan_potential at h
    omega
  | succ P ih =>
    intro s N hinv hP
    cases hs : gfx_wrap_string_step env g width s with
    | none => exact ⟨0, s, N, Nat.succ_pos _, rfl, hinv, Or.inl hs⟩
    | some r =>
      obtain ⟨s2, b⟩ := r
      cases b with
      | false => exact ⟨0, s, N, Nat.succ_pos _, rfl, hinv, Or.inr ⟨s2, hs⟩⟩
      | true =>
        obtain ⟨N2, hinv2, hlt⟩ := wrap_step_scan env g width s N hinv s2 hs
        obtain ⟨n, s1, N1, hn, ht, hi1, hend⟩ := ih s2 N2 hinv2 (by omega)
        refine ⟨n + 1, s1, N1, by omega, ?_, hi1, hend⟩
        rw [gfx_wrap_string_turns, hs]
        exact ht

theorem wrap_loop_of_turns (env : Env) (g : Globals) (width : Int) :
    ∀ (n : Nat) (s s1 : wrap_state) (k : Nat),
      gfx_wrap_string_turns env g width n s = some s1 →
      gfx_wrap_string_loop env g width (n + k) s = gfx_wrap_string_loop env g width k s1 := by
  intro n
  induction n with
  | zero =>
    intro s s1 k h
    cases h
    rw [Nat.zero_add]
  | succ n ih =>
    intro s s1 k h
    rw [gfx_wrap_string_turns] at h
    cases hs : gfx_wrap_string_step env g width s with
    | none =>
      rw [hs] at h
      cases h
    | some r =>
      obtain ⟨s2, b⟩ := r
      cases b with
      | false =>
        rw [hs] at h
        cases h
      | true =>
        rw [hs] at h
        have e : n + 1 + k = (n + k) + 1 := by omega
        rw [e, gfx_wrap_string_loop, hs]
        exact ih s2 s1 k h

/-- A turn of the loop gives no result only when its measurement gives none. -/
theorem wrap_step_none (env : Env) (g : Globals) (width : Int) (s : wrap_state) (N : Nat)
    (hinv : wrap_scan_inv s N) (h : gfx_wrap_string_step env g width s = none) :
    gfx_get_string_width env g
      ((poke s.text (s.ch + (utf8_get_next (s.text.drop s.ch)).2) 0).drop s.firstCh)
      = none := by
  obtain ⟨hz, h1, h2, h3⟩ := hinv
  have hpos := utf8_get_next_pos (s.text.drop s.ch)
  have hplace : ∀ s' : wrap_state, s'.text = s.text → s'.ch = s.ch → s'.firstCh = s.firstCh →
      byteAt s.text s.ch ≠ 0 →
      gfx_wrap_string_place env g width s' (s.ch + (utf8_get_next (s.text.drop s.ch)).2) = none →
      gfx_get_string_width env g
        ((poke s.text (s.ch + (utf8_get_next (s.text.drop s.ch)).2) 0).drop s.firstCh)
        = none := by
    intro s' e1 e2 e3 hb hp
    unfold gfx_wrap_string_place at hp
    dsimp only at hp
    rw [e1, e3] at hp
    cases hm : gfx_get_string_width env g
        ((poke s.text (s.ch + (utf8_get_next (s.text.drop s.ch)).2) 0).drop s.firstCh) with
    | none => rfl
    | some lw =>
      exfalso
      rw [hm] at hp
      dsimp only at hp
      split_ifs at hp
      cases hcw : s'.currentWord with
      | none =>
        rw [hcw] at hp
        dsimp only at hp
        have hz1 := zeros_from_poke_restore s.text N
          (s.ch + (utf8_get_next (s.text.drop s.ch)).2) hz
        have hb1 : byteAt (poke (poke s.text (s.ch + (utf8_get_next (s.text.drop s.ch)).2) 0)
            (s.ch + (utf8_get_next (s.text.drop s.ch)).2)
            (byteAt s.text (s.ch + (utf8_get_next (s.text.drop s.ch)).2))) s.ch ≠ 0 := by
          rw [byteAt_poke, byteAt_poke, if_neg (by omega), if_neg (by omega)]
          exact hb
        have hcl := lt_length_of_byteAt_ne_zero _ _ hb1
        have hcN : s.ch < N := by
          by_contra hn
          exact hb (hz _ (by omega))
        obtain ⟨text1, hins, -⟩ := utf8_insert_codepoint_zero_zeros _ s.ch N hcl hcN hz1
        rw [e2, hins] at hp
        cases hp
      | some k =>
        rw [hcw] at hp
        cases hp
  unfold gfx_wrap_string_step at h
  dsimp only at h
  by_cases h0 : (utf8_get_next (s.text.drop s.ch)).1 = 0
  · rw [if_pos h0] at h
    cases h
  · rw [if_neg h0] at h
    have hb : byteAt s.text s.ch ≠ 0 := by
      intro e
      apply h0
      rw [utf8_get_next_of_head_zero (s.text.drop s.ch) (by rw [byteAt_drop]; exact e)]
    by_cases h32 : (utf8_get_next (s.text.drop s.ch)).1 = 32
    · rw [if_pos h32, Option.map_eq_none'] at h
      exact hplace
        (⟨s.text, s.lineWidth, s.maxWidth, s.outNumLines, some s.ch, s.lineWidth, s.ch,
          s.firstCh, s.numCharactersOnLine + 1⟩ : wrap_state) rfl rfl rfl hb h
    · rw [if_neg h32] at h
      by_cases h5 : (utf8_get_next (s.text.drop s.ch)).1 = FORMAT_NEWLINE
      · rw [if_pos h5] at h
        cases h
      · rw [if_neg h5] at h
        by_cases hf : utf8_is_format_code (utf8_get_next (s.text.drop s.ch)).1 = true
        · rw [if_pos hf] at h
          cases h
        · rw [if_neg hf, Option.map_eq_none'] at h
          exact hplace s rfl rfl rfl hb h

theorem wrap_scan_inv_start (text : List Nat) : wrap_scan_inv (wrap_start text) text.length :=
  ⟨zeros_from_length text, le_refl _, (by intro k hk; cases hk), (by intro h; exact absurd rfl h)⟩

theorem wrap_scan_potential_start (text : List Nat) :
    wrap_scan_potential (wrap_start text) text.length + 1 ≤ wrap_fuel text.length := by
  unfold wrap_scan_potential wrap_start wrap_fuel
  simp only [Nat.sub_zero]
  nlinarith

/-! ### The render state through a pass of the interpreter -/

theorem colour_char_st_eq (env : Env) (colour flags : Nat) (palette : List Nat)
    (g : Globals) :
    colour_char_st env colour flags palette g = (colour_char env colour flags palette, g) :=
  rfl

theorem colour_char_window_st_eq (env : Env) (colour flags : Nat) (palette : List Nat)
    (g : Globals) :
    colour_char_window_st env colour flags palette g
      = (colour_char_window env colour flags palette, g) :=
  rfl

theorem ttf_draw_character_sprite_st_eq (env : Env) (dpi : rct_drawpixelinfo) (c : Nat)
    (info : text_draw_info) (g : Globals) :
    ttf_draw_character_sprite_st env dpi c info g
      = (ttf_draw_character_sprite env dpi c info, g) := by
  unfold ttf_draw_character_sprite_st ttf_draw_character_sprite
  split_ifs <;> rfl

theorem ttf_draw_string_raw_sprite_loop_st_eq (env : Env) (g : Globals) :
    ∀ (fuel : Nat) (dpi : rct_drawpixelinfo) (ch : List Nat) (info : text_draw_info),
      ttf_draw_string_raw_sprite_loop_st env fuel dpi ch info g
        = (ttf_draw_string_raw_sprite_loop env fuel dpi ch info).map (fun r => (r, g)) := by
  intro fuel
  induction fuel with
  | zero => intro dpi ch info; rfl
  | succ n ih =>
    intro dpi ch info
    rw [ttf_draw_string_raw_sprite_loop_st, ttf_draw_string_raw_sprite_loop]
    dsimp only
    split_ifs
    · rfl
    · rw [ttf_draw_character_sprite_st_eq]
      exact ih _ _ _

theorem ttf_draw_string_raw_sprite_st_eq (env : Env) (dpi : rct_drawpixelinfo)
    (text : List Nat) (info : text_draw_info) (g : Globals) :
    ttf_draw_string_raw_sprite_st env dpi text info g
      = (ttf_draw_string_raw_sprite env dpi text info).map (fun r => (r, g)) :=
  ttf_draw_string_raw_sprite_loop_st_eq env g _ _ _ _

theorem ttf_draw_string_raw_ttf_st_eq (env : Env) (dpi : rct_drawpixelinfo)
    (text : List Nat) (info : text_draw_info) (g : Globals) :
    ttf_draw_string_raw_ttf_st env dpi text info g
      = (ttf_draw_string_raw_ttf env dpi text info).map (fun r => (r, g)) := by
  unfold ttf_draw_string_raw_ttf_st ttf_draw_string_raw_ttf
  split_ifs
  · rfl
  · exact ttf_draw_string_raw_sprite_st_eq env dpi text info g
  · rfl
  · cases env.ttf_surface_cache_get_or_add info.font_sprite_base (cstr text) <;> rfl

theorem ttf_draw_string_raw_st_eq (env : Env) (dpi : rct_drawpixelinfo)
    (text : List Nat) (info : text_draw_info) (g : Globals) :
    ttf_draw_string_raw_st env dpi text info g
      = (ttf_draw_string_raw env dpi text info).map (fun r => (r, g)) := by
  unfold ttf_draw_string_raw_st ttf_draw_string_raw
  split_ifs
  · exact ttf_draw_string_raw_ttf_st_eq env dpi text info g
  · exact ttf_draw_string_raw_sprite_st_eq env dpi text info g

theorem ttf_process_format_code_switch_st_eq (env : Env) (dpi : rct_drawpixelinfo)
    (c : Nat) (nextCh : List Nat) (info : text_draw_info) (g : Globals) :
    ttf_process_format_code_switch_st env dpi c nextCh info g
      = (ttf_process_format_code_switch env g dpi c nextCh info, g) := by
  unfold ttf_process_format_code_switch_st ttf_process_format_code_switch
  repeat' first
    | rfl
    | refine ite_rel_step
        (fun (x : (List Nat × rct_drawpixelinfo × text_draw_info) × Globals)
          (y : List Nat × rct_drawpixelinfo × text_draw_info) => x = (y, g))
        (fun _ => ?_) (fun _ => ?_)
    | (dsimp only
       generalize env.gfx_get_g1_element _ = o
       cases o <;> rfl)

theorem ttf_process_format_code_st_eq (env : Env) (dpi : rct_drawpixelinfo)
    (text : List Nat) (info : text_draw_info) (g : Globals) :
    ttf_process_format_code_st env dpi text info g
      = (ttf_process_format_code env g dpi text info, g) :=
  ttf_process_format_code_switch_st_eq env dpi _ _ info g

theorem ttf_process_glyph_run_st_eq (env : Env) (dpi : rct_drawpixelinfo)
    (text : List Nat) (info : text_draw_info) (g : Globals) :
    ttf_process_glyph_run_st env dpi text info g
      = (ttf_process_glyph_run env dpi text info).map (fun r => (r, g)) := by
  unfold ttf_process_glyph_run_st ttf_process_glyph_run
  dsimp only
  cases ttf_process_glyph_run_scan env (decide (info.flags &&& TEXT_DRAW_FLAG_TTF ≠ 0))
      (text.length + 1) text 0 with
  | none => rfl
  | some p =>
    obtain ⟨length, codepoint⟩ := p
    dsimp only
    split_ifs
    · rw [ttf_draw_string_raw_st_eq, Option.map_map, Option.map_map]
      rfl
    · rfl
    · rw [ttf_draw_string_raw_st_eq, Option.map_map, Option.map_map]
      rfl

theorem ttf_process_string_loop_st_eq (env : Env) (g : Globals) (isTTF : Bool) :
    ∀ (fuel : Nat) (dpi : rct_drawpixelinfo) (ch : List Nat) (info : text_draw_info),
      ttf_process_string_loop_st env isTTF fuel dpi ch info g
        = (ttf_process_string_loop env g isTTF fuel dpi ch info).map (fun r => (r, g)) := by
  intro fuel
  induction fuel with
  | zero => intro dpi ch info; rfl
  | succ n ih =>
    intro dpi ch info
    rw [ttf_process_string_loop_st, ttf_process_string_loop]
    dsimp only
    split_ifs
    · rfl
    · rw [ttf_process_format_code_st_eq]
      exact ih _ _ _
    · rw [ttf_draw_character_sprite_st_eq]
      exact ih _ _ _
    · rw [ttf_process_glyph_run_st_eq]
      cases ttf_process_glyph_run env dpi ch info with
      | none => rfl
      | some s => exact ih _ _ _

/-- A pass of the interpreter leaves the render state as it was, whatever the text: the
state it returns is the one it was given, and the surface and the context are those of the
pass that reads the state. -/
theorem ttf_process_string_st_eq (env : Env) (dpi : rct_drawpixelinfo)
    (text : List Nat) (info : text_draw_info) (g : Globals) :
    ttf_process_string_st env dpi text info g
      = (ttf_process_string env g dpi text info).map (fun r => (r, g)) :=
  ttf_process_string_loop_st_eq env g _ _ _ _ _

theorem ttf_process_initial_colour_st_eq (env : Env) (colour : Nat) (info : text_draw_info)
    (g : Globals) :
    ttf_process_initial_colour_st env colour info g
      = (ttf_process_initial_colour env colour info, g) := by
  unfold ttf_process_initial_colour_st ttf_process_initial_colour
  refine ite_rel_step (fun (x : text_draw_info × Globals) (y : text_draw_info) => x = (y, g))
    (fun _ => ?_) (fun _ => rfl)
  dsimp only
  refine ite_rel_step (fun (x : text_draw_info × Globals) (y : text_draw_info) => x = (y, g))
    (fun _ => ?_) (fun _ => rfl)
  exact ite_rel_step (fun (x : text_draw_info × Globals) (y : text_draw_info) => x = (y, g))
    (fun _ => rfl) (fun _ => rfl)

/-! ### The width of the lines of a wrapped text -/

theorem prefixes_fit_nil (env : Env) (g : Globals) (width : Int) :
    prefixes_fit env g width [] := by
  intro a t c h
  simp at h

theorem prefixes_fit_of_append (env : Env) (g : Globals) (width : Int) (l1 l2 : List (List Nat))
    (h : prefixes_fit env g width (l1 ++ l2)) : prefixes_fit env g width l1 := by
  intro a t c e ht
  exact h a t (c ++ l2) (by rw [e]; simp) ht

theorem snoc_eq_append_cons {α : Type} (l a c : List α) (t u : α)
    (h : l ++ [t] = a ++ u :: c) :
    (c = [] ∧ a = l ∧ u = t) ∨ ∃ c1, c = c1 ++ [t] ∧ l = a ++ u :: c1 := by
  rcases List.eq_nil_or_concat c with hc | ⟨c1, x, hc⟩
  · subst hc
    left
    have h2 : l ++ [t] = a ++ [u] := h
    obtain ⟨e1, e2⟩ := List.append_inj' h2 rfl
    exact ⟨rfl, e1.symm, (List.cons.inj e2).1.symm⟩
  · right
    rw [List.concat_eq_append] at hc
    subst hc
    have h2 : l ++ [t] = (a ++ u :: c1) ++ [x] := by
      rw [h]; simp
    obtain ⟨e1, e2⟩ := List.append_inj' h2 rfl
    have ex : t = x := (List.cons.inj e2).1
    subst ex
    exact ⟨c1, rfl, e1⟩

theorem prefixes_fit_snoc_code (env : Env) (g : Globals) (width : Int) (l : List (List Nat))
    (t : List Nat) (h : prefixes_fit env g width l) (ht : is_literal_token t = false) :
    prefixes_fit env g width (l ++ [t]) := by
  intro a u c e hu
  rcases snoc_eq_append_cons l a c t u e with ⟨-, -, e3⟩ | ⟨c1, -, e2⟩
  · rw [e3, ht] at hu
    cases hu
  · exact h a u c1 e2 hu

theorem prefixes_fit_snoc_literal (env : Env) (g : Globals) (width : Int)
    (l : List (List Nat)) (t : List Nat) (h : prefixes_fit env g width l)
    (ht : (∀ u ∈ l, is_literal_token u = false)
      ∨ ∃ w, gfx_get_string_width env g (l ++ [t]).flatten = some w ∧ w ≤ width) :
    prefixes_fit env g width (l ++ [t]) := by
  intro a u c e hu
  rcases snoc_eq_append_cons l a c t u e with ⟨-, e2, e3⟩ | ⟨c1, -, e2⟩
  · rw [e2, e3]
    exact ht
  · exact h a u c1 e2 hu

theorem trace_fit_break (env : Env) (g : Globals) (width : Int) (v : wrap_trace)
    (l : List (List Nat)) (b : Option (List Nat)) (rest : List (List Nat)) (tail : List Nat)
    (h : trace_fit env g width v) (hl : prefixes_fit env g width l) :
    trace_fit env g width ⟨v.lines ++ [(l, b)], [], rest, tail⟩ := by
  refine ⟨prefixes_fit_nil env g width, ?_⟩
  intro x hx
  rcases List.mem_append.1 hx with hx | hx
  · exact h.2 x hx
  · rw [List.mem_singleton.1 hx]
    exact hl

theorem trace_fit_initial (env : Env) (g : Globals) (width : Int) (toks : List (List Nat))
    (tail : List Nat) : trace_fit env g width ⟨[], [], toks, tail⟩ :=
  ⟨prefixes_fit_nil env g width, by intro l hl; cases hl⟩

/-- One turn of the loop of `gfx_wrap_string` from a state that agrees with a trace of a
well-formed text whose codepoints were all taken on their line under the test of the loop:
this is so again after the turn. -/
theorem trace_step_fit (env : Env) (g : Globals) (width : Int) (toks : List (List Nat))
    (hwt : ∀ t ∈ toks, is_wrap_token t = true) (s : wrap_state) (v : wrap_trace)
    (hinv : trace_inv toks s v) (hf : trace_fit env g width v) :
    trace_step_fit_post env g width toks s v (gfx_wrap_string_step env g width s) := by
  have hinv0 := hinv
  have hall := trace_mem toks hwt s v hinv
  obtain ⟨htext, hfirst, hch, hnum, hword, hnl, hcons, hsep, hlc, hc⟩ := hinv
  have hmem : ∀ t ∈ v.rest, is_wrap_token t = true :=
    fun t ht => hall t (List.mem_append_right _ ht)
  have hltok : ∀ u ∈ v.line, is_token u = true :=
    fun u hu => wrap_token_is_token u (hall u (List.mem_append_left _ hu))
  cases hrest : v.rest with
  | nil =>
    rw [wrap_step_end env g width toks s v hinv0 hrest]
    exact ⟨rfl, hrest⟩
  | cons t rest' =>
    rw [hrest] at hmem
    have hR : (v.line ++ t :: rest').flatten.length
        = v.line.flatten.length + t.length + rest'.flatten.length := by
      simp; omega
    have htok := wrap_token_is_token t (hmem t (List.mem_cons_self _ _))
    have htpos := token_length_pos t htok
    have hacc : (v.line ++ [t] ++ rest').flatten.length
        = (v.line ++ t :: rest').flatten.length := by simp
    have hpacc : trace_potential { v with line := v.line ++ [t], rest := rest' }
        < trace_potential { v with rest := t :: rest' } := by
      unfold trace_potential
      dsimp only
      rw [hacc]
      have : (t :: rest').flatten.length = t.length + rest'.flatten.length := by simp
      omega
    have hv : v = { v with rest := t :: rest' } := by
      cases v
      simp only at hrest
      rw [hrest]
    rcases wrap_token_kinds t (hmem t (List.mem_cons_self _ _)) with ⟨ht, ht32⟩ | rfl | ⟨hcode, hsync, hn5⟩
    · -- a literal codepoint
      have htne : t ≠ [FORMAT_NEWLINE] := by
        intro h
        rw [h] at ht
        exact absurd ht (by decide)
      cases hm : gfx_get_string_width env g (v.line ++ [t]).flatten with
      | none =>
        rw [wrap_step_char env g width toks s v t rest' hinv0 hrest ht]
        have hbound : 512 < (v.line ++ t :: rest').flatten.length := by
          by_contra hle
          have hl : (v.line ++ [t]).flatten.length ≤ 512 := by
            have : (v.line ++ [t]).flatten.length = v.line.flatten.length + t.length := by simp
            omega
          obtain ⟨w, hw⟩ := gfx_get_string_width_isSome env g _ hl
          rw [hw] at hm
          cases hm
        by_cases hsp : (utf8_get_next t).1 = 32
        · rw [if_pos hsp, trace_place_eq env g width toks hwt s
            { s with currentWord := some s.ch, currentWidth := s.lineWidth, numCharactersOnLine := s.numCharactersOnLine + 1 }
            v t rest' hinv0 hrest rfl rfl, hm]
          simp only [Option.none_bind, Option.map_none']
          show 512 < (v.line ++ v.rest).flatten.length
          rw [hrest]
          exact hbound
        · rw [if_neg hsp, trace_place_eq env g width toks hwt s s v t rest' hinv0 hrest rfl rfl,
            hm]
          simp only [Option.none_bind, Option.map_none']
          show 512 < (v.line ++ v.rest).flatten.length
          rw [hrest]
          exact hbound
      | some lw =>
        by_cases hsp : (utf8_get_next t).1 = 32
        · have ht32 := ht32 hsp
          by_cases hfit : lw ≤ width
          · rw [wrap_step_char env g width toks s v t rest' hinv0 hrest ht, if_pos hsp,
              trace_place_eq env g width toks hwt s
                { s with currentWord := some s.ch, currentWidth := s.lineWidth, numCharactersOnLine := s.numCharactersOnLine + 1 }
                v t rest' hinv0 hrest rfl rfl, hm]
            simp only [Option.some_bind, if_pos (Or.inl hfit), Option.map_some']
            refine ⟨{ v with line := v.line ++ [t], rest := rest' }, ?_, ?_, ?_, ?_⟩
            · refine trace_inv_accept toks s _ v t rest' hinv0 hrest htne ?_ ?_ rfl rfl ?_ rfl
              · exact literal_count_iff _ (Nat.succ_ne_zero _) v.line t ht
              · refine ⟨v.line, [], ?_, hch, ?_⟩
                · rw [ht32]
                · intro u hu; cases hu
              · show _ = s.ch + t.length
                rw [hch]
            · exact ⟨prefixes_fit_snoc_literal env g width v.line t hf.1
                (Or.inr ⟨lw, hm, hfit⟩), hf.2⟩
            · rw [hv]; exact hpacc
            · dsimp only; rw [hacc, hrest]
          · obtain ⟨s1, e1, hinv1⟩ := wrap_step_word_break env g width toks hwt s v t rest' v.line []
              lw hinv0 hrest ht (fun _ => ht32) (by rw [ht32]) (by intro u hu; cases hu) hm
              (not_le.mp hfit)
            rw [e1]
            refine ⟨_, hinv1, trace_fit_break env g width v v.line _ _ _ hf hf.1, ?_⟩
            exact trace_potential_break _ _ _ _ (by rw [hrest, hR, List.nil_append]; omega)
        · have hns : is_space_token t = false := by simp [is_space_token, hsp]
          by_cases hfit : lw ≤ width ∨ s.numCharactersOnLine = 0
          · rw [wrap_step_char env g width toks s v t rest' hinv0 hrest ht, if_neg hsp,
              trace_place_eq env g width toks hwt s s v t rest' hinv0 hrest rfl rfl, hm]
            simp only [Option.some_bind, if_pos hfit, Option.map_some']
            refine ⟨{ v with line := v.line ++ [t], rest := rest' }, ?_, ?_, ?_, ?_⟩
            · refine trace_inv_accept toks s _ v t rest' hinv0 hrest htne ?_ ?_ rfl rfl ?_ rfl
              · exact literal_count_iff _ (Nat.succ_ne_zero _) v.line t ht
              · exact trace_word_snoc _ v.line t s.currentWord hword hns
              · show _ = s.ch + t.length
                rw [hch]
            · refine ⟨prefixes_fit_snoc_literal env g width v.line t hf.1 ?_, hf.2⟩
              rcases hfit with hfit | hfit
              · exact Or.inr ⟨lw, hm, hfit⟩
              · exact Or.inl (hnum.1 hfit)
            · rw [hv]; exact hpacc
            · dsimp only; rw [hacc, hrest]
          · have hlit : ∃ u ∈ v.line, is_literal_token u = true := by
              by_contra h
              apply hfit
              right
              apply hnum.2
              intro u hu
              cases hb : is_literal_token u with
              | false => rfl
              | true => exact absurd ⟨u, hu, hb⟩ h
            have hne : v.line ≠ [] := by
              intro h
              obtain ⟨u, hu, -⟩ := hlit
              rw [h] at hu
              cases hu
            have hlpos := flatten_length_pos v.line hltok hne
            have hover : width < lw := by
              by_contra h
              exact hfit (Or.inl (not_lt.mp h))
            cases hcw : s.currentWord with
            | none =>
              rw [wrap_step_char env g width toks s v t rest' hinv0 hrest ht, if_neg hsp,
                trace_place_eq env g width toks hwt s s v t rest' hinv0 hrest rfl rfl, hm]
              simp only [Option.some_bind, if_neg hfit, hcw]
              have e : s.text = (trace_bytes v.lines ++ v.line.flatten)
                  ++ ((t :: rest').flatten ++ 0 :: v.tail) := by
                rw [htext, trace_text, hrest]; simp
              have hins : utf8_insert_codepoint_zero s.text s.ch
                  = some ((trace_bytes v.lines ++ v.line.flatten)
                      ++ 0 :: ((t :: rest').flatten ++ 0 :: v.tail.drop 1), 1) := by
                have hk : s.ch = (trace_bytes v.lines ++ v.line.flatten).length := by
                  rw [hch]; simp
                rw [hk, e]
                exact utf8_insert_codepoint_zero_wrap_tokens _ _ _ hmem
              simp only [hins, Option.map_some']
              refine ⟨⟨v.lines ++ [(v.line, none)], [], t :: rest', v.tail.drop 1⟩, ?_,
                trace_fit_break env g width v v.line _ _ _ hf hf.1, ?_⟩
              · refine trace_inv_break toks s _ v v.line none (t :: rest')
                  (v.tail.drop 1) hinv0 ?_ ?_ ?_ rfl rfl rfl ?_ (Or.inl ⟨rfl, hlit⟩) hc
                · show _ ++ _ = _
                  simp
                · show s.ch + 1 = _
                  rw [hch]
                · show s.ch + 1 = _
                  rw [hch]
                · rw [hrest]; simp
              · have : (t :: rest').flatten.length = t.length + rest'.flatten.length := by simp
                exact trace_potential_break _ _ _ _ (by rw [hrest, hR, this]; omega)
            | some k =>
              rw [hcw] at hword
              obtain ⟨m1, m2, el, hk, hm2⟩ := hword
              have hl2 : ∀ u ∈ m2 ++ [t], is_space_token u = false := by
                intro u hu
                rcases List.mem_append.1 hu with h | h
                · exact hm2 u h
                · rw [List.mem_singleton.1 h]; exact hns
              obtain ⟨s1, e1, hinv1⟩ := wrap_step_word_break env g width toks hwt s v t rest' m1
                (m2 ++ [t]) lw hinv0 hrest ht ht32 (by rw [el]; simp) hl2 hm hover
              rw [e1]
              refine ⟨_, hinv1, trace_fit_break env g width v m1 _ _ _ hf
                (prefixes_fit_of_append env g width m1 ([32] :: m2) (el ▸ hf.1)), ?_⟩
              have e3 : (m2 ++ [t] ++ rest').flatten.length
                  = m2.flatten.length + t.length + rest'.flatten.length := by simp; omega
              have e4 : v.line.flatten.length = m1.flatten.length + 1 + m2.flatten.length := by
                rw [el]; simp; omega
              exact trace_potential_break _ _ _ _ (by rw [hrest, hR, e3, e4]; omega)
    · -- the newline code
      obtain ⟨e1, hinv1⟩ := wrap_step_newline env g width toks s v rest' hinv0 hrest
      rw [e1]
      refine ⟨_, hinv1, trace_fit_break env g width v v.line _ _ _ hf hf.1, ?_⟩
      exact trace_potential_break _ _ _ _ (by
        rw [hrest, hR]
        simp only [List.length_cons, List.length_nil]
        omega)
    · -- another control code
      obtain ⟨e1, hinv1⟩ := wrap_step_code env g width toks s v t rest' hinv0 hrest hcode
        hsync hn5
      rw [e1]
      refine ⟨{ v with line := v.line ++ [t], rest := rest' }, hinv1,
        ⟨prefixes_fit_snoc_code env g width v.line t hf.1 (code_token_not_literal t hcode),
          hf.2⟩, ?_, ?_⟩
      · rw [hv]; exact hpacc
      · dsimp only; rw [hacc, hrest]

theorem trace_loop_fit (env : Env) (g : Globals) (width : Int) (toks : List (List Nat))
    (hwt : ∀ t ∈ toks, is_wrap_token t = true) :
    ∀ (fuel : Nat) (s : wrap_state) (v : wrap_trace), trace_inv toks s v →
      trace_fit env g width v → trace_potential v < fuel →
      trace_loop_fit_post env g width toks v (gfx_wrap_string_loop env g width fuel s) := by
  intro fuel
  induction fuel with
  | zero => intro s v _ _ h; omega
  | succ n ih =>
    intro s v hinv hf hpot
    have hstep := trace_step_fit env g width toks hwt s v hinv hf
    rw [gfx_wrap_string_loop]
    cases hr : gfx_wrap_string_step env g width s with
    | none =>
      rw [hr] at hstep
      exact hstep
    | some p =>
      obtain ⟨s1, b⟩ := p
      rw [hr] at hstep
      cases b with
      | false =>
        obtain ⟨e, hrest⟩ := hstep
        exact ⟨v, e ▸ hinv, hf, hrest⟩
      | true =>
        obtain ⟨v1, hinv1, hf1, hlt, hle⟩ := hstep
        have h1 := ih s1 v1 hinv1 hf1 (by omega)
        show trace_loop_fit_post env g width toks v (gfx_wrap_string_loop env g width n s1)
        cases hl : gfx_wrap_string_loop env g width n s1 with
        | none =>
          rw [hl] at h1
          show 512 < _
          have : 512 < (v1.line ++ v1.rest).flatten.length := h1
          omega
        | some s2 =>
          rw [hl] at h1
          exact h1

/-- The wrap of a well-formed text: every result agrees with a trace that has nothing left
to place and whose codepoints were all taken on their line under the test of the loop. -/
theorem gfx_wrap_string_fit (env : Env) (g : Globals) (width : Int) (toks : List (List Nat))
    (tail : List Nat) (hwt : ∀ t ∈ toks, is_wrap_token t = true) (r : wrap_result)
    (hr : gfx_wrap_string env g (toks.flatten ++ 0 :: tail) width = some r) :
    ∃ s v, trace_inv toks s v ∧ trace_fit env g width v ∧ v.rest = [] ∧ r.text = s.text
      ∧ r.numLines = s.outNumLines := by
  have h := trace_loop_fit env g width toks hwt _ _ _
    (trace_inv_initial toks tail) (trace_fit_initial env g width toks tail)
    (trace_fuel_covers toks tail)
  unfold gfx_wrap_string at hr
  dsimp only at hr
  cases hl : gfx_wrap_string_loop env g width (wrap_fuel (toks.flatten ++ 0 :: tail).length)
      { text := toks.flatten ++ 0 :: tail, lineWidth := 0, maxWidth := 0, outNumLines := 0,
        currentWord := none, currentWidth := 0, ch := 0, firstCh := 0,
        numCharactersOnLine := 0 } with
  | none =>
    rw [hl] at hr
    cases hr
  | some s1 =>
    rw [hl] at h hr
    obtain ⟨v1, hinv1, hf1, hrest1⟩ := h
    simp only [Option.map_some', Option.some.injEq] at hr
    subst hr
    exact ⟨s1, v1, hinv1, hf1, hrest1, rfl, rfl⟩

/-- The lines of a finished wrap of a well-formed text, as lists of tokens: what the two
readers of the buffer give, where the tokens come from, and the test under which each
literal codepoint was taken on its line. -/
theorem gfx_wrap_string_fit_lines (env : Env) (g : Globals) (width : Int)
    (toks : List (List Nat)) (tail : List Nat) (hwt : ∀ t ∈ toks, is_wrap_token t = true)
    (r : wrap_result)
    (hr : gfx_wrap_string env g (toks.flatten ++ 0 :: tail) width = some r) :
    ∃ lines : List (List (List Nat)),
      scanned_lines r.numLines.toNat r.text = some (lines.map List.flatten)
        ∧ ((∀ t ∈ toks, ∀ b ∈ t, b ≠ 0) →
            wrapped_lines r.numLines.toNat r.text = lines.map List.flatten)
        ∧ lines.length = r.numLines.toNat + 1
        ∧ (∀ l ∈ lines, ∀ t ∈ l, t ∈ toks)
        ∧ ∀ l ∈ lines, prefixes_fit env g width l := by
  obtain ⟨s, v, hinv, hf, hrest, htext, hnum⟩ := gfx_wrap_string_fit env g width toks tail hwt r hr
  have hfin := trace_final_lines toks s v hinv hrest
  obtain ⟨ht, -, -, -, -, hnl, hcons, -, -, -⟩ := hinv
  have hcons' : toks = trace_tokens v.lines ++ v.line := by
    rw [hcons, hrest, List.append_nil]
  have e : r.text = trace_bytes v.lines ++ (v.line.flatten ++ 0 :: v.tail) := by
    rw [htext, ht, trace_text, hrest]
    simp
  have hmap : (v.lines.map (fun l => l.1) ++ [v.line]).map List.flatten
      = v.lines.map (fun l => l.1.flatten) ++ [v.line.flatten] := by
    simp [List.map_map, Function.comp_def]
  have hmem : ∀ l ∈ v.lines.map (fun l => l.1) ++ [v.line], ∀ t ∈ l, t ∈ toks := by
    intro l hl t htl
    rw [hcons']
    rcases List.mem_append.1 hl with hl | hl
    · obtain ⟨x, hx, rfl⟩ := List.mem_map.1 hl
      exact List.mem_append_left _ (mem_trace_tokens v.lines x hx t htl)
    · rw [List.mem_singleton.1 hl] at htl
      exact List.mem_append_right _ htl
  refine ⟨v.lines.map (fun l => l.1) ++ [v.line], ?_, ?_, ?_, hmem, ?_⟩
  · rw [hmap, e, hnum, hnl, Int.toNat_ofNat]
    apply scanned_lines_trace
    · intro l hl t htl
      apply hwt
      rw [hcons']
      exact List.mem_append_left _ (mem_trace_tokens v.lines l hl t htl)
    · intro t htl
      apply hwt
      rw [hcons']
      exact List.mem_append_right _ htl
  · intro hz
    rw [hmap, htext, hnum]
    exact hfin hz
  · rw [hnum, hnl, Int.toNat_ofNat]
    simp
  · intro l hl
    rcases List.mem_append.1 hl with hl | hl
    · obtain ⟨x, hx, rfl⟩ := List.mem_map.1 hl
      exact hf.2 x hx
    · rw [List.mem_singleton.1 hl]
      exact hf.1

/-! # The claims -/

/-! ## Claims about `gfx_clip_string` -/

/-- C1, as stated, fails: the text `A` followed by a move-x code with argument 200
measures 200; clipped to 20 the buffer is left as it was (the cuts `A...` fits and no later
cut exists), so the buffer left measures 200, which is more than 20. -/
theorem C1_counterexample :
    gfx_clip_string demoEnv demoGlobals [65, 1, 200, 0, 0, 0, 0] 20
        = some ([65, 1, 200, 0, 0, 0, 0], 200)
      ∧ gfx_get_string_width demoEnv demoGlobals [65, 1, 200, 0, 0, 0, 0] = some 200
      ∧ ¬ ((200 : Int) ≤ 20) := by
  decide

/-- C1 (amended): for a well-formed text (tokens on which scanner and interpreter agree)
in a buffer with three spare bytes, `gfx_clip_string` returns whenever the text has at
most 509 bytes, and the buffer it leaves has a measured width `m` such that: below the
floor (`width < 6`) the buffer is the empty string and `m = 0`; at or above the floor
`m ≤ width`; or the buffer is the bare ellipsis `...`, and then the cut behind the first
literal codepoint of the text, followed by `...`, measured `width` or more; or the buffer
is the unchanged text, and then every cut behind a literal codepoint, followed by `...`,
measured less than `width`. -/
theorem C1_clip_result_width (env : Env) (g : Globals) (width : Int)
    (toks : List (List Nat)) (tail : List Nat)
    (hsync : ∀ t ∈ toks, is_synced_token t = true) (htail : 3 ≤ tail.length) :
    (toks.flatten.length + 3 ≤ 512 →
      (gfx_clip_string env g (toks.flatten ++ 0 :: tail) width).isSome = true)
    ∧ ∀ F w, gfx_clip_string env g (toks.flatten ++ 0 :: tail) width = some (F, w) →
        ∃ m, gfx_get_string_width env g F = some m ∧
          ((width < 6 ∧ cstr F = [] ∧ m = 0)
            ∨ (6 ≤ width ∧
                (m ≤ width
                  ∨ ((∃ junk, F = 46 :: 46 :: 46 :: 0 :: junk)
                      ∧ ∃ mid t q v, toks = mid ++ t :: q
                          ∧ (∀ u ∈ mid, is_literal_token u = false)
                          ∧ is_literal_token t = true
                          ∧ gfx_get_string_width env g
                              ((mid ++ [t]).flatten ++ [46, 46, 46]) = some v
                          ∧ width ≤ v)
                  ∨ (F = toks.flatten ++ 0 :: tail ∧ cuts_fit env g width toks)))) := by
  have htok : ∀ t ∈ toks, is_token t = true := fun t h => synced_token_is_token t (hsync t h)
  by_cases hW : width < 6
  · have hc : gfx_clip_string env g (toks.flatten ++ 0 :: tail) width
        = some (poke (toks.flatten ++ 0 :: tail) 0 0, 0) := by
      simp [gfx_clip_string, hW]
    rw [hc]
    refine ⟨fun _ => rfl, ?_⟩
    intro F w h
    simp only [Option.some.injEq, Prod.mk.injEq] at h
    obtain ⟨hF, -⟩ := h
    subst hF
    have h0 := byteAt_poke_zero (toks.flatten ++ 0 :: tail) 0
    exact ⟨0, gfx_get_string_width_of_head_zero env g _ h0,
      Or.inl ⟨hW, cstr_of_head_zero _ h0, rfl⟩⟩
  · have hW' : 6 ≤ width := not_lt.mp hW
    obtain ⟨hspec, hsome⟩ := gfx_clip_string_spec env g width toks tail hsync htail hW'
    refine ⟨hsome, ?_⟩
    intro F w h
    have hM := gfx_get_string_width_agree env g toks (0 :: tail) htok rfl
    obtain ⟨w0, hw0, hcase⟩ := hspec F w h
    rcases hcase with ⟨hfit, hF, -⟩ | ⟨-, hpost⟩
    · subst hF
      exact ⟨w0, by rw [hM, hw0], Or.inr ⟨hW', Or.inl hfit⟩⟩
    · rcases hpost with ⟨hF, hw, hcuts⟩ | ⟨p, mid, t, q, junk, v, h1, hmid, ht, -, hv, hwv, hF, hp⟩
      · subst hF
        exact ⟨w, by rw [hM, hw], Or.inr ⟨hW', Or.inr (Or.inr ⟨rfl, hcuts⟩)⟩⟩
      · have hptok : ∀ u ∈ p, is_token u = true := by
          intro u hu
          apply htok
          rw [h1]
          simp [hu]
        have hcut := measure_cut env g p junk hptok
        rcases hp with ⟨hp, -⟩ | ⟨-, hq, hlt⟩
        · subst hp
          obtain ⟨m, hm⟩ := gfx_get_string_width_isSome env g [46, 46, 46] (by simp)
          refine ⟨m, ?_, Or.inr ⟨hW', Or.inr (Or.inl ⟨⟨junk, ?_⟩, mid, t, q, v, ?_, hmid, ht, ?_,
            hwv⟩)⟩⟩
          · rw [hF, hcut]
            simpa using hm
          · rw [hF]
            rfl
          · simpa using h1
          · simpa using hv
        · exact ⟨w, by rw [hF, hcut, hq], Or.inr ⟨hW', Or.inl (le_of_lt hlt)⟩⟩

/-- C1 witness: `WWWW` (40 pixels) clipped to 30 leaves `WW...`, which measures 26. -/
theorem C1_clip_result_width_witness :
    (∀ t ∈ [[87], [87], [87], [87]], is_synced_token t = true)
      ∧ gfx_clip_string demoEnv demoGlobals [87, 87, 87, 87, 0, 0, 0, 0] 30
          = some ([87, 87, 46, 46, 46, 0, 0, 0], 26)
      ∧ ∃ m, gfx_get_string_width demoEnv demoGlobals [87, 87, 46, 46, 46, 0, 0, 0] = some m ∧
        (((30 : Int) < 6 ∧ cstr [87, 87, 46, 46, 46, 0, 0, 0] = [] ∧ m = 0)
          ∨ ((6 : Int) ≤ 30 ∧
              (m ≤ 30
                ∨ ((∃ junk, [87, 87, 46, 46, 46, 0, 0, 0] = 46 :: 46 :: 46 :: 0 :: junk)
                    ∧ ∃ mid t q v, [[87], [87], [87], [87]] = mid ++ t :: q
                        ∧ (∀ u ∈ mid, is_literal_token u = false)
                        ∧ is_literal_token t = true
                        ∧ gfx_get_string_width demoEnv demoGlobals
                            ((mid ++ [t]).flatten ++ [46, 46, 46]) = some v
                        ∧ 30 ≤ v)
                ∨ ([87, 87, 46, 46, 46, 0, 0, 0]
                      = [[87], [87], [87], [87]].flatten ++ 0 :: [0, 0, 0]
                    ∧ cuts_fit demoEnv demoGlobals 30 [[87], [87], [87], [87]])))) :=
  ⟨by decide, by decide,
    (C1_clip_result_width demoEnv demoGlobals 30 [[87], [87], [87], [87]] [0, 0, 0]
      (by decide) (by decide)).2 [87, 87, 46, 46, 46, 0, 0, 0] 26 (by decide)⟩

/-- C2: the code at the failing input. `WWWW` measures 40; clipped to 6 not even `W...`
fits, the buffer is cut to `...` and the call returns the stale width 40 of the uncut text;
the second call on that buffer returns 6. -/
theorem C2_second_run_returns_other_width :
    gfx_clip_string demoEnv demoGlobals [87, 87, 87, 87, 0, 0, 0, 0] 6
        = some ([46, 46, 46, 0, 0, 0, 0, 0], 40)
      ∧ gfx_clip_string demoEnv demoGlobals [46, 46, 46, 0, 0, 0, 0, 0] 6
        = some ([46, 46, 46, 0, 0, 0, 0, 0], 6) := by
  decide

/-- C8: for every buffer and every width below the floor of 6, `gfx_clip_string` stores
the terminator at the start of the buffer and returns 0: the buffer then holds the empty
string, of measured width 0. It needs no measurement, so it cannot fail. -/
theorem C8_clip_below_floor (env : Env) (g : Globals) (text : List Nat) (width : Int)
    (h : width < 6) :
    gfx_clip_string env g text width = some (poke text 0 0, 0)
      ∧ byteAt (poke text 0 0) 0 = 0 ∧ cstr (poke text 0 0) = []
      ∧ gfx_get_string_width env g (poke text 0 0) = some 0 := by
  have h0 := byteAt_poke_zero text 0
  refine ⟨?_, h0, cstr_of_head_zero _ h0, gfx_get_string_width_of_head_zero env g _ h0⟩
  simp [gfx_clip_string, h]

/-- C8 witness: `WWWW`, 40 pixels wide, clipped to 5. -/
theorem C8_clip_below_floor_witness :
    gfx_clip_string demoEnv demoGlobals [87, 87, 87, 87, 0] 5
        = some (poke [87, 87, 87, 87, 0] 0 0, 0)
      ∧ byteAt (poke [87, 87, 87, 87, 0] 0 0) 0 = 0 ∧ cstr (poke [87, 87, 87, 87, 0] 0 0) = []
      ∧ gfx_get_string_width demoEnv demoGlobals (poke [87, 87, 87, 87, 0] 0 0) = some 0 :=
  C8_clip_below_floor demoEnv demoGlobals [87, 87, 87, 87, 0] 5 (by decide)

/-- C9: for every buffer whose text measures `w`, and every width at or above the floor
with `w ≤ width`, `gfx_clip_string` leaves the buffer as it is, byte for byte, and
returns `w`. -/
theorem C9_clip_fitting_text (env : Env) (g : Globals) (text : List Nat) (width w : Int)
    (hW : 6 ≤ width) (hm : gfx_get_string_width env g text = some w) (hfit : w ≤ width) :
    gfx_clip_string env g text width = some (text, w) := by
  simp [gfx_clip_string, not_lt.mpr hW, hm, hfit]

/-- C9 witness: `WW` measures 20 and is clipped to 30. -/
theorem C9_clip_fitting_text_witness :
    gfx_clip_string demoEnv demoGlobals [87, 87, 0] 30 = some ([87, 87, 0], 20) :=
  C9_clip_fitting_text demoEnv demoGlobals [87, 87, 0] 30 20 (by decide) (by decide) (by decide)

/-- C10, as stated, fails: `AB` followed by a move-x code with argument 200 measures 200,
more than 30, and the buffer `gfx_clip_string` leaves is the text as it was: it does not
end in three dots. -/
theorem C10_counterexample :
    gfx_get_string_width demoEnv demoGlobals [65, 66, 1, 200, 0, 0, 0, 0] = some 200
      ∧ gfx_clip_string demoEnv demoGlobals [65, 66, 1, 200, 0, 0, 0, 0] 30
        = some ([65, 66, 1, 200, 0, 0, 0, 0], 200)
      ∧ ¬ ∃ p junk, [65, 66, 1, 200, 0, 0, 0, 0] = p ++ 46 :: 46 :: 46 :: 0 :: junk := by
  refine ⟨by decide, by decide, ?_⟩
  rintro ⟨p, junk, h⟩
  have h2 : (46 : Nat) ∈ [65, 66, 1, 200, 0, 0, 0, 0] := by
    rw [h]; simp
  revert h2
  decide

/-- C10 (amended): for a well-formed text that measures more than `width` (at or above
the floor), in a buffer with three spare bytes, `gfx_clip_string` returns whenever the
text has at most 509 bytes, and the buffer it leaves is either the text unchanged, and
then every cut after a literal codepoint, followed by three dots, measures less than
`width`; or the tokens `p` of the text up to a token boundary, which is the start of the
text or right behind a literal codepoint, followed by exactly three dots and the
terminator. -/
theorem C10_clip_cut_shape (env : Env) (g : Globals) (width : Int)
    (toks : List (List Nat)) (tail : List Nat) (w0 : Int)
    (hsync : ∀ t ∈ toks, is_synced_token t = true) (htail : 3 ≤ tail.length)
    (hW : 6 ≤ width) (hm : gfx_get_string_width env g toks.flatten = some w0)
    (hover : width < w0) :
    (toks.flatten.length + 3 ≤ 512 →
      (gfx_clip_string env g (toks.flatten ++ 0 :: tail) width).isSome = true)
    ∧ ∀ F w, gfx_clip_string env g (toks.flatten ++ 0 :: tail) width = some (F, w) →
        (F = toks.flatten ++ 0 :: tail ∧ cuts_fit env g width toks)
        ∨ ∃ p q junk, toks = p ++ q
            ∧ (p = [] ∨ ∃ p' t', p = p' ++ [t'] ∧ is_literal_token t' = true)
            ∧ F = p.flatten ++ 46 :: 46 :: 46 :: 0 :: junk := by
  obtain ⟨hspec, hsome⟩ := gfx_clip_string_spec env g width toks tail hsync htail hW
  refine ⟨hsome, ?_⟩
  intro F w h
  obtain ⟨w1, hw1, hcase⟩ := hspec F w h
  rw [hm] at hw1
  cases hw1
  rcases hcase with ⟨hfit, -, -⟩ | ⟨-, hpost⟩
  · exact absurd hfit (not_le.mpr hover)
  · rcases hpost with ⟨hF, -, hcuts⟩ | ⟨p, mid, t, q, junk, v, h1, -, -, -, -, -, hF, hp⟩
    · exact Or.inl ⟨hF, hcuts⟩
    · refine Or.inr ⟨p, mid ++ t :: q, junk, ?_, ?_, hF⟩
      · rw [h1, List.append_assoc]
      · rcases hp with ⟨hp, -⟩ | ⟨hp, -, -⟩
        · exact Or.inl hp
        · exact Or.inr hp

/-- C10 witness: `WWWW` (40 pixels) clipped to 30 leaves `WW...`. -/
theorem C10_clip_cut_shape_witness :
    ([87, 87, 46, 46, 46, 0, 0, 0] = [[87], [87], [87], [87]].flatten ++ 0 :: [0, 0, 0]
        ∧ cuts_fit demoEnv demoGlobals 30 [[87], [87], [87], [87]])
      ∨ ∃ p q junk, [[87], [87], [87], [87]] = p ++ q
          ∧ (p = [] ∨ ∃ p' t', p = p' ++ [t'] ∧ is_literal_token t' = true)
          ∧ [87, 87, 46, 46, 46, 0, 0, 0] = p.flatten ++ 46 :: 46 :: 46 :: 0 :: junk :=
  (C10_clip_cut_shape demoEnv demoGlobals 30 [[87], [87], [87], [87]] [0, 0, 0] 40
    (by decide) (by decide) (by decide) (by decide) (by decide)).2
    [87, 87, 46, 46, 46, 0, 0, 0] 26 (by decide)


/-! ## Claims about measuring -/

set_option maxRecDepth 100000 in
/-- C5, as stated, fails. In true-type mode the width of a run is the width the outline
font reports for it: with a font that reports 99 for `a` and 98 for `ab`, `a` measures 99
and `ab` measures 98. In true-type mode a run in front of a character that is forced to the
sprite font is copied to a buffer of 512 bytes: 512 times `a` measure 3584, and followed by
such a character they have no width. And a glyph of negative width shrinks the measure in
the sprite font. -/
theorem C5_counterexample :
    (gfx_get_string_width shrinkEnv outlineGlobals [97] = some 99
        ∧ gfx_get_string_width shrinkEnv outlineGlobals ([97] ++ [98]) = some 98
        ∧ is_plain_ascii 97 = true ∧ is_plain_ascii 98 = true ∧ ¬ ((99 : Int) ≤ 98))
      ∧ (gfx_get_string_width outlineEnv outlineGlobals (List.replicate 512 97) = some 3584
        ∧ gfx_get_string_width outlineEnv outlineGlobals (List.replicate 512 97 ++ [87]) = none
        ∧ is_plain_ascii 87 = true)
      ∧ (gfx_get_string_width narrowEnv demoGlobals [97] = some 6
        ∧ gfx_get_string_width narrowEnv demoGlobals ([97] ++ [98]) = some 3) := by
  decide

/-- C5 (amended): for every string `s` of plain printable ASCII characters and every such
character `c`, when the glyph widths of the sprite font are not negative and, in true-type
mode, the width the outline font reports for a run does not shrink when a character is
appended to the run: measuring `s` and measuring `s` followed by `c`, with the same font and
flags, both give a width, and the second is at least the first. Only in true-type mode,
when a character of the string is forced to the sprite font, `s` is to have at most 511
bytes. A string whose characters all go on one glyph run measures the advance of that run,
or 0 when that is negative: in the outline backend the width the outline font reports for
the string. -/
theorem C5_measure_monotone_on_append (env : Env) (g : Globals) (s : List Nat) (c : Nat)
    (hs : ∀ b ∈ s, is_plain_ascii b = true) (hc : is_plain_ascii c = true) :
    ((∀ f cp, 0 ≤ env.font_sprite_get_codepoint_width f cp) →
      (is_ttf (measure_info g) = true →
        ∀ f r u, env.ttf_getwidth_cache_get_or_add f r
          ≤ env.ttf_getwidth_cache_get_or_add f (r ++ [u])) →
      (is_ttf (measure_info g) = true →
        (∃ b ∈ s ++ [c], env.utf8_should_use_sprite_for_codepoint b = true) →
        s.length ≤ 511) →
      ∃ w w', gfx_get_string_width env g s = some w
        ∧ gfx_get_string_width env g (s ++ [c]) = some w' ∧ w ≤ w')
    ∧ (s ≠ [] →
        (∀ b ∈ s, (is_ttf (measure_info g)
          && env.utf8_should_use_sprite_for_codepoint b) = false) →
        gfx_get_string_width env g s
            = some (max 0 (run_advance env (measure_info g) (ascii_tokens s)))
          ∧ (is_ttf (measure_info g) = true → env.ttf_initialise = true →
              env.ttf_font_loaded g.gCurrentFontSpriteBase = true →
              run_advance env (measure_info g) (ascii_tokens s)
                = env.ttf_getwidth_cache_get_or_add g.gCurrentFontSpriteBase s)) := by
  constructor
  · intro hw ht hlen
    obtain ⟨r, r', h1, h2, h3⟩ := process_snoc_mono_runs env g hw c hc
      (ascii_tokens s).length (ascii_tokens s) (le_refl _) (ascii_tokens_plain s hs) nullDpi
      (measure_info g) (no_draw_measure_info g) ht (by
        intro httf hex
        rw [ascii_tokens_flatten]
        apply hlen httf
        obtain ⟨v, hv, hvf⟩ := hex
        rw [← ascii_tokens_append] at hv
        simp only [ascii_tokens, List.mem_map] at hv
        obtain ⟨b, hb, rfl⟩ := hv
        refine ⟨b, hb, ?_⟩
        have hpb : is_plain_ascii b = true := by
          rcases List.mem_append.1 hb with h | h
          · exact hs b h
          · rw [List.mem_singleton.1 h]; exact hc
        unfold in_run at hvf
        rw [plain_ascii_token b hpb, plain_ascii_next b [] hpb, httf] at hvf
        simpa using hvf)
    rw [← ascii_tokens_append, ascii_tokens_flatten] at h2
    rw [ascii_tokens_flatten] at h1
    refine ⟨r.2.maxX, r'.2.maxX, ?_, ?_, h3⟩
    · simp [gfx_get_string_width, ttf_get_string_width, h1]
    · simp [gfx_get_string_width, ttf_get_string_width, h2]
  · intro hne hrun
    have hp := ascii_tokens_plain s hs
    have hin : ∀ t ∈ ascii_tokens s, in_run env (is_ttf (measure_info g)) t = true := by
      intro t ht
      simp only [ascii_tokens, List.mem_map] at ht
      obtain ⟨b, hb, rfl⟩ := ht
      unfold in_run
      rw [plain_ascii_token b (hs b hb), plain_ascii_next b [] (hs b hb), hrun b hb]
      rfl
    have hm := process_run_measure env g nullDpi (measure_info g) (ascii_tokens s) [] []
      (by
        intro t ht
        rw [List.append_nil] at ht
        simp [is_token, plain_token_literal t (hp t ht)])
      hin (by
        intro h
        apply hne
        simpa [ascii_tokens] using h)
      (by intro t r h; cases h) (by intro h; exact absurd rfl h) (no_draw_measure_info g) rfl
    simp only [List.append_nil, List.flatten_nil, ascii_tokens_flatten] at hm
    constructor
    · unfold gfx_get_string_width ttf_get_string_width
      rw [hm, ttf_process_string_zero env g _ [] _ (by rw [utf8_get_next_nil])]
      simp only [Option.map_some', update_extents, measure_info, zero_add]
    · intro httf hi hl
      unfold run_advance
      have hflag : (measure_info g).flags &&& TEXT_DRAW_FLAG_TTF ≠ 0 := by
        unfold is_ttf at httf
        simpa using httf
      rw [if_pos hflag, hi, cstr_plain_tokens _ hp, ascii_tokens_flatten]
      simp only [Bool.not_true, Bool.false_eq_true, if_false]
      have : (measure_info g).font_sprite_base = g.gCurrentFontSpriteBase := rfl
      rw [this, hl]
      simp

/-- C5 witness: in true-type mode, with an outline font of 7 pixels a byte in which `W` is
forced to the sprite font: `ab` measures 14 and `abW` measures 24. -/
theorem C5_measure_monotone_on_append_witness :
    (∀ b ∈ [97, 98], is_plain_ascii b = true) ∧ is_plain_ascii 87 = true
      ∧ is_ttf (measure_info outlineGlobals) = true
      ∧ gfx_get_string_width outlineEnv outlineGlobals [97, 98] = some 14
      ∧ gfx_get_string_width outlineEnv outlineGlobals ([97, 98] ++ [87]) = some 24
      ∧ ∃ w w', gfx_get_string_width outlineEnv outlineGlobals [97, 98] = some w
        ∧ gfx_get_string_width outlineEnv outlineGlobals ([97, 98] ++ [87]) = some w'
        ∧ w ≤ w' :=
  ⟨by decide, by decide, by decide, by decide, by decide,
    (C5_measure_monotone_on_append outlineEnv outlineGlobals [97, 98] 87 (by decide)
      (by decide)).1
      (by intro f cp; simp only [outlineEnv, demoEnv]; split_ifs <;> decide)
      (by intro _ f r u; simp only [outlineEnv, List.length_append, List.length_cons,
            List.length_nil]; push_cast; omega)
      (by intro _ _; decide)⟩

/-- C6: for each of the four font-size selector codes and every text `t` (with or
without control codes), the string made of the selector followed by `t` measures what `t`
measures with that font as the current font. -/
theorem C6_font_selector_round_trip (env : Env) (g : Globals) (t : List Nat) :
    gfx_get_string_width env g (FORMAT_TINYFONT :: t)
        = gfx_get_string_width env { g with gCurrentFontSpriteBase := FONT_SPRITE_BASE_TINY } t
    ∧ gfx_get_string_width env g (FORMAT_SMALLFONT :: t)
        = gfx_get_string_width env { g with gCurrentFontSpriteBase := FONT_SPRITE_BASE_SMALL } t
    ∧ gfx_get_string_width env g (FORMAT_MEDIUMFONT :: t)
        = gfx_get_string_width env { g with gCurrentFontSpriteBase := FONT_SPRITE_BASE_MEDIUM } t
    ∧ gfx_get_string_width env g (FORMAT_BIGFONT :: t)
        = gfx_get_string_width env { g with gCurrentFontSpriteBase := FONT_SPRITE_BASE_BIG } t :=
  ⟨measure_font_selector env g _ _ t (by decide) (by decide) (fun _ _ _ => rfl),
   measure_font_selector env g _ _ t (by decide) (by decide) (fun _ _ _ => rfl),
   measure_font_selector env g _ _ t (by decide) (by decide) (fun _ _ _ => rfl),
   measure_font_selector env g _ _ t (by decide) (by decide) (fun _ _ _ => rfl)⟩

set_option maxRecDepth 100000 in
/-- C7, as stated, fails: 512 letters `A` followed by a newline code form a string in
which the one control code has all its (zero) argument bytes, yet the glyph run of 512
bytes does not fit `utf8 buffer[512]` with its terminator, and measuring gives no width. -/
theorem C7_counterexample :
    gfx_get_string_width demoEnv demoGlobals (List.replicate 512 65 ++ [5, 0]) = none := by
  decide

/-- C7 (amended): for every well-formed string (whole codepoints, each control code
followed by the argument bytes the interpreter consumes) in which every glyph run that
ends in front of another token has at most 511 bytes, whatever follows the terminator:
`gfx_get_string_width` returns a width, and the loop of `ttf_process_string` needs no
more turns than the string has bytes (every turn consumes at least one byte): with any
larger number of turns allowed it returns the same result. -/
theorem C7_measure_total (env : Env) (g : Globals) (toks : List (List Nat)) (tail : List Nat)
    (ht : ∀ t ∈ toks, is_token t = true)
    (hfit : runs_fit env (is_ttf (measure_info g)) toks) :
    (∃ w, gfx_get_string_width env g (toks.flatten ++ 0 :: tail) = some w)
    ∧ ∀ fuel, (toks.flatten ++ 0 :: tail).length < fuel →
        ttf_process_string_loop env g (is_ttf (measure_info g)) fuel nullDpi
            (toks.flatten ++ 0 :: tail) (measure_info g)
          = ttf_process_string env g nullDpi (toks.flatten ++ 0 :: tail) (measure_info g) := by
  refine ⟨?_, ?_⟩
  · have h := ttf_process_string_isSome_of_runs_fit env g toks.length toks (le_refl _) ht
      nullDpi (measure_info g) hfit
    rw [gfx_get_string_width_agree env g toks (0 :: tail) ht rfl]
    unfold gfx_get_string_width ttf_get_string_width
    cases hr : ttf_process_string env g nullDpi toks.flatten (measure_info g) with
    | none => rw [hr] at h; cases h
    | some s => exact ⟨s.2.maxX, rfl⟩
  · intro fuel hf
    unfold ttf_process_string
    exact process_loop_fuel env g _ _ _ _ _ _ rfl hf (by omega)

/-- C7 witness: `A`, a newline code, `B`. -/
theorem C7_measure_total_witness :
    (∃ w, gfx_get_string_width demoEnv demoGlobals ([[65], [5], [66]].flatten ++ 0 :: []) = some w)
    ∧ ∀ fuel, ([[65], [5], [66]].flatten ++ 0 :: []).length < fuel →
        ttf_process_string_loop demoEnv demoGlobals (is_ttf (measure_info demoGlobals)) fuel
            nullDpi ([[65], [5], [66]].flatten ++ 0 :: []) (measure_info demoGlobals)
          = ttf_process_string demoEnv demoGlobals nullDpi ([[65], [5], [66]].flatten ++ 0 :: [])
              (measure_info demoGlobals) :=
  C7_measure_total demoEnv demoGlobals [[65], [5], [66]] [] (by decide)
    (runs_fit_of_length _ _ _ (by decide))

/-- C3 (as written, refuted): the text `WW` is a single unbreakable token, and wrapped to
width 6 in a font whose `W` is 10 pixels wide it gives the two lines `W` and `W`; each
measures 10, so two lines exceed the width, not one. And in the text `a`, a move-x code
with the argument 200, a space and `W`, wrapped to width 20, each word fits the width (`a`
measures 6, `W` 10), but the control code is not measured when it is stepped over: the
line is ended at the space and holds `a` and the code, which measure 200. -/
theorem C3_counterexample :
    (gfx_wrap_string demoEnv demoGlobals [87, 87, 0, 0] 6
        = some { text := [87, 0, 87, 0], width := 20, numLines := 1, fontHeight := 224 }
      ∧ wrapped_lines 1 [87, 0, 87, 0] = [[87], [87]]
      ∧ gfx_get_string_width demoEnv demoGlobals [87] = some 10)
    ∧ (gfx_wrap_string demoEnv demoGlobals [97, 1, 200, 32, 87, 0, 0] 20
        = some { text := [97, 1, 200, 0, 87, 0, 0], width := 10, numLines := 1,
                 fontHeight := 224 }
      ∧ wrapped_lines 1 [97, 1, 200, 0, 87, 0, 0] = [[97, 1, 200], [87]]
      ∧ gfx_get_string_width demoEnv demoGlobals [97, 1, 200] = some 200
      ∧ gfx_get_string_width demoEnv demoGlobals [97] = some 6) := by
  decide

/-- C3 (amended): for a well-formed text (whole codepoints and control codes with their
argument bytes, 0-terminated) and every width `W`, `gfx_wrap_string` gives a result when
the text has at most 512 bytes, and the lines of a result (the terminated segments of the
buffer it leaves, one more than the line breaks counted) are lists of tokens of the text in
which every literal codepoint is the first literal codepoint of its line, or the line up to
and with that codepoint measures at most `W`. So a line that ends in a literal codepoint is
that one codepoint with control codes in front of it at most, or measures at most `W`; and
a line of a text without control codes is empty, or a single codepoint, or measures at most
`W`. -/
theorem C3_wrap_lines_fit (env : Env) (g : Globals) (toks : List (List Nat))
    (tail : List Nat) (width : Int) (hwt : ∀ t ∈ toks, is_wrap_token t = true) :
    (toks.flatten.length ≤ 512 →
        ∃ r, gfx_wrap_string env g (toks.flatten ++ 0 :: tail) width = some r)
      ∧ ∀ r, gfx_wrap_string env g (toks.flatten ++ 0 :: tail) width = some r →
        ∃ lines : List (List (List Nat)),
          scanned_lines r.numLines.toNat r.text = some (lines.map List.flatten)
            ∧ ((∀ t ∈ toks, ∀ b ∈ t, b ≠ 0) →
                wrapped_lines r.numLines.toNat r.text = lines.map List.flatten)
            ∧ lines.length = r.numLines.toNat + 1
            ∧ (∀ l ∈ lines, ∀ t ∈ l, t ∈ toks)
            ∧ (∀ l ∈ lines, ∀ a t c, l = a ++ t :: c → is_literal_token t = true →
                (∀ u ∈ a, is_literal_token u = false)
                  ∨ ∃ w, gfx_get_string_width env g (a ++ [t]).flatten = some w ∧ w ≤ width)
            ∧ (∀ l ∈ lines, ∀ a t, l = a ++ [t] → is_literal_token t = true →
                (∀ u ∈ a, is_literal_token u = false)
                  ∨ ∃ w, gfx_get_string_width env g l.flatten = some w ∧ w ≤ width)
            ∧ ((∀ t ∈ toks, is_literal_token t = true) →
                ∀ l ∈ lines, l = [] ∨ (∃ t, l = [t])
                  ∨ ∃ w, gfx_get_string_width env g l.flatten = some w ∧ w ≤ width) := by
  refine ⟨(gfx_wrap_string_trace env g width toks tail hwt).1, ?_⟩
  intro r hr
  obtain ⟨lines, h1, h2, h3, h4, h5⟩ := gfx_wrap_string_fit_lines env g width toks tail hwt r hr
  have h6 : ∀ l ∈ lines, ∀ a t, l = a ++ [t] → is_literal_token t = true →
      (∀ u ∈ a, is_literal_token u = false)
        ∨ ∃ w, gfx_get_string_width env g l.flatten = some w ∧ w ≤ width := by
    intro l hl a t e ht
    have := h5 l hl a t [] e ht
    rw [e]
    exact this
  refine ⟨lines, h1, h2, h3, h4, h5, h6, ?_⟩
  intro hlit l hl
  rcases List.eq_nil_or_concat l with e | ⟨a, t, e⟩
  · exact Or.inl e
  · rw [List.concat_eq_append] at e
    have ht : is_literal_token t = true := hlit t (h4 l hl t (by rw [e]; simp))
    rcases h6 l hl a t e ht with h | h
    · right; left
      cases a with
      | nil => exact ⟨t, e⟩
      | cons x a =>
        have hx := h x (List.mem_cons_self _ _)
        rw [hlit x (h4 l hl x (by rw [e]; simp))] at hx
        cases hx
    · exact Or.inr (Or.inr h)

/-- C3 witness: `a`, a move-x code with the argument 200, a space and `W` wrapped to width
20: the lines are `a` with the code, and `W`. -/
theorem C3_wrap_lines_fit_witness :
    (∀ t ∈ [[97], [1, 200], [32], [87]], is_wrap_token t = true)
      ∧ gfx_wrap_string demoEnv demoGlobals
          (([[97], [1, 200], [32], [87]] : List (List Nat)).flatten ++ 0 :: [0]) 20
          = some { text := [97, 1, 200, 0, 87, 0, 0], width := 10, numLines := 1,
                   fontHeight := 224 }
      ∧ ∃ lines : List (List (List Nat)),
          wrapped_lines 1 [97, 1, 200, 0, 87, 0, 0] = lines.map List.flatten
            ∧ ∀ l ∈ lines, ∀ a t, l = a ++ [t] → is_literal_token t = true →
                (∀ u ∈ a, is_literal_token u = false)
                  ∨ ∃ w, gfx_get_string_width demoEnv demoGlobals l.flatten = some w
                      ∧ w ≤ 20 := by
  refine ⟨by decide, by decide, ?_⟩
  obtain ⟨lines, -, h2, -, -, -, h6, -⟩ :=
    (C3_wrap_lines_fit demoEnv demoGlobals [[97], [1, 200], [32], [87]] [0] 20
      (by decide)).2
      { text := [97, 1, 200, 0, 87, 0, 0], width := 10, numLines := 1, fontHeight := 224 }
      (by decide)
  exact ⟨lines, h2 (by decide), h6⟩

/-- C4 (as written, refuted): the text "WWW" is a single unbreakable token that measures
30, more than the width 25, and `gfx_wrap_string` breaks it into the two lines "WW" and
"W": it reports one line break, not zero. -/
theorem C4_counterexample :
    gfx_get_string_width demoEnv demoGlobals [87, 87, 87, 0, 0] = some 30
      ∧ gfx_wrap_string demoEnv demoGlobals [87, 87, 87, 0, 0] 25
        = some { text := [87, 87, 0, 87, 0], width := 30, numLines := 1, fontHeight := 224 } := by
  decide

/-- C4 (amended): for a text of at most 512 bytes made of plain codepoints without a space
or a control code, `gfx_wrap_string` gives a result; when the text is one codepoint it
reports zero line breaks and leaves the buffer as it was, whatever the width; when the
text has two or more codepoints and measures more than `W` it reports at least one line
break. -/
theorem C4_unbreakable_token_lines (env : Env) (g : Globals) (toks : List (List Nat))
    (tail : List Nat) (width : Int) (hct : ∀ t ∈ toks, is_char_token t = true)
    (hns : ∀ t ∈ toks, is_space_token t = false) (hlen : toks.flatten.length ≤ 512) :
    ∃ r, gfx_wrap_string env g (toks.flatten ++ 0 :: tail) width = some r
      ∧ (toks.length = 1 → r.numLines = 0 ∧ r.text = toks.flatten ++ 0 :: tail)
      ∧ (2 ≤ toks.length →
          (∀ w, gfx_get_string_width env g toks.flatten = some w → width < w) →
          1 ≤ r.numLines) := by
  obtain ⟨h1, h2⟩ := gfx_wrap_string_spec env g width toks tail hct
  obtain ⟨r, hr⟩ := h1 hlen
  refine ⟨r, hr, ?_, ?_⟩
  · intro hone
    obtain ⟨t, rfl⟩ := List.length_eq_one.1 hone
    have hl : t.length ≤ 512 := by simpa using hlen
    obtain ⟨r1, hr1, hn, ht⟩ := wrap_single_token env g width t tail
      (hct t (by simp)) (hns t (by simp)) hl
    simp only [List.flatten_cons, List.flatten_nil, List.append_nil] at hr ⊢
    rw [hr1] at hr
    cases hr
    exact ⟨hn, ht⟩
  · intro htwo hwide
    obtain ⟨s, v, hinv, hrest, -, hnum⟩ := h2 r hr
    obtain ⟨-, -, -, -, -, hlok, -, hnl, hcons, -⟩ := hinv
    rw [hnum, hnl]
    by_contra hlt
    have hnil : v.lines = [] := by
      cases hv : v.lines with
      | nil => rfl
      | cons a l =>
        rw [hv] at hlt
        simp at hlt
    rw [hnil, hrest] at hcons
    simp only [lines_tokens, List.map_nil, List.flatten_nil, List.nil_append,
      List.append_nil] at hcons
    rw [← hcons] at hlok
    rcases hlok with h | ⟨t, h⟩ | ⟨w, hw, hle⟩
    · rw [h] at htwo; simp at htwo
    · rw [h] at htwo; simp at htwo
    · have := hwide w hw
      omega

/-- C4 witness: `WWW` (30 pixels) wrapped to width 25. -/
theorem C4_unbreakable_token_lines_witness :
    (∀ t ∈ [[87], [87], [87]], is_char_token t = true)
      ∧ (∀ t ∈ [[87], [87], [87]], is_space_token t = false)
      ∧ ([[87], [87], [87]] : List (List Nat)).flatten.length ≤ 512
      ∧ ∃ r, gfx_wrap_string demoEnv demoGlobals
            (([[87], [87], [87]] : List (List Nat)).flatten ++ 0 :: [0]) 25 = some r
          ∧ (([[87], [87], [87]] : List (List Nat)).length = 1 →
              r.numLines = 0
                ∧ r.text = ([[87], [87], [87]] : List (List Nat)).flatten ++ 0 :: [0])
          ∧ (2 ≤ ([[87], [87], [87]] : List (List Nat)).length →
              (∀ w, gfx_get_string_width demoEnv demoGlobals
                  ([[87], [87], [87]] : List (List Nat)).flatten = some w → 25 < w) →
              1 ≤ r.numLines) :=
  ⟨by decide, by decide, by decide,
    C4_unbreakable_token_lines demoEnv demoGlobals [[87], [87], [87]] [0] 25
      (by decide) (by decide) (by decide)⟩

/-- C11: the code at the failing input. `WWW` measures 30; clipped to 12 not even `W...`
(16) fits, the buffer is cut to `...`, which measures 6, and the call returns 30, the
width of the text before the cut. -/
theorem C11_returned_width_is_stale :
    gfx_clip_string demoEnv demoGlobals [87, 87, 87, 0, 0, 0, 0] 12
        = some ([46, 46, 46, 0, 0, 0, 0], 30)
      ∧ gfx_get_string_width demoEnv demoGlobals [46, 46, 46, 0, 0, 0, 0] = some 6 := by
  decide

set_option maxRecDepth 100000 in
/-- C12: in a state of the loop of `gfx_wrap_string` that agrees with the trace `v` (as
every state the loop reaches on a well-formed text does), let the next token `t` be a
literal codepoint that makes the line measure more than `width`, and let the line with `t`
hold a space, `l1` being the tokens in front of the last space and `l2` those behind it.
Then the turn ends the line at that space: the byte 32 is overwritten by the terminator, a
line is counted, and the next line starts at the byte behind the terminator, so that `l2`
is placed again. For `The quick brown fox` at width 40, words of 12 pixels and spaces of 4,
the one break is behind `quick`. -/
theorem C12_break_at_last_space (env : Env) (g : Globals) (width : Int)
    (toks : List (List Nat)) (s : wrap_state) (v : wrap_trace) (t : List Nat)
    (rest' l1 l2 : List (List Nat)) (lw : Int)
    (hwt : ∀ u ∈ toks, is_wrap_token u = true)
    (hinv : trace_inv toks s v) (hrest : v.rest = t :: rest')
    (ht : is_literal_token t = true) (hsplit : v.line ++ [t] = l1 ++ [32] :: l2)
    (hl2 : ∀ u ∈ l2, is_space_token u = false)
    (hm : gfx_get_string_width env g (v.line ++ [t]).flatten = some lw) (hover : width < lw) :
    (∃ s1, gfx_wrap_string_step env g width s = some (s1, true)
        ∧ s.text = trace_bytes v.lines
            ++ (l1.flatten ++ 32 :: ((l2 ++ rest').flatten ++ 0 :: v.tail))
        ∧ s1.text = trace_bytes v.lines
            ++ (l1.flatten ++ 0 :: ((l2 ++ rest').flatten ++ 0 :: v.tail))
        ∧ s1.firstCh = (trace_bytes v.lines).length + l1.flatten.length + 1
        ∧ s1.ch = s1.firstCh
        ∧ s1.outNumLines = s.outNumLines + 1
        ∧ trace_inv toks s1 ⟨v.lines ++ [(l1, some [32])], [], l2 ++ rest', v.tail⟩)
      ∧ gfx_wrap_string foxEnv demoGlobals
          [84, 104, 101, 32, 113, 117, 105, 99, 107, 32, 98, 114, 111, 119, 110, 32, 102, 111,
            120, 0] 40
        = some { text := [84, 104, 101, 32, 113, 117, 105, 99, 107, 0, 98, 114, 111, 119, 110,
                   32, 102, 111, 120, 0],
                 width := 28, numLines := 1, fontHeight := 224 } := by
  refine ⟨?_, by decide⟩
  have ht32 : (utf8_get_next t).1 = 32 → t = [32] := by
    intro h32
    have hw := trace_mem toks hwt s v hinv t (by rw [hrest]; simp)
    rcases wrap_token_kinds t hw with h | h | h
    · exact h.2 h32
    · rw [h] at ht
      exact absurd ht (by decide)
    · rw [code_token_not_literal t h.1] at ht
      cases ht
  obtain ⟨s1, e1, hinv1⟩ := wrap_step_word_break env g width toks hwt s v t rest' l1 l2 lw hinv
    hrest ht ht32 hsplit hl2 hm hover
  have hinv1' := hinv1
  obtain ⟨h1, h2, h3, -, -, h7, -⟩ := hinv1
  refine ⟨s1, e1, ?_, ?_, ?_, ?_, ?_, hinv1'⟩
  · have e : v.line.flatten ++ t = (l1 ++ [32] :: l2).flatten := by
      rw [← hsplit]; simp
    rw [hinv.1, trace_text, hrest, List.flatten_cons, List.append_assoc t,
      ← List.append_assoc v.line.flatten, e]
    simp
  · rw [h1]
    simp [trace_text, trace_bytes_snoc]
  · rw [h2, trace_bytes_snoc]
    simp only [List.length_append, List.length_cons, List.length_nil]
    omega
  · rw [h3, h2]
    simp
  · rw [h7, hinv.2.2.2.2.2.1]
    simp

/-- C12 witness: `W WW` at width 25 in the demonstration font, behind three placed
codepoints: `W W` measures 24, the next `W` makes it 34, and the line is ended at the
space. -/
theorem C12_break_at_last_space_witness :
    ∃ s1, gfx_wrap_string_step demoEnv demoGlobals 25
          (⟨[87, 32, 87, 87, 0], 24, 0, 0, some 1, 10, 3, 0, 4⟩ : wrap_state) = some (s1, true)
      ∧ s1.text = [87, 0, 87, 87, 0] ∧ s1.firstCh = 2 ∧ s1.ch = 2 ∧ s1.outNumLines = 1 :=
  have hinv : trace_inv [[87], [32], [87], [87]]
      (⟨[87, 32, 87, 87, 0], 24, 0, 0, some 1, 10, 3, 0, 4⟩ : wrap_state)
      ⟨[], [[87], [32], [87]], [[87]], []⟩ :=
    ⟨by decide, by decide, by decide, by decide,
      ⟨[[87]], [[87]], by decide, by decide, by decide⟩,
      by decide, by decide, (by intro l hl; cases hl), (by intro l hl; cases hl), by decide⟩
  have h := (C12_break_at_last_space demoEnv demoGlobals 25 [[87], [32], [87], [87]]
    (⟨[87, 32, 87, 87, 0], 24, 0, 0, some 1, 10, 3, 0, 4⟩ : wrap_state)
    ⟨[], [[87], [32], [87]], [[87]], []⟩ [87] [] [[87]] [[87], [87]] 34 (by decide) hinv rfl
    (by decide) (by decide) (by decide) (by decide) (by decide)).1
  h.imp (fun _ h => ⟨h.1, h.2.2.1.trans (by decide), h.2.2.2.1.trans (by decide),
    (h.2.2.2.2.1.trans h.2.2.2.1).trans (by decide), h.2.2.2.2.2.1.trans (by decide)⟩)

/-- C13: for every well-formed text (whole codepoints and control codes with their
argument bytes; `FORMAT_NEWLINE` is the newline code) and every width, `gfx_wrap_string`
gives a result when the text has at most 512 bytes, and a result is the text cut into
lines, each ended line with the token its terminator has overwritten (or none, for an
inserted terminator): no line holds a newline code, so every newline code of the text has
been overwritten by a terminator, and the lines that were ended at a newline code are as
many as the text has newline codes; each counts once in `*outNumLines`, the number of
ended lines. -/
theorem C13_newline_ends_line (env : Env) (g : Globals) (toks : List (List Nat))
    (tail : List Nat) (width : Int) (hwt : ∀ t ∈ toks, is_wrap_token t = true) :
    (toks.flatten.length ≤ 512 →
        ∃ r, gfx_wrap_string env g (toks.flatten ++ 0 :: tail) width = some r)
      ∧ ∀ r, gfx_wrap_string env g (toks.flatten ++ 0 :: tail) width = some r →
        ∃ lines last tail', toks = trace_tokens lines ++ last
          ∧ r.text = trace_bytes lines ++ (last.flatten ++ 0 :: tail')
          ∧ r.numLines = lines.length
          ∧ (∀ l ∈ lines, [FORMAT_NEWLINE] ∉ l.1) ∧ [FORMAT_NEWLINE] ∉ last
          ∧ lines.countP (fun l => l.2 == some [FORMAT_NEWLINE])
              = toks.count [FORMAT_NEWLINE] := by
  refine ⟨(gfx_wrap_string_trace env g width toks tail hwt).1, ?_⟩
  intro r hr
  obtain ⟨lines, last, tail', h1, h2, h3, hsep, hlc, hc, -⟩ :=
    gfx_wrap_string_lines env g width toks tail hwt r hr
  refine ⟨lines, last, tail', h1, h2, h3, hlc, hc, ?_⟩
  rw [h1, List.count_append, count_newline_trace_tokens lines hsep hlc,
    List.count_eq_zero.2 hc, Nat.add_zero]

/-- C13 witness: `ab`, newline, `c WW`, newline, newline, `d` at width 20. -/
theorem C13_newline_ends_line_witness :
    (∀ t ∈ [[97], [98], [5], [99], [32], [87], [87], [5], [5], [100]], is_wrap_token t = true)
      ∧ ∃ r, gfx_wrap_string demoEnv demoGlobals
          ([[97], [98], [5], [99], [32], [87], [87], [5], [5], [100]].flatten ++ 0 :: [0, 0]) 20
          = some r :=
  ⟨by decide,
    (C13_newline_ends_line demoEnv demoGlobals
      [[97], [98], [5], [99], [32], [87], [87], [5], [5], [100]] [0, 0] 20 (by decide)).1
      (by decide)⟩

/-- C14: the code at the failing input. `abcdef`, six glyphs of 6 pixels, wrapped to
width 20 gives the lines `abc` and `def`, which measure 18 each, and the call returns 24:
the width measured with the fourth glyph, which went to the next line. -/
theorem C14_returned_width_counts_overflowing_glyph :
    gfx_wrap_string demoEnv demoGlobals [97, 98, 99, 100, 101, 102, 0, 0] 20
        = some { text := [97, 98, 99, 0, 100, 101, 102, 0], width := 24, numLines := 1,
                 fontHeight := 224 }
      ∧ wrapped_lines 1 [97, 98, 99, 0, 100, 101, 102, 0] = [[97, 98, 99], [100, 101, 102]]
      ∧ gfx_get_string_width demoEnv demoGlobals [97, 98, 99] = some 18
      ∧ gfx_get_string_width demoEnv demoGlobals [100, 101, 102] = some 18 := by
  decide

/-- C15: for every well-formed text and every width, a result of `gfx_wrap_string` is
`*outNumLines` ended lines, each followed by the terminator that was written for it (over
a space, over a newline code, or inserted), and one more line that ends at the terminator
of the text: a reader that goes from line to line with `get_string_end` finds exactly
`*outNumLines + 1` lines, which are the text without the overwritten tokens; when no token
holds a zero byte the terminators are the only zero bytes in front of the last line and a
reader that stops at the first zero byte finds the same lines. There is a result when the
text has at most 512 bytes; for the empty text the count is 0, the returned width is 0 and
the buffer is as it was. -/
theorem C15_line_count (env : Env) (g : Globals) (toks : List (List Nat)) (tail : List Nat)
    (width : Int) (hwt : ∀ t ∈ toks, is_wrap_token t = true) :
    (toks.flatten.length ≤ 512 →
        ∃ r, gfx_wrap_string env g (toks.flatten ++ 0 :: tail) width = some r)
      ∧ (∀ r, gfx_wrap_string env g (toks.flatten ++ 0 :: tail) width = some r →
        ∃ lines last tail', r.text = trace_bytes lines ++ (last.flatten ++ 0 :: tail')
          ∧ r.numLines = lines.length
          ∧ (∀ l ∈ lines, l.2 = none ∨ l.2 = some [32] ∨ l.2 = some [FORMAT_NEWLINE])
          ∧ toks = trace_tokens lines ++ last
          ∧ scanned_lines r.numLines.toNat r.text
              = some (lines.map (fun l => l.1.flatten) ++ [last.flatten])
          ∧ ((∀ t ∈ toks, ∀ b ∈ t, b ≠ 0) →
              (trace_bytes lines).count 0 = lines.length
                ∧ (∀ b ∈ last.flatten, b ≠ 0)
                ∧ wrapped_lines r.numLines.toNat r.text
                    = lines.map (fun l => l.1.flatten) ++ [last.flatten]))
      ∧ gfx_wrap_string env g (0 :: tail) width
          = some { text := 0 :: tail, width := 0, numLines := 0,
                   fontHeight := g.gCurrentFontSpriteBase } := by
  refine ⟨(gfx_wrap_string_trace env g width toks tail hwt).1, ?_, wrap_empty env g tail width⟩
  intro r hr
  obtain ⟨lines, last, tail', h1, h2, h3, hsep, hlc, hc, hscan, hz⟩ :=
    gfx_wrap_string_lines env g width toks tail hwt r hr
  refine ⟨lines, last, tail', h2, h3, ?_, h1, hscan, ?_⟩
  · intro l hl
    rcases hsep l hl with h | h | h
    · exact Or.inl h.1
    · exact Or.inr (Or.inl h)
    · exact Or.inr (Or.inr h)
  · intro hzero
    refine ⟨(hz hzero).1, ?_, (hz hzero).2⟩
    apply flatten_nonzero
    intro t ht
    apply hzero
    rw [h1]
    exact List.mem_append_right _ ht

/-- C15 witness: `a`, an inline sprite, a space, `W`, a control code, `W`, a newline code
and `b` at width 20, the sprite being 16 pixels wide. -/
theorem C15_line_count_witness :
    (∀ t ∈ [[97], [23, 5, 0, 0, 0], [32], [87], [6], [87], [5], [98]], is_wrap_token t = true)
      ∧ ∃ r, gfx_wrap_string spriteEnv demoGlobals
          ([[97], [23, 5, 0, 0, 0], [32], [87], [6], [87], [5], [98]].flatten ++ 0 :: [0]) 20
            = some r :=
  ⟨by decide,
    (C15_line_count spriteEnv demoGlobals
      [[97], [23, 5, 0, 0, 0], [32], [87], [6], [87], [5], [98]] [0] 20 (by decide)).1
      (by decide)⟩

/-- C17: in measure-only mode (the no-draw flag set) the inline-sprite code, whose four
argument bytes name an existing sprite, consumes the code and the four bytes, leaves the
surface untouched and adds the declared width of the sprite to the cursor; measured on its
own, such a code gives the width of the sprite (when that is not negative). -/
theorem C17_inline_sprite_measure (env : Env) (g : Globals) (dpi : rct_drawpixelinfo)
    (b0 b1 b2 b3 : Nat) (rest : List Nat) (info : text_draw_info) (e : rct_g1_element)
    (hnd : info.flags &&& TEXT_DRAW_FLAG_NO_DRAW ≠ 0)
    (hg : env.gfx_get_g1_element
      ((b0 % 256 + (b1 % 256) * 2 ^ 8 + (b2 % 256) * 2 ^ 16 + (b3 % 256) * 2 ^ 24)
        &&& 0x7FFFF) = some e) :
    ttf_process_format_code env g dpi (FORMAT_INLINE_SPRITE :: b0 :: b1 :: b2 :: b3 :: rest) info
        = (rest, dpi, { info with x := info.x + e.width })
      ∧ (0 ≤ e.width →
          gfx_get_string_width env g (FORMAT_INLINE_SPRITE :: b0 :: b1 :: b2 :: b3 :: 0 :: rest)
            = some e.width) := by
  have hstep : ∀ (d : rct_drawpixelinfo) (R : List Nat) (i : text_draw_info),
      i.flags &&& TEXT_DRAW_FLAG_NO_DRAW ≠ 0 →
      ttf_process_format_code env g d (FORMAT_INLINE_SPRITE :: b0 :: b1 :: b2 :: b3 :: R) i
        = (R, d, { i with x := i.x + e.width }) := by
    intro d R i hi
    have h1 : utf8_get_next (FORMAT_INLINE_SPRITE :: b0 :: b1 :: b2 :: b3 :: R) = (23, 1) :=
      utf8_get_next_ascii 23 _ (by decide)
    unfold ttf_process_format_code
    rw [h1]
    simp only [ttf_process_format_code_switch, FORMAT_INLINE_SPRITE, FORMAT_MOVE_X,
      FORMAT_ADJUST_PALETTE, FORMAT_3, FORMAT_4, FORMAT_NEWLINE, FORMAT_NEWLINE_SMALLER,
      FORMAT_TINYFONT, FORMAT_SMALLFONT, FORMAT_MEDIUMFONT, FORMAT_BIGFONT, FORMAT_OUTLINE,
      FORMAT_OUTLINE_OFF, FORMAT_WINDOW_COLOUR_1, FORMAT_WINDOW_COLOUR_2,
      FORMAT_WINDOW_COLOUR_3, FORMAT_16, List.drop_succ_cons, List.drop_zero, byteAt,
      List.getD_cons_zero, List.getD_cons_succ]
    simp only [show (23 : Nat) = 1 ↔ False by decide, show (23 : Nat) = 2 ↔ False by decide,
      show (23 : Nat) = 3 ↔ False by decide, show (23 : Nat) = 4 ↔ False by decide,
      show (23 : Nat) = 5 ↔ False by decide, show (23 : Nat) = 6 ↔ False by decide,
      show (23 : Nat) = 7 ↔ False by decide, show (23 : Nat) = 8 ↔ False by decide,
      show (23 : Nat) = 9 ↔ False by decide, show (23 : Nat) = 10 ↔ False by decide,
      show (23 : Nat) = 11 ↔ False by decide, show (23 : Nat) = 12 ↔ False by decide,
      show (23 : Nat) = 13 ↔ False by decide, show (23 : Nat) = 14 ↔ False by decide,
      show (23 : Nat) = 15 ↔ False by decide, show (23 : Nat) = 16 ↔ False by decide,
      or_self, if_false, if_true]
    rw [hg]
    simp only [if_neg hi]
  refine ⟨hstep dpi rest info hnd, ?_⟩
  intro hw
  unfold gfx_get_string_width ttf_get_string_width
  have h1 : utf8_get_next (FORMAT_INLINE_SPRITE :: b0 :: b1 :: b2 :: b3 :: 0 :: rest)
      = (23, 1) := utf8_get_next_ascii 23 _ (by decide)
  rw [ttf_process_string_code env g _ _ _ (by rw [h1]; decide) (by rw [h1]; decide),
    hstep nullDpi (0 :: rest) (measure_info g) (no_draw_measure_info g)]
  rw [ttf_process_string_zero env g _ _ _ (utf8_get_next_of_head_zero (0 :: rest) rfl ▸ rfl)]
  simp [update_extents, measure_info, hw]

/-- C17 witness: the sprite store holds image 5, 16 pixels wide; the code with the image id
5 advances the cursor of the measuring context by 16. -/
theorem C17_inline_sprite_measure_witness :
    ttf_process_format_code spriteEnv demoGlobals nullDpi [23, 5, 0, 0, 0, 65, 0]
        (measure_info demoGlobals)
        = ([65, 0], nullDpi, { measure_info demoGlobals with x := 16 })
      ∧ gfx_get_string_width spriteEnv demoGlobals [23, 5, 0, 0, 0, 0, 65, 0] = some 16 :=
  have h := C17_inline_sprite_measure spriteEnv demoGlobals nullDpi 5 0 0 0 [65, 0]
    (measure_info demoGlobals) ⟨[], 16⟩ (by decide) (by rfl)
  ⟨h.1, h.2 (by decide)⟩

/-- C18: with the sprite backend (the true-type flag not set in the measuring context),
for every text of literal codepoints with no control code, whatever follows its
terminator, and glyph widths of the current font that are not negative:
`gfx_get_string_width` returns the sum over the codepoints of
`font_sprite_get_codepoint_width` for the current font, and interpreting the text in the
measuring context leaves any surface as it was (no glyph is drawn). -/
theorem C18_sprite_backend_width (env : Env) (g : Globals) (toks : List (List Nat))
    (tail : List Nat) (hl : ∀ t ∈ toks, is_literal_token t = true)
    (hs : is_ttf (measure_info g) = false)
    (hw : ∀ c, 0 ≤ env.font_sprite_get_codepoint_width g.gCurrentFontSpriteBase c) :
    gfx_get_string_width env g (toks.flatten ++ 0 :: tail)
        = some (sprite_width env g.gCurrentFontSpriteBase (codepoints toks))
      ∧ ∀ dpi, (ttf_process_string env g dpi (toks.flatten ++ 0 :: tail) (measure_info g)).map
          Prod.fst = some dpi := by
  by_cases hne : toks = []
  · subst hne
    have h0 : ∀ dpi, ttf_process_string env g dpi (([] : List (List Nat)).flatten ++ 0 :: tail)
        (measure_info g) = some (dpi, measure_info g) := fun dpi =>
      ttf_process_string_zero env g dpi _ _ (by rw [List.flatten_nil, List.nil_append, utf8_get_next_of_head_zero (0 :: tail) rfl])
    refine ⟨?_, fun dpi => by rw [h0 dpi]; rfl⟩
    unfold gfx_get_string_width ttf_get_string_width
    rw [h0 nullDpi]
    rfl
  · have h := fun dpi => process_literals_sprite env g dpi (measure_info g) toks (0 :: tail) hl
      hne hs (no_draw_measure_info g) rfl
    refine ⟨?_, fun dpi => by rw [h dpi]; rfl⟩
    unfold gfx_get_string_width ttf_get_string_width
    rw [h nullDpi]
    have hnn := sprite_width_nonneg env g.gCurrentFontSpriteBase hw (codepoints toks)
    simp [update_extents, measure_info, hnn]

/-- C18 witness: `aW.` in the demonstration font measures 6 + 10 + 2. -/
theorem C18_sprite_backend_width_witness :
    gfx_get_string_width demoEnv demoGlobals ([[97], [87], [46]].flatten ++ 0 :: [])
        = some (sprite_width demoEnv demoGlobals.gCurrentFontSpriteBase
            (codepoints [[97], [87], [46]]))
      ∧ sprite_width demoEnv demoGlobals.gCurrentFontSpriteBase (codepoints [[97], [87], [46]])
        = 18 :=
  ⟨(C18_sprite_backend_width demoEnv demoGlobals [[97], [87], [46]] [] (by decide) (by decide)
      (by intro c; simp only [demoEnv]; split_ifs <;> decide)).1,
    by decide⟩

set_option maxRecDepth 100000 in
/-- C16 (as written, refuted): a first line of 512 letters `A`, a newline code and the
line `B`. Each line has a width on its own, but the first line, which ends in front of a
control code, does not fit `utf8 buffer[512]` of `ttf_process_glyph_run` with its
terminator, and measuring the whole text gives no width. -/
theorem C16_counterexample :
    gfx_get_string_width demoEnv demoGlobals (List.replicate 512 65 ++ [5, 66, 0]) = none
      ∧ (∃ w, gfx_get_string_width demoEnv demoGlobals (List.replicate 512 [65]).flatten
          = some w)
      ∧ gfx_get_string_width demoEnv demoGlobals [66] = some 6 := by
  refine ⟨by decide, ?_, by decide⟩
  have h : ∀ t ∈ List.replicate 512 [65],
      in_run demoEnv (is_ttf (measure_info demoGlobals)) t = true := by
    intro t ht
    rw [List.eq_of_mem_replicate ht]
    decide
  have := measure_line demoEnv demoGlobals (List.replicate 512 [65]) [] h rfl
  rw [List.append_nil] at this
  exact ⟨_, this⟩

/-- C16 (amended): for every text made of lines of plain literal codepoints (each line one
glyph run) separated by newline or newline-smaller codes, every line in front of a newline
code having at most 511 bytes: each line measures its `line_width` on its own;
`gfx_get_string_width` of the whole text goes on behind every newline code and returns the
final `maxX`, which is the maximum of the widths of the lines; and each of the two newline
codes consumes one byte and sets the cursor `x` back to `startX`. -/
theorem C16_measure_lines (env : Env) (g : Globals) (first : List (List Nat))
    (more : List (Nat × List (List Nat))) (tail : List Nat)
    (hsep : ∀ p ∈ more, is_newline_code p.1 = true)
    (hfirst : ∀ t ∈ first, in_run env (is_ttf (measure_info g)) t = true)
    (hmore : ∀ p ∈ more, ∀ t ∈ p.2, in_run env (is_ttf (measure_info g)) t = true)
    (hfit : ∀ l ∈ (first :: more.map Prod.snd).dropLast, l.flatten.length ≤ 511) :
    (∀ l ∈ first :: more.map Prod.snd,
        gfx_get_string_width env g l.flatten = some (line_width env g l))
      ∧ gfx_get_string_width env g (lines_text first more ++ 0 :: tail)
        = some ((more.map (fun p => line_width env g p.2)).foldl max (line_width env g first))
      ∧ ∀ (dpi : rct_drawpixelinfo) (R : List Nat) (info : text_draw_info),
          ((ttf_process_format_code env g dpi (FORMAT_NEWLINE :: R) info).1 = R
            ∧ (ttf_process_format_code env g dpi (FORMAT_NEWLINE :: R) info).2.2.x = info.startX)
          ∧ (ttf_process_format_code env g dpi (FORMAT_NEWLINE_SMALLER :: R) info).1 = R
          ∧ (ttf_process_format_code env g dpi (FORMAT_NEWLINE_SMALLER :: R) info).2.2.x
              = info.startX := by
  refine ⟨?_, ?_, ?_⟩
  · intro l hl
    have h := measure_line env g l [] (by
      rcases List.mem_cons.1 hl with h | h
      · rw [h]; exact hfirst
      · obtain ⟨p, hp, rfl⟩ := List.mem_map.1 h
        exact hmore p hp) rfl
    rwa [List.append_nil] at h
  · obtain ⟨info1, he, hm⟩ := process_lines env g nullDpi tail more first (measure_info g)
      (measuring_context_measure_info g) hsep hfirst hmore hfit
    unfold gfx_get_string_width ttf_get_string_width
    rw [he]
    simp only [Option.map_some', hm]
    have : max (measure_info g).maxX (line_width env g first) = line_width env g first :=
      max_eq_right (line_width_nonneg env g first)
    rw [this]
  · intro dpi R info
    rw [newline_step, newline_smaller_step]
    exact ⟨⟨rfl, rfl⟩, rfl, rfl⟩

/-- C16 witness: the lines `ab`, `W` and `WW.` measure 12, 10 and 22 in the demonstration
font; joined by a newline and a newline-smaller code they measure 22. -/
theorem C16_measure_lines_witness :
    gfx_get_string_width demoEnv demoGlobals
        (lines_text [[97], [98]] [(5, [[87]]), (6, [[87], [87], [46]])] ++ 0 :: [])
        = some (([(5, [[87]]), (6, [[87], [87], [46]])].map
            (fun p => line_width demoEnv demoGlobals p.2)).foldl max
            (line_width demoEnv demoGlobals [[97], [98]]))
      ∧ lines_text [[97], [98]] [(5, [[87]]), (6, [[87], [87], [46]])]
          = [97, 98, 5, 87, 6, 87, 87, 46]
      ∧ ([(5, [[87]]), (6, [[87], [87], [46]])].map
            (fun p => line_width demoEnv demoGlobals p.2)).foldl max
            (line_width demoEnv demoGlobals [[97], [98]]) = 22 :=
  ⟨(C16_measure_lines demoEnv demoGlobals [[97], [98]] [(5, [[87]]), (6, [[87], [87], [46]])] []
      (by decide) (by decide) (by decide) (by decide)).2.1,
    by decide, by decide⟩

/-- C19: for every path whose measured width is at most `availableWidth`, and a buffer
size that holds the path with its terminator, `shorten_path` returns with the path and its
terminator at the start of the buffer, the bytes behind being as they were: the string in
the buffer is the path. -/
theorem C19_shorten_path_fits (env : Env) (g : Globals) (PATH_SEPARATOR : Nat)
    (buffer : List Nat) (bufferSize : Nat) (path : List Nat) (availableWidth w : Int)
    (hm : gfx_get_string_width env g path = some w) (hfit : w ≤ availableWidth)
    (hsize : (cstr path).length < bufferSize) :
    shorten_path env g PATH_SEPARATOR buffer bufferSize path availableWidth
        = some (cstr path ++ 0 :: buffer.drop ((cstr path).length + 1))
      ∧ cstr (cstr path ++ 0 :: buffer.drop ((cstr path).length + 1)) = cstr path := by
  refine ⟨?_, cstr_terminated _ _ (cstr_nonzero path)⟩
  unfold shorten_path
  simp only [hm, if_pos hfit]
  unfold safe_strcpy
  rw [if_neg (by omega), List.take_of_length_le (by omega), store_bytes_zero]
  simp

/-- C19 witness: `/ab/cd/W` measures 52 and is shortened to 60. -/
theorem C19_shorten_path_fits_witness :
    shorten_path demoEnv demoGlobals 92 (List.replicate 16 1) 16
        [47, 97, 98, 47, 99, 100, 47, 87, 0] 60
        = some (cstr [47, 97, 98, 47, 99, 100, 47, 87, 0]
            ++ 0 :: (List.replicate 16 1).drop ((cstr [47, 97, 98, 47, 99, 100, 47, 87, 0]).length + 1))
      ∧ cstr [47, 97, 98, 47, 99, 100, 47, 87, 0] = [47, 97, 98, 47, 99, 100, 47, 87] :=
  ⟨(C19_shorten_path_fits demoEnv demoGlobals 92 (List.replicate 16 1) 16
      [47, 97, 98, 47, 99, 100, 47, 87, 0] 60 52 (by decide) (by decide) (by decide)).1,
    by decide⟩

/-- C20 (as written, refuted): the path `/ab/cd/W` measures 52 and does not fit the width
20; no candidate fits either (the shortest, `.../W`, measures 22), and `shorten_path`
leaves the whole path in the buffer: the result does not start with three dots and does
not fit. -/
theorem C20_counterexample :
    gfx_get_string_width demoEnv demoGlobals [47, 97, 98, 47, 99, 100, 47, 87, 0] = some 52
      ∧ shorten_path demoEnv demoGlobals 92 (List.replicate 16 1) 16
          [47, 97, 98, 47, 99, 100, 47, 87, 0] 20
        = some [47, 97, 98, 47, 99, 100, 47, 87, 0, 47, 87, 0, 1, 1, 1, 1] := by
  decide

/-- C20 (amended): for every path of at most 509 bytes that does not fit (its tokens whole
codepoints or control codes without a zero byte, a separator byte being a token of its
own), and a buffer size that holds three dots, the path and a terminator: `shorten_path`
returns, and the string it leaves in the buffer is the three dots followed by the path
from a separator on, for the leftmost separator for which this measures at most
`availableWidth`, or the whole path when there is no such separator. In the first case the
string starts with the three dots, ends with an end of the path that begins at a
separator, and fits. -/
theorem C20_shorten_path_first_fitting (env : Env) (g : Globals) (PATH_SEPARATOR : Nat)
    (buffer : List Nat) (bufferSize : Nat) (toks : List (List Nat)) (tail : List Nat)
    (availableWidth w0 : Int)
    (ht : ∀ t ∈ toks, is_path_token PATH_SEPARATOR t = true)
    (hlen : toks.flatten.length + 3 ≤ 512) (hsize : toks.flatten.length + 4 ≤ bufferSize)
    (hm : gfx_get_string_width env g (toks.flatten ++ 0 :: tail) = some w0)
    (hover : availableWidth < w0) :
    ∃ out, shorten_path env g PATH_SEPARATOR buffer bufferSize (toks.flatten ++ 0 :: tail)
          availableWidth = some out
      ∧ cstr out = first_fitting env g availableWidth toks.flatten
          (path_suffixes PATH_SEPARATOR toks)
      ∧ ((∃ s ∈ path_suffixes PATH_SEPARATOR toks, candidate_fits env g availableWidth s = true) →
          ∃ pre t r w, toks = pre ++ t :: r ∧ is_separator_token PATH_SEPARATOR t = true
            ∧ cstr out = 46 :: 46 :: 46 :: (t :: r).flatten
            ∧ gfx_get_string_width env g (cstr out) = some w ∧ w ≤ availableWidth)
      ∧ ((∀ s ∈ path_suffixes PATH_SEPARATOR toks, candidate_fits env g availableWidth s = false) →
          cstr out = toks.flatten) := by
  obtain ⟨out, h1, h2⟩ := shorten_path_spec env g PATH_SEPARATOR buffer bufferSize toks tail
    availableWidth w0 ht hlen hsize hm hover
  refine ⟨out, h1, h2, ?_, ?_⟩
  · rintro ⟨s0, hs0, hfit0⟩
    cases hf : (path_suffixes PATH_SEPARATOR toks).find? (candidate_fits env g availableWidth) with
    | none =>
      have := List.find?_eq_none.1 hf s0 hs0
      exact absurd hfit0 this
    | some s =>
      have hfit := List.find?_some hf
      have hmem := List.mem_of_find?_eq_some hf
      obtain ⟨pre, t, r, e1, e2, e3⟩ := mem_path_suffixes PATH_SEPARATOR toks s hmem
      have hc : cstr out = 46 :: 46 :: 46 :: s.flatten := by
        rw [h2]
        unfold first_fitting
        rw [hf]
      unfold candidate_fits at hfit
      cases hw : gfx_get_string_width env g (46 :: 46 :: 46 :: s.flatten) with
      | none => rw [hw] at hfit; cases hfit
      | some w =>
        rw [hw] at hfit
        refine ⟨pre, t, r, w, by rw [e1, e2], e3, by rw [hc, e2], by rw [hc, hw], ?_⟩
        simpa using hfit
  · intro hnone
    rw [h2]
    unfold first_fitting
    have : (path_suffixes PATH_SEPARATOR toks).find? (candidate_fits env g availableWidth)
        = none := by
      rw [List.find?_eq_none]
      intro s hs
      simp [hnone s hs]
    rw [this]

/-- C20 witness: `/ab/cd/W` shortened to 50: `.../ab/cd/W` measures 58 and `.../cd/W`
measures 40. -/
theorem C20_shorten_path_first_fitting_witness :
    ∃ out, shorten_path demoEnv demoGlobals 92 (List.replicate 16 1) 16
          ([[47], [97], [98], [47], [99], [100], [47], [87]].flatten ++ 0 :: []) 50 = some out
      ∧ cstr out = [46, 46, 46, 47, 99, 100, 47, 87] :=
  have h := C20_shorten_path_first_fitting demoEnv demoGlobals 92 (List.replicate 16 1) 16
    [[47], [97], [98], [47], [99], [100], [47], [87]] [] 50 52
    (by decide) (by decide) (by decide) (by decide) (by decide)
  h.imp (fun _ h => ⟨h.1, h.2.1.trans (by decide)⟩)

/-- C21, as stated, fails: the path `/WWWWWWWW` measures 86 and does not fit the width 70,
and its one candidate, `.../WWWWWWWW`, measures 92 and does not fit either. With a buffer
of 10 bytes, which holds the path and its terminator, `shorten_path` copies the candidate
to `buffer + 3` with the size `bufferSize - 3`, so it is cut to `.../WWWWW`; this is what
is measured, it measures 62, and the function returns with it in the buffer, not with the
full path. -/
theorem C21_counterexample :
    gfx_get_string_width demoEnv demoGlobals [47, 87, 87, 87, 87, 87, 87, 87, 87, 0] = some 86
      ∧ (∀ s ∈ path_suffixes 92 [[47], [87], [87], [87], [87], [87], [87], [87], [87]],
          candidate_fits demoEnv demoGlobals 70 s = false)
      ∧ gfx_get_string_width demoEnv demoGlobals
          [46, 46, 46, 47, 87, 87, 87, 87, 87, 87, 87, 87, 0] = some 92
      ∧ shorten_path demoEnv demoGlobals 92 (List.replicate 12 1) 10
          [47, 87, 87, 87, 87, 87, 87, 87, 87, 0] 70
        = some [46, 46, 46, 47, 87, 87, 87, 87, 87, 0, 1, 1]
      ∧ cstr [46, 46, 46, 47, 87, 87, 87, 87, 87, 0, 1, 1]
          ≠ [47, 87, 87, 87, 87, 87, 87, 87, 87] := by
  decide

/-- C21 (amended): for every path that does not fit (its tokens whole codepoints or control
codes without a zero byte, a separator byte being a token of its own). When the path has
at most 509 bytes and the buffer size holds three dots, the path and a terminator, and for
no separator of the path the three dots followed by the path from that separator on
measure at most `availableWidth`, `shorten_path` returns and the string it leaves in the
buffer is the whole path, without dots. When the path has no separator and the buffer size
holds the path and a terminator, `shorten_path` returns and the string it leaves in the
buffer is the whole path. -/
theorem C21_shorten_path_fallback (env : Env) (g : Globals) (PATH_SEPARATOR : Nat)
    (buffer : List Nat) (bufferSize : Nat) (toks : List (List Nat)) (tail : List Nat)
    (availableWidth w0 : Int)
    (ht : ∀ t ∈ toks, is_path_token PATH_SEPARATOR t = true)
    (hm : gfx_get_string_width env g (toks.flatten ++ 0 :: tail) = some w0)
    (hover : availableWidth < w0) :
    (toks.flatten.length + 3 ≤ 512 → toks.flatten.length + 4 ≤ bufferSize →
        (∀ s ∈ path_suffixes PATH_SEPARATOR toks,
          candidate_fits env g availableWidth s = false) →
        ∃ out, shorten_path env g PATH_SEPARATOR buffer bufferSize (toks.flatten ++ 0 :: tail)
            availableWidth = some out ∧ cstr out = toks.flatten)
      ∧ (toks.flatten.length < bufferSize →
        (∀ t ∈ toks, is_separator_token PATH_SEPARATOR t = false) →
        ∃ out, shorten_path env g PATH_SEPARATOR buffer bufferSize (toks.flatten ++ 0 :: tail)
            availableWidth = some out ∧ cstr out = toks.flatten) := by
  have hnz := path_tokens_nonzero PATH_SEPARATOR toks ht
  constructor
  · intro hlen hsize hnone
    obtain ⟨out, h1, h2⟩ := shorten_path_spec env g PATH_SEPARATOR buffer bufferSize toks tail
      availableWidth w0 ht hlen hsize hm hover
    refine ⟨out, h1, ?_⟩
    rw [h2]
    unfold first_fitting
    have : (path_suffixes PATH_SEPARATOR toks).find? (candidate_fits env g availableWidth)
        = none := by
      rw [List.find?_eq_none]
      intro s hs
      simp [hnone s hs]
    rw [this]
  · intro hsize hsep
    have hcount : (List.range (cstr (toks.flatten ++ 0 :: tail)).length).countP
        (fun x => decide (byteAt (toks.flatten ++ 0 :: tail) x = PATH_SEPARATOR
          ∨ byteAt (toks.flatten ++ 0 :: tail) x = 47)) = 0 := by
      rw [cstr_terminated _ _ hnz,
        countP_range_byteAt (fun b => decide (b = PATH_SEPARATOR ∨ b = 47)) toks.flatten
          (0 :: tail),
        countP_separator_bytes PATH_SEPARATOR toks ht, List.countP_eq_zero]
      intro t htm
      rw [hsep t htm]
      decide
    unfold shorten_path
    simp only [hm, if_neg (not_le.mpr hover), hcount]
    refine ⟨_, rfl, ?_⟩
    rw [safe_strcpy_fits _ 0 toks.flatten tail bufferSize hnz hsize, store_bytes_zero,
      List.append_assoc]
    exact cstr_terminated _ _ hnz

/-- C21 witness: `/ab/cd/W` (52 pixels) shortened to 20, where not even `.../W` (22
pixels) fits, and `abW` (22 pixels), which has no separator, in a buffer of four bytes:
the whole path is left. -/
theorem C21_shorten_path_fallback_witness :
    (∃ out, shorten_path demoEnv demoGlobals 92 (List.replicate 16 1) 16
          ([[47], [97], [98], [47], [99], [100], [47], [87]].flatten ++ 0 :: []) 20 = some out
        ∧ cstr out = [47, 97, 98, 47, 99, 100, 47, 87])
      ∧ ∃ out, shorten_path demoEnv demoGlobals 92 (List.replicate 16 1) 4
          ([[97], [98], [87]].flatten ++ 0 :: []) 20 = some out
        ∧ cstr out = [97, 98, 87] :=
  ⟨(C21_shorten_path_fallback demoEnv demoGlobals 92 (List.replicate 16 1) 16
      [[47], [97], [98], [47], [99], [100], [47], [87]] [] 20 52
      (by decide) (by decide) (by decide)).1 (by decide) (by decide) (by decide),
    (C21_shorten_path_fallback demoEnv demoGlobals 92 (List.replicate 16 1) 4
      [[97], [98], [87]] [] 20 22
      (by decide) (by decide) (by decide)).2 (by decide) (by decide)⟩

/-- C22: for every pass of `ttf_process_string` that returns, `l` being the contexts after
each processed element (control code, single sprite glyph or glyph run): from each context
to the next, the incoming one included, `maxX` and `maxY` do not decrease; after every
element `maxX` is at least `x` and `maxY` at least `y`; so the final `maxX` and `maxY` are
at least the initial ones and at least the cursor `x` and `y` after every element. -/
theorem C22_extents_grow (env : Env) (g : Globals) (dpi : rct_drawpixelinfo) (text : List Nat)
    (info : text_draw_info) (r : rct_drawpixelinfo × text_draw_info)
    (h : ttf_process_string env g dpi text info = some r) :
    ∃ l, ttf_process_string_states env g (decide (info.flags &&& TEXT_DRAW_FLAG_TTF ≠ 0))
          (text.length + 1) dpi text info = some l
      ∧ (info :: l).getLast? = some r.2
      ∧ List.Chain' (fun a b => a.maxX ≤ b.maxX ∧ a.maxY ≤ b.maxY) (info :: l)
      ∧ (∀ s ∈ l, s.x ≤ s.maxX ∧ s.y ≤ s.maxY)
      ∧ info.maxX ≤ r.2.maxX ∧ info.maxY ≤ r.2.maxY
      ∧ ∀ s ∈ l, s.x ≤ r.2.maxX ∧ s.y ≤ r.2.maxY := by
  obtain ⟨l, h1, h2, h3, h4⟩ := ttf_process_string_states_spec env g _ _ dpi text info r h
  have hlast := chain_extents_last l info r.2 h3 h2
  refine ⟨l, h1, h2, h3, h4, (hlast info (List.mem_cons_self _ _)).1,
    (hlast info (List.mem_cons_self _ _)).2, ?_⟩
  intro s hs
  have := hlast s (List.mem_cons_of_mem _ hs)
  exact ⟨le_trans (h4 s hs).1 this.1, le_trans (h4 s hs).2 this.2⟩

/-- C22 witness: measuring `W`, a move to x = 3, `a`, a newline code and `a` in the
demonstration font: the cursor goes 10, 3, 9, 0, 6 and `maxX` stays 10. -/
theorem C22_extents_grow_witness :
    ∃ l, ttf_process_string_states demoEnv demoGlobals
          (decide ((measure_info demoGlobals).flags &&& TEXT_DRAW_FLAG_TTF ≠ 0))
          ([87, 1, 3, 97, 5, 97, 0].length + 1) nullDpi [87, 1, 3, 97, 5, 97, 0]
          (measure_info demoGlobals) = some l
      ∧ l.map (fun s => s.x) = [10, 3, 9, 0, 6]
      ∧ ∀ s ∈ l, s.x ≤ 10 ∧ s.y ≤ 10 :=
  by
  obtain ⟨l, h1, -, -, -, -, -, h7⟩ := C22_extents_grow demoEnv demoGlobals nullDpi
    [87, 1, 3, 97, 5, 97, 0] (measure_info demoGlobals)
    (nullDpi, ⟨0, 0, 6, 10, 10, 10, 2147483648, [0, 0, 0, 0, 0, 0, 0, 0], 224, []⟩) (by decide)
  refine ⟨l, h1, ?_, h7⟩
  have hl : l = [⟨0, 0, 10, 0, 10, 0, 2147483648, [0, 0, 0, 0, 0, 0, 0, 0], 224, []⟩,
      ⟨0, 0, 3, 0, 10, 0, 2147483648, [0, 0, 0, 0, 0, 0, 0, 0], 224, []⟩,
      ⟨0, 0, 9, 0, 10, 0, 2147483648, [0, 0, 0, 0, 0, 0, 0, 0], 224, []⟩,
      ⟨0, 0, 0, 10, 10, 10, 2147483648, [0, 0, 0, 0, 0, 0, 0, 0], 224, []⟩,
      ⟨0, 0, 6, 10, 10, 10, 2147483648, [0, 0, 0, 0, 0, 0, 0, 0], 224, []⟩] :=
    Option.some.inj (h1.symm.trans (by decide))
  rw [hl]
  rfl

/-- C23: for every codepoint at the start of `text` that `ttf_process_format_code` has no
case for, the function returns (it is total) with the surface and every field of the
context as they were, at the position two bytes behind the code when the codepoint is at
most `0x16` and four bytes behind it otherwise; when the codepoint is a control code other
than the terminator, `ttf_process_string` goes on from that position, the context changed
only by the two stores to the extents. -/
theorem C23_unknown_code_skipped (env : Env) (g : Globals) (dpi : rct_drawpixelinfo)
    (text : List Nat) (info : text_draw_info)
    (hu : is_recognised_format_code (utf8_get_next text).1 = false) :
    ttf_process_format_code env g dpi text info
        = (text.drop ((utf8_get_next text).2 + (if (utf8_get_next text).1 ≤ 0x16 then 2 else 4)),
            dpi, info)
      ∧ ((utf8_get_next text).1 ≠ 0 → utf8_is_format_code (utf8_get_next text).1 = true →
          ttf_process_string env g dpi text info
            = ttf_process_string env g dpi
                (text.drop ((utf8_get_next text).2
                  + (if (utf8_get_next text).1 ≤ 0x16 then 2 else 4)))
                (update_extents info)) := by
  have h1 : ttf_process_format_code env g dpi text info
      = (text.drop ((utf8_get_next text).2 + (if (utf8_get_next text).1 ≤ 0x16 then 2 else 4)),
          dpi, info) := by
    unfold ttf_process_format_code
    rw [unrecognised_switch env g dpi _ _ info hu, List.drop_drop]
  refine ⟨h1, fun h0 hc => ?_⟩
  rw [ttf_process_string_code env g dpi text info h0 hc, h1]

/-- C23 witness: the code 17 with the argument bytes 1 and 2 in front of `W`, and the code
24 with four argument bytes: the pass goes on at `W`. -/
theorem C23_unknown_code_skipped_witness :
    ttf_process_format_code demoEnv demoGlobals nullDpi [17, 1, 2, 87, 0]
        (measure_info demoGlobals) = ([87, 0], nullDpi, measure_info demoGlobals)
      ∧ ttf_process_format_code demoEnv demoGlobals nullDpi [24, 1, 2, 3, 4, 87, 0]
        (measure_info demoGlobals) = ([87, 0], nullDpi, measure_info demoGlobals) :=
  ⟨(C23_unknown_code_skipped demoEnv demoGlobals nullDpi [17, 1, 2, 87, 0]
      (measure_info demoGlobals) (by decide)).1,
    (C23_unknown_code_skipped demoEnv demoGlobals nullDpi [24, 1, 2, 3, 4, 87, 0]
      (measure_info demoGlobals) (by decide)).1⟩

/-- C24: for every control code at the start of `text` that `ttf_process_format_code` has
a case for, the function returns the position behind the code and its declared argument
bytes (`utf8_get_format_code_arg_length`): one for move-x, adjust-palette and the codes 3
and 4, four for the inline sprite, none for the others; `ttf_process_string` goes on from
that position, so no argument byte is decoded as a glyph or as a control code. A move-x
code whose argument byte is 5, the newline code, sets `x` to `startX + 5` and changes
nothing else, `y` included. -/
theorem C24_recognised_code_advance (env : Env) (g : Globals) (dpi : rct_drawpixelinfo)
    (text : List Nat) (info : text_draw_info)
    (hr : is_recognised_format_code (utf8_get_next text).1 = true) :
    (ttf_process_format_code env g dpi text info).1
        = text.drop ((utf8_get_next text).2
            + utf8_get_format_code_arg_length (utf8_get_next text).1)
      ∧ utf8_get_format_code_arg_length (utf8_get_next text).1
          = (if (utf8_get_next text).1 = FORMAT_MOVE_X
                ∨ (utf8_get_next text).1 = FORMAT_ADJUST_PALETTE
                ∨ (utf8_get_next text).1 = FORMAT_3 ∨ (utf8_get_next text).1 = FORMAT_4 then 1
             else if (utf8_get_next text).1 = FORMAT_INLINE_SPRITE then 4 else 0)
      ∧ ttf_process_string env g dpi text info
          = ttf_process_string env g (ttf_process_format_code env g dpi text info).2.1
              (text.drop ((utf8_get_next text).2
                + utf8_get_format_code_arg_length (utf8_get_next text).1))
              (update_extents (ttf_process_format_code env g dpi text info).2.2)
      ∧ ∀ rest : List Nat,
          ttf_process_format_code env g dpi (FORMAT_MOVE_X :: FORMAT_NEWLINE :: rest) info
            = (rest, dpi, { info with x := info.startX + 5 }) := by
  have h1 : (ttf_process_format_code env g dpi text info).1
      = text.drop ((utf8_get_next text).2
          + utf8_get_format_code_arg_length (utf8_get_next text).1) := by
    rw [ttf_process_format_code_fst, recognised_arg_length _ hr]
  obtain ⟨h0, hc⟩ := recognised_is_format_code _ hr
  refine ⟨h1, ?_, ?_, ?_⟩
  · unfold utf8_get_format_code_arg_length
    have h17 : (utf8_get_next text).1 ≠ FORMAT_NEWLINE_X_Y := by
      intro h
      rw [h] at hr
      exact absurd hr (by decide)
    rw [if_neg h17]
  · rw [ttf_process_string_code env g dpi text info h0 hc, h1]
  · intro rest
    unfold ttf_process_format_code
    rw [utf8_get_next_ascii FORMAT_MOVE_X _ (by decide)]
    unfold ttf_process_format_code_switch
    rw [if_pos rfl]
    rfl

/-- C24 witness: the inline sprite code with its four argument bytes in front of `W`. -/
theorem C24_recognised_code_advance_witness :
    (ttf_process_format_code spriteEnv demoGlobals nullDpi [23, 5, 0, 0, 0, 87, 0]
        (measure_info demoGlobals)).1 = [87, 0] :=
  (C24_recognised_code_advance spriteEnv demoGlobals nullDpi [23, 5, 0, 0, 0, 87, 0]
    (measure_info demoGlobals) (by decide)).1

/-- C25 (as written, refuted): in true-type mode, when the initialisation of the outline
backend fails the run `W` is not measured at all (the cursor stays at 0, where the sprite
backend advances it by 10); and when the backend is up and the font loaded but no surface
is produced, nothing is drawn and the cursor stays, where the sprite backend draws the
glyph and advances the cursor by 10. -/
theorem C25_counterexample :
    (ttf_draw_string_raw demoEnv nullDpi [87, 0]
          (measure_info { demoGlobals with gUseTrueTypeFont := true })
        = some (nullDpi, measure_info { demoGlobals with gUseTrueTypeFont := true })
      ∧ (ttf_draw_string_raw_sprite demoEnv nullDpi [87, 0]
          (measure_info { demoGlobals with gUseTrueTypeFont := true })).map (fun s => s.2.x)
        = some 10)
      ∧ (ttf_draw_string_raw
          { demoEnv with ttf_initialise := true, ttf_font_loaded := fun _ => true } nullDpi
          [87, 0] { measure_info demoGlobals with flags := TEXT_DRAW_FLAG_TTF }
        = some (nullDpi, { measure_info demoGlobals with flags := TEXT_DRAW_FLAG_TTF })
      ∧ (ttf_draw_string_raw_sprite
          { demoEnv with ttf_initialise := true, ttf_font_loaded := fun _ => true } nullDpi
          [87, 0] { measure_info demoGlobals with flags := TEXT_DRAW_FLAG_TTF }).map
            (fun s => (s.1.ops.length, s.2.x))
        = some (1, 10)) := by
  decide

/-- C25 (amended): for every run of literal codepoints in true-type mode,
`ttf_draw_string_raw` returns without an error in each of the three cases, but only in one
of them through the sprite backend. When the backend is initialised and the active font has
no loaded typeface, the run is drawn or measured by the sprite backend and the cursor
advances by the sprite widths of its codepoints. When the initialisation fails, and when a
surface is to be drawn and none is produced, the run is dropped: nothing is drawn and the
context, the cursor included, is as it was. -/
theorem C25_outline_backend_failure (env : Env) (dpi : rct_drawpixelinfo)
    (info : text_draw_info) (lits : List (List Nat))
    (hl : ∀ t ∈ lits, is_literal_token t = true)
    (hT : info.flags &&& TEXT_DRAW_FLAG_TTF ≠ 0) :
    (env.ttf_initialise = true → env.ttf_font_loaded info.font_sprite_base = false →
        ttf_draw_string_raw env dpi lits.flatten info
            = ttf_draw_string_raw_sprite env dpi lits.flatten info
          ∧ ttf_draw_string_raw env dpi lits.flatten info
            = some (sprite_run env dpi info (codepoints lits))
          ∧ (sprite_run env dpi info (codepoints lits)).2.x
            = info.x + sprite_width env info.font_sprite_base (codepoints lits))
      ∧ (env.ttf_initialise = false →
          ttf_draw_string_raw env dpi lits.flatten info = some (dpi, info))
      ∧ (env.ttf_initialise = true → env.ttf_font_loaded info.font_sprite_base = true →
          info.flags &&& TEXT_DRAW_FLAG_NO_DRAW = 0 →
          env.ttf_surface_cache_get_or_add info.font_sprite_base (cstr lits.flatten) = none →
          ttf_draw_string_raw env dpi lits.flatten info = some (dpi, info)) := by
  refine ⟨fun hi hf => ?_, fun hi => ?_, fun hi hf hnd hs => ?_⟩
  · have e : ttf_draw_string_raw env dpi lits.flatten info
        = ttf_draw_string_raw_sprite env dpi lits.flatten info := by
      unfold ttf_draw_string_raw ttf_draw_string_raw_ttf
      rw [if_pos hT, hi, hf]
      rfl
    exact ⟨e, e.trans (ttf_draw_string_raw_sprite_tokens env dpi info lits hl),
      sprite_run_x env _ dpi info⟩
  · unfold ttf_draw_string_raw ttf_draw_string_raw_ttf
    rw [if_pos hT, hi]
    rfl
  · unfold ttf_draw_string_raw ttf_draw_string_raw_ttf
    rw [if_pos hT, hi, hf, hs]
    simp [hnd]

/-- C25 witness: `aW` measured in true-type mode with the backend up and no typeface
loaded: the sprite backend advances the cursor by 6 + 10. -/
theorem C25_outline_backend_failure_witness :
    (sprite_run { demoEnv with ttf_initialise := true } nullDpi
        (measure_info { demoGlobals with gUseTrueTypeFont := true })
        (codepoints [[97], [87]])).2.x = 16 :=
  ((C25_outline_backend_failure { demoEnv with ttf_initialise := true } nullDpi
    (measure_info { demoGlobals with gUseTrueTypeFont := true }) [[97], [87]]
    (by decide) (by decide)).1 rfl rfl).2.2.trans (by decide)

/-- C26 (as written, refuted): with hinting enabled and a threshold of 60, a source pixel
of coverage exactly 180 is blended (the mean of the foreground 10 and the destination 0),
not set to the foreground colour; and with hinting disabled a source pixel of coverage 30,
below the threshold, is not left untouched but set to the foreground colour. -/
theorem C26_counterexample :
    ttf_composite_pixel demoHinting 0 10 180 0 = some 5
      ∧ ttf_composite_pixel { demoHinting with enable_hinting := false } 0 10 30 0
        = some 10 := by
  decide

/-- C26 (amended): the main compositing loop of `ttf_draw_string_raw_ttf` decides the
destination pixel of a source pixel with coverage `src` as follows, hinting being in use
when it is enabled and the threshold of the font is positive. A coverage of 0 leaves the
pixel untouched. Without hinting every other coverage sets it to the foreground colour
`palette[1]`. With hinting a coverage above 180 sets it to the foreground colour; a
coverage above the threshold and at most 180 sets it to the blend of the foreground colour
with `PALETTE_INDEX_0` when the outline flag is set and with the value the pixel holds
otherwise; a coverage up to the threshold leaves it untouched. In a pass without the inset
flag every pixel of the rectangle (row `yy`, column `xx`) ends with the value so decided
from its own source pixel and the value it held before the pass, and no other pixel
changes. -/
theorem C26_composite_tiers (h : ttf_hinting) (flags colour src dst : Nat) :
    (src = 0 → ttf_composite_pixel h flags colour src dst = none)
      ∧ (src ≠ 0 → (h.enable_hinting = false ∨ h.hinting_threshold ≤ 0) →
          ttf_composite_pixel h flags colour src dst = some colour)
      ∧ (180 < src → ttf_composite_pixel h flags colour src dst = some colour)
      ∧ (h.enable_hinting = true → 0 < h.hinting_threshold → src ≤ 180 →
          h.hinting_threshold < (src : Int) →
          ttf_composite_pixel h flags colour src dst
            = some (h.blendColours colour
                (if flags &&& TEXT_DRAW_FLAG_OUTLINE ≠ 0 then h.PALETTE_INDEX_0 else dst)))
      ∧ (h.enable_hinting = true → 0 < h.hinting_threshold → src ≤ 180 →
          (src : Int) ≤ h.hinting_threshold →
          ttf_composite_pixel h flags colour src dst = none)
      ∧ ∀ (palette pixels bits : List Nat) (width srcScanSkip dstScanSkip height src0 dst0 : Nat),
          flags &&& TEXT_DRAW_FLAG_INSET = 0 →
          (∀ yy xx, yy < height → xx < width →
            byteAt (ttf_composite_rows h flags palette pixels width srcScanSkip dstScanSkip
                height src0 dst0 bits) (dst0 + yy * (width + dstScanSkip) + xx)
              = (ttf_composite_pixel h flags (byteAt palette 1)
                  (byteAt pixels (src0 + yy * (width + srcScanSkip) + xx))
                  (byteAt bits (dst0 + yy * (width + dstScanSkip) + xx))).getD
                    (byteAt bits (dst0 + yy * (width + dstScanSkip) + xx)))
          ∧ ∀ i, (∀ yy xx, yy < height → xx < width →
                i ≠ dst0 + yy * (width + dstScanSkip) + xx) →
              byteAt (ttf_composite_rows h flags palette pixels width srcScanSkip dstScanSkip
                height src0 dst0 bits) i = byteAt bits i := by
  refine ⟨?_, ?_, ?_, ?_, ?_, ?_⟩
  · intro h0
    unfold ttf_composite_pixel
    simp [h0]
  · intro h0 hu
    have hu' : (h.enable_hinting && decide (h.hinting_threshold > 0)) = false := by
      rcases hu with hu | hu
      · rw [hu]; rfl
      · rw [Bool.and_eq_false_iff]
        right
        simpa using hu
    unfold ttf_composite_pixel
    simp only [hu']
    rw [if_pos h0, if_pos (Or.inr trivial)]
  · intro h180
    unfold ttf_composite_pixel
    dsimp only
    rw [if_pos (by omega), if_pos (Or.inl h180)]
  · intro he ht h180 hs
    have hu : (h.enable_hinting && decide (h.hinting_threshold > 0)) = true := by
      rw [he]
      simpa using ht
    have h0 : src ≠ 0 := by
      intro h0
      rw [h0] at hs
      have : (0 : Int) < 0 := lt_trans ht (by simpa using hs)
      exact absurd this (lt_irrefl _)
    have hn : ¬ src > 180 := by omega
    unfold ttf_composite_pixel
    simp only [hu]
    simp only [h0, hn, hs, ne_eq, not_false_eq_true, if_true, false_or, Bool.true_eq_false,
      if_false, gt_iff_lt, true_and]
    split_ifs <;> rfl
  · intro he ht h180 hs
    have hu : (h.enable_hinting && decide (h.hinting_threshold > 0)) = true := by
      rw [he]
      simpa using ht
    have hn : ¬ src > 180 := by omega
    have hs' : ¬ h.hinting_threshold < (src : Int) := not_lt.mpr hs
    unfold ttf_composite_pixel
    simp only [hu]
    simp only [hn, hs', false_or, Bool.true_eq_false, if_false, gt_iff_lt, and_false,
      ite_self]
  · intro palette pixels bits width srcScanSkip dstScanSkip height src0 dst0 hin
    exact ttf_composite_rows_spec h flags palette pixels width srcScanSkip dstScanSkip hin
      height src0 dst0 bits

/-- C26 witness: a surface of two rows of three pixels with the coverages 0, 30, 100 and
180, 181, 255, composited in the foreground colour 10 over pixels that hold 1, the
destination having scan lines of four pixels: the pixel of coverage 180 ends as the blend
5, the pixel of coverage 30 stays. -/
theorem C26_composite_tiers_witness :
    byteAt (ttf_composite_rows demoHinting 0 [0, 10, 0, 0] [0, 30, 100, 180, 181, 255] 3 0 1
        2 0 0 [1, 1, 1, 1, 1, 1, 1, 1]) (0 + 1 * (3 + 1) + 0) = 5
      ∧ ttf_composite_rows demoHinting 0 [0, 10, 0, 0] [0, 30, 100, 180, 181, 255] 3 0 1
        2 0 0 [1, 1, 1, 1, 1, 1, 1, 1] = [1, 1, 5, 1, 5, 10, 10, 1] :=
  ⟨(((C26_composite_tiers demoHinting 0 10 0 0).2.2.2.2.2 [0, 10, 0, 0]
      [0, 30, 100, 180, 181, 255] [1, 1, 1, 1, 1, 1, 1, 1] 3 0 1 2 0 0 (by decide)).1 1 0
      (by decide) (by decide)).trans (by decide),
    by decide⟩

/-- C27: for every starting colour other than `TEXT_COLOUR_254` and `TEXT_COLOUR_255` and
every context, after `ttf_process_initial_colour` the outline flag is set exactly when the
colour carries `COLOUR_FLAG_OUTLINE` and the inset flag exactly when it carries
`COLOUR_FLAG_INSET`, whatever the flags were; the dark flag is set exactly when the font id
is negative as a 16 bit value, the extra-dark flag exactly when it is
`FONT_SPRITE_BASE_MEDIUM_EXTRA_DARK`, and a negative font id becomes the medium font, any
other stays; every flag bit from bit 4 up is unchanged, among them the true-type, the
no-draw and the y-offset flag. -/
theorem C27_initial_colour_flags (env : Env) (colour : Nat) (info : text_draw_info)
    (h254 : colour ≠ TEXT_COLOUR_254) (h255 : colour ≠ TEXT_COLOUR_255) :
    ((ttf_process_initial_colour env colour info).flags &&& TEXT_DRAW_FLAG_OUTLINE ≠ 0
        ↔ colour &&& COLOUR_FLAG_OUTLINE ≠ 0)
      ∧ ((ttf_process_initial_colour env colour info).flags &&& TEXT_DRAW_FLAG_INSET ≠ 0
        ↔ colour &&& COLOUR_FLAG_INSET ≠ 0)
      ∧ ((ttf_process_initial_colour env colour info).flags &&& TEXT_DRAW_FLAG_DARK ≠ 0
        ↔ 0x8000 ≤ info.font_sprite_base)
      ∧ ((ttf_process_initial_colour env colour info).flags &&& TEXT_DRAW_FLAG_EXTRA_DARK ≠ 0
        ↔ info.font_sprite_base = FONT_SPRITE_BASE_MEDIUM_EXTRA_DARK)
      ∧ (ttf_process_initial_colour env colour info).font_sprite_base
        = (if 0x8000 ≤ info.font_sprite_base then FONT_SPRITE_BASE_MEDIUM
           else info.font_sprite_base)
      ∧ (ttf_process_initial_colour env colour info).flags &&& 0xFFFFFFF0
        = info.flags &&& 0xFFFFFFF0
      ∧ (ttf_process_initial_colour env colour info).flags &&& TEXT_DRAW_FLAG_TTF
        = info.flags &&& TEXT_DRAW_FLAG_TTF
      ∧ (ttf_process_initial_colour env colour info).flags &&& TEXT_DRAW_FLAG_NO_DRAW
        = info.flags &&& TEXT_DRAW_FLAG_NO_DRAW
      ∧ (ttf_process_initial_colour env colour info).flags &&& TEXT_DRAW_FLAG_Y_OFFSET_EFFECT
        = info.flags &&& TEXT_DRAW_FLAG_Y_OFFSET_EFFECT := by
  obtain ⟨hf, hfont⟩ := initial_colour_spec env colour info h254 h255
  obtain ⟨b1, b2, b3, b4, b5, b6, b7, b8⟩ := initial_colour_flags_bits colour info
  rw [hf]
  exact ⟨b1, b2, b3, b4, hfont, b5, b6, b7, b8⟩

/-- C27 witness: the colour 5 with the outline flag, in a context with the inset, the
extra-dark and the no-draw flag and the font id -1: the flags become outline, dark and
no-draw, and the font the medium one. -/
theorem C27_initial_colour_flags_witness :
    (ttf_process_initial_colour demoEnv (5 ||| COLOUR_FLAG_OUTLINE)
        { measure_info demoGlobals with
          flags := TEXT_DRAW_FLAG_INSET ||| TEXT_DRAW_FLAG_EXTRA_DARK ||| TEXT_DRAW_FLAG_NO_DRAW,
          font_sprite_base := 0xFFFF }).flags
        = (TEXT_DRAW_FLAG_OUTLINE ||| TEXT_DRAW_FLAG_DARK ||| TEXT_DRAW_FLAG_NO_DRAW)
      ∧ (ttf_process_initial_colour demoEnv (5 ||| COLOUR_FLAG_OUTLINE)
        { measure_info demoGlobals with
          flags := TEXT_DRAW_FLAG_INSET ||| TEXT_DRAW_FLAG_EXTRA_DARK ||| TEXT_DRAW_FLAG_NO_DRAW,
          font_sprite_base := 0xFFFF }).font_sprite_base = FONT_SPRITE_BASE_MEDIUM :=
  ⟨by decide,
    (C27_initial_colour_flags demoEnv (5 ||| COLOUR_FLAG_OUTLINE)
      { measure_info demoGlobals with
        flags := TEXT_DRAW_FLAG_INSET ||| TEXT_DRAW_FLAG_EXTRA_DARK ||| TEXT_DRAW_FLAG_NO_DRAW,
        font_sprite_base := 0xFFFF } (by decide) (by decide)).2.2.2.2.1.trans (by decide)⟩

/-- C28: the code at the failing inputs. The pattern `*` matches every file name, yet
`MatchWildcard` returns false for every non-empty file name: behind the stars it returns
false where the pattern ends. For the file name `a` and the pattern `a*`, and for the empty
file name and the pattern `*`, which match, it does not return: the loop behind the scan
steps the file name, not the pattern, and never ends. For a pattern without `*` the code
does return whether the file name matches. -/
theorem C28_star_at_the_end_of_a_pattern :
    (∀ (c : Nat) (rest : List Nat),
        MatchWildcard ((c + 1) :: rest) [42] = some (match_outcome.returns false)
          ∧ wildcard_matches [42] ((c + 1) :: rest) = true)
      ∧ (MatchWildcard [97] [97, 42] = some match_outcome.hangs
          ∧ wildcard_matches [97, 42] [97] = true)
      ∧ (MatchWildcard [] [42] = some match_outcome.hangs ∧ wildcard_matches [42] [] = true)
      ∧ ∀ (f p : List Nat), (∀ b ∈ f, b ≠ 0) → (∀ b ∈ p, b ≠ 0 ∧ b ≠ 42) →
          MatchWildcard f p = some (match_outcome.returns (wildcard_matches p f)) := by
  refine ⟨fun c rest => ⟨?_, ?_⟩, by decide, by decide, MatchWildcard_of_no_star⟩
  · unfold MatchWildcard
    simp only [List.length_cons, List.length_nil]
    rw [MatchWildcard_fuel, byteAt_cons_zero, if_pos (Nat.succ_ne_zero c), byteAt_cons_zero,
      if_neg (by decide), if_pos rfl]
    rfl
  · rw [wildcard_matches, if_pos rfl, List.any_eq_true]
    exact ⟨((c + 1) :: rest).length, by simp, by simp [wildcard_matches]⟩

/-- C29: for every non-empty file name and every pattern that is `*` followed by a
non-empty string `S` without `*` and `?` (both strings without a zero byte),
`MatchWildcard` returns, and it returns true exactly when the file name ends with `S`, the
case of ASCII letters being ignored. So `a.docx` does not match `*.doc`, and `a.doc`
does. -/
theorem C29_star_suffix (f S : List Nat) (hf : f ≠ []) (hfz : ∀ b ∈ f, b ≠ 0)
    (hS : S ≠ []) (hSz : ∀ b ∈ S, b ≠ 0 ∧ b ≠ 42 ∧ b ≠ 63) :
    (∃ b, MatchWildcard f (42 :: S) = some (match_outcome.returns b)
        ∧ (b = true ↔ List.IsSuffix (S.map toupper) (f.map toupper)))
      ∧ MatchWildcard [97, 46, 100, 111, 99, 120] [42, 46, 100, 111, 99]
          = some (match_outcome.returns false)
      ∧ MatchWildcard [97, 46, 100, 111, 99] [42, 46, 100, 111, 99]
          = some (match_outcome.returns true) := by
  refine ⟨?_, by decide, by decide⟩
  have hS1 : ∀ b ∈ S, b ≠ 0 ∧ b ≠ 42 := fun b hb => ⟨(hSz b hb).1, (hSz b hb).2.1⟩
  have hS2 : ∀ b ∈ S, b ≠ 42 ∧ b ≠ 63 := fun b hb => (hSz b hb).2
  obtain ⟨c, f', rfl⟩ := List.exists_cons_of_ne_nil hf
  obtain ⟨d, S', rfl⟩ := List.exists_cons_of_ne_nil hS
  have hc : c ≠ 0 := hfz c (List.mem_cons_self _ _)
  have hd := hSz d (List.mem_cons_self _ _)
  refine ⟨(List.range (c :: f').length).any (fun k => wildcard_matches (d :: S')
    ((c :: f').drop k)), ?_, ?_⟩
  · unfold MatchWildcard
    simp only [List.length_cons]
    rw [MatchWildcard_fuel, byteAt_cons_zero, if_pos hc, byteAt_cons_zero, if_neg (by decide),
      if_pos rfl]
    have hdrop : ((42 :: d :: S').drop 1).dropWhile (fun b => b == 42) = d :: S' := by
      rw [List.drop_succ_cons, List.drop_zero, List.dropWhile_cons_of_neg]
      simpa using hd.2.1
    simp only [hdrop]
    rw [byteAt_cons_zero, if_neg hd.1]
    have := MatchWildcard_star_no_star (d :: S') hS1 (f'.length + 1 + (S'.length + 1 + 1))
      (c :: f') (f'.length + 1 + (S'.length + 1 + 1)) hfz
      (by simp only [List.length_cons]; omega) (by simp only [List.length_cons]; omega)
    simp only [List.length_cons] at this
    exact this
  · rw [← suffix_iff_drop (c :: f') (d :: S') hS, List.any_eq_true]
    constructor
    · rintro ⟨k, hk, hw⟩
      exact ⟨k, List.mem_range.1 hk, (wildcard_matches_literal _ _ hS2).1 hw⟩
    · rintro ⟨k, hk, hw⟩
      exact ⟨k, List.mem_range.2 hk, (wildcard_matches_literal _ _ hS2).2 hw⟩

/-- C29 witness: `SAVE.Sv6` ends with `.sv6` up to the case of the letters. -/
theorem C29_star_suffix_witness :
    ∃ b, MatchWildcard [83, 65, 86, 69, 46, 83, 118, 54] (42 :: [46, 115, 118, 54])
        = some (match_outcome.returns b)
      ∧ (b = true ↔ List.IsSuffix ([46, 115, 118, 54].map toupper)
          ([83, 65, 86, 69, 46, 83, 118, 54].map toupper)) :=
  (C29_star_suffix [83, 65, 86, 69, 46, 83, 118, 54] [46, 115, 118, 54] (by decide)
    (by decide) (by decide) (by decide)).1

/-- C30 (as written, refuted): `aW` measures 16 and does not fit in 7; the shortest cut,
`a...`, measures 12, so no prefix that ends behind a literal codepoint fits, and the buffer
is left as `...`: no such prefix is kept. And `ab` followed by a move to x = 100 measures
100 and does not fit in 30, but every cut fits (`ab...` measures 18): the buffer is left
as it was, the text whole and no next cut that measures 30 or more. -/
theorem C30_counterexample :
    (gfx_get_string_width demoEnv demoGlobals [97, 87, 0] = some 16
        ∧ gfx_get_string_width demoEnv demoGlobals [97, 46, 46, 46, 0] = some 12
        ∧ gfx_clip_string demoEnv demoGlobals [97, 87, 0, 0, 0, 0] 7
            = some ([46, 46, 46, 0, 0, 0], 16))
      ∧ (gfx_get_string_width demoEnv demoGlobals [97, 98, 1, 100, 0] = some 100
        ∧ gfx_get_string_width demoEnv demoGlobals [97, 98, 46, 46, 46, 0] = some 18
        ∧ gfx_clip_string demoEnv demoGlobals [97, 98, 1, 100, 0, 0, 0, 0] 30
            = some ([97, 98, 1, 100, 0, 0, 0, 0], 100)) := by
  decide

/-- C30 (amended): for a well-formed text that measures more than `width` (at or above
the floor), in a buffer with three spare bytes, `gfx_clip_string` returns whenever the
text has at most 509 bytes, and what it leaves is one of three. Either the kept prefix
ends right behind a literal codepoint `t'`, this cut and every earlier cut behind a literal
codepoint measure less than `width` with the three dots, and the next cut behind a literal
codepoint, `t`, measures `width` or more: the buffer holds the prefix, three dots and a
terminator, and the width of that is returned. Or not even the cut behind the first
literal codepoint measures less than `width`: nothing is kept, the buffer holds the three
dots. Or every cut behind a literal codepoint measures less than `width`: the buffer is
left as it was. -/
theorem C30_clip_keeps_last_fitting_cut (env : Env) (g : Globals) (width : Int)
    (toks : List (List Nat)) (tail : List Nat) (w0 : Int)
    (hsync : ∀ t ∈ toks, is_synced_token t = true) (htail : 3 ≤ tail.length)
    (hW : 6 ≤ width) (hm : gfx_get_string_width env g toks.flatten = some w0)
    (hover : width < w0) :
    (toks.flatten.length + 3 ≤ 512 →
      (gfx_clip_string env g (toks.flatten ++ 0 :: tail) width).isSome = true)
    ∧ ∀ F w, gfx_clip_string env g (toks.flatten ++ 0 :: tail) width = some (F, w) →
        (∃ p' t' mid t q junk v, toks = p' ++ [t'] ++ mid ++ t :: q
            ∧ is_literal_token t' = true ∧ (∀ u ∈ mid, is_literal_token u = false)
            ∧ is_literal_token t = true
            ∧ cuts_fit env g width (p' ++ [t'] ++ mid)
            ∧ gfx_get_string_width env g ((p' ++ [t'] ++ mid ++ [t]).flatten ++ [46, 46, 46])
                = some v
            ∧ width ≤ v
            ∧ F = (p' ++ [t']).flatten ++ 46 :: 46 :: 46 :: 0 :: junk
            ∧ gfx_get_string_width env g ((p' ++ [t']).flatten ++ [46, 46, 46]) = some w
            ∧ w < width)
        ∨ (∃ mid t q junk v, toks = mid ++ t :: q
            ∧ (∀ u ∈ mid, is_literal_token u = false) ∧ is_literal_token t = true
            ∧ gfx_get_string_width env g ((mid ++ [t]).flatten ++ [46, 46, 46]) = some v
            ∧ width ≤ v
            ∧ F = 46 :: 46 :: 46 :: 0 :: junk)
        ∨ (F = toks.flatten ++ 0 :: tail ∧ cuts_fit env g width toks) := by
  obtain ⟨hspec, hsome⟩ := gfx_clip_string_spec env g width toks tail hsync htail hW
  refine ⟨hsome, ?_⟩
  intro F w h
  obtain ⟨w1, hw1, hcase⟩ := hspec F w h
  rw [hm] at hw1
  cases hw1
  rcases hcase with ⟨hfit, -, -⟩ | ⟨-, hpost⟩
  · exact absurd hfit (not_le.mpr hover)
  · rcases hpost with ⟨hF, -, hcuts⟩ | ⟨p, mid, t, q, junk, v, h1, hmid, ht, hcuts, hv, hvw, hF, hp⟩
    · exact Or.inr (Or.inr ⟨hF, hcuts⟩)
    · rcases hp with ⟨hp, -⟩ | ⟨⟨p', t', hp, ht'⟩, hw, hlt⟩
      · subst hp
        refine Or.inr (Or.inl ⟨mid, t, q, junk, v, ?_, hmid, ht, ?_, hvw, ?_⟩)
        · simpa using h1
        · simpa using hv
        · simpa using hF
      · subst hp
        exact Or.inl ⟨p', t', mid, t, q, junk, v, h1, ht', hmid, ht, hcuts, hv, hvw, hF, hw,
          hlt⟩

/-- C30 witness: `aWbW` (32 pixels) clipped to 30: `aWb...` measures 28 and `aWbW...`
38, so `aWb...` is left and 28 returned. -/
theorem C30_clip_keeps_last_fitting_cut_witness :
    (gfx_clip_string demoEnv demoGlobals
        ([[97], [87], [98], [87]].flatten ++ 0 :: [0, 0, 0]) 30).isSome = true
      ∧ gfx_clip_string demoEnv demoGlobals
        ([[97], [87], [98], [87]].flatten ++ 0 :: [0, 0, 0]) 30
        = some ([97, 87, 98, 46, 46, 46, 0, 0], 28) :=
  ⟨(C30_clip_keeps_last_fitting_cut demoEnv demoGlobals 30 [[97], [87], [98], [87]] [0, 0, 0]
      32 (by decide) (by decide) (by decide) (by decide) (by decide)).1 (by decide),
    by decide⟩

set_option maxRecDepth 100000 in
/-- C31: on a well-formed text, when a literal codepoint `t` that is not a space makes a
line without a space (`currentWord` null) that already holds a codepoint measure more than
`width`, the turn inserts the terminator in front of `t`: the bytes in front stay, the rest
of the text up to its terminator moves up by one byte (over the byte behind the old
terminator), a line is counted and the next line starts at `t`. For a text of literal
codepoints without a space and without a zero byte every line is ended in this way, so the
lines of a result, joined, are the text; there is a result when the text has at most 512
bytes. `WaWaW` at width 20 in the demonstration font becomes `Wa`, `Wa`, `W`. -/
theorem C31_forced_break_inserts (env : Env) (g : Globals) (width : Int)
    (toks : List (List Nat)) (hwt : ∀ t ∈ toks, is_wrap_token t = true) :
    (∀ (s : wrap_state) (v : wrap_trace) (t : List Nat) (rest' : List (List Nat)) (lw : Int),
        trace_inv toks s v → v.rest = t :: rest' → is_literal_token t = true →
        is_space_token t = false → s.currentWord = none → s.numCharactersOnLine ≠ 0 →
        gfx_get_string_width env g (v.line ++ [t]).flatten = some lw → width < lw →
        ∃ s1, gfx_wrap_string_step env g width s = some (s1, true)
          ∧ s.text = (trace_bytes v.lines ++ v.line.flatten)
              ++ ((t :: rest').flatten ++ 0 :: v.tail)
          ∧ s1.text = (trace_bytes v.lines ++ v.line.flatten)
              ++ 0 :: ((t :: rest').flatten ++ 0 :: v.tail.drop 1)
          ∧ s1.firstCh = s.ch + 1 ∧ s1.ch = s.ch + 1
          ∧ s1.outNumLines = s.outNumLines + 1)
      ∧ (∀ tail : List Nat,
          (∀ t ∈ toks, is_literal_token t = true ∧ is_space_token t = false
            ∧ ∀ b ∈ t, b ≠ 0) →
          (toks.flatten.length ≤ 512 →
              ∃ r, gfx_wrap_string env g (toks.flatten ++ 0 :: tail) width = some r)
            ∧ ∀ r, gfx_wrap_string env g (toks.flatten ++ 0 :: tail) width = some r →
              ∃ (lines : List (List (List Nat))) (last : List (List Nat)) (tail' : List Nat),
                toks = lines.flatten ++ last
                  ∧ r.text = (lines.map (fun l => l.flatten ++ [0])).flatten
                      ++ (last.flatten ++ 0 :: tail')
                  ∧ r.numLines = lines.length
                  ∧ wrapped_lines r.numLines.toNat r.text
                      = lines.map (fun l => l.flatten) ++ [last.flatten]
                  ∧ (wrapped_lines r.numLines.toNat r.text).flatten = toks.flatten)
      ∧ gfx_wrap_string demoEnv demoGlobals [87, 97, 87, 97, 87, 0, 9, 9, 9] 20
          = some { text := [87, 97, 0, 87, 97, 0, 87, 0, 9], width := 26, numLines := 2,
                   fontHeight := 224 } := by
  refine ⟨?_, ?_, by decide⟩
  · intro s v t rest' lw hinv hrest ht hns hcw hnum hm hover
    have hsp : (utf8_get_next t).1 ≠ 32 := by
      intro e
      simp [is_space_token, e] at hns
    obtain ⟨s1, e1, e2, e3, e4, e5, -⟩ := wrap_step_forced_break env g width toks hwt s v t rest'
      lw hinv hrest ht hsp hcw hnum hm hover
    refine ⟨s1, e1, ?_, e2, e3, e4, e5⟩
    rw [hinv.1, trace_text, hrest]
    simp
  · intro tail hlit
    refine ⟨(gfx_wrap_string_trace env g width toks tail hwt).1, ?_⟩
    intro r hr
    obtain ⟨lines, last, tail', h1, h2, h3, hsep, -, -, -, hz⟩ :=
      gfx_wrap_string_lines env g width toks tail hwt r hr
    have hnone : ∀ l ∈ lines, l.2 = none := by
      intro l hl
      have hin : ∀ u, l.2 = some u → u ∈ toks := by
        intro u hu
        rw [h1]
        apply List.mem_append_left
        unfold trace_tokens
        apply List.mem_flatten.2
        refine ⟨l.1 ++ l.2.toList, List.mem_map.2 ⟨l, hl, rfl⟩, ?_⟩
        rw [hu]
        simp
      rcases hsep l hl with h | h | h
      · exact h.1
      · exact absurd (hlit _ (hin _ h)).2.1 (by decide)
      · exact absurd (hlit _ (hin _ h)).1 (by decide)
    have hw := (hz (fun t ht => (hlit t ht).2.2)).2
    have e1 : toks = (lines.map (fun l => l.1)).flatten ++ last := by
      rw [← trace_tokens_inserted lines hnone]
      exact h1
    refine ⟨lines.map (fun l => l.1), last, tail', e1, ?_, ?_, ?_, ?_⟩
    · rw [← trace_bytes_map]
      exact h2
    · rw [h3]
      simp
    · rw [hw, List.map_map]
      rfl
    · rw [hw]
      conv_rhs => rw [e1]
      simp only [List.flatten_append, List.flatten_cons, List.flatten_nil, List.append_nil,
        List.flatten_flatten, List.map_map, Function.comp_def]

/-- C31 witness: `WaWaW` at width 20, with three bytes of room behind the terminator. -/
theorem C31_forced_break_inserts_witness :
    (∀ t ∈ [[87], [97], [87], [97], [87]], is_wrap_token t = true)
      ∧ ∃ r, gfx_wrap_string demoEnv demoGlobals
          (([[87], [97], [87], [97], [87]] : List (List Nat)).flatten ++ 0 :: [9, 9, 9]) 20
            = some r
        ∧ (wrapped_lines r.numLines.toNat r.text).flatten = [87, 97, 87, 97, 87] := by
  refine ⟨by decide, ?_⟩
  obtain ⟨h1, h2⟩ := (C31_forced_break_inserts demoEnv demoGlobals 20
    [[87], [97], [87], [97], [87]] (by decide)).2.1 [9, 9, 9] (by decide)
  obtain ⟨r, hr⟩ := h1 (by decide)
  obtain ⟨lines, last, tail', -, -, -, -, h⟩ := h2 r hr
  exact ⟨r, hr, h⟩

/-- C32: on a well-formed string (tokens `toks`, then a zero byte) `ttf_process_glyph_run`
takes the longest list of tokens from the front that are literal codepoints and, in
true-type mode, not forced to the sprite font: the token behind it, when there is one, is a
control code or such a forced codepoint. It gives a result when the run ends at the
terminator or has at most 511 bytes; a result is the result of one call of
`ttf_draw_string_raw` on the bytes of the run, and the pointer returned is the text behind
the run. `ttf_process_string` calls it only in front of a token that goes on a run, so the
run it takes is not empty; in front of the terminator it returns, in front of a control
code it runs `ttf_process_format_code`, in front of a forced codepoint
`ttf_draw_character_sprite`. -/
theorem C32_glyph_run_is_longest_run (env : Env) (g : Globals) (dpi : rct_drawpixelinfo)
    (info : text_draw_info) (toks : List (List Nat)) (X : List Nat)
    (ht : ∀ t ∈ toks, is_token t = true) (hX : byteAt X 0 = 0) :
    toks = toks.takeWhile (in_run env (is_ttf info))
        ++ toks.dropWhile (in_run env (is_ttf info))
      ∧ (∀ t ∈ toks.takeWhile (in_run env (is_ttf info)),
          is_literal_token t = true
            ∧ (is_ttf info && env.utf8_should_use_sprite_for_codepoint (utf8_get_next t).1)
                = false)
      ∧ (∀ t ∈ (toks.dropWhile (in_run env (is_ttf info))).head?,
          is_code_token t = true
            ∨ (is_ttf info && env.utf8_should_use_sprite_for_codepoint (utf8_get_next t).1)
                = true)
      ∧ ((toks.dropWhile (in_run env (is_ttf info)) = []
            ∨ (toks.takeWhile (in_run env (is_ttf info))).flatten.length ≤ 511) →
          ∃ s, ttf_draw_string_raw env dpi
                (toks.takeWhile (in_run env (is_ttf info))).flatten info = some s
            ∧ ttf_process_glyph_run env dpi (toks.flatten ++ X) info
                = some ((toks.dropWhile (in_run env (is_ttf info))).flatten ++ X, s.1, s.2))
      ∧ (∀ r, ttf_process_glyph_run env dpi (toks.flatten ++ X) info = some r →
          r.1 = (toks.dropWhile (in_run env (is_ttf info))).flatten ++ X
            ∧ ttf_draw_string_raw env dpi
                (toks.takeWhile (in_run env (is_ttf info))).flatten info = some r.2)
      ∧ (toks = [] → ttf_process_string env g dpi (toks.flatten ++ X) info = some (dpi, info))
      ∧ (∀ t r0, toks = t :: r0 → in_run env (is_ttf info) t = true →
          0 < (toks.takeWhile (in_run env (is_ttf info))).flatten.length
            ∧ ttf_process_string env g dpi (toks.flatten ++ X) info
                = (ttf_process_glyph_run env dpi (toks.flatten ++ X) info).bind (fun s =>
                    ttf_process_string env g s.2.1 s.1 (update_extents s.2.2)))
      ∧ (∀ t r0, toks = t :: r0 → is_code_token t = true →
          ttf_process_string env g dpi (toks.flatten ++ X) info
            = ttf_process_string env g
                (ttf_process_format_code env g dpi (toks.flatten ++ X) info).2.1
                (ttf_process_format_code env g dpi (toks.flatten ++ X) info).1
                (update_extents (ttf_process_format_code env g dpi (toks.flatten ++ X) info).2.2))
      ∧ (∀ t r0, toks = t :: r0 → is_literal_token t = true →
          (is_ttf info && env.utf8_should_use_sprite_for_codepoint (utf8_get_next t).1) = true →
          ttf_process_string env g dpi (toks.flatten ++ X) info
            = ttf_process_string env g
                (ttf_draw_character_sprite env dpi (utf8_get_next t).1 info).1
                (r0.flatten ++ X)
                (update_extents (ttf_draw_character_sprite env dpi (utf8_get_next t).1 info).2)) := by
  have hrun := ttf_process_glyph_run_tokens env dpi info toks X ht hX
  have hnext : ∀ t r0, toks = t :: r0 →
      utf8_get_next (toks.flatten ++ X) = utf8_get_next t := by
    intro t r0 e
    rw [e, List.flatten_cons, List.append_assoc]
    exact token_next t _ (ht t (by rw [e]; simp))
  refine ⟨(List.takeWhile_append_dropWhile _ _).symm, ?_, ?_, ?_, ?_, ?_, ?_, ?_, ?_⟩
  · intro t h
    have := List.mem_takeWhile_imp h
    unfold in_run at this
    rw [Bool.and_eq_true, Bool.not_eq_true'] at this
    exact this
  · intro t h
    cases hd : toks.dropWhile (in_run env (is_ttf info)) with
    | nil => rw [hd] at h; cases h
    | cons a l =>
      rw [hd] at h
      simp only [List.head?_cons, Option.mem_def, Option.some.injEq] at h
      subst h
      have hn := List.head_dropWhile_not (in_run env (is_ttf info)) toks (by rw [hd]; simp)
      simp only [hd, List.head_cons] at hn
      have hta : is_token a = true := ht a (List.dropWhile_subset _ (by rw [hd]; simp))
      unfold is_token at hta
      rw [Bool.or_eq_true] at hta
      rcases hta with hl | hc
      · right
        unfold in_run at hn
        simpa [hl] using hn
      · exact Or.inl hc
  · intro h
    obtain ⟨s, hs⟩ := Option.isSome_iff_exists.1
      (ttf_draw_string_raw_isSome env dpi
        (toks.takeWhile (in_run env (is_ttf info))).flatten info)
    refine ⟨s, hs, ?_⟩
    rw [hrun, hs]
    by_cases hr : toks.dropWhile (in_run env (is_ttf info)) = []
    · rw [if_pos hr, hr]
      simp
    · rw [if_neg hr, if_neg (by rcases h with h | h; exact absurd h hr; omega)]
      simp
  · intro r hr
    rw [hrun] at hr
    split_ifs at hr with h1 h2
    · simp only [Option.map_eq_some'] at hr
      obtain ⟨s, hs, rfl⟩ := hr
      rw [h1]
      exact ⟨by simp, hs⟩
    · simp only [Option.map_eq_some'] at hr
      obtain ⟨s, hs, rfl⟩ := hr
      exact ⟨rfl, hs⟩
  · intro e
    rw [e]
    exact ttf_process_string_zero env g dpi _ info
      (by rw [List.flatten_nil, List.nil_append, utf8_get_next_of_head_zero X hX])
  · intro t r0 e hin
    have hlit := in_run_literal env _ t hin
    constructor
    · rw [e, List.takeWhile_cons, if_pos hin, List.flatten_cons, List.length_append]
      have := token_length_pos t (ht t (by rw [e]; simp))
      omega
    · apply ttf_process_string_run
      · rw [hnext t r0 e]
        exact ((is_literal_token_iff t).1 hlit).2
      · rw [hnext t r0 e]
        unfold in_run at hin
        rw [Bool.and_eq_true, Bool.not_eq_true'] at hin
        exact hin.2
  · intro t r0 e hc
    apply ttf_process_string_code
    · rw [hnext t r0 e]
      exact token_codepoint_ne_zero t (ht t (by rw [e]; simp))
    · rw [hnext t r0 e]
      exact ((is_code_token_iff t).1 hc).1
  · intro t r0 e hl hs
    have h := ttf_process_string_sprite env g dpi (toks.flatten ++ X) info
      (by rw [hnext t r0 e]; exact ((is_literal_token_iff t).1 hl).2)
      (by rw [hnext t r0 e]; exact hs)
    rw [hnext t r0 e] at h
    rw [h]
    congr 1
    rw [e, List.flatten_cons, List.append_assoc, ((is_literal_token_iff t).1 hl).1,
      List.drop_left]

/-- C32 witness: `AB`, a newline code and `C`, measured in the demonstration font: the run
is `AB`, the pointer returned stands at the newline code. -/
theorem C32_glyph_run_is_longest_run_witness :
    (∀ t ∈ [[65], [66], [5], [67]], is_token t = true) ∧ byteAt [0] 0 = 0
      ∧ ∃ s, ttf_draw_string_raw demoEnv nullDpi [65, 66] (measure_info demoGlobals) = some s
        ∧ ttf_process_glyph_run demoEnv nullDpi [65, 66, 5, 67, 0] (measure_info demoGlobals)
            = some ([5, 67, 0], s.1, s.2) :=
  ⟨by decide, by decide,
    (C32_glyph_run_is_longest_run demoEnv demoGlobals nullDpi (measure_info demoGlobals)
      [[65], [66], [5], [67]] [0] (by decide) (by decide)).2.2.2.1 (Or.inr (by decide))⟩

/-- C39: the separators `shorten_path` counts are the separator bytes in front of the
terminator of the path; for every turn `x` of the second loop below that count, the
`do ... while` that looks for the next separator (starting at index 0 in the first turn and
behind the separator of the turn before in the others, as `shorten_path_try` passes it on)
stops at the separator with `x` separators in front of it, and that index lies in front of
the terminator: no byte behind the path is read. -/
theorem C39_separator_scan_in_bounds (env : Env) (g : Globals) (PATH_SEPARATOR : Nat)
    (path : List Nat) :
    (List.range (cstr path).length).countP
        (fun x => decide (byteAt path x = PATH_SEPARATOR ∨ byteAt path x = 47))
        = (separator_indices PATH_SEPARATOR path).length
      ∧ byteAt path (cstr path).length = 0
      ∧ (∀ x, x < (List.range (cstr path).length).countP
            (fun x => decide (byteAt path x = PATH_SEPARATOR ∨ byteAt path x = 47)) →
          shorten_path_begin PATH_SEPARATOR path x
              = some ((separator_indices PATH_SEPARATOR path).getD x 0)
            ∧ (separator_indices PATH_SEPARATOR path).getD x 0 < (cstr path).length
            ∧ (byteAt path ((separator_indices PATH_SEPARATOR path).getD x 0) = PATH_SEPARATOR
                ∨ byteAt path ((separator_indices PATH_SEPARATOR path).getD x 0) = 47)
            ∧ ∀ y, y < x → (separator_indices PATH_SEPARATOR path).getD y 0
                < (separator_indices PATH_SEPARATOR path).getD x 0)
      ∧ (∀ (bufferSize : Nat) (availableWidth : Int) (next : Nat) (buffer : List Nat)
          (r : List Nat × Nat × Bool),
          shorten_path_try env g PATH_SEPARATOR bufferSize path availableWidth next buffer
            = some r →
          ∃ begin, shorten_path_scan PATH_SEPARATOR path (path.length + 1) next = some begin
            ∧ r.2.1 = begin + 1) := by
  have hlen := separator_indices_length PATH_SEPARATOR path
  refine ⟨hlen.symm, byteAt_cstr_length path, ?_, ?_⟩
  · intro x hx
    rw [← hlen] at hx
    have hm : (separator_indices PATH_SEPARATOR path).getD x 0
        ∈ separator_indices PATH_SEPARATOR path := by
      rw [List.getD_eq_getElem _ _ hx]
      exact List.getElem_mem _
    obtain ⟨h1, h2⟩ := (mem_separator_indices PATH_SEPARATOR path _).1 hm
    exact ⟨shorten_path_begin_spec PATH_SEPARATOR path x hx, h1, h2,
      fun y hy => separator_indices_lt PATH_SEPARATOR path y x hy hx⟩
  · intro bufferSize availableWidth next buffer r hr
    unfold shorten_path_try at hr
    cases hs : shorten_path_scan PATH_SEPARATOR path (path.length + 1) next with
    | none =>
      rw [hs] at hr
      cases hr
    | some b =>
      rw [hs] at hr
      refine ⟨b, rfl, ?_⟩
      dsimp only at hr
      split at hr
      · cases hr
      · cases hr
        rfl

/-- C39 witness: the path `a/b/c`: two separators, at the indices 1 and 3, in front of the
terminator at index 5. -/
theorem C39_separator_scan_in_bounds_witness :
    (1 : Nat) < (List.range (cstr [97, 47, 98, 47, 99, 0]).length).countP
        (fun x => decide (byteAt [97, 47, 98, 47, 99, 0] x = 92
          ∨ byteAt [97, 47, 98, 47, 99, 0] x = 47))
      ∧ shorten_path_begin 92 [97, 47, 98, 47, 99, 0] 1 = some 3
      ∧ (cstr [97, 47, 98, 47, 99, 0]).length = 5 :=
  ⟨by decide,
    ((C39_separator_scan_in_bounds demoEnv demoGlobals 92 [97, 47, 98, 47, 99, 0]).2.2.1 1
      (by decide)).1.trans (by decide),
    by decide⟩

/-- C34 (the code at the failing inputs): the scan of `MatchWildcard` and its recursion come
to an end for every file name and every pattern (the model never runs out of fuel), but
not every call returns: when the file name is used up and the pattern stands at a `*`, the
loop `while (*pattern == '*') ++fileName;` is entered, which steps the file name and tests
the pattern, and never ends. This happens for the empty file name and every pattern that
starts with `*`, and for every file name without `*` matched against itself followed by
`*`, such as `td6` against `td6*`. A pattern without `*` always gives a returned value. -/
theorem C34_MatchWildcard_may_not_return :
    (∀ f p : List Nat, ∃ o, MatchWildcard f p = some o)
      ∧ (∀ f p : List Nat, byteAt f 0 = 0 →
          MatchWildcard f (42 :: p) = some match_outcome.hangs)
      ∧ (∀ f : List Nat, (∀ b ∈ f, b ≠ 0 ∧ b ≠ 42) →
          MatchWildcard f (f ++ [42]) = some match_outcome.hangs)
      ∧ MatchWildcard [116, 100, 54, 0] [116, 100, 54, 42, 0] = some match_outcome.hangs
      ∧ ∀ (f p : List Nat), (∀ b ∈ f, b ≠ 0) → (∀ b ∈ p, b ≠ 0 ∧ b ≠ 42) →
          ∃ b, MatchWildcard f p = some (match_outcome.returns b) := by
  refine ⟨?_, ?_, ?_, by decide, ?_⟩
  · intro f p
    exact Option.isSome_iff_exists.1 (MatchWildcard_fuel_isSome _ f p (by omega))
  · intro f p h0
    unfold MatchWildcard
    rw [MatchWildcard_fuel, if_neg (by simp [h0]), byteAt_cons_zero, if_pos rfl]
  · intro f hf
    unfold MatchWildcard
    have key : ∀ (f : List Nat) (fuel : Nat), (∀ b ∈ f, b ≠ 0 ∧ b ≠ 42) → f.length < fuel →
        MatchWildcard_fuel fuel f (f ++ [42]) = some match_outcome.hangs := by
      intro f
      induction f with
      | nil =>
        intro fuel _ h
        cases fuel with
        | zero => omega
        | succ n => rfl
      | cons a f ih =>
        intro fuel h hl
        cases fuel with
        | zero => omega
        | succ n =>
          have ha := h a (List.mem_cons_self _ _)
          have hrec := ih n (fun b hb => h b (List.mem_cons_of_mem _ hb))
            (by simp only [List.length_cons] at hl; omega)
          rw [MatchWildcard_fuel, List.cons_append, byteAt_cons_zero, byteAt_cons_zero,
            if_pos ha.1]
          simp only [List.drop_succ_cons, List.drop_zero]
          by_cases h63 : a = 63
          · rw [if_pos h63, if_neg (by omega)]
            exact hrec
          · rw [if_neg h63, if_neg ha.2, if_neg (by simp)]
            exact hrec
    exact key f _ hf (by omega)
  · intro f p hf hp
    exact ⟨_, MatchWildcard_of_no_star f p hf hp⟩

/-- C35: for every string, `GetPatterns` returns, and the patterns it returns are the
pieces of the string between its `;` (the string as `c_str()` gives it, up to its
terminator), in their order and without the empty ones. The pieces joined with `;` are the
string; no pattern returned is empty or holds a `;` or a zero byte; and when no piece is
empty the patterns returned, joined with `;`, are the string itself. `*.a;;*.b;` gives
`*.a` and `*.b`. -/
theorem C35_GetPatterns_pieces (delimitedPatterns : List Nat) :
    ∃ patterns, GetPatterns delimitedPatterns = some patterns
      ∧ patterns = (split_pieces 59 (cstr delimitedPatterns)).filter (fun p => !p.isEmpty)
      ∧ List.intercalate [59] (split_pieces 59 (cstr delimitedPatterns))
          = cstr delimitedPatterns
      ∧ (∀ p ∈ patterns, p ≠ [] ∧ 59 ∉ p ∧ 0 ∉ p)
      ∧ ((∀ p ∈ split_pieces 59 (cstr delimitedPatterns), p ≠ []) →
          List.intercalate [59] patterns = cstr delimitedPatterns)
      ∧ GetPatterns [42, 46, 97, 59, 59, 42, 46, 98, 59]
          = some [[42, 46, 97], [42, 46, 98]] := by
  refine ⟨_, GetPatterns_spec delimitedPatterns, rfl,
    intercalate_split_pieces 59 _, ?_, ?_, by decide⟩
  · intro p hp
    obtain ⟨h1, h2⟩ := List.mem_filter.1 hp
    obtain ⟨h3, h4⟩ := split_pieces_mem 59 _ p h1
    refine ⟨?_, h3, ?_⟩
    · intro e
      rw [e] at h2
      cases h2
    · intro h0
      exact cstr_nonzero delimitedPatterns 0 (h4 0 h0) rfl
  · intro hne
    have : (split_pieces 59 (cstr delimitedPatterns)).filter (fun p => !p.isEmpty)
        = split_pieces 59 (cstr delimitedPatterns) := by
      apply List.filter_eq_self.2
      intro p hp
      have := hne p hp
      cases p with
      | nil => exact absurd rfl this
      | cons a l => rfl
    rw [this]
    exact intercalate_split_pieces 59 _

set_option maxRecDepth 100000 in
/-- C36: a scanner that is not started and has an empty stack (as the constructor and
`Reset` leave it), over the finite directory tree `root`. When every call of `PatternMatch`
for a file of the scan returns, `n` calls of `Next` give: true, with the path stored, once
for each file for which `PatternMatch` returns true, in depth-first listing order (a
subdirectory's files in front of the later entries of its parent; without recursion only
the files of the root listing), and false for every call behind them; a directory is never
stored. The failing inputs: `PatternMatch` goes through `MatchWildcard`, so for the single
file `a` and the pattern `a*` the first call of `Next` does not return, and for the single
file `abc` and the pattern `*`, which matches it, `Next` returns false. -/
theorem C36_Next_depth_first (root : List DirectoryChild) (s : FileScannerBase)
    (hst : s._started = false) (hstack : s._directoryStack = []) :
    ((∀ e ∈ listing_entries s._recurse s._rootPath root,
          ∃ b, PatternMatch s._patterns e.2 = some (match_outcome.returns b)) →
        ∀ n, Next_results root n s
          = some ((((listing_entries s._recurse s._rootPath root).filter
                (fun e : ScanPath × List Nat => pattern_matches s._patterns e.2)).map
                (fun e : ScanPath × List Nat => some (e.1 ++ [e.2]))
              ++ List.replicate n none).take n))
      ∧ (∀ (path : ScanPath) (Name : List Nat) (Listing rest : List DirectoryChild),
          listing_entries true path (DirectoryChild.DC_DIRECTORY Name Listing :: rest)
            = listing_entries true (path ++ [Name]) Listing ++ listing_entries true path rest)
      ∧ (∀ (path : ScanPath) (l : List DirectoryChild),
          listing_entries false path l
            = l.filterMap (fun c => (file_name c).map (fun n => (path, n))))
      ∧ ((FileScannerBase.Reset s)._started = false
          ∧ (FileScannerBase.Reset s)._directoryStack = []
          ∧ (FileScannerBase.Reset s)._patterns = s._patterns
          ∧ (FileScannerBase.Reset s)._recurse = s._recurse
          ∧ (FileScannerBase.Reset s)._rootPath = s._rootPath)
      ∧ FileScannerBase.Next [DirectoryChild.DC_FILE [97] 0 0] (demoScanner [[97, 42]] true)
          = some scan_outcome.hangs
      ∧ (Next_results [DirectoryChild.DC_FILE [97, 98, 99] 0 0] 1 (demoScanner [[42]] true)
            = some [none]
          ∧ wildcard_matches [42] [97, 98, 99] = true) := by
  refine ⟨?_, ?_, listing_entries_flat, ⟨rfl, rfl, rfl, rfl, rfl⟩, rfl, by decide⟩
  · intro hret n
    cases n with
    | zero => rfl
    | succ n =>
      have hstep : Next_results root (n + 1) s
          = Next_results root (n + 1)
              { s with _started := true,
                       _directoryStack := PushState s._rootPath root s._directoryStack } := by
        rw [Next_results, Next_results, ← Next_not_started root s hst]
      have hE : stack_entries s._recurse (PushState s._rootPath root s._directoryStack)
          = listing_entries s._recurse s._rootPath root := by
        rw [hstack, PushState, stack_entries]
        simp [stack_entries]
      have key := Next_results_started root s._patterns s._recurse (n + 1)
        ⟨s._rootPath, s._patterns, s._recurse, true,
          PushState s._rootPath root s._directoryStack, s._currentFileInfo, s._currentPath⟩
        rfl rfl rfl
        (by
          intro st h
          rw [hstack] at h
          rcases List.mem_cons.1 h with h | h
          · rw [h]
          · cases h)
        (by
          intro e he
          apply hret
          rw [← hE]
          exact he)
      dsimp only at key
      rw [hE] at key
      rw [hstep]
      exact key
  · intro path Name Listing rest
    rw [listing_entries_cons, child_entries_directory, if_pos rfl]

set_option maxRecDepth 100000 in
/-- C36 witness: the demonstration tree scanned for `*.td6` with recursion: `a.td6`,
`sub/c.td6`, `d.td6`, then false. -/
theorem C36_Next_depth_first_witness :
    (demoScanner [[42, 46, 116, 100, 54]] true)._started = false
      ∧ (demoScanner [[42, 46, 116, 100, 54]] true)._directoryStack = []
      ∧ Next_results demoTree 5 (demoScanner [[42, 46, 116, 100, 54]] true)
          = some [some [[97, 46, 116, 100, 54]], some [[115, 117, 98], [99, 46, 116, 100, 54]],
              some [[100, 46, 116, 100, 54]], none, none] :=
  ⟨rfl, rfl,
    ((C36_Next_depth_first demoTree (demoScanner [[42, 46, 116, 100, 54]] true) rfl rfl).1
      (by decide) 5).trans (by decide)⟩

/-- C38: for a buffer of elements (bytes from 32 on, control codes below 32 with their
argument bytes) and one of the fonts as the current font, `string_get_height_raw` returns
the starting height of the font plus, for each newline code, the line height of the font
active there and, for each newline-smaller code, half of it, the font selectors changing
the font and everything else adding nothing, when the bytes are read as they are: where
plain `char` is unsigned, and for elements that start with a byte below 128 where it is
signed. The failing input: where plain `char` is signed a byte from 128 on is negative, so
it is taken for a control code with one argument byte and the byte behind it is stepped
over. In the medium font the three bytes of a character of three bytes followed by a
newline code give 10, not 20: the newline code is not seen. -/
theorem C38_string_height (char_signed : Bool) (g : Globals) (toks : List (List Nat))
    (tail : List Nat) (ht : ∀ t ∈ toks, is_height_token t = true)
    (hfont : g.gCurrentFontSpriteBase ≤ FONT_SPRITE_BASE_MEDIUM →
      g.gCurrentFontSpriteBase = FONT_SPRITE_BASE_SMALL
        ∨ g.gCurrentFontSpriteBase = FONT_SPRITE_BASE_MEDIUM) :
    ((char_signed = true → ∀ t ∈ toks, byteAt t 0 < 128) →
        string_get_height_raw char_signed g (toks.flatten ++ 0 :: tail)
          = some (font_start_height g.gCurrentFontSpriteBase
              + lines_height g.gCurrentFontSpriteBase toks))
      ∧ (string_get_height_raw true demoGlobals [226, 130, 172, 5, 0] = some 10
          ∧ string_get_height_raw false demoGlobals [226, 130, 172, 5, 0] = some 20
          ∧ (∀ t ∈ [[226], [130], [172], [5]], is_height_token t = true)
          ∧ font_start_height demoGlobals.gCurrentFontSpriteBase
              + lines_height demoGlobals.gCurrentFontSpriteBase [[226], [130], [172], [5]]
              = 20) := by
  refine ⟨?_, by decide, by decide, by decide, by decide⟩
  intro hs
  rw [string_get_height_raw_tokens char_signed g toks tail ht hs]
  congr 2
  unfold font_start_height
  by_cases h : g.gCurrentFontSpriteBase ≤ FONT_SPRITE_BASE_MEDIUM
  · rw [if_pos h, if_pos (hfont h)]
  · have hnm : ¬ (g.gCurrentFontSpriteBase = FONT_SPRITE_BASE_SMALL
        ∨ g.gCurrentFontSpriteBase = FONT_SPRITE_BASE_MEDIUM) := by
      rintro (e | e)
      · rw [e] at h
        exact h (by decide)
      · rw [e] at h
        exact h (by decide)
    rw [if_neg h, if_neg hnm]

/-- C38 witness: `A`, a newline code, `B`, the selector of the tiny font, a newline code, a
newline-smaller code, the selector of the big font, a newline code, in the medium font:
10 + 10 + 6 + 3 + 18. -/
theorem C38_string_height_witness :
    (∀ t ∈ [[65], [5], [66], [7], [5], [6], [8], [5]], is_height_token t = true)
      ∧ string_get_height_raw true demoGlobals [65, 5, 66, 7, 5, 6, 8, 5, 0] = some 47 :=
  ⟨by decide,
    ((C38_string_height true demoGlobals [[65], [5], [66], [7], [5], [6], [8], [5]] []
      (by decide) (by decide)).1 (by decide)).trans (by decide)⟩

/-- C37: for every text of whole literal codepoints and newline or newline-smaller codes,
whatever follows its terminator, `gfx_get_string_width_new_lined` gives what
`gfx_get_string_width` gives for the whole text: the same width, or for both none (a line
that overflows the run buffer). Both give a width, which is not negative, when the text has
at most 512 bytes. The width of the whole text is the widest of the width of its lines up
to a newline code, measured with that code, and of the width of the rest, which is how the
function goes through the text. -/
theorem C37_new_lined_width (env : Env) (g : Globals) (toks : List (List Nat))
    (tail : List Nat) (h : ∀ t ∈ toks, is_line_token t = true) :
    gfx_get_string_width_new_lined env g (toks.flatten ++ 0 :: tail)
        = gfx_get_string_width env g (toks.flatten ++ 0 :: tail)
      ∧ (toks.flatten.length ≤ 512 →
          ∃ w, gfx_get_string_width_new_lined env g (toks.flatten ++ 0 :: tail) = some w
            ∧ 0 ≤ w)
      ∧ ∀ S R : List (List Nat), toks = S ++ R → ends_with_newline S →
          gfx_get_string_width env g (toks.flatten ++ 0 :: tail)
            = (gfx_get_string_width env g (S.flatten ++ [0])).bind (fun w1 =>
                (gfx_get_string_width env g (R.flatten ++ 0 :: tail)).map
                  (fun w2 => max w1 w2)) := by
  have heq := new_lined_eq_width env g toks tail h
  refine ⟨heq, ?_, ?_⟩
  · intro hlen
    have htok : ∀ t ∈ toks, is_token t = true := fun t ht => line_token_is_token t (h t ht)
    obtain ⟨w, hw⟩ := gfx_get_string_width_isSome env g toks.flatten hlen
    have hw2 : gfx_get_string_width env g (toks.flatten ++ 0 :: tail) = some w := by
      rw [gfx_get_string_width_agree env g toks (0 :: tail) htok rfl]
      exact hw
    refine ⟨w, by rw [heq, hw2], ?_⟩
    exact measure_lines_nonneg env g toks (0 :: tail) h rfl w hw2
  · intro S R e hend
    subst e
    exact measure_lines_split env g S R (0 :: tail) [0]
      (fun t ht => h t (List.mem_append_left _ ht))
      (fun t ht => h t (List.mem_append_right _ ht)) hend rfl rfl

/-- C37 witness: the lines `ab`, `W` and `WW.` joined by a newline and a newline-smaller
code measure 22 in the demonstration font, line by line and as a whole. -/
theorem C37_new_lined_width_witness :
    (∀ t ∈ [[97], [98], [5], [87], [6], [87], [87], [46]], is_line_token t = true)
      ∧ gfx_get_string_width_new_lined demoEnv demoGlobals [97, 98, 5, 87, 6, 87, 87, 46, 0]
          = some 22
      ∧ gfx_get_string_width demoEnv demoGlobals [97, 98, 5, 87, 6, 87, 87, 46, 0] = some 22 :=
  ⟨by decide,
    ((C37_new_lined_width demoEnv demoGlobals
      [[97], [98], [5], [87], [6], [87], [87], [46]] [] (by decide)).1).trans (by decide),
    by decide⟩

/-- C40: with the render state handed through every function a pass of the interpreter can
reach, `gfx_get_string_width` returns, for every text, the render state it was called in:
the current font, the current font flags, the shared text palette, the last-drawn position
and the other globals are as they were, whatever the pass has done to the font, the flags,
the palette and the cursor of its local context; the width is the one of the pass, and
there is one for every text of at most 512 bytes. `ttf_draw_string` sets the context up
from the render state and the initial colour, runs the pass, and stores the palette, the
font, the flags (their low 16 bits) and the cursor the pass ends with to the shared text
palette, the current font, the current font flags and the last-drawn position, leaving the
other globals; for a null text it does nothing. For the tiny-font selector, the outline
code and `W` in the demonstration font: the pass of the measurement ends in the tiny font
with the outline flag set, and the render state is the one before, medium font and no
flags; drawn at (3, 4) with the colour 32, the render state holds the tiny font, the
outline flag, the palette of the pass and the position (13, 4). -/
theorem C40_measure_keeps_render_state (env : Env) (g : Globals) :
    (∀ text : List Nat, gfx_get_string_width_st env text g
        = (gfx_get_string_width env g text).map (fun w => (w, g)))
      ∧ (∀ (text : List Nat) (r : Int × Globals),
          gfx_get_string_width_st env text g = some r →
          r.2 = g ∧ r.2.gCurrentFontSpriteBase = g.gCurrentFontSpriteBase
            ∧ r.2.gCurrentFontFlags = g.gCurrentFontFlags
            ∧ r.2.text_palette = g.text_palette
            ∧ r.2.gLastDrawStringX = g.gLastDrawStringX
            ∧ r.2.gLastDrawStringY = g.gLastDrawStringY
            ∧ ∃ d info1, ttf_process_string_st env nullDpi text (measure_info g) g
                = some ((d, info1), g) ∧ r.1 = info1.maxX)
      ∧ (∀ text : List Nat, text.length ≤ 512 →
          ∃ w, gfx_get_string_width_st env text g = some (w, g))
      ∧ (∀ (dpi : rct_drawpixelinfo) (text : List Nat) (colour : Nat) (x y : Int)
          (r : rct_drawpixelinfo × Globals),
          ttf_draw_string env dpi (some text) colour x y g = some r →
          ∃ info1, ttf_process_string_st env dpi text
                (ttf_process_initial_colour env colour (draw_info g x y)) g
                  = some ((r.1, info1), g)
            ∧ r.2 = { g with text_palette := info1.palette,
                             gCurrentFontSpriteBase := info1.font_sprite_base,
                             gCurrentFontFlags := info1.flags % 65536,
                             gLastDrawStringX := info1.x,
                             gLastDrawStringY := info1.y })
      ∧ (∀ (dpi : rct_drawpixelinfo) (colour : Nat) (x y : Int),
          ttf_draw_string env dpi none colour x y g = some (dpi, g))
      ∧ ((ttf_process_string_st demoEnv nullDpi [7, 11, 87, 0] (measure_info demoGlobals)
              demoGlobals).map
            (fun s => (s.1.2.font_sprite_base, s.1.2.flags % 65536, s.1.2.x, s.2))
            = some (FONT_SPRITE_BASE_TINY, TEXT_DRAW_FLAG_OUTLINE, 10, demoGlobals)
          ∧ gfx_get_string_width_st demoEnv [7, 11, 87, 0] demoGlobals
              = some (10, demoGlobals)
          ∧ ttf_draw_string demoEnv nullDpi (some [7, 11, 87, 0]) 32 3 4 demoGlobals
              = some ({ nullDpi with ops := [DrawOp.glyph (448 + 87) 3 4 [0, 0, 10, 10, 0, 0, 0, 0]] },
                  { demoGlobals with
                    text_palette := [0, 0, 10, 10, 0, 0, 0, 0],
                    gCurrentFontSpriteBase := FONT_SPRITE_BASE_TINY,
                    gCurrentFontFlags := TEXT_DRAW_FLAG_OUTLINE,
                    gLastDrawStringX := 13, gLastDrawStringY := 4 })) := by
  have hm : ∀ text : List Nat, gfx_get_string_width_st env text g
      = (gfx_get_string_width env g text).map (fun w => (w, g)) := by
    intro text
    unfold gfx_get_string_width_st ttf_get_string_width_st gfx_get_string_width
      ttf_get_string_width
    dsimp only
    rw [ttf_process_string_st_eq, Option.map_map, Option.map_map]
    rfl
  refine ⟨hm, ?_, ?_, ?_, fun _ _ _ _ => rfl, rfl, rfl, rfl⟩
  · intro text r hr
    unfold gfx_get_string_width_st ttf_get_string_width_st at hr
    dsimp only at hr
    rw [ttf_process_string_st_eq] at hr
    cases hp : ttf_process_string env g nullDpi text (measure_info g) with
    | none =>
      rw [hp] at hr
      cases hr
    | some s =>
      rw [hp] at hr
      cases hr
      refine ⟨rfl, rfl, rfl, rfl, rfl, rfl, s.1, s.2, ?_, rfl⟩
      rw [ttf_process_string_st_eq, hp]
      rfl
  · intro text hlen
    obtain ⟨w, hw⟩ := gfx_get_string_width_isSome env g text hlen
    exact ⟨w, by rw [hm, hw]; rfl⟩
  · intro dpi text colour x y r hr
    unfold ttf_draw_string at hr
    dsimp only at hr
    rw [ttf_process_initial_colour_st_eq, ttf_process_string_st_eq] at hr
    rw [ttf_process_string_st_eq]
    cases hp : ttf_process_string env g dpi text
        (ttf_process_initial_colour env colour (draw_info g x y)) with
    | none =>
      rw [hp] at hr
      cases hr
    | some s =>
      rw [hp] at hr
      cases hr
      exact ⟨s.2, rfl, rfl⟩

/-- C33: for every buffer and every width the loop of `gfx_wrap_string` is left after fewer
turns than the fuel the model gives it (which is never used up): the turns that go on
reach a state in which the next turn finds the terminator, and `gfx_wrap_string` returns
the buffer and the line count of that state, or in which the measurement of the next turn
gives none (a glyph run that overflows the run buffer), and only then has the call no
result. A well-formed text of at most 512 bytes always has one. The scan does move back:
in `W WW` at width 25 the fourth turn ends the line at the space and takes the scan from
index 3 to index 2; every new line starts behind the start of the line before, and that
bounds the turns. -/
theorem C33_wrap_terminates (env : Env) (g : Globals) (text : List Nat) (width : Int) :
    (∃ n s1, n + 1 < wrap_fuel text.length
        ∧ gfx_wrap_string_turns env g width n (wrap_start text) = some s1
        ∧ ((∃ s2 r, gfx_wrap_string_step env g width s1 = some (s2, false)
              ∧ gfx_wrap_string env g text width = some r
              ∧ r.text = s2.text ∧ r.numLines = s2.outNumLines)
          ∨ (gfx_wrap_string_step env g width s1 = none
              ∧ gfx_wrap_string env g text width = none
              ∧ gfx_get_string_width env g
                  ((poke s1.text (s1.ch + (utf8_get_next (s1.text.drop s1.ch)).2) 0).drop
                    s1.firstCh) = none)))
      ∧ (∀ (toks : List (List Nat)) (tail : List Nat),
          (∀ t ∈ toks, is_wrap_token t = true) → toks.flatten.length ≤ 512 →
          ∃ r, gfx_wrap_string env g (toks.flatten ++ 0 :: tail) width = some r)
      ∧ ((gfx_wrap_string_turns demoEnv demoGlobals 25 3 (wrap_start [87, 32, 87, 87, 0])).map
            (fun s => (s.ch, s.firstCh, s.text)) = some (3, 0, [87, 32, 87, 87, 0])
          ∧ (gfx_wrap_string_turns demoEnv demoGlobals 25 4
              (wrap_start [87, 32, 87, 87, 0])).map
            (fun s => (s.ch, s.firstCh, s.text)) = some (2, 2, [87, 0, 87, 87, 0])
          ∧ gfx_wrap_string demoEnv demoGlobals [87, 32, 87, 87, 0] 25
              = some { text := [87, 0, 87, 87, 0], width := 20, numLines := 1,
                       fontHeight := 224 }) := by
  refine ⟨?_, ?_, by decide, by decide, by decide⟩
  · obtain ⟨n, s1, N1, hn, ht, hinv1, hend⟩ := wrap_turns_end env g width
      (wrap_scan_potential (wrap_start text) text.length) (wrap_start text) text.length
      (wrap_scan_inv_start text) (le_refl _)
    have hfuel := wrap_scan_potential_start text
    obtain ⟨k, hk⟩ : ∃ k, wrap_fuel text.length = n + (k + 1) :=
      ⟨wrap_fuel text.length - n - 1, by omega⟩
    have hloop : gfx_wrap_string_loop env g width (wrap_fuel text.length) (wrap_start text)
        = gfx_wrap_string_loop env g width (k + 1) s1 := by
      rw [hk]
      exact wrap_loop_of_turns env g width n _ s1 (k + 1) ht
    have hw : gfx_wrap_string env g text width
        = (gfx_wrap_string_loop env g width (k + 1) s1).map (fun s =>
            { text := s.text,
              width := if max s.maxWidth s.lineWidth = 0 then s.lineWidth
                else max s.maxWidth s.lineWidth,
              numLines := s.outNumLines, fontHeight := g.gCurrentFontSpriteBase }) := by
      rw [← hloop]
      rfl
    refine ⟨n, s1, by omega, ht, ?_⟩
    rcases hend with h | ⟨s2, h⟩
    · right
      refine ⟨h, ?_, wrap_step_none env g width s1 N1 hinv1 h⟩
      rw [hw, gfx_wrap_string_loop, h]
      rfl
    · left
      refine ⟨s2, ⟨s2.text, if max s2.maxWidth s2.lineWidth = 0 then s2.lineWidth
        else max s2.maxWidth s2.lineWidth, s2.outNumLines, g.gCurrentFontSpriteBase⟩, h, ?_,
        rfl, rfl⟩
      rw [hw, gfx_wrap_string_loop, h]
      rfl
  · intro toks tail hwt hlen
    exact (gfx_wrap_string_trace env g width toks tail hwt).1 hlen

end OpenRCT2
